import Mathlib

/-!
# book-cabin: the flight aggregation pipeline

A shallow embedding of `internal/bookcabin/usecase/flights.go` and of the entity
types of `internal/bookcabin/entity/flight.go`, followed by the properties of
the normalize / filter / dedup / score / sort pipeline; then of the cache
(`cache/cache.go`), the retry loop, the rate limiter (`provider/ratelimit.go`),
the cache key (`usecase/helpers.go`), the aggregation `Usecase.Flights` with its
fan-out over the providers, and the parsing of the query
(`inbound/http_helper.go`), each with its properties.

Modelling conventions

* Go `int` is a 64-bit two's-complement integer.  Fields of type `int` are `Int`;
  comparisons are the mathematical ones, and every subtraction the source performs
  on `int` values goes through `wrapInt64`, but for the difference of a slice
  length and a count bounded by it (`Usecase.computeOutput`).
* Go `float64` values are modelled by rationals.  In the score and in the sort keys
  conversions and the four operations are exact, rounding is not modelled.  In
  `int(d.Minutes())` (`Time.minutesInt`) the division and the addition round to
  the nearest `float64`, as IEEE 754 does, since the conversion to `int` that
  follows turns a rounding into a whole minute.
* Go `string` values are Lean strings (valid UTF-8).  Case mapping covers the
  ASCII letters, which is what `strings.ToLower`, `strings.ToUpper` and
  `strings.EqualFold` do on ASCII text; other characters are left unchanged.
* `time.Time` is an instant (nanoseconds since January 1, year 1, 00:00:00 UTC)
  together with the offset of its location at that instant; monotonic clock
  readings are not modelled.
* A Go `map[string]V` is an association list with pairwise distinct keys, kept in
  first-insertion order.  Go leaves the iteration order of a map unspecified; the
  model iterates in insertion order and no theorem depends on that order.
* What the code gets from outside is a parameter: the readings of the clock, the
  outcome of each call of a provider, whether a context is done before a timer
  fires, the order in which goroutines deliver their results, and the parsers of
  the standard library.  A location of a `time.Time` is a fixed offset.
-/

namespace BookCabin

/-! ## Machine integers -/

/-- Two's-complement wrap-around of a mathematical integer into the range of a Go `int`
(64 bits). -/
def wrapInt64 (x : Int) : Int :=
  (x + 2 ^ 63) % 2 ^ 64 - 2 ^ 63

/-- The values a Go `int` can hold. -/
def inInt64 (x : Int) : Prop :=
  -(2 ^ 63) ≤ x ∧ x < 2 ^ 63

instance (x : Int) : Decidable (inInt64 x) := by
  unfold inInt64; exact inferInstance

/-! ## float64 -/

/-- Rounding to the nearest integer, a tie going to the even one. -/
def roundHalfEven (x : Rat) : Int :=
  let f := ⌊x⌋
  if x - f < 1 / 2 then f
  else if 1 / 2 < x - f then f + 1
  else if f % 2 = 0 then f else f + 1

/-- The `float64` nearest to the rational `x`, a tie going to the even significand, for
`x` in the range of the normal numbers: with `2 ^ e ≤ |x| < 2 ^ (e + 1)` it is the nearest
multiple of `2 ^ (e - 52)`. -/
def roundFloat64 (x : Rat) : Rat :=
  if x = 0 then 0
  else roundHalfEven (x / 2 ^ (Int.log 2 |x| - 52)) * 2 ^ (Int.log 2 |x| - 52)

/-- Go's conversion `int(x)` of a `float64` within the range of `int`: the fraction is
discarded. -/
def truncToInt (x : Rat) : Int :=
  if 0 ≤ x then ⌊x⌋ else ⌈x⌉

/-! ## Strings -/

/-- Go `strings.ToLower` (ASCII letters). -/
def toLower (s : String) : String :=
  String.mk (s.data.map Char.toLower)

/-- Go `strings.ToUpper` (ASCII letters). -/
def toUpper (s : String) : String :=
  String.mk (s.data.map Char.toUpper)

/-- Go `strings.EqualFold` (ASCII letters): equality under simple case folding. -/
def equalFold (s t : String) : Bool :=
  toLower s == toLower t

/-- Go `unicode.IsSpace`. -/
def isSpace (c : Char) : Bool :=
  let n := c.toNat
  n == 0x09 || n == 0x0A || n == 0x0B || n == 0x0C || n == 0x0D || n == 0x20 ||
  n == 0x85 || n == 0xA0 || n == 0x1680 || (0x2000 ≤ n && n ≤ 0x200A) ||
  n == 0x2028 || n == 0x2029 || n == 0x202F || n == 0x205F || n == 0x3000

/-- Go `strings.TrimSpace`: drop leading and trailing white space. -/
def trimSpace (s : String) : String :=
  String.mk ((s.data.dropWhile isSpace).reverse.dropWhile isSpace).reverse

/-- Go's `<` on strings: lexicographic order on the bytes, which for UTF-8 text is the
lexicographic order on the characters. -/
def stringLess (a b : String) : Bool :=
  decide (a.data < b.data)

/-- Go `strings.Join`. -/
def join (parts : List String) (sep : String) : String :=
  sep.intercalate parts

/-- Decimal digits of a natural number, zero-padded on the left to `width` digits
(the digit part of Go's `appendInt`). -/
def padNat (n width : Nat) : String :=
  let ds := Nat.toDigits 10 n
  String.mk (List.replicate (width - ds.length) '0' ++ ds)

/-- Go `appendInt(b, x, width)` of package `time`: a minus sign for a negative value, then
the zero-padded digits of the absolute value. -/
def appendInt (x : Int) (width : Nat) : String :=
  if x < 0 then "-" ++ padNat x.natAbs width else padNat x.natAbs width

/-! ## time.Time -/

/-- A `time.Time`: the instant, in nanoseconds since January 1, year 1, 00:00:00 UTC,
and the offset (seconds east of UTC) of the time's location at that instant. -/
structure Time where
  nanos : Int
  offset : Int
deriving DecidableEq, Repr

namespace Time

/-- The zero value of `time.Time`. -/
def zero : Time := ⟨0, 0⟩

/-- Go `Time.IsZero`: the instant is January 1, year 1, 00:00:00 UTC. -/
def IsZero (t : Time) : Bool := t.nanos == 0

/-- Go `Time.After`. -/
def After (t u : Time) : Bool := decide (u.nanos < t.nanos)

/-- Go `Time.Before`. -/
def Before (t u : Time) : Bool := decide (t.nanos < u.nanos)

/-- The largest `time.Duration`, in nanoseconds. -/
def maxDuration : Int := 2 ^ 63 - 1

/-- The smallest `time.Duration`, in nanoseconds. -/
def minDuration : Int := -(2 ^ 63)

/-- Go `Time.Sub`: the duration `t - u` in nanoseconds, saturating at the largest and
smallest `time.Duration`. -/
def Sub (t u : Time) : Int :=
  let d := t.nanos - u.nanos
  if d < minDuration then minDuration
  else if maxDuration < d then maxDuration
  else d

/-- Go `int(d.Minutes())` for a duration `d` in nanoseconds: `Duration.Minutes` is
`float64(min) + float64(nsec) / (60 * 1e9)` with `min := d / Minute` and
`nsec := d % Minute`.  The two conversions and the constant are exact (the values are below
`2 ^ 53`), the division and the addition round to the nearest `float64`, and the conversion
to `int` truncates toward zero. -/
def minutesInt (d : Int) : Int :=
  truncToInt (roundFloat64 ((Int.tdiv d 60000000000 : Int) +
    roundFloat64 ((Int.tmod d 60000000000 : Int) / 60000000000)))

/-- Seconds since the epoch of the wall clock of `t` in its own location. -/
def localSeconds (t : Time) : Int := t.nanos / 1000000000 + t.offset

/-- Days since January 1, year 1 of the calendar day of `t` in its own location. -/
def localDays (t : Time) : Int := t.localSeconds / 86400

/-- Second of the day of `t` in its own location. -/
def secondOfDay (t : Time) : Int := t.localSeconds % 86400

/-- Proleptic Gregorian calendar date `(year, month, day)` of a day count relative to
January 1, year 1. -/
def civil (days : Int) : Int × Int × Int :=
  let z := days + 306
  let era := z / 146097
  let doe := z - era * 146097
  let yoe := (doe - doe / 1460 + doe / 36524 - doe / 146096) / 365
  let doy := doe - (365 * yoe + yoe / 4 - yoe / 100)
  let mp := (5 * doy + 2) / 153
  let d := doy - (153 * mp + 2) / 5 + 1
  let m := if mp < 10 then mp + 3 else mp - 9
  let y := yoe + era * 400 + (if m ≤ 2 then 1 else 0)
  (y, m, d)

/-- Go `t.Format("2006-01-02")`. -/
def formatDate (t : Time) : String :=
  let (y, m, d) := civil t.localDays
  appendInt y 4 ++ "-" ++ appendInt m 2 ++ "-" ++ appendInt d 2

/-- The zone suffix `Z07:00` of Go's RFC 3339 layout. -/
def formatZone (offset : Int) : String :=
  if offset = 0 then "Z"
  else
    let zone := Int.tdiv offset 60
    if zone < 0 then "-" ++ appendInt (Int.tdiv (-zone) 60) 2 ++ ":" ++ appendInt (Int.tmod (-zone) 60) 2
    else "+" ++ appendInt (Int.tdiv zone 60) 2 ++ ":" ++ appendInt (Int.tmod zone 60) 2

/-- Go `t.Format(time.RFC3339)`, layout `2006-01-02T15:04:05Z07:00`. -/
def formatRFC3339 (t : Time) : String :=
  let s := t.secondOfDay
  t.formatDate ++ "T" ++ appendInt (s / 3600) 2 ++ ":" ++ appendInt (s % 3600 / 60) 2 ++ ":" ++
    appendInt (s % 60) 2 ++ formatZone t.offset

end Time

/-- Go `time.Unix(sec, 0)` shown in a zone `offset` seconds east of UTC. -/
def Time.ofUnix (sec offset : Int) : Time :=
  ⟨(sec + 62135596800) * 1000000000, offset⟩

/-! ## Entities (`entity/flight.go`) -/

structure Airline where
  Name : String
  Code : String
deriving DecidableEq, Repr

structure FlightPoint where
  Airport : String
  City : String
  Time : Time
deriving DecidableEq, Repr

structure Price where
  Amount : Int
  Currency : String
deriving DecidableEq, Repr

structure Baggage where
  CarryOn : String
  Checked : String
deriving DecidableEq, Repr

structure Flight where
  ID : String
  Provider : String
  Airline : Airline
  FlightNumber : String
  Departure : FlightPoint
  Arrival : FlightPoint
  DurationMinute : Int
  Stops : Int
  Price : Price
  AvailableSeats : Int
  CabinClass : String
  Aircraft : Option String
  Amenities : List String
  Baggage : Baggage
  BestValueScore : Rat
deriving DecidableEq, Repr

/-! ## Go maps keyed by strings -/

/-- Lookup `m[k]` with the comma-ok idiom. -/
def mapGet {V : Type} : List (String × V) → String → Option V
  | [], _ => none
  | (k', v) :: rest, k => if k' = k then some v else mapGet rest k

/-- Assignment `m[k] = v`: replaces the entry of an existing key, adds one otherwise. -/
def mapSet {V : Type} : List (String × V) → String → V → List (String × V)
  | [], k, v => [(k, v)]
  | (k', v') :: rest, k, v => if k' = k then (k, v) :: rest else (k', v') :: mapSet rest k v

/-- The values visited by `for _, v := range m`. -/
def mapValues {V : Type} (m : List (String × V)) : List V :=
  m.map Prod.snd

/-! ## Dedup (`usecase/flights.go`) -/

/-- Go `flightKey`. -/
def flightKey (f : Flight) : String :=
  toLower (join [f.Airline.Code, f.FlightNumber, f.Departure.Airport, f.Arrival.Airport,
    f.Departure.Time.formatRFC3339, f.Arrival.Time.formatRFC3339] "|")

/-- One iteration of the loop of `compareAndDedupFlights` over `bestByKey`. -/
def dedupStep (bestByKey : List (String × Flight)) (flight : Flight) : List (String × Flight) :=
  let key := flightKey flight
  match mapGet bestByKey key with
  | none => mapSet bestByKey key flight
  | some current =>
    if flight.Price.Amount < current.Price.Amount then mapSet bestByKey key flight
    else if flight.Price.Amount = current.Price.Amount ∧
        stringLess flight.Provider current.Provider = true then
      mapSet bestByKey key flight
    else bestByKey

/-- Go `compareAndDedupFlights`. -/
def compareAndDedupFlights (flights : List Flight) : List Flight :=
  if flights.length = 0 then flights
  else mapValues (flights.foldl dedupStep [])

/-! ## Filter (`usecase/flights.go`) -/

structure FlightFilters where
  MinPrice : Option Int
  MaxPrice : Option Int
  Stops : Option Int
  MaxStops : Option Int
  MinDuration : Option Int
  MaxDuration : Option Int
  Airlines : List String
  DepartAfter : Option Time
  DepartBefore : Option Time
  ArriveAfter : Option Time
  ArriveBefore : Option Time
deriving DecidableEq, Repr

structure SortOption where
  Field : String
  Order : String
deriving DecidableEq, Repr

/-- The Go condition `p != nil && c(*p)` on an optional (pointer) filter bound. -/
def setAnd {α : Type} (p : Option α) (c : α → Bool) : Bool :=
  match p with
  | none => false
  | some v => c v

/-- Go `normalizeSet`: the set of trimmed, lower-cased, non-blank entries (`nil` for an
empty input). -/
def normalizeSet (values : List String) : List (String × Unit) :=
  if values.length = 0 then []
  else
    values.foldl
      (fun set v =>
        let value := toLower (trimSpace v)
        if value = "" then set else mapSet set value ())
      []

/-- Go `matchFlightCriteria`. -/
def matchFlightCriteria (f : Flight) (origin destination cabinClass criteriaDate : String) :
    Bool :=
  if !equalFold f.Departure.Airport origin then false
  else if !equalFold f.Arrival.Airport destination then false
  else if f.Departure.Time.IsZero || f.Arrival.Time.IsZero then false
  else if !f.Arrival.Time.After f.Departure.Time then false
  else if f.Departure.Time.formatDate != criteriaDate then false
  else if cabinClass != "" && !equalFold f.CabinClass cabinClass then false
  else true

/-- Go `matchPriceFilter`. -/
def matchPriceFilter (f : Flight) (filters : FlightFilters) : Bool :=
  if setAnd filters.MinPrice (fun v => decide (f.Price.Amount < v)) then false
  else if setAnd filters.MaxPrice (fun v => decide (f.Price.Amount > v)) then false
  else true

/-- Go `matchStopsFilter`. -/
def matchStopsFilter (f : Flight) (filters : FlightFilters) : Bool :=
  if setAnd filters.Stops (fun v => decide (f.Stops ≠ v)) then false
  else if setAnd filters.MaxStops (fun v => decide (f.Stops > v)) then false
  else true

/-- Go `matchDurationFilter`. -/
def matchDurationFilter (f : Flight) (filters : FlightFilters) : Bool :=
  if setAnd filters.MinDuration (fun v => decide (f.DurationMinute < v)) then false
  else if setAnd filters.MaxDuration (fun v => decide (f.DurationMinute > v)) then false
  else true

/-- Go `matchAirlineFilter`. -/
def matchAirlineFilter (f : Flight) (airlineFilter : List (String × Unit)) : Bool :=
  if airlineFilter.length = 0 then true
  else if (mapGet airlineFilter (toLower f.Airline.Name)).isSome then true
  else if (mapGet airlineFilter (toLower f.Airline.Code)).isSome then true
  else false

/-- Go `matchTimeFilter`. -/
def matchTimeFilter (f : Flight) (filters : FlightFilters) : Bool :=
  if setAnd filters.DepartAfter (fun v => f.Departure.Time.Before v) then false
  else if setAnd filters.DepartBefore (fun v => f.Departure.Time.After v) then false
  else if setAnd filters.ArriveAfter (fun v => f.Arrival.Time.Before v) then false
  else if setAnd filters.ArriveBefore (fun v => f.Arrival.Time.After v) then false
  else true

/-- Go `matchFilter`. -/
def matchFilter (f : Flight) (filters : FlightFilters) (airlineFilter : List (String × Unit)) :
    Bool :=
  if !matchPriceFilter f filters then false
  else if !matchStopsFilter f filters then false
  else if !matchDurationFilter f filters then false
  else if !matchAirlineFilter f airlineFilter then false
  else matchTimeFilter f filters

/-- Go `filterFlights`: the loop appends each flight that passes both checks. -/
def filterFlights (flights : List Flight) (origin destination cabinClass : String)
    (filters : FlightFilters) (criteriaDate : String) : List Flight :=
  let airlineFilter := normalizeSet filters.Airlines
  flights.foldl
    (fun filtered flight =>
      if !matchFlightCriteria flight origin destination cabinClass criteriaDate then filtered
      else if !matchFilter flight filters airlineFilter then filtered
      else filtered ++ [flight])
    []

/-! ## Normalize (`usecase/flights.go`, `provider/helpers.go`) -/

/-- The body of the loop of Go `normalizeDurations` for one flight. -/
def normalizeDuration (f : Flight) : Flight :=
  if f.Departure.Time.IsZero || f.Arrival.Time.IsZero then f
  else if f.Arrival.Time.After f.Departure.Time then
    let duration := Time.minutesInt (f.Arrival.Time.Sub f.Departure.Time)
    if duration > 0 then { f with DurationMinute := duration } else f
  else f

/-- Go `normalizeDurations`. -/
def normalizeDurations (flights : List Flight) : List Flight :=
  flights.map normalizeDuration

/-- Go `durationMinutes` of package `provider`. -/
def durationMinutes (depart arrive : Time) (fallback : Int) : Int :=
  if depart.IsZero || arrive.IsZero then fallback
  else
    let diff := Time.minutesInt (arrive.Sub depart)
    if diff ≤ 0 then fallback else diff

/-! ## Score (`usecase/flights.go`) -/

/-- The four running extremes of the first loop of `applyBestValueScore`. -/
structure Extremes where
  minPrice : Int
  maxPrice : Int
  minDuration : Int
  maxDuration : Int
deriving DecidableEq, Repr

/-- One iteration of the first loop of `applyBestValueScore`. -/
def extremesStep (e : Extremes) (f : Flight) : Extremes :=
  let minPrice := if f.Price.Amount < e.minPrice then f.Price.Amount else e.minPrice
  let maxPrice := if f.Price.Amount > e.maxPrice then f.Price.Amount else e.maxPrice
  let minDuration := if f.DurationMinute < e.minDuration then f.DurationMinute else e.minDuration
  let maxDuration := if f.DurationMinute > e.maxDuration then f.DurationMinute else e.maxDuration
  ⟨minPrice, maxPrice, minDuration, maxDuration⟩

/-- Go `applyBestValueScore`; the slice updated in place is returned. -/
def applyBestValueScore (flights : List Flight) : List Flight :=
  match flights with
  | [] => []
  | first :: rest =>
    let e := rest.foldl extremesStep
      ⟨first.Price.Amount, first.Price.Amount, first.DurationMinute, first.DurationMinute⟩
    let priceRange : Rat := (wrapInt64 (e.maxPrice - e.minPrice) : Int)
    let durationRange : Rat := (wrapInt64 (e.maxDuration - e.minDuration) : Int)
    let priceRange := if priceRange = 0 then 1 else priceRange
    let durationRange := if durationRange = 0 then 1 else durationRange
    flights.map fun f =>
      let priceScore : Rat := (wrapInt64 (f.Price.Amount - e.minPrice) : Int) / priceRange
      let durationScore : Rat :=
        (wrapInt64 (f.DurationMinute - e.minDuration) : Int) / durationRange
      { f with BestValueScore := priceScore * (6 / 10) + durationScore * (4 / 10) }

/-! ## Sort (`usecase/flights.go`) -/

/-- The inner loop of Go's `insertionSortLessFunc`: the element `x`, placed right after a
prefix given here in reverse order, is swapped leftward while `less x y` holds for its left
neighbour `y`. -/
def sinkLeft {α : Type} (less : α → α → Bool) (x : α) : List α → List α
  | [] => [x]
  | y :: before => if less x y then y :: sinkLeft less x before else x :: y :: before

/-- Go's `insertionSortLessFunc` on a whole slice. -/
def insertionSort {α : Type} (less : α → α → Bool) (data : List α) : List α :=
  (data.foldl (fun sortedRev x => sinkLeft less x sortedRev) []).reverse

/-- Go `sort.SliceStable`.  The standard library insertion-sorts blocks of 20 elements and
then merges neighbouring blocks (`symMerge`); for a slice of at most 20 elements the
insertion sort is the whole algorithm.  The model is that insertion sort: when `less` is a
strict weak order the result of a stable sort is unique, so the merge phase yields the
same list. -/
def sliceStable {α : Type} (less : α → α → Bool) (data : List α) : List α :=
  insertionSort less data

/-- The closure `less` of Go `sortFlights`, on the two flights it compares. -/
def sortLess (field : String) (a b : Flight) : Bool :=
  if field = "price" then decide (a.Price.Amount < b.Price.Amount)
  else if field = "duration" then decide (a.DurationMinute < b.DurationMinute)
  else if field = "departure" then a.Departure.Time.Before b.Departure.Time
  else if field = "arrival" then a.Arrival.Time.Before b.Arrival.Time
  else if field = "best_value" then decide (a.BestValueScore < b.BestValueScore)
  else decide (a.BestValueScore < b.BestValueScore)

/-- Go `sortFlights`; the slice sorted in place is returned. -/
def sortFlights (flights : List Flight) (sortOpt : SortOption) : List Flight :=
  let field := toLower sortOpt.Field
  let order := toLower sortOpt.Order
  let field := if field = "" then "best_value" else field
  let order := if order = "" then "asc" else order
  if order = "desc" then sliceStable (fun a b => !sortLess field a b) flights
  else sliceStable (sortLess field) flights

/-! ## TTL cache (`cache/cache.go`) -/

/-- Go `Time.Add`: the instant `d` nanoseconds later, in the same location. -/
def Time.Add (t : Time) (d : Int) : Time :=
  ⟨t.nanos + d, t.offset⟩

/-- Go `delete(m, k)`. -/
def mapDelete {V : Type} : List (String × V) → String → List (String × V)
  | [], _ => []
  | (k', v) :: rest, k => if k' = k then mapDelete rest k else (k', v) :: mapDelete rest k

/-- Go `entry[T]`. -/
structure Entry (T : Type) where
  value : T
  expiry : Time
deriving DecidableEq

/-- Go `Cache[T]`.  The clone function may allocate, so it is a function on a store `σ`
that it threads; a clone function without effect takes `σ := Unit`.  The locks are not
modelled: every operation runs alone. -/
structure Cache (σ T : Type) where
  entries : List (String × Entry T)
  clone : Option (T → σ → T × σ)

/-- Go `cache.New`. -/
def Cache.New {σ T : Type} (clone : Option (T → σ → T × σ)) : Cache σ T :=
  ⟨[], clone⟩

/-- Go `Cache.cloneValue`. -/
def Cache.cloneValue {σ T : Type} (c : Cache σ T) (value : T) (s : σ) : T × σ :=
  match c.clone with
  | none => (value, s)
  | some clone => clone value s

/-- Go `Cache.Get` at the clock reading `now` of `time.Now()`: the value found (`none`
for the pair of the zero value and `false`), the cache and the store afterwards. -/
def Cache.Get {σ T : Type} (c : Cache σ T) (key : String) (now : Time) (s : σ) :
    Option T × Cache σ T × σ :=
  match mapGet c.entries key with
  | none => (none, c, s)
  | some entry =>
    if now.After entry.expiry then
      (none, { c with entries := mapDelete c.entries key }, s)
    else
      match c.clone with
      | some clone =>
        let r := clone entry.value s
        (some r.1, c, r.2)
      | none => (some entry.value, c, s)

/-- Go `Cache.Set` at the clock reading `now` of `time.Now()`; `ttl` is a `time.Duration`
in nanoseconds. -/
def Cache.Set {σ T : Type} (c : Cache σ T) (key : String) (value : T) (ttl : Int) (now : Time)
    (s : σ) : Cache σ T × σ :=
  let r := c.cloneValue value s
  ({ c with entries := mapSet c.entries key ⟨r.1, now.Add ttl⟩ }, r.2)

/-! ## Errors and retry (`provider/provider.go`, `usecase/flights.go`) -/

/-- The error values the aggregation handles: an error for which
`errors.Is(err, provider.ErrTemporary)` holds, any other error returned by a provider,
the two errors of a context (`ctx.Err()`), and `errProviderFailed`. -/
inductive GoError where
  | temporary (detail : String)
  | permanent (detail : String)
  | canceled
  | deadlineExceeded
  | providerFailed
deriving DecidableEq, Repr

/-- Go `errors.Is(err, provider.ErrTemporary)`. -/
def GoError.isTemporary : GoError → Bool
  | .temporary _ => true
  | _ => false

/-- Go `errProviderFailed`. -/
def errProviderFailed : GoError := GoError.providerFailed

/-- What one call of `Provider.Search` returns: `([]entity.Flight, error)`. -/
abbrev SearchOutcome := Except GoError (List Flight)

/-- What `searchWithRetry` returns, `(flights, err)` with `[]` for a nil slice, and what it
did: the number of calls of `Search` and the durations passed to `time.After`, in
nanoseconds and in order. -/
structure RetryRun where
  flights : List Flight
  err : Option GoError
  calls : Nat
  sleeps : List Int
deriving DecidableEq, Repr

/-- The initial backoff of `searchWithRetry`, `80 * time.Millisecond`, in nanoseconds. -/
def initialBackoff : Int := 80 * 1000000

/-- The loop of Go `searchWithRetry`, entered with `fuel` iterations left
(`maxProviderRetries + 1 - attempt`, at least 0).  `search k` is what the `k`-th call of
`p.Search` returns (counting from 0) and `ctxDone k` is `some (ctx.Err())` when the context
is done before the timer of the sleep after the `k`-th call fires.  With no iteration left
the loop condition fails and the function returns `errProviderFailed`. -/
def retryLoop (search : Nat → SearchOutcome) (ctxDone : Nat → Option GoError)
    (maxProviderRetries : Int) : Nat → Nat → Int → List Int → RetryRun
  | 0, attempt, _, sleeps => ⟨[], some errProviderFailed, attempt, sleeps⟩
  | fuel + 1, attempt, backoff, sleeps =>
    match search attempt with
    | .ok flights => ⟨flights, none, attempt + 1, sleeps⟩
    | .error err =>
      if !err.isTemporary then ⟨[], some err, attempt + 1, sleeps⟩
      else if (attempt : Int) = maxProviderRetries then ⟨[], some err, attempt + 1, sleeps⟩
      else
        match ctxDone attempt with
        | some ctxErr => ⟨[], some ctxErr, attempt + 1, sleeps ++ [backoff]⟩
        | none =>
          retryLoop search ctxDone maxProviderRetries fuel (attempt + 1)
            (wrapInt64 (backoff * 2)) (sleeps ++ [backoff])

/-- Go `Usecase.searchWithRetry` for one provider and one request. -/
def searchWithRetry (maxProviderRetries : Int) (search : Nat → SearchOutcome)
    (ctxDone : Nat → Option GoError) : RetryRun :=
  retryLoop search ctxDone maxProviderRetries (maxProviderRetries + 1).toNat 0 initialBackoff []

/-! ## Rate limiter (`provider/ratelimit.go`) -/

/-- Go `rateLimiter`; `interval` is a `time.Duration` in nanoseconds.  The mutex is not
modelled: each pass of the loop of `Wait` reads and writes `last` in one step. -/
structure RateLimiter where
  interval : Int
  last : Time
deriving DecidableEq, Repr

/-- Go `newRateLimiter`. -/
def newRateLimiter (interval : Int) : RateLimiter :=
  ⟨interval, Time.zero⟩

/-- What one pass of the loop of `rateLimiter.Wait` decides while it holds the lock: the
call is granted, or the caller has to sleep for `wait` nanoseconds. -/
inductive WaitStep where
  | granted
  | sleep (wait : Int)
deriving DecidableEq, Repr

/-- One pass of the loop of Go `rateLimiter.Wait` at the clock reading `now`, from
`time.Now()` to the release of the lock. -/
def RateLimiter.check (r : RateLimiter) (now : Time) : WaitStep × RateLimiter :=
  if r.last.IsZero || decide (now.Sub r.last ≥ r.interval) then
    (.granted, { r with last := now })
  else
    (.sleep (wrapInt64 (r.interval - now.Sub r.last)), r)

/-- What `rateLimiter.Wait` returns and leaves behind: the error (`none` for nil), the
limiter, and the durations passed to `time.After`. -/
structure WaitRun where
  err : Option GoError
  limiter : RateLimiter
  sleeps : List Int
deriving DecidableEq, Repr

/-- The loop of Go `rateLimiter.Wait` for a caller alone on the limiter: `clock k` is the
reading of `time.Now()` in pass `k` and `ctxDone k` is `some (ctx.Err())` when the context
is done before the timer of the sleep of pass `k` fires.  The result is `none` when the
`fuel` passes do not suffice. -/
def RateLimiter.waitLoop (clock : Nat → Time) (ctxDone : Nat → Option GoError) :
    Nat → Nat → RateLimiter → List Int → Option WaitRun
  | 0, _, _, _ => none
  | fuel + 1, pass, r, sleeps =>
    match r.check (clock pass) with
    | (.granted, r') => some ⟨none, r', sleeps⟩
    | (.sleep wait, r') =>
      match ctxDone pass with
      | some ctxErr => some ⟨some ctxErr, r', sleeps ++ [wait]⟩
      | none => RateLimiter.waitLoop clock ctxDone fuel (pass + 1) r' (sleeps ++ [wait])

/-- Go `rateLimiter.Wait`. -/
def RateLimiter.Wait (r : RateLimiter) (clock : Nat → Time) (ctxDone : Nat → Option GoError)
    (fuel : Nat) : Option WaitRun :=
  if r.interval ≤ 0 then some ⟨none, r, []⟩
  else RateLimiter.waitLoop clock ctxDone fuel 0 r []

/-- What `rateLimitedProvider.Search` returns and leaves behind, and what it did: the
outcome, the limiter, and whether it called the wrapped provider. -/
structure LimitedRun where
  outcome : SearchOutcome
  limiter : RateLimiter
  innerCalled : Bool

/-- Go `rateLimitedProvider.Search`: `inner` is what the wrapped provider returns when it
is called. -/
def rateLimitedSearch (r : RateLimiter) (clock : Nat → Time) (ctxDone : Nat → Option GoError)
    (fuel : Nat) (inner : SearchOutcome) : Option LimitedRun :=
  match r.Wait clock ctxDone fuel with
  | none => none
  | some run =>
    match run.err with
    | some err => some ⟨.error err, run.limiter, false⟩
    | none => some ⟨inner, run.limiter, true⟩

/-- The passes of `rateLimiter.Wait` made on one limiter, by whatever callers, at the
successive clock readings of the list: the limiter afterwards and the timestamps recorded
by the granted passes, in order. -/
def RateLimiter.runChecks : RateLimiter → List Time → RateLimiter × List Time
  | r, [] => (r, [])
  | r, now :: rest =>
    match r.check now with
    | (.granted, r') => ((RateLimiter.runChecks r' rest).1, now :: (RateLimiter.runChecks r' rest).2)
    | (.sleep _, r') => RateLimiter.runChecks r' rest

/-! ## Use case records (`usecase/flights.go`, `usecase/helpers.go`) -/

structure SearchCriteria where
  Origin : String
  Destination : String
  DepartureDate : String
  ReturnDate : Option String
  Passengers : Int
  CabinClass : String
deriving DecidableEq, Repr

structure SearchMetadata where
  TotalResults : Int
  ProvidersQueried : Int
  ProvidersSucceeded : Int
  ProvidersFailed : Int
  SearchTimeMs : Int
  CacheHit : Bool
  FailedProviders : List String
deriving DecidableEq, Repr

structure FlightsOutput where
  SearchCriteria : SearchCriteria
  Metadata : SearchMetadata
  Flights : List Flight
  ReturnFlights : List Flight
deriving DecidableEq, Repr

/-- The zero value of `entity.Flight`. -/
def zeroFlight : Flight :=
  { ID := "", Provider := "", Airline := ⟨"", ""⟩, FlightNumber := "",
    Departure := ⟨"", "", Time.zero⟩, Arrival := ⟨"", "", Time.zero⟩, DurationMinute := 0,
    Stops := 0, Price := ⟨0, ""⟩, AvailableSeats := 0, CabinClass := "", Aircraft := none,
    Amenities := [], Baggage := ⟨"", ""⟩, BestValueScore := 0 }

/-- Go `make([]T, n)`: `n` zero values. -/
def goMake {α : Type} (zero : α) (n : Nat) : List α :=
  List.replicate n zero

/-- Go `copy(dst, src)`: the contents of `dst` afterwards. -/
def goCopy {α : Type} (dst src : List α) : List α :=
  src.take dst.length ++ dst.drop src.length

/-- Go `CloneFlightsOutput`, on the values the pointers and slices stand for: what the
clone holds.  Which parts of memory the clone shares with the original is the subject of
`Mem.CloneFlightsOutput`. -/
def CloneFlightsOutput (value : Option FlightsOutput) : Option FlightsOutput :=
  match value with
  | none => none
  | some value =>
    some
      { SearchCriteria := value.SearchCriteria
        Metadata := value.Metadata
        Flights := goCopy (goMake zeroFlight value.Flights.length) value.Flights
        ReturnFlights := goCopy (goMake zeroFlight value.ReturnFlights.length) value.ReturnFlights }

/-! ## Use case records in memory -/

namespace Mem

/-- A non-nil slice header: the address of its backing array and its length. -/
structure Slice where
  array : Nat
  len : Nat
deriving DecidableEq, Repr

/-- Go `entity.Flight` as the struct is laid out: `Aircraft` is a `*string` (`none` for
nil, else the address of a string) and `Amenities` a `[]string` (`none` for nil). -/
structure Flight where
  ID : String
  Provider : String
  Airline : Airline
  FlightNumber : String
  Departure : FlightPoint
  Arrival : FlightPoint
  DurationMinute : Int
  Stops : Int
  Price : Price
  AvailableSeats : Int
  CabinClass : String
  Aircraft : Option Nat
  Amenities : Option Slice
  Baggage : Baggage
  BestValueScore : Rat
deriving DecidableEq, Repr

/-- Go `SearchCriteria` as laid out: `ReturnDate` is a `*string`. -/
structure SearchCriteria where
  Origin : String
  Destination : String
  DepartureDate : String
  ReturnDate : Option Nat
  Passengers : Int
  CabinClass : String
deriving DecidableEq, Repr

/-- Go `SearchMetadata` as laid out: `FailedProviders` is a `[]string`. -/
structure SearchMetadata where
  TotalResults : Int
  ProvidersQueried : Int
  ProvidersSucceeded : Int
  ProvidersFailed : Int
  SearchTimeMs : Int
  CacheHit : Bool
  FailedProviders : Option Slice
deriving DecidableEq, Repr

/-- Go `FlightsOutput` as laid out: `Flights` and `ReturnFlights` are `[]entity.Flight`. -/
structure FlightsOutput where
  SearchCriteria : SearchCriteria
  Metadata : SearchMetadata
  Flights : Option Slice
  ReturnFlights : Option Slice
deriving DecidableEq, Repr

/-- The part of the Go heap a `*FlightsOutput` reaches: the strings behind `*string`
pointers, the backing arrays of `[]string` and of `[]entity.Flight` slices, and the
`FlightsOutput` structs.  An address is an index into its list; allocation appends. -/
structure Heap where
  strings : List String
  stringArrays : List (List String)
  flightArrays : List (List Flight)
  outputs : List FlightsOutput
deriving DecidableEq, Repr

/-- The string a `*string` points to. -/
def Heap.readString (h : Heap) (p : Option Nat) : Option String :=
  match p with
  | none => none
  | some a => h.strings[a]?

/-- The elements of a `[]string`. -/
def Heap.readStrings (h : Heap) (s : Option Slice) : List String :=
  match s with
  | none => []
  | some s => ((h.stringArrays[s.array]?).getD []).take s.len

/-- The structs a `[]entity.Flight` holds. -/
def Heap.flightCells (h : Heap) (s : Option Slice) : List Flight :=
  match s with
  | none => []
  | some s => ((h.flightArrays[s.array]?).getD []).take s.len

/-- The flight a struct in memory stands for. -/
def Heap.readFlight (h : Heap) (f : Flight) : BookCabin.Flight :=
  { ID := f.ID, Provider := f.Provider, Airline := f.Airline, FlightNumber := f.FlightNumber,
    Departure := f.Departure, Arrival := f.Arrival, DurationMinute := f.DurationMinute,
    Stops := f.Stops, Price := f.Price, AvailableSeats := f.AvailableSeats,
    CabinClass := f.CabinClass, Aircraft := h.readString f.Aircraft,
    Amenities := h.readStrings f.Amenities, Baggage := f.Baggage,
    BestValueScore := f.BestValueScore }

/-- The flights a `[]entity.Flight` stands for. -/
def Heap.readFlights (h : Heap) (s : Option Slice) : List BookCabin.Flight :=
  (h.flightCells s).map h.readFlight

/-- The output a `*FlightsOutput` stands for: everything a reader of the pointer sees. -/
def Heap.readOutput (h : Heap) (p : Option Nat) : Option BookCabin.FlightsOutput :=
  match p with
  | none => none
  | some a =>
    match h.outputs[a]? with
    | none => none
    | some v =>
      some
        { SearchCriteria :=
            { Origin := v.SearchCriteria.Origin, Destination := v.SearchCriteria.Destination,
              DepartureDate := v.SearchCriteria.DepartureDate,
              ReturnDate := h.readString v.SearchCriteria.ReturnDate,
              Passengers := v.SearchCriteria.Passengers,
              CabinClass := v.SearchCriteria.CabinClass }
          Metadata :=
            { TotalResults := v.Metadata.TotalResults,
              ProvidersQueried := v.Metadata.ProvidersQueried,
              ProvidersSucceeded := v.Metadata.ProvidersSucceeded,
              ProvidersFailed := v.Metadata.ProvidersFailed,
              SearchTimeMs := v.Metadata.SearchTimeMs, CacheHit := v.Metadata.CacheHit,
              FailedProviders := h.readStrings v.Metadata.FailedProviders }
          Flights := h.readFlights v.Flights
          ReturnFlights := h.readFlights v.ReturnFlights }

/-- Go `CloneFlightsOutput` on the heap: the pointer returned and the heap afterwards.
Each of the two `make([]entity.Flight, len(src))` allocates a backing array, which
`copy(dst, src)` fills with copies of the structs of `src`; the struct of the clone is
allocated with the `SearchCriteria` and `Metadata` of the original copied as they are. -/
def CloneFlightsOutput (value : Option Nat) (h : Heap) : Option Nat × Heap :=
  match value with
  | none => (none, h)
  | some a =>
    match h.outputs[a]? with
    | none => (none, h)
    | some v =>
      let flights := h.flightCells v.Flights
      let returnFlights := h.flightCells v.ReturnFlights
      (some h.outputs.length,
        { h with
          flightArrays := h.flightArrays ++ [flights, returnFlights]
          outputs := h.outputs ++
            [{ SearchCriteria := v.SearchCriteria, Metadata := v.Metadata,
               Flights := some ⟨h.flightArrays.length, flights.length⟩,
               ReturnFlights := some ⟨h.flightArrays.length + 1, returnFlights.length⟩ }] })

/-- Go `*p = s` for a `*string`. -/
def Heap.setString (h : Heap) (p : Nat) (s : String) : Heap :=
  { h with strings := h.strings.set p s }

/-- Go `xs[i] = s` for a `[]string`. -/
def Heap.setStringAt (h : Heap) (xs : Slice) (i : Nat) (s : String) : Heap :=
  { h with stringArrays :=
      h.stringArrays.set xs.array (((h.stringArrays[xs.array]?).getD []).set i s) }

/-- Go `fs[i] = f` for a `[]entity.Flight`. -/
def Heap.setFlightAt (h : Heap) (fs : Slice) (i : Nat) (f : Flight) : Heap :=
  { h with flightArrays :=
      h.flightArrays.set fs.array (((h.flightArrays[fs.array]?).getD []).set i f) }

/-- Go `*p = v` for a `*FlightsOutput`: an assignment to fields of the struct. -/
def Heap.setOutput (h : Heap) (p : Nat) (v : FlightsOutput) : Heap :=
  { h with outputs := h.outputs.set p v }

end Mem

/-! ## Cache isolation scenarios -/

namespace Mem

/-- Go `p.Metadata.FailedProviders[0] = s`. -/
def mutFailedProviders (s : String) (p : Option Nat) (h : Heap) : Heap :=
  match p with
  | none => h
  | some a =>
    match h.outputs[a]? with
    | none => h
    | some v =>
      match v.Metadata.FailedProviders with
      | none => h
      | some xs => h.setStringAt xs 0 s

/-- Go `*p.SearchCriteria.ReturnDate = s`. -/
def mutReturnDate (s : String) (p : Option Nat) (h : Heap) : Heap :=
  match p with
  | none => h
  | some a =>
    match h.outputs[a]? with
    | none => h
    | some v =>
      match v.SearchCriteria.ReturnDate with
      | none => h
      | some q => h.setString q s

/-- Go `p.Flights[0].Amenities[0] = s`. -/
def mutAmenities (s : String) (p : Option Nat) (h : Heap) : Heap :=
  match p with
  | none => h
  | some a =>
    match h.outputs[a]? with
    | none => h
    | some v =>
      match h.flightCells v.Flights with
      | [] => h
      | f :: _ =>
        match f.Amenities with
        | none => h
        | some xs => h.setStringAt xs 0 s

/-- Go `*p.Flights[0].Aircraft = s`. -/
def mutAircraft (s : String) (p : Option Nat) (h : Heap) : Heap :=
  match p with
  | none => h
  | some a =>
    match h.outputs[a]? with
    | none => h
    | some v =>
      match h.flightCells v.Flights with
      | [] => h
      | f :: _ =>
        match f.Aircraft with
        | none => h
        | some q => h.setString q s

/-- Go `p.Flights[0].Price.Amount = amount`. -/
def mutPrice (amount : Int) (p : Option Nat) (h : Heap) : Heap :=
  match p with
  | none => h
  | some a =>
    match h.outputs[a]? with
    | none => h
    | some v =>
      match v.Flights, h.flightCells v.Flights with
      | some fs, f :: _ => h.setFlightAt fs 0 { f with Price := ⟨amount, f.Price.Currency⟩ }
      | _, _ => h

/-- Go `p.Metadata.TotalResults = n`. -/
def mutTotalResults (n : Int) (p : Option Nat) (h : Heap) : Heap :=
  match p with
  | none => h
  | some a =>
    match h.outputs[a]? with
    | none => h
    | some v => h.setOutput a { v with Metadata := { v.Metadata with TotalResults := n } }

/-- The scenario of the isolation property on a cache built with `CloneFlightsOutput`:
`Set(k, v)`; `got := Get(k)`; a mutation that may go through `v` or through `got`;
`Get(k)` once more, all within the time to live.  The result is the output the first `Get`
returned and the output the second one returns. -/
def isolationRun (h : Heap) (v : Option Nat) (mutate : Option Nat → Option Nat → Heap → Heap) :
    Option BookCabin.FlightsOutput × Option BookCabin.FlightsOutput :=
  let now := Time.ofUnix 1717228800 0
  let c₀ : Cache Heap (Option Nat) := Cache.New (some CloneFlightsOutput)
  let afterSet := c₀.Set "k" v 60000000000 now h
  let got := afterSet.1.Get "k" now afterSet.2
  let first := got.2.2.readOutput got.1.join
  let mutated := mutate v got.1.join got.2.2
  let again := got.2.1.Get "k" now mutated
  (first, again.2.2.readOutput again.1.join)

end Mem

/-! ## Calendar fields of a time -/

namespace Time

/-- Go `Time.Year`. -/
def Year (t : Time) : Int := (civil t.localDays).1

/-- Go `Time.Month`, as a number from 1 to 12. -/
def Month (t : Time) : Int := (civil t.localDays).2.1

/-- Go `Time.Day`. -/
def Day (t : Time) : Int := (civil t.localDays).2.2

/-- Go `Time.Hour`. -/
def Hour (t : Time) : Int := t.secondOfDay / 3600

/-- Go `Time.Minute`. -/
def Minute (t : Time) : Int := t.secondOfDay % 3600 / 60

/-- Go `Time.Second`. -/
def Second (t : Time) : Int := t.secondOfDay % 60

/-- Go `Time.Nanosecond`. -/
def Nanosecond (t : Time) : Int := t.nanos % 1000000000

/-- Days from January 1, year 1 to the proleptic Gregorian date `year`-`month`-`day`. -/
def daysFromCivil (year month day : Int) : Int :=
  let y := if month ≤ 2 then year - 1 else year
  let era := y / 400
  let yoe := y - era * 400
  let mp := if month ≤ 2 then month + 9 else month - 3
  let doy := (153 * mp + 2) / 5 + day - 1
  let doe := yoe * 365 + yoe / 4 - yoe / 100 + doy
  era * 146097 + doe - 306

/-- Go `time.Date(year, month, day, hour, min, sec, nsec, loc)` for a location at `offset`
seconds east of UTC and fields within their usual ranges (Go normalises fields outside
them). -/
def Date (year month day hour min sec nsec offset : Int) : Time :=
  ⟨(daysFromCivil year month day * 86400 + hour * 3600 + min * 60 + sec - offset) *
      1000000000 + nsec, offset⟩

end Time

/-! ## Cache key (`usecase/helpers.go`) -/

structure FlightsInput where
  Origin : String
  Destination : String
  DepartureDate : Time
  ReturnDate : Option Time
  Passengers : Int
  CabinClass : String
  Filters : FlightFilters
  /-- Go field `Sort`, a reserved word here. -/
  SortBy : SortOption
deriving DecidableEq, Repr

/-- Go `fmt.Sprintf("%d", x)`. -/
def sprintInt (x : Int) : String :=
  appendInt x 0

/-- Go `sort.Strings`: the strings in increasing order. -/
def sortStrings (xs : List String) : List String :=
  insertionSort stringLess xs

/-- Go `formatOptionalDate`. -/
def formatOptionalDate (value : Option Time) : String :=
  match value with
  | none => ""
  | some value => value.formatDate

/-- Go `formatOptionalInt`. -/
def formatOptionalInt (value : Option Int) : String :=
  match value with
  | none => ""
  | some value => sprintInt value

/-- Go `formatOptionalTime`. -/
def formatOptionalTime (value : Option Time) : String :=
  match value with
  | none => ""
  | some value => value.formatRFC3339

/-- Go `formatAirlines`. -/
def formatAirlines (values : List String) : String :=
  if values.length = 0 then ""
  else
    let clean := values.foldl
      (fun clean value =>
        let trimmed := trimSpace (toLower value)
        if trimmed ≠ "" then clean ++ [trimmed] else clean)
      []
    if clean.length = 0 then ""
    else join (sortStrings clean) "|"

/-- Go `formatFilters`. -/
def formatFilters (filters : FlightFilters) : String :=
  join
    [formatOptionalInt filters.MinPrice, formatOptionalInt filters.MaxPrice,
      formatOptionalInt filters.Stops, formatOptionalInt filters.MaxStops,
      formatOptionalInt filters.MinDuration, formatOptionalInt filters.MaxDuration,
      formatOptionalTime filters.DepartAfter, formatOptionalTime filters.DepartBefore,
      formatOptionalTime filters.ArriveAfter, formatOptionalTime filters.ArriveBefore,
      formatAirlines filters.Airlines]
    ","

/-- Go `buildCacheKey`: the format `%s|%s|%s|%s|%d|%s|%s|%s|%s` puts a `|` between the
nine parts. -/
def buildCacheKey (input : FlightsInput) : String :=
  join
    [toUpper input.Origin, toUpper input.Destination, input.DepartureDate.formatDate,
      formatOptionalDate input.ReturnDate, sprintInt input.Passengers,
      toLower input.CabinClass, formatFilters input.Filters, toLower input.SortBy.Field,
      toLower input.SortBy.Order]
    "|"

/-! ## Return leg filters (`usecase/flights.go`) -/

/-- Go `shiftTimeDate`. -/
def shiftTimeDate (value : Option Time) (date : Time) : Option Time :=
  match value with
  | none => none
  | some value =>
    some (Time.Date date.Year date.Month date.Day value.Hour value.Minute value.Second
      value.Nanosecond value.offset)

/-- Go `shiftFiltersDate`. -/
def shiftFiltersDate (filters : FlightFilters) (date : Time) : FlightFilters :=
  { filters with
    DepartAfter := shiftTimeDate filters.DepartAfter date
    DepartBefore := shiftTimeDate filters.DepartBefore date
    ArriveAfter := shiftTimeDate filters.ArriveAfter date
    ArriveBefore := shiftTimeDate filters.ArriveBefore date }

/-! ## Providers and fan-out (`provider/provider.go`, `usecase/usecase.go`, `usecase/flights.go`) -/

/-- Go `provider.SearchRequest`. -/
structure SearchRequest where
  Origin : String
  Destination : String
  DepartureDate : Time
  ReturnDate : Option Time
  Passengers : Int
  CabinClass : String
deriving DecidableEq, Repr

/-- The fan-outs of one call of `Flights`: the outbound leg and the return leg. -/
inductive Leg where
  | outbound
  | inbound
deriving DecidableEq, Repr

/-- Go `provider.Provider`.  `Name` is what `Name()` returns; `Search leg req k` is what the
`k`-th call of `Search(ctx, req)` made during the fan-out of `leg` returns (counting from
0), whatever the provider does to produce it. -/
structure Provider where
  Name : String
  Search : Leg → SearchRequest → Nat → SearchOutcome

/-- Go `providerResult`. -/
structure ProviderResult where
  name : String
  flights : List Flight
  err : Option GoError
deriving DecidableEq, Repr

/-- Go `providerStats`; an empty list stands for a nil map as well, which reads as empty. -/
structure ProviderStats where
  success : List (String × Bool)
  failed : List (String × Bool)
deriving DecidableEq, Repr

/-- Go `Usecase`; the two durations are in nanoseconds.  `cache.Cache[*FlightsOutput]`
holds pointers: `none` is the nil pointer.  The clone function works on values, see
`CloneFlightsOutput`. -/
structure Usecase where
  providers : List Provider
  cache : Cache Unit (Option FlightsOutput)
  cacheTTL : Int
  providerTimeout : Int
  maxProviderRetries : Int

/-- Go `Dependency` of package `usecase`. -/
structure Dependency where
  Providers : List Provider
  Cache : Cache Unit (Option FlightsOutput)
  CacheTTL : Int
  ProviderTimeout : Int
  MaxProviderRetries : Int

/-- Go `usecase.New`. -/
def Usecase.New (dep : Dependency) : Usecase :=
  { providers := dep.Providers, cache := dep.Cache, cacheTTL := dep.CacheTTL,
    providerTimeout := dep.ProviderTimeout, maxProviderRetries := dep.MaxProviderRetries }

/-- The clone function `module.go` hands to `cache.New`: `CloneFlightsOutput`. -/
def cloneStored : Option (Option FlightsOutput → Unit → Option FlightsOutput × Unit) :=
  some (fun value s => (CloneFlightsOutput value, s))

/-- What a call of `Flights` meets besides its arguments: the readings of `time.Now()` at
entry, inside `cache.Get`, inside `time.Since` and inside `cache.Set`; for the goroutine of
provider number `i` in the fan-out of `leg`, `ctxDone leg i k`, which is `some (ctx.Err())`
when its context (the request context under the provider timeout) is done before the timer
of its `k`-th backoff sleep fires; and for each fan-out the order in which the goroutines
send on the result channel, see `receiveAll`. -/
structure Env where
  start : Time
  getNow : Time
  sinceNow : Time
  setNow : Time
  ctxDone : Leg → Nat → Nat → Option GoError
  arrival : Leg → List Nat

/-- The receive loop of `searchProviders`: `sent` holds the results of the goroutines in
launch order; the channel delivers them in the order of completion.  Each number of
`order` picks, among the results not received yet, the one that arrives next; when
`order` is used up the rest arrives in launch order.  Every order of arrival is obtained
from some `order`. -/
def receiveAll {α : Type} : List Nat → List α → List α
  | [], sent => sent
  | k :: order, sent =>
    match sent[k % sent.length]? with
    | none => []
    | some r => r :: receiveAll order (sent.eraseIdx (k % sent.length))

/-- The body of the goroutine `searchProviders` starts for provider number `i`: the
result it sends on the channel. -/
def providerRun (maxProviderRetries : Int) (ctxDone : Nat → Option GoError) (leg : Leg)
    (req : SearchRequest) (p : Provider) : ProviderResult :=
  let run := searchWithRetry maxProviderRetries (p.Search leg req) ctxDone
  ⟨p.Name, run.flights, run.err⟩

/-- Go `Usecase.searchProviders`: one goroutine per provider, then one receive per
provider. -/
def Usecase.searchProviders (u : Usecase) (env : Env) (leg : Leg) (req : SearchRequest) :
    List ProviderResult :=
  receiveAll (env.arrival leg)
    (u.providers.enum.map fun ip =>
      providerRun u.maxProviderRetries (env.ctxDone leg ip.1) leg req ip.2)

/-- One iteration of the loop of `collectFlights` over the results. -/
def collectStep (acc : List Flight × ProviderStats) (res : ProviderResult) :
    List Flight × ProviderStats :=
  if res.err ≠ none then
    (acc.1, { acc.2 with failed := mapSet acc.2.failed res.name true })
  else
    (acc.1 ++ res.flights, { acc.2 with success := mapSet acc.2.success res.name true })

/-- Go `Usecase.collectFlights`. -/
def Usecase.collectFlights (u : Usecase) (env : Env) (leg : Leg) (req : SearchRequest)
    (input : FlightsInput) (origin destination : String) (date : Time)
    (filters : FlightFilters) : List Flight × ProviderStats :=
  let results := u.searchProviders env leg req
  let acc := results.foldl collectStep ([], ⟨[], []⟩)
  let flights := normalizeDurations acc.1
  let criteriaDate := date.formatDate
  let filtered := filterFlights flights origin destination input.CabinClass filters criteriaDate
  let compared := compareAndDedupFlights filtered
  (compared, acc.2)

/-- Go `mergeProviderStats`; `m[name]` on a `map[string]bool` is `false` for a missing
key. -/
def mergeProviderStats (providers : List Provider) (outbound inbound : ProviderStats) :
    Int × List String :=
  providers.foldl
    (fun acc p =>
      let name := p.Name
      if (mapGet outbound.success name).getD false || (mapGet inbound.success name).getD false
      then (acc.1 + 1, acc.2)
      else (acc.1, acc.2 ++ [name]))
    (0, [])

/-! ## The aggregation (`usecase/flights.go`) -/

/-- Go `time.Since(start).Milliseconds()` at the clock reading `now`. -/
def sinceMilliseconds (now start : Time) : Int :=
  Int.tdiv (now.Sub start) 1000000

/-- What `Flights` returns, `(*FlightsOutput, error)` with `none` for nil, and what it
did: the requests it handed to `searchProviders`, in order. -/
structure FlightsReturn where
  output : Option FlightsOutput
  err : Option GoError
  searched : List SearchRequest
deriving DecidableEq, Repr

/-- The request of the outbound leg in `Flights`. -/
def outboundRequest (input : FlightsInput) : SearchRequest :=
  { Origin := input.Origin, Destination := input.Destination,
    DepartureDate := input.DepartureDate, ReturnDate := none,
    Passengers := input.Passengers, CabinClass := input.CabinClass }

/-- The request of the return leg in `Flights`. -/
def returnRequest (input : FlightsInput) (returnDate : Time) : SearchRequest :=
  { Origin := input.Destination, Destination := input.Origin,
    DepartureDate := returnDate, ReturnDate := none,
    Passengers := input.Passengers, CabinClass := input.CabinClass }

/-- The outbound leg of `Flights`: collect, score, sort. -/
def Usecase.outboundLeg (u : Usecase) (env : Env) (input : FlightsInput) :
    List Flight × ProviderStats :=
  let r := u.collectFlights env Leg.outbound (outboundRequest input) input input.Origin
    input.Destination input.DepartureDate input.Filters
  (sortFlights (applyBestValueScore r.1) input.SortBy, r.2)

/-- The return leg of `Flights`: nothing when no return date is set. -/
def Usecase.returnLeg (u : Usecase) (env : Env) (input : FlightsInput) :
    List Flight × ProviderStats :=
  match input.ReturnDate with
  | none => ([], ⟨[], []⟩)
  | some returnDate =>
    let returnFilters := shiftFiltersDate input.Filters returnDate
    let r := u.collectFlights env Leg.inbound (returnRequest input returnDate) input
      input.Destination input.Origin returnDate returnFilters
    (sortFlights (applyBestValueScore r.1) input.SortBy, r.2)

/-- The `SearchCriteria` that `Flights` puts in its output. -/
def searchCriteriaOf (input : FlightsInput) : SearchCriteria :=
  { Origin := input.Origin, Destination := input.Destination,
    DepartureDate := input.DepartureDate.formatDate,
    ReturnDate := input.ReturnDate.map Time.formatDate,
    Passengers := input.Passengers, CabinClass := input.CabinClass }

/-- The output `Flights` builds on a cache miss.  `len(u.providers) - providersSucceeded`
is the difference of a slice length and a count that does not exceed it, so it is taken
without wrap-around. -/
def Usecase.computeOutput (u : Usecase) (env : Env) (input : FlightsInput) : FlightsOutput :=
  let outbound := u.outboundLeg env input
  let inbound := u.returnLeg env input
  let merged := mergeProviderStats u.providers outbound.2 inbound.2
  { SearchCriteria := searchCriteriaOf input
    Metadata :=
      { TotalResults := (outbound.1.length : Int) + (inbound.1.length : Int)
        ProvidersQueried := (u.providers.length : Int)
        ProvidersSucceeded := merged.1
        ProvidersFailed := (u.providers.length : Int) - merged.1
        SearchTimeMs := sinceMilliseconds env.sinceNow env.start
        CacheHit := false
        FailedProviders := merged.2 }
    Flights := outbound.1
    ReturnFlights := inbound.1 }

/-- The requests `Flights` hands to `searchProviders` on a cache miss. -/
def searchedOf (input : FlightsInput) : List SearchRequest :=
  match input.ReturnDate with
  | none => [outboundRequest input]
  | some returnDate => [outboundRequest input, returnRequest input returnDate]

/-- Go `Usecase.Flights`: what it returns and the use case afterwards (its cache may have
changed).  The result is `none` when the call panics, which it does on a nil pointer found
in the cache. -/
def Usecase.Flights (u : Usecase) (env : Env) (input : FlightsInput) :
    Option (FlightsReturn × Usecase) :=
  let start := env.start
  let cacheKey := buildCacheKey input
  match u.cache.Get cacheKey env.getNow () with
  | (some cached, cache, _) =>
    match cached with
    | none => none
    | some cached =>
      let cached := { cached with Metadata := { cached.Metadata with CacheHit := true } }
      let cached := { cached with
        Metadata := { cached.Metadata with
          SearchTimeMs := sinceMilliseconds env.sinceNow start } }
      some (⟨some cached, none, []⟩, { u with cache := cache })
  | (none, cache, _) =>
    let output := u.computeOutput env input
    let cache := (cache.Set cacheKey (some output) u.cacheTTL env.setNow ()).1
    some (⟨some output, none, searchedOf input⟩, { u with cache := cache })

/-! ## Cache hit in memory -/

/-- The two assignments `Flights` makes through the pointer a cache hit returns:
`cached.Metadata.CacheHit = true` and `cached.Metadata.SearchTimeMs = ms`. -/
def Mem.markCacheHit (ms : Int) (p : Option Nat) (h : Mem.Heap) : Mem.Heap :=
  match p with
  | none => h
  | some a =>
    match h.outputs[a]? with
    | none => h
    | some v =>
      h.setOutput a { v with Metadata := { v.Metadata with CacheHit := true, SearchTimeMs := ms } }

/-! ## Input parsing (`inbound/http_helper.go`, `inbound/http_endpoint.go`) -/

/-- Go `url.Values`, the parsed query: the values of each parameter, in order. -/
abbrev Values := List (String × List String)

/-- Go `Values.Get`: the first value of the key, the empty string when it has none. -/
def Values.Get (q : Values) (key : String) : String :=
  match mapGet q key with
  | some (v :: _) => v
  | _ => ""

/-- The functions of the Go standard library that the parsing of the query calls, with
`none` for a non-nil error: `strconv.Atoi`, `time.ParseInLocation("2006-01-02", s,
time.Local)`, `time.ParseInLocation("15:04", s, time.Local)` and `time.Parse(time.RFC3339,
s)`; and the offset of `time.Local`. -/
structure Parsers where
  atoi : String → Option Int
  parseDate : String → Option Time
  parseClock : String → Option Time
  parseRFC3339 : String → Option Time
  localOffset : Int

/-- The error `pkgerror.NewBusiness(message, pkgerror.CodeInvalidInput)`; every business
error the parsing builds carries the code `CodeInvalidInput`. -/
structure BusinessError where
  message : String
deriving DecidableEq, Repr

/-- Go `firstNotEmpty`. -/
def firstNotEmpty : List String → String
  | [] => ""
  | value :: values => if value ≠ "" then value else firstNotEmpty values

/-- The pieces of `s` between the occurrences of `sep`, `acc` holding the current piece
in reverse. -/
def splitChars (sep : Char) : List Char → List Char → List (List Char)
  | acc, [] => [acc.reverse]
  | acc, c :: cs =>
    if c = sep then acc.reverse :: splitChars sep [] cs else splitChars sep (c :: acc) cs

/-- Go `strings.Split(s, ",")`. -/
def splitComma (s : String) : List String :=
  (splitChars ',' [] s.data).map String.mk

/-- Go `parseIntFilter`: the value it leaves in `*target`, which is nil before the call. -/
def parseIntFilter (p : Parsers) (q : Values) (key altKey errMsg : String) :
    Except BusinessError (Option Int) :=
  let value := trimSpace (firstNotEmpty [q.Get key, q.Get altKey])
  if value = "" then .ok none
  else
    match p.atoi value with
    | none => .error ⟨errMsg⟩
    | some parsed => .ok (some parsed)

/-- Go `parseListFilter`; `[]` for nil. -/
def parseListFilter (q : Values) (key altKey : String) : List String :=
  let value := trimSpace (firstNotEmpty [q.Get key, q.Get altKey])
  if value = "" then [] else splitComma value

/-- Go `parseTimeFilter`; `len(value)` counts bytes. -/
def parseTimeFilter (p : Parsers) (q : Values) (key altKey : String) (date : Time) :
    Except BusinessError (Option Time) :=
  let value := trimSpace (firstNotEmpty [q.Get key, q.Get altKey])
  if value = "" then .ok none
  else if value.utf8ByteSize = 5 ∧ value.data.contains ':' = true then
    match p.parseClock value with
    | none => .error ⟨"invalid time filter"⟩
    | some parsed =>
      .ok (some (Time.Date date.Year date.Month date.Day parsed.Hour parsed.Minute 0 0
        p.localOffset))
  else
    match p.parseRFC3339 value with
    | none => .error ⟨"invalid time filter"⟩
    | some parsed => .ok (some parsed)

/-- Go `parseFlightFilters`; on an error the filters parsed so far are dropped, as the
caller drops them. -/
def parseFlightFilters (p : Parsers) (q : Values) (departureDate : Time) :
    Except BusinessError FlightFilters := do
  let minPrice ← parseIntFilter p q "min_price" "minPrice" "invalid min_price"
  let maxPrice ← parseIntFilter p q "max_price" "maxPrice" "invalid max_price"
  let stops ← parseIntFilter p q "stops" "stop_count" "invalid stops"
  let maxStops ← parseIntFilter p q "max_stops" "maxStops" "invalid max_stops"
  let minDuration ← parseIntFilter p q "min_duration" "minDuration" "invalid min_duration"
  let maxDuration ← parseIntFilter p q "max_duration" "maxDuration" "invalid max_duration"
  let airlines := parseListFilter q "airlines" "airline"
  let departAfter ← parseTimeFilter p q "depart_after" "departAfter" departureDate
  let departBefore ← parseTimeFilter p q "depart_before" "departBefore" departureDate
  let arriveAfter ← parseTimeFilter p q "arrive_after" "arriveAfter" departureDate
  let arriveBefore ← parseTimeFilter p q "arrive_before" "arriveBefore" departureDate
  pure
    { MinPrice := minPrice, MaxPrice := maxPrice, Stops := stops, MaxStops := maxStops,
      MinDuration := minDuration, MaxDuration := maxDuration, Airlines := airlines,
      DepartAfter := departAfter, DepartBefore := departBefore, ArriveAfter := arriveAfter,
      ArriveBefore := arriveBefore }

/-- The optional return date of `parseFlightsInput`. -/
def parseReturnDate (p : Parsers) (q : Values) : Except BusinessError (Option Time) :=
  let returnDateStr := trimSpace (firstNotEmpty [q.Get "returnDate", q.Get "return_date"])
  if returnDateStr ≠ "" then
    match p.parseDate returnDateStr with
    | none => .error ⟨"invalid returnDate"⟩
    | some parsed => .ok (some parsed)
  else .ok none

/-- The passenger count of `parseFlightsInput`. -/
def parsePassengers (p : Parsers) (q : Values) : Except BusinessError Int :=
  let value := trimSpace (q.Get "passengers")
  if value ≠ "" then
    match p.atoi value with
    | none => .error ⟨"invalid passengers"⟩
    | some parsed => if parsed ≤ 0 then .error ⟨"invalid passengers"⟩ else .ok parsed
  else .ok 1

/-- Go `parseFlightsInput`, on the query of the request. -/
def parseFlightsInput (p : Parsers) (q : Values) : Except BusinessError FlightsInput :=
  let origin := trimSpace (q.Get "origin")
  let destination := trimSpace (q.Get "destination")
  if origin = "" ∨ destination = "" then .error ⟨"origin and destination are required"⟩
  else
    let departureDateStr :=
      trimSpace (firstNotEmpty [q.Get "departureDate", q.Get "departure_date"])
    if departureDateStr = "" then .error ⟨"departureDate is required"⟩
    else
      match p.parseDate departureDateStr with
      | none => .error ⟨"invalid departureDate"⟩
      | some departureDate => do
        let returnDate ← parseReturnDate p q
        let passengers ← parsePassengers p q
        let cabinClass := trimSpace (firstNotEmpty [q.Get "cabinClass", q.Get "cabin_class"])
        let cabinClass := if cabinClass = "" then "economy" else cabinClass
        let filters ← parseFlightFilters p q departureDate
        let sortOpt : SortOption :=
          { Field := trimSpace (q.Get "sort"), Order := trimSpace (q.Get "order") }
        pure
          { Origin := origin, Destination := destination, DepartureDate := departureDate,
            ReturnDate := returnDate, Passengers := passengers,
            CabinClass := toLower cabinClass, Filters := filters, SortBy := sortOpt }

/-- What `HTTPEndpoint.Flights` returns and what it did: the error, the output of the use
case from which it builds the response (`none` when it returns a nil response), and the
inputs with which it called the use case. -/
structure EndpointRun where
  output : Option FlightsOutput
  err : Option (BusinessError ⊕ GoError)
  calls : List FlightsInput

/-- Go `HTTPEndpoint.Flights` up to the mapping of the output to the response; `uc` is
what the use case returns when it is called. -/
def HTTPEndpoint.Flights (p : Parsers) (uc : FlightsInput → Option FlightsOutput × Option GoError)
    (q : Values) : EndpointRun :=
  match parseFlightsInput p q with
  | .error err => ⟨none, some (.inl err), []⟩
  | .ok input =>
    match uc input with
    | (_, some err) => ⟨none, some (.inr err), [input]⟩
    | (output, none) => ⟨output, none, [input]⟩

/-! ## Price rendering (`inbound/http_helper.go`) -/

/-- Go `strconv.Itoa`: a minus sign for a negative value, then the decimal digits of the
absolute value. -/
def itoa (x : Int) : String :=
  appendInt x 0

/-- The loop `for i := len(value) - 3; i > 0; i -= 3 { value = value[:i] + "." + value[i:] }`
of `formatIDR` on the bytes of `value`, from index `i`; `fuel` bounds the number of
iterations. -/
def groupLoop : Nat → Int → List Char → List Char
  | 0, _, value => value
  | fuel + 1, i, value =>
    if i > 0 then groupLoop fuel (i - 3) (value.take i.toNat ++ '.' :: value.drop i.toNat)
    else value

/-- Go `formatIDR`. The text handled is ASCII, one byte per character; the loop runs at
most once per byte of `value`. -/
def formatIDR (amount : Int) : String :=
  if amount = 0 then "Rp. 0"
  else
    let negative := decide (amount < 0)
    let amount := if negative then wrapInt64 (-amount) else amount
    let value := itoa amount
    let value := String.mk (groupLoop value.length (value.length - 3) value.data)
    if negative then "-Rp. " ++ value else "Rp. " ++ value

/-! ## The AirAsia adapter (`provider/airasia.go`, `provider/helpers.go`) -/

/-- One element of `stops` in an AirAsia record. -/
structure AirAsiaStop where
  Airport : String
  WaitTimeMinutes : Int
deriving DecidableEq, Repr

/-- One decoded element of `flights` in the AirAsia response; a decoded `float64` is a
finite number. -/
structure AirAsiaRecord where
  FlightCode : String
  Airline : String
  FromAirport : String
  ToAirport : String
  DepartTime : String
  ArriveTime : String
  DurationHours : Rat
  DirectFlight : Bool
  PriceIDR : Int
  Seats : Int
  CabinClass : String
  BaggageNote : String
  Stops : List AirAsiaStop
deriving DecidableEq, Repr

/-- Go `cityFromAirport`. -/
def cityFromAirport (code : String) : String :=
  let code := toUpper code
  if code = "CGK" then "Jakarta"
  else if code = "DPS" then "Denpasar"
  else if code = "SUB" then "Surabaya"
  else if code = "UPG" then "Makassar"
  else if code = "SOC" then "Solo"
  else ""

/-- Go `strings.TrimPrefix`. -/
def trimPrefix (s p : String) : String :=
  if p.data.isPrefixOf s.data then String.mk (s.data.drop p.data.length) else s

/-- Go `splitAirAsiaBaggage`; `strings.Split` never returns an empty slice here. -/
def splitAirAsiaBaggage (note : String) : String × String :=
  if note = "" then ("", "")
  else
    match splitComma note with
    | [] => ("", "")
    | first :: more =>
      let carryOn := trimSpace first
      let checked :=
        match more with
        | second :: _ => trimPrefix (trimPrefix (trimSpace second) "checked bags ") "checked "
        | [] => ""
      let checked := if checked = "" then "Additional fee" else checked
      (carryOn, checked)

/-- The bytes of `s[:2]` as `strings.ToUpper` reads them, for a string of at least two
bytes: two one-byte characters, or one two-byte character, and the replacement character
U+FFFD for each byte cut off a longer character. -/
def firstTwoBytes (s : String) : List Char :=
  match s.data with
  | [] => []
  | c1 :: rest =>
    if c1.utf8Size = 1 then
      match rest with
      | [] => [c1]
      | c2 :: _ => [c1, if c2.utf8Size = 1 then c2 else Char.ofNat 0xFFFD]
    else if c1.utf8Size = 2 then [c1]
    else [Char.ofNat 0xFFFD, Char.ofNat 0xFFFD]

/-- Go `strings.ToUpper(s[:2])`; `none` is the run-time panic "slice bounds out of range"
of the slice expression when `len(s) < 2`. -/
def upperCode (s : String) : Option String :=
  if s.utf8ByteSize < 2 then none else some (toUpper (String.mk (firstTwoBytes s)))

/-- The body of the loop of `AirAsiaProvider.Search` on one record: `none` for a run-time
panic, an error for the early `return nil, err`, and otherwise the flight appended.
`parseRFC3339` is `time.Parse(time.RFC3339, s)` with `none` for a non-nil error, and
`roundMinutes h` is `int(math.Round(h * 60))`. -/
def airAsiaFlight (parseRFC3339 : String → Option Time) (roundMinutes : Rat → Int)
    (f : AirAsiaRecord) : Option (Except GoError Flight) :=
  match parseRFC3339 f.DepartTime with
  | none => some (.error (.permanent "airasia departure time"))
  | some departAt =>
    match parseRFC3339 f.ArriveTime with
    | none => some (.error (.permanent "airasia arrival time"))
    | some arriveAt =>
      let stops : Int :=
        if !f.DirectFlight then (if f.Stops.length = 0 then 1 else f.Stops.length) else 0
      let baggage := splitAirAsiaBaggage f.BaggageNote
      let duration := durationMinutes departAt arriveAt (roundMinutes f.DurationHours)
      match upperCode f.FlightCode with
      | none => none
      | some code =>
        some (.ok
          { ID := f.FlightCode ++ "_" ++ "AirAsia"
            Provider := "AirAsia"
            Airline := ⟨f.Airline, code⟩
            FlightNumber := f.FlightCode
            Departure := ⟨f.FromAirport, cityFromAirport f.FromAirport, departAt⟩
            Arrival := ⟨f.ToAirport, cityFromAirport f.ToAirport, arriveAt⟩
            DurationMinute := duration
            Stops := stops
            Price := ⟨f.PriceIDR, "IDR"⟩
            AvailableSeats := f.Seats
            CabinClass := toLower f.CabinClass
            Aircraft := none
            Amenities := []
            Baggage := ⟨baggage.1, baggage.2⟩
            BestValueScore := 0 })

/-! ## Sample records -/

/-- A sample record: Garuda GA 402 from CGK to DPS, 2024-06-01 08:00 to 10:50 (+07:00),
declared duration 45 minutes, priced 100 by provider "Garuda Indonesia". -/
def sampleFlight : Flight :=
  { ID := "GA402_Garuda", Provider := "Garuda Indonesia",
    Airline := ⟨"Garuda Indonesia", "GA"⟩, FlightNumber := "GA402",
    Departure := ⟨"CGK", "Jakarta", Time.ofUnix 1717203600 25200⟩,
    Arrival := ⟨"DPS", "Denpasar", Time.ofUnix 1717213800 25200⟩,
    DurationMinute := 45, Stops := 0, Price := ⟨100, "IDR"⟩, AvailableSeats := 9,
    CabinClass := "economy", Aircraft := none, Amenities := [], Baggage := ⟨"7kg", "20kg"⟩,
    BestValueScore := 0 }

/-- The sample record under another identifier. -/
def sampleFlightCopy : Flight :=
  { sampleFlight with ID := "GA402_Garuda_2" }

/-- The sample record at price 90. -/
def sampleFlightCheap : Flight :=
  { sampleFlight with ID := "GA402_AirAsia", Provider := "AirAsia", Price := ⟨90, "IDR"⟩ }

/-- The sample record with another identifier, price and declared duration. -/
def pricedFlight (id : String) (price duration : Int) : Flight :=
  { sampleFlight with ID := id, Price := ⟨price, "IDR"⟩, DurationMinute := duration }

/-- Three offers of equal duration priced `-2 ^ 62`, `0` and `2 ^ 62`: every price is a
Go `int`, the spread `2 ^ 63` is not. -/
def wideSpreadFlights : List Flight :=
  [pricedFlight "lo" (-(2 ^ 62)) 60, pricedFlight "mid" 0 60, pricedFlight "hi" (2 ^ 62) 60]

/-- The sample record arriving 30 seconds after its departure. -/
def shortHop : Flight :=
  { sampleFlight with Arrival := ⟨"DPS", "Denpasar", Time.ofUnix 1717203630 25200⟩ }

/-- The sample record arriving `2 ^ 18` minutes and 59.999999999 seconds after its
departure. -/
def longStay : Flight :=
  { sampleFlight with
    Arrival := ⟨"DPS", "Denpasar",
      ⟨sampleFlight.Departure.Time.nanos + 15728699999999999, 25200⟩⟩ }

/-- A cache of strings without clone function holding one entry, under the key
"CGK|DPS", that expires at 2024-06-01 08:00:00 UTC. -/
def sampleCache : Cache Unit String :=
  ⟨[("CGK|DPS", ⟨"stored", Time.ofUnix 1717228800 0⟩)], none⟩

/-- A limiter of interval 100 ms whose last call was recorded at 2024-06-01 08:00:00
UTC. -/
def sampleLimiter : RateLimiter :=
  ⟨100000000, Time.ofUnix 1717228800 0⟩

/-- The clock reading `ms` milliseconds after 2024-06-01 08:00:00 UTC. -/
def clockAt (ms : Int) : Time :=
  (Time.ofUnix 1717228800 0).Add (ms * 1000000)

/-- The sample record in memory: its aircraft label is the string at address 0 and its
amenities are the string array at address 0. -/
def Mem.sampleCell : Mem.Flight :=
  { ID := "GA402_Garuda", Provider := "Garuda Indonesia",
    Airline := ⟨"Garuda Indonesia", "GA"⟩, FlightNumber := "GA402",
    Departure := ⟨"CGK", "Jakarta", Time.ofUnix 1717203600 25200⟩,
    Arrival := ⟨"DPS", "Denpasar", Time.ofUnix 1717213800 25200⟩,
    DurationMinute := 170, Stops := 0, Price := ⟨100, "IDR"⟩, AvailableSeats := 9,
    CabinClass := "economy", Aircraft := some 0, Amenities := some ⟨0, 2⟩,
    Baggage := ⟨"7kg", "20kg"⟩, BestValueScore := 0 }

/-- A heap holding one output, at address 0: a round trip CGK to DPS with one outbound
flight, one failed provider ("Lion Air") and the return date "2024-06-08". -/
def Mem.sampleHeap : Mem.Heap :=
  { strings := ["Airbus A320", "2024-06-08"]
    stringArrays := [["wifi", "meal"], ["Lion Air"]]
    flightArrays := [[Mem.sampleCell]]
    outputs :=
      [{ SearchCriteria := ⟨"CGK", "DPS", "2024-06-01", some 1, 1, "economy"⟩
         Metadata := ⟨1, 4, 3, 1, 120, false, some ⟨1, 1⟩⟩
         Flights := some ⟨0, 1⟩
         ReturnFlights := none }] }

/-- An AirAsia record with well-formed times and the given flight code. -/
def airAsiaRecord (flightCode : String) : AirAsiaRecord :=
  { FlightCode := flightCode, Airline := "AirAsia", FromAirport := "CGK", ToAirport := "DPS",
    DepartTime := "2025-12-14T21:45:00Z", ArriveTime := "2025-12-15T00:25:00Z",
    DurationHours := 8 / 3, DirectFlight := true, PriceIDR := 650000, Seats := 67,
    CabinClass := "economy", BaggageNote := "Cabin baggage only, checked bags additional fee",
    Stops := [] }

/-- A reading of `int(math.Round(h * 60))` on numbers in range. -/
def sampleRoundMinutes (h : Rat) : Int :=
  ⌊h * 60 + 1 / 2⌋

/-- The sample record with airline code "GA|4" and flight number "02". -/
def barCodeFlight : Flight :=
  { sampleFlight with Airline := ⟨"Garuda Indonesia", "GA|4"⟩, FlightNumber := "02" }

/-- The sample record with airline code "GA" and flight number "4|02", at price 90. -/
def barNumberFlight : Flight :=
  { sampleFlight with FlightNumber := "4|02", Price := ⟨90, "IDR"⟩ }

/-! ## Specification vocabulary -/

/-- The number of whole minutes from `depart` to `arrive`, the interval being capped at the
largest `time.Duration` (`2 ^ 63 - 1` nanoseconds, about 292 years). -/
def wholeMinutes (depart arrive : Time) : Int :=
  min (arrive.nanos - depart.nanos) (2 ^ 63 - 1) / 60000000000

/-- The score the specification gives a flight: 0.6 times the price above the minimum over
the price range plus 0.4 times the duration above the minimum over the duration range, a
range equal to 0 being replaced by 1. -/
def bestValueFormula (minPrice maxPrice minDuration maxDuration : Int) (f : Flight) : Rat :=
  let priceRange : Rat := if maxPrice - minPrice = 0 then 1 else ((maxPrice - minPrice : Int) : Rat)
  let durationRange : Rat :=
    if maxDuration - minDuration = 0 then 1 else ((maxDuration - minDuration : Int) : Rat)
  6 / 10 * ((f.Price.Amount - minPrice : Int) : Rat) / priceRange +
    4 / 10 * ((f.DurationMinute - minDuration : Int) : Rat) / durationRange

/-- The value `m` is the least of the values `key f` over the flights of the list. -/
def IsMinOver (key : Flight → Int) (flights : List Flight) (m : Int) : Prop :=
  (∃ f ∈ flights, key f = m) ∧ ∀ f ∈ flights, m ≤ key f

/-- The value `m` is the greatest of the values `key f` over the flights of the list. -/
def IsMaxOver (key : Flight → Int) (flights : List Flight) (m : Int) : Prop :=
  (∃ f ∈ flights, key f = m) ∧ ∀ f ∈ flights, key f ≤ m

/-- The value a sort field orders flights by; `best_value` is the fallback. -/
def sortKey (field : String) (f : Flight) : Rat :=
  if field = "price" then (f.Price.Amount : Rat)
  else if field = "duration" then (f.DurationMinute : Rat)
  else if field = "departure" then (f.Departure.Time.nanos : Rat)
  else if field = "arrival" then (f.Arrival.Time.nanos : Rat)
  else f.BestValueScore

/-- The sort fields the specification names. -/
def sortFields : List String :=
  ["price", "duration", "departure", "arrival", "best_value"]

/-- The FilterSet with no bound set. -/
def emptyFilters : FlightFilters :=
  ⟨none, none, none, none, none, none, [], none, none, none, none⟩

/-- The record `f` is tied with `g` for the dedup: same key, same price, same provider. -/
def tiedWith (g f : Flight) : Bool :=
  decide (flightKey f = flightKey g ∧ f.Price.Amount = g.Price.Amount ∧
    f.Provider = g.Provider)

/-- The record `g` is at least as good as `f` for the dedup: not more expensive, and on
equal price its provider name is not greater. -/
def beats (g f : Flight) : Prop :=
  g.Price.Amount ≤ f.Price.Amount ∧
    (f.Price.Amount = g.Price.Amount → g.Provider ≤ f.Provider)

/-- Invariant of the loop of `compareAndDedupFlights` once the flights `seen` have been
visited and `m` is the value of `bestByKey`. -/
structure DedupInv (seen : List Flight) (m : List (String × Flight)) : Prop where
  keysNodup : (m.map Prod.fst).Nodup
  sound : ∀ p ∈ m, flightKey p.2 = p.1 ∧ p.2 ∈ seen
  best : ∀ p ∈ m, ∀ f ∈ seen, flightKey f = p.1 → beats p.2 f
  complete : ∀ f ∈ seen, ∃ g, (flightKey f, g) ∈ m
  first : ∀ p ∈ m, (seen.filter (tiedWith p.2)).head? = some p.2

/-- The backoff `searchWithRetry` holds after `k` doublings of the initial 80 ms, as a
`time.Duration` (a 64-bit count of nanoseconds). -/
def backoffAt : Nat → Int
  | 0 => initialBackoff
  | k + 1 => wrapInt64 (backoffAt k * 2)

/-- A provider that fails with a Transient error in each of its first `k` calls and then
succeeds with the sample record. -/
def failsThenSucceeds (k : Nat) (attempt : Nat) : SearchOutcome :=
  if attempt < k then .error (.temporary "overloaded") else .ok [sampleFlight]

/-- A context that is never done. -/
def neverDone (_ : Nat) : Option GoError := none

/-- The cache of a use case is the one `module.go` builds, as `Flights` keeps it: its
clone function is `CloneFlightsOutput` and no entry holds a nil pointer. -/
def CacheOk (u : Usecase) : Prop :=
  u.cache.clone = cloneStored ∧
    ∀ k e, mapGet u.cache.entries k = some e → e.value ≠ none

/-- The cache of the use case has no entry for the input that is still valid at the
reading of the clock in `cache.Get`. -/
def CacheMiss (u : Usecase) (env : Env) (input : FlightsInput) : Prop :=
  ∀ e, mapGet u.cache.entries (buildCacheKey input) = some e →
    env.getNow.After e.expiry = true

/-- The output a cache hit returns for the stored output `stored`. -/
def hitOutput (env : Env) (stored : FlightsOutput) : FlightsOutput :=
  { stored with
    Metadata := { stored.Metadata with
      CacheHit := true
      SearchTimeMs := sinceMilliseconds env.sinceNow env.start } }

/-! ## Sample use cases -/

/-- The search CGK to DPS on 2024-06-01 (+07:00) for one passenger in economy, with no
filter and no return date. -/
def sampleInput : FlightsInput :=
  { Origin := "CGK", Destination := "DPS", DepartureDate := Time.ofUnix 1717174800 25200,
    ReturnDate := none, Passengers := 1, CabinClass := "economy", Filters := emptyFilters,
    SortBy := ⟨"", ""⟩ }

/-- The sample record as offered by `provider` at `price`. -/
def offerAt (provider : String) (price : Int) : Flight :=
  { sampleFlight with ID := "GA402_" ++ provider, Provider := provider, Price := ⟨price, "IDR"⟩ }

/-- A provider that returns the same outcome at every call. -/
def fixedProvider (name : String) (outcome : SearchOutcome) : Provider :=
  ⟨name, fun _ _ _ => outcome⟩

/-- The use case of `module.go` (60 s cache, 1 s provider timeout, 2 retries) over the
given providers, with an empty cache. -/
def usecaseOver (providers : List Provider) : Usecase :=
  Usecase.New
    { Providers := providers, Cache := Cache.New cloneStored, CacheTTL := 60000000000,
      ProviderTimeout := 1000000000, MaxProviderRetries := 2 }

/-- Two providers that both return the sample record, priced 500000 and 450000. -/
def sampleUsecase : Usecase :=
  usecaseOver
    [fixedProvider "Garuda Indonesia" (.ok [offerAt "Garuda Indonesia" 500000]),
      fixedProvider "AirAsia" (.ok [offerAt "AirAsia" 450000])]

/-- Two providers that always fail, one with a Transient and one with a Permanent
error. -/
def failingUsecase : Usecase :=
  usecaseOver
    [fixedProvider "Garuda Indonesia" (.error (.temporary "overloaded")),
      fixedProvider "AirAsia" (.error (.permanent "bad gateway"))]

/-- A run that starts at 2024-06-01 08:00:00 UTC and takes 120 ms, with contexts that are
never done and results arriving in launch order. -/
def quietEnv : Env :=
  ⟨clockAt 0, clockAt 0, clockAt 120, clockAt 120, fun _ _ _ => none, fun _ => []⟩

/-- The same run under a request context that is cancelled from the start: every
context derived from it is done. -/
def cancelledEnv : Env :=
  { quietEnv with ctxDone := fun _ _ _ => some GoError.canceled }

/-- Two providers that return the error of the context, as the providers of the
repository do once their context is done. -/
def cancelledUsecase : Usecase :=
  usecaseOver
    [fixedProvider "Garuda Indonesia" (.error GoError.canceled),
      fixedProvider "AirAsia" (.error GoError.canceled)]

/-- Two strings differ at most in letter case and in surrounding white space. -/
def sameEntry (x y : String) : Prop :=
  equalFold (trimSpace x) (trimSpace y) = true

/-- The airlines an Airlines list names: its entries trimmed and lower-cased, the blank
ones dropped; one occurrence per entry. -/
def airlineNames (values : List String) : List String :=
  (values.map (fun v => toLower (trimSpace v))).filter (fun x => decide (x ≠ ""))

/-- The filter fields other than Airlines. -/
def boundsOf (filters : FlightFilters) : FlightFilters :=
  { filters with Airlines := [] }

/-- The sample search written with another origin spelling, cabin class spelling, sort
option and Airlines filter, and a price cap of 900000. -/
def sampleInputAs (origin cabinClass : String) (sortBy : SortOption) (airlines : List String) :
    FlightsInput :=
  { sampleInput with
    Origin := origin, CabinClass := cabinClass, SortBy := sortBy,
    Filters := { emptyFilters with MaxPrice := some 900000, Airlines := airlines } }

/-- The backing array of a slice, if it has one, is among the first `n` flight arrays. -/
def Mem.SliceIn (n : Nat) (s : Option Mem.Slice) : Prop :=
  ∀ x, s = some x → x.array < n

/-- An output as a first run of the sample search stores it. -/
def storedOutput : FlightsOutput :=
  { SearchCriteria := searchCriteriaOf sampleInput
    Metadata := ⟨1, 2, 2, 0, 120, false, []⟩
    Flights := [offerAt "AirAsia" 450000]
    ReturnFlights := [] }

/-- The sample use case with `storedOutput` in its cache under the key of the sample
search, valid until one minute after 2024-06-01 08:00:00 UTC. -/
def warmUsecase : Usecase :=
  { sampleUsecase with
    cache := ⟨[(buildCacheKey sampleInput, ⟨some storedOutput, clockAt 60000⟩)], cloneStored⟩ }

/-- The time `s` has the year, month and day of `date` and the hour, minute and second of
`w`, each read in the time's own location. -/
def OnDayAt (s date w : Time) : Prop :=
  s.Year = date.Year ∧ s.Month = date.Month ∧ s.Day = date.Day ∧
    s.Hour = w.Hour ∧ s.Minute = w.Minute ∧ s.Second = w.Second

/-- The sample search as a round trip returning on 2024-06-08, with departures wanted
after 08:00 (+07:00). -/
def roundTripInput : FlightsInput :=
  { sampleInput with
    ReturnDate := some (Time.ofUnix 1717779600 25200),
    Filters := { emptyFilters with DepartAfter := some (Time.ofUnix 1717203600 25200) } }

/-- The flights a leg gathers: those of the results without error, in order of arrival. -/
def gathered (u : Usecase) (env : Env) (leg : Leg) (req : SearchRequest) : List Flight :=
  (((u.searchProviders env leg req).filter (fun r => decide (r.err = none))).map
    (fun r => r.flights)).flatten

/-- What a leg of `Flights` does to the flights it gathered: normalize the durations,
filter on the criteria of the leg, deduplicate, score, sort. -/
def legPipeline (flights : List Flight) (origin destination cabinClass : String)
    (filters : FlightFilters) (date : Time) (sortBy : SortOption) : List Flight :=
  sortFlights
    (applyBestValueScore
      (compareAndDedupFlights
        (filterFlights (normalizeDurations flights) origin destination cabinClass filters
          date.formatDate)))
    sortBy

/-- Provider number `i` of the use case, `p`, returned without error on a leg of the call:
on the outbound leg, or on the return leg when there is one. -/
def succeededOn (u : Usecase) (env : Env) (input : FlightsInput) (i : Nat) (p : Provider) :
    Bool :=
  decide ((providerRun u.maxProviderRetries (env.ctxDone Leg.outbound i) Leg.outbound
      (outboundRequest input) p).err = none) ||
    match input.ReturnDate with
    | none => false
    | some returnDate =>
      decide ((providerRun u.maxProviderRetries (env.ctxDone Leg.inbound i) Leg.inbound
        (returnRequest input returnDate) p).err = none)

/-- A provider is marked successful in the stats of a leg. -/
def markedOk (outbound inbound : ProviderStats) (p : Provider) : Bool :=
  (mapGet outbound.success p.Name).getD false || (mapGet inbound.success p.Name).getD false

/-- The flight is eligible for the output of a leg: both timestamps are set, the arrival
is after the departure, it departs from the origin and arrives at the destination of the
leg (ignoring letter case), departs on the day of the leg and passes the FilterSet of the
leg. -/
def Eligible (x : Flight) (origin destination : String) (filters : FlightFilters)
    (date : Time) : Prop :=
  x.Departure.Time.IsZero = false ∧ x.Arrival.Time.IsZero = false ∧
    x.Arrival.Time.After x.Departure.Time = true ∧
    equalFold x.Departure.Airport origin = true ∧
    equalFold x.Arrival.Airport destination = true ∧
    x.Departure.Time.formatDate = date.formatDate ∧
    matchFilter x filters (normalizeSet filters.Airlines) = true

/-- The flight is one of the records a provider returned without error on the leg, up
to its `DurationMinute` and `BestValueScore`. -/
def FromProvider (u : Usecase) (env : Env) (leg : Leg) (req : SearchRequest) (x : Flight) :
    Prop :=
  ∃ i p g, u.providers[i]? = some p ∧
    (providerRun u.maxProviderRetries (env.ctxDone leg i) leg req p).err = none ∧
    g ∈ (providerRun u.maxProviderRetries (env.ctxDone leg i) leg req p).flights ∧
    { x with DurationMinute := g.DurationMinute, BestValueScore := g.BestValueScore } = g

/-- The value of a query parameter, under the first of its spellings that has a non-empty
value, without surrounding white space; the empty string when the parameter is missing or
blank. -/
def param (q : Values) (names : List String) : String :=
  trimSpace (firstNotEmpty (names.map q.Get))

/-- A numeric parameter is present and is not an integer `strconv.Atoi` accepts. -/
def MalformedInt (p : Parsers) (v : String) : Prop :=
  v ≠ "" ∧ p.atoi v = none

/-- A time parameter is present and is neither a clock time `HH:MM` nor an RFC 3339
time: a value of five bytes with a colon is read as a clock time, any other as RFC 3339. -/
def MalformedTime (p : Parsers) (v : String) : Prop :=
  v ≠ "" ∧
    if v.utf8ByteSize = 5 ∧ v.data.contains ':' = true then p.parseClock v = none
    else p.parseRFC3339 v = none

/-- The numeric filter parameters, each with its two spellings. -/
def intFilterParams : List (List String) :=
  [["min_price", "minPrice"], ["max_price", "maxPrice"], ["stops", "stop_count"],
    ["max_stops", "maxStops"], ["min_duration", "minDuration"],
    ["max_duration", "maxDuration"]]

/-- The time filter parameters, each with its two spellings. -/
def timeFilterParams : List (List String) :=
  [["depart_after", "departAfter"], ["depart_before", "departBefore"],
    ["arrive_after", "arriveAfter"], ["arrive_before", "arriveBefore"]]

/-- The query is invalid: origin or destination is blank, the departure date is missing
or not a date, the return date is present but not a date, the passenger count is present
but not an integer of at least 1, or a numeric or time filter is malformed. -/
def InvalidQuery (p : Parsers) (q : Values) : Prop :=
  param q ["origin"] = "" ∨ param q ["destination"] = "" ∨
    param q ["departureDate", "departure_date"] = "" ∨
    p.parseDate (param q ["departureDate", "departure_date"]) = none ∨
    (param q ["returnDate", "return_date"] ≠ "" ∧
      p.parseDate (param q ["returnDate", "return_date"]) = none) ∨
    (param q ["passengers"] ≠ "" ∧ ∀ n, p.atoi (param q ["passengers"]) = some n → n ≤ 0) ∨
    (∃ names ∈ intFilterParams, MalformedInt p (param q names)) ∨
    (∃ names ∈ timeFilterParams, MalformedTime p (param q names))

instance (p : Parsers) (v : String) : Decidable (MalformedInt p v) := by
  unfold MalformedInt; exact inferInstance

instance (p : Parsers) (v : String) : Decidable (MalformedTime p v) := by
  unfold MalformedTime; exact inferInstance

/-! ## Sample queries -/

/-- The number a non-empty string of decimal digits denotes. -/
def digitsValue (cs : List Char) : Option Nat :=
  if cs ≠ [] ∧ cs.all Char.isDigit = true then
    some (cs.foldl (fun n c => 10 * n + (c.toNat - 48)) 0)
  else none

/-- A model of `strconv.Atoi`: an optional sign and decimal digits, within 64 bits. -/
def sampleAtoi (s : String) : Option Int :=
  match s.data with
  | '-' :: ds => (digitsValue ds).bind fun n => if n ≤ 2 ^ 63 then some (-(n : Int)) else none
  | '+' :: ds => (digitsValue ds).bind fun n => if n < 2 ^ 63 then some (n : Int) else none
  | ds => (digitsValue ds).bind fun n => if n < 2 ^ 63 then some (n : Int) else none

/-- The number of days of a month of the Gregorian calendar. -/
def daysIn (year month : Nat) : Nat :=
  if month = 2 then
    if year % 4 = 0 ∧ (year % 100 ≠ 0 ∨ year % 400 = 0) then 29 else 28
  else if month = 4 ∨ month = 6 ∨ month = 9 ∨ month = 11 then 30
  else 31

/-- A model of `time.ParseInLocation("2006-01-02", s, loc)` for a location at `offset`. -/
def sampleParseDate (offset : Int) (s : String) : Option Time :=
  match s.data with
  | [y1, y2, y3, y4, '-', m1, m2, '-', d1, d2] =>
    match digitsValue [y1, y2, y3, y4], digitsValue [m1, m2], digitsValue [d1, d2] with
    | some y, some m, some d =>
      if 1 ≤ m ∧ m ≤ 12 ∧ 1 ≤ d ∧ d ≤ daysIn y m then
        some (Time.Date y m d 0 0 0 0 offset)
      else none
    | _, _, _ => none
  | _ => none

/-- A model of `time.ParseInLocation("15:04", s, loc)`: the clock time on January 1 of
year 0. -/
def sampleParseClock (offset : Int) (s : String) : Option Time :=
  match s.data with
  | [h1, h2, ':', m1, m2] =>
    match digitsValue [h1, h2], digitsValue [m1, m2] with
    | some h, some m =>
      if h < 24 ∧ m < 60 then some (Time.Date 0 1 1 h m 0 0 offset) else none
    | _, _ => none
  | _ => none

/-- A model of `time.Parse(time.RFC3339, s)` on times in UTC written without fraction,
`2006-01-02T15:04:05Z`; the library accepts offsets and fractions of a second as well. -/
def sampleParseRFC3339 (s : String) : Option Time :=
  match s.data with
  | [y1, y2, y3, y4, '-', m1, m2, '-', d1, d2, 'T', h1, h2, ':', n1, n2, ':', s1, s2, 'Z'] =>
    match sampleParseDate 0 (String.mk [y1, y2, y3, y4, '-', m1, m2, '-', d1, d2]),
      digitsValue [h1, h2], digitsValue [n1, n2], digitsValue [s1, s2] with
    | some day, some h, some n, some sec =>
      if h < 24 ∧ n < 60 ∧ sec < 60 then
        some (day.Add (((h : Int) * 3600 + (n : Int) * 60 + (sec : Int)) * 1000000000))
      else none
    | _, _, _, _ => none
  | _ => none

/-- The parsers on a server whose local time is seven hours east of UTC. -/
def sampleParsers : Parsers :=
  ⟨sampleAtoi, sampleParseDate 25200, sampleParseClock 25200, sampleParseRFC3339, 25200⟩

/-- The query `origin=CGK&destination=DPS&departureDate=2024-06-01&cabinClass=Business`. -/
def sampleQuery : Values :=
  [("origin", ["CGK"]), ("destination", ["DPS"]), ("departureDate", ["2024-06-01"]),
    ("cabinClass", ["Business"])]

/-- The sample query with `passengers=0` added. -/
def noPassengerQuery : Values :=
  sampleQuery ++ [("passengers", ["0"])]

/-- Exact integer arithmetic on a flight list: no difference of two prices and no difference
of two durations of the list leaves the range of a Go `int`, so the subtractions of
`applyBestValueScore` give the mathematical differences. -/
def ExactDifferences (flights : List Flight) : Prop :=
  ∀ a ∈ flights, ∀ b ∈ flights,
    wrapInt64 (a.Price.Amount - b.Price.Amount) = a.Price.Amount - b.Price.Amount ∧
    wrapInt64 (a.DurationMinute - b.DurationMinute) = a.DurationMinute - b.DurationMinute

instance (flights : List Flight) : Decidable (ExactDifferences flights) := by
  unfold ExactDifferences; exact inferInstance

/-- The number a list of decimal digits reads as. -/
def readDecimal (cs : List Char) : Nat :=
  cs.foldl (fun n c => 10 * n + (c.toNat - '0'.toNat)) 0

/-- The text `body` is `digits` separated by "." into groups of three counted from the
right: a first group of one to three characters, then groups of exactly three, joined by
single dots. -/
def GroupedByThree (digits body : List Char) : Prop :=
  ∃ (first : List Char) (rest : List (List Char)),
    body = ['.'].intercalate (first :: rest) ∧
    first ++ rest.flatten = digits ∧
    1 ≤ first.length ∧ first.length ≤ 3 ∧
    ∀ g ∈ rest, g.length = 3

/-- The rendering the specification gives an amount: "Rp. 0" for 0, and otherwise "Rp. ",
after a "-" for a negative amount, followed by the decimal digits of the absolute value
grouped by three, which without the dots read as the absolute value. -/
def IsRupiahText (amount : Int) (s : String) : Prop :=
  if amount = 0 then s = "Rp. 0"
  else
    ∃ body : List Char,
      s = (if amount < 0 then "-Rp. " else "Rp. ") ++ String.mk body ∧
      GroupedByThree (Nat.toDigits 10 amount.natAbs) body ∧
      (∀ c ∈ body.filter (fun c => c != '.'), c.isDigit = true) ∧
      readDecimal (body.filter (fun c => c != '.')) = amount.natAbs

/-- The groups written one after the other, each after a dot. -/
def dotted (gs : List (List Char)) : List Char :=
  (gs.map (fun g => '.' :: g)).flatten

/-- The characters a rendered number, day or time is made of: digits, the signs, the colon
and the letters `T` and `Z`. -/
def timeChar (c : Char) : Bool :=
  c.isDigit || c == '-' || c == ':' || c == 'T' || c == 'Z' || c == '+'

/-- Every character of `s` satisfies `p`. -/
def charsIn (p : Char → Bool) (s : String) : Prop :=
  ∀ c ∈ s.data, p c = true

instance (p : Char → Bool) (s : String) : Decidable (charsIn p s) := by
  unfold charsIn; exact inferInstance

/-- The text has no "|" character. -/
def barFree (s : String) : Prop :=
  '|' ∉ s.data

instance (s : String) : Decidable (barFree s) := by
  unfold barFree; exact inferInstance
/-- The six components of the dedup key agree: airline code, flight number, departure
airport and arrival airport up to letter case, and the departure and arrival times in their
RFC 3339 rendering. -/
def SameKeyParts (f g : Flight) : Prop :=
  equalFold f.Airline.Code g.Airline.Code = true ∧
  equalFold f.FlightNumber g.FlightNumber = true ∧
  equalFold f.Departure.Airport g.Departure.Airport = true ∧
  equalFold f.Arrival.Airport g.Arrival.Airport = true ∧
  f.Departure.Time.formatRFC3339 = g.Departure.Time.formatRFC3339 ∧
  f.Arrival.Time.formatRFC3339 = g.Arrival.Time.formatRFC3339

instance (f g : Flight) : Decidable (SameKeyParts f g) := by
  unfold SameKeyParts; exact inferInstance

/-- The text fields of the search and the entries of its Airlines filter have no "|". -/
def CleanInput (x : FlightsInput) : Prop :=
  barFree x.Origin ∧ barFree x.Destination ∧ barFree x.CabinClass ∧
  barFree x.SortBy.Field ∧ barFree x.SortBy.Order ∧ ∀ v ∈ x.Filters.Airlines, barFree v

instance (x : FlightsInput) : Decidable (CleanInput x) := by
  unfold CleanInput; exact inferInstance

/-- The sample search with the given origin and destination. -/
def sampleRoute (origin destination : String) : FlightsInput :=
  { sampleInput with Origin := origin, Destination := destination }

/-- The sample search for departures after the given instant. -/
def sampleDepartAfter (t : Time) : FlightsInput :=
  { sampleInput with Filters := { emptyFilters with DepartAfter := some t } }

/-! # Properties -/

/-! ## Lemmas on strings and maps -/

theorem stringLess_iff (a b : String) : stringLess a b = true ↔ a < b := by
  unfold stringLess
  rw [decide_eq_true_iff]
  exact String.lt_iff_toList_lt.symm

theorem mapGet_none {V : Type} {m : List (String × V)} {k : String}
    (h : mapGet m k = none) : ∀ p ∈ m, p.1 ≠ k := by
  induction m with
  | nil => intro p hp; cases hp
  | cons q rest ih =>
    obtain ⟨k', v'⟩ := q
    simp only [mapGet] at h
    by_cases hk : k' = k
    · simp [hk] at h
    · simp only [hk, if_false] at h
      intro p hp
      rcases List.mem_cons.1 hp with rfl | hp
      · exact hk
      · exact ih h p hp

theorem mapGet_some {V : Type} {m : List (String × V)} {k : String} {v : V}
    (h : mapGet m k = some v) : (k, v) ∈ m := by
  induction m with
  | nil => simp [mapGet] at h
  | cons q rest ih =>
    obtain ⟨k', v'⟩ := q
    simp only [mapGet] at h
    by_cases hk : k' = k
    · simp only [hk, if_true, Option.some.injEq] at h
      subst hk; subst h
      exact List.mem_cons_self _ _
    · simp only [hk, if_false] at h
      exact List.mem_cons_of_mem _ (ih h)

theorem mem_mapSet {V : Type} {m : List (String × V)} {k : String} {v : V} {p : String × V}
    (hnd : (m.map Prod.fst).Nodup) (h : p ∈ mapSet m k v) :
    p = (k, v) ∨ (p ∈ m ∧ p.1 ≠ k) := by
  induction m with
  | nil =>
    simp only [mapSet, List.mem_singleton] at h
    exact Or.inl h
  | cons q rest ih =>
    obtain ⟨k', v'⟩ := q
    simp only [List.map_cons, List.nodup_cons] at hnd
    simp only [mapSet] at h
    by_cases hk : k' = k
    · simp only [hk, if_true] at h
      rcases List.mem_cons.1 h with h | h
      · exact Or.inl h
      · refine Or.inr ⟨List.mem_cons_of_mem _ h, ?_⟩
        intro hp
        exact hnd.1 (hk ▸ hp ▸ List.mem_map_of_mem Prod.fst h)
    · simp only [hk, if_false] at h
      rcases List.mem_cons.1 h with h | h
      · subst h
        exact Or.inr ⟨List.mem_cons_self _ _, hk⟩
      · rcases ih hnd.2 h with h | ⟨h, hne⟩
        · exact Or.inl h
        · exact Or.inr ⟨List.mem_cons_of_mem _ h, hne⟩

theorem mem_mapSet_self {V : Type} (m : List (String × V)) (k : String) (v : V) :
    (k, v) ∈ mapSet m k v := by
  induction m with
  | nil => simp [mapSet]
  | cons q rest ih =>
    obtain ⟨k', v'⟩ := q
    simp only [mapSet]
    by_cases hk : k' = k
    · simp [hk]
    · simp only [hk, if_false]
      exact List.mem_cons_of_mem _ ih

theorem mem_mapSet_of_ne {V : Type} {m : List (String × V)} {k : String} {v : V}
    {p : String × V} (hp : p ∈ m) (hne : p.1 ≠ k) : p ∈ mapSet m k v := by
  induction m with
  | nil => cases hp
  | cons q rest ih =>
    obtain ⟨k', v'⟩ := q
    simp only [mapSet]
    by_cases hk : k' = k
    · simp only [hk, if_true]
      rcases List.mem_cons.1 hp with rfl | hp
      · exact absurd hk hne
      · exact List.mem_cons_of_mem _ hp
    · simp only [hk, if_false]
      rcases List.mem_cons.1 hp with rfl | hp
      · exact List.mem_cons_self _ _
      · exact List.mem_cons_of_mem _ (ih hp)

theorem keys_mapSet {V : Type} (m : List (String × V)) (k : String) (v : V) :
    ∀ x ∈ (mapSet m k v).map Prod.fst, x = k ∨ x ∈ m.map Prod.fst := by
  induction m with
  | nil => intro x hx; simp [mapSet] at hx; exact Or.inl hx
  | cons q rest ih =>
    obtain ⟨k', v'⟩ := q
    intro x hx
    simp only [mapSet] at hx
    by_cases hk : k' = k
    · simp only [hk, if_true, List.map_cons, List.mem_cons] at hx
      rcases hx with hx | hx
      · exact Or.inl hx
      · exact Or.inr (List.mem_cons_of_mem _ hx)
    · simp only [hk, if_false, List.map_cons, List.mem_cons] at hx
      rcases hx with hx | hx
      · exact Or.inr (by simp [hx])
      · rcases ih x hx with h | h
        · exact Or.inl h
        · exact Or.inr (List.mem_cons_of_mem _ h)

theorem nodup_mapSet {V : Type} {m : List (String × V)} (k : String) (v : V)
    (hnd : (m.map Prod.fst).Nodup) : ((mapSet m k v).map Prod.fst).Nodup := by
  induction m with
  | nil => simp [mapSet]
  | cons q rest ih =>
    obtain ⟨k', v'⟩ := q
    simp only [List.map_cons, List.nodup_cons] at hnd
    simp only [mapSet]
    by_cases hk : k' = k
    · simp only [hk, if_true, List.map_cons, List.nodup_cons]
      exact ⟨hk ▸ hnd.1, hnd.2⟩
    · simp only [hk, if_false, List.map_cons, List.nodup_cons]
      refine ⟨?_, ih hnd.2⟩
      intro hmem
      rcases keys_mapSet rest k v k' hmem with h | h
      · exact hk h
      · exact hnd.1 h

theorem map_entry_unique {V : Type} {m : List (String × V)} (hnd : (m.map Prod.fst).Nodup)
    {k : String} {a b : V} (ha : (k, a) ∈ m) (hb : (k, b) ∈ m) : a = b := by
  induction m with
  | nil => cases ha
  | cons q rest ih =>
    simp only [List.map_cons, List.nodup_cons] at hnd
    rcases List.mem_cons.1 ha with ha | ha <;> rcases List.mem_cons.1 hb with hb | hb
    · rw [← hb] at ha
      exact (Prod.mk.inj ha).2
    · have hq : q.1 ∈ rest.map Prod.fst := by
        rw [← ha]; exact List.mem_map.2 ⟨_, hb, rfl⟩
      exact absurd hq hnd.1
    · have hq : q.1 ∈ rest.map Prod.fst := by
        rw [← hb]; exact List.mem_map.2 ⟨_, ha, rfl⟩
      exact absurd hq hnd.1
    · exact ih hnd.2 ha hb

/-! ## Dedup: the loop invariant -/

theorem dedupInv_nil : DedupInv [] [] :=
  ⟨by simp, by simp, by simp, by simp, by simp⟩

theorem beats_refl (f : Flight) : beats f f :=
  ⟨le_refl _, fun _ => le_refl _⟩

theorem head?_append_left {α : Type} {l : List α} {a : α} (l' : List α)
    (h : l.head? = some a) : (l ++ l').head? = some a := by
  cases l with
  | nil => simp at h
  | cons x rest => simpa using h

theorem tiedWith_self (f : Flight) : tiedWith f f = true := by
  simp [tiedWith]

/-- Inserting or replacing the entry of `flightKey f` by `f` keeps the invariant when `f`
beats every visited flight of its key and is tied with none of them. -/
theorem dedupInv_set {seen : List Flight} {m : List (String × Flight)} (f : Flight)
    (inv : DedupInv seen m)
    (hbest : ∀ x ∈ seen, flightKey x = flightKey f →
      beats f x ∧ ¬ (x.Price.Amount = f.Price.Amount ∧ x.Provider = f.Provider)) :
    DedupInv (seen ++ [f]) (mapSet m (flightKey f) f) := by
  refine ⟨nodup_mapSet _ _ inv.keysNodup, ?_, ?_, ?_, ?_⟩
  · intro p hp
    rcases mem_mapSet inv.keysNodup hp with rfl | ⟨hp, _⟩
    · exact ⟨rfl, by simp⟩
    · exact ⟨(inv.sound p hp).1, List.mem_append_left _ (inv.sound p hp).2⟩
  · intro p hp x hx hkey
    rcases mem_mapSet inv.keysNodup hp with rfl | ⟨hp, hne⟩
    · rcases List.mem_append.1 hx with hx | hx
      · exact (hbest x hx hkey).1
      · rw [List.mem_singleton.1 hx]; exact beats_refl _
    · rcases List.mem_append.1 hx with hx | hx
      · exact inv.best p hp x hx hkey
      · rw [List.mem_singleton.1 hx] at hkey
        exact absurd hkey.symm hne
  · intro x hx
    by_cases hk : flightKey x = flightKey f
    · exact ⟨f, hk ▸ mem_mapSet_self _ _ _⟩
    · rcases List.mem_append.1 hx with hx | hx
      · obtain ⟨g, hg⟩ := inv.complete x hx
        exact ⟨g, mem_mapSet_of_ne hg hk⟩
      · rw [List.mem_singleton.1 hx] at hk
        exact absurd rfl hk
  · intro p hp
    rw [List.filter_append]
    rcases mem_mapSet inv.keysNodup hp with rfl | ⟨hp, _⟩
    · have hnone : seen.filter (tiedWith f) = [] := by
        rw [List.filter_eq_nil_iff]
        intro x hx htied
        simp only [tiedWith, decide_eq_true_eq] at htied
        exact (hbest x hx htied.1).2 htied.2
      simp [hnone, tiedWith_self]
    · exact head?_append_left _ (inv.first p hp)

/-- Leaving the map unchanged keeps the invariant when the current entry of
`flightKey f` beats `f`. -/
theorem dedupInv_keep {seen : List Flight} {m : List (String × Flight)} (f current : Flight)
    (inv : DedupInv seen m) (hcur : (flightKey f, current) ∈ m) (hbeats : beats current f) :
    DedupInv (seen ++ [f]) m := by
  refine ⟨inv.keysNodup, ?_, ?_, ?_, ?_⟩
  · intro p hp
    exact ⟨(inv.sound p hp).1, List.mem_append_left _ (inv.sound p hp).2⟩
  · intro p hp x hx hkey
    rcases List.mem_append.1 hx with hx | hx
    · exact inv.best p hp x hx hkey
    · rw [List.mem_singleton.1 hx] at hkey ⊢
      obtain ⟨k, g⟩ := p
      simp only at hkey
      subst hkey
      rw [map_entry_unique inv.keysNodup hp hcur]
      exact hbeats
  · intro x hx
    rcases List.mem_append.1 hx with hx | hx
    · exact inv.complete x hx
    · rw [List.mem_singleton.1 hx]
      exact ⟨current, hcur⟩
  · intro p hp
    rw [List.filter_append]
    exact head?_append_left _ (inv.first p hp)

theorem dedupInv_step {seen : List Flight} {m : List (String × Flight)} (f : Flight)
    (inv : DedupInv seen m) : DedupInv (seen ++ [f]) (dedupStep m f) := by
  unfold dedupStep
  cases hget : mapGet m (flightKey f) with
  | none =>
    simp only [hget]
    refine dedupInv_set f inv ?_
    intro x hx hkey
    obtain ⟨g, hg⟩ := inv.complete x hx
    exact absurd hkey (mapGet_none hget _ hg)
  | some current =>
    have hcur := mapGet_some hget
    simp only [hget]
    by_cases h1 : f.Price.Amount < current.Price.Amount
    · rw [if_pos h1]
      refine dedupInv_set f inv ?_
      intro x hx hkey
      have hb := inv.best _ hcur x hx hkey
      have hlt : f.Price.Amount < x.Price.Amount := lt_of_lt_of_le h1 hb.1
      exact ⟨⟨le_of_lt hlt, fun he => absurd he (ne_of_gt hlt)⟩,
        fun he => absurd he.1 (ne_of_gt hlt)⟩
    · rw [if_neg h1]
      by_cases h2 : f.Price.Amount = current.Price.Amount ∧
          stringLess f.Provider current.Provider = true
      · rw [if_pos h2]
        refine dedupInv_set f inv ?_
        intro x hx hkey
        have hb := inv.best _ hcur x hx hkey
        have hlt := (stringLess_iff _ _).1 h2.2
        have hprov : x.Price.Amount = f.Price.Amount → f.Provider < x.Provider :=
          fun he => lt_of_lt_of_le hlt (hb.2 (he.trans h2.1))
        exact ⟨⟨h2.1 ▸ hb.1, fun he => le_of_lt (hprov he)⟩,
          fun he => absurd he.2 (ne_of_gt (hprov he.1))⟩
      · rw [if_neg h2]
        refine dedupInv_keep f current inv hcur ⟨not_lt.1 h1, fun he => ?_⟩
        rw [stringLess_iff] at h2
        exact not_lt.1 (fun hlt => h2 ⟨he, hlt⟩)

theorem dedupInv_foldl (l : List Flight) :
    ∀ (seen : List Flight) (m : List (String × Flight)), DedupInv seen m →
      DedupInv (seen ++ l) (l.foldl dedupStep m) := by
  induction l with
  | nil => intro seen m inv; simpa using inv
  | cons f rest ih =>
    intro seen m inv
    have h := ih (seen ++ [f]) (dedupStep m f) (dedupInv_step f inv)
    simpa [List.append_assoc] using h

theorem dedupInv_all (flights : List Flight) :
    DedupInv flights (flights.foldl dedupStep []) := by
  simpa using dedupInv_foldl flights [] [] dedupInv_nil

/-! ## Dedup: the contract -/

theorem dedup_entry {flights : List Flight} {g : Flight}
    (hg : g ∈ compareAndDedupFlights flights) :
    (flightKey g, g) ∈ flights.foldl dedupStep [] := by
  have inv := dedupInv_all flights
  unfold compareAndDedupFlights at hg
  by_cases h0 : flights.length = 0
  · rw [List.length_eq_zero] at h0
    subst h0
    simp at hg
  · rw [if_neg h0] at hg
    obtain ⟨p, hp, rfl⟩ := List.mem_map.1 hg
    rw [(inv.sound p hp).1]
    exact hp

theorem dedup_subset {flights : List Flight} {g : Flight}
    (hg : g ∈ compareAndDedupFlights flights) : g ∈ flights :=
  ((dedupInv_all flights).sound _ (dedup_entry hg)).2

theorem dedup_keys_distinct (flights : List Flight) :
    (compareAndDedupFlights flights).Pairwise (fun a b => flightKey a ≠ flightKey b) := by
  have inv := dedupInv_all flights
  unfold compareAndDedupFlights
  by_cases h0 : flights.length = 0
  · rw [List.length_eq_zero] at h0
    subst h0
    simp
  · rw [if_neg h0]
    unfold mapValues
    rw [List.pairwise_map]
    have hk := inv.keysNodup
    unfold List.Nodup at hk
    rw [List.pairwise_map] at hk
    refine hk.imp_of_mem ?_
    intro p q hp hq hne
    rw [(inv.sound p hp).1, (inv.sound q hq).1]
    exact hne

theorem dedup_complete {flights : List Flight} {f : Flight} (hf : f ∈ flights) :
    ∃ g ∈ compareAndDedupFlights flights, flightKey g = flightKey f := by
  have inv := dedupInv_all flights
  obtain ⟨g, hg⟩ := inv.complete f hf
  refine ⟨g, ?_, (inv.sound _ hg).1⟩
  unfold compareAndDedupFlights
  have h0 : ¬ flights.length = 0 := by
    intro h0
    rw [List.length_eq_zero] at h0
    subst h0
    cases hf
  rw [if_neg h0]
  exact List.mem_map.2 ⟨_, hg, rfl⟩

theorem dedup_best {flights : List Flight} {g f : Flight}
    (hg : g ∈ compareAndDedupFlights flights) (hf : f ∈ flights)
    (hkey : flightKey f = flightKey g) : beats g f :=
  (dedupInv_all flights).best _ (dedup_entry hg) f hf hkey

theorem dedup_nodup (flights : List Flight) : (compareAndDedupFlights flights).Nodup :=
  List.Pairwise.imp (fun {a b} (h : flightKey a ≠ flightKey b) (heq : a = b) =>
    h (congrArg flightKey heq)) (dedup_keys_distinct flights)

theorem dedup_first {flights : List Flight} {g : Flight}
    (hg : g ∈ compareAndDedupFlights flights) :
    (flights.filter (tiedWith g)).head? = some g :=
  (dedupInv_all flights).first (flightKey g, g) (dedup_entry hg)

theorem tiedWith_congr {g g' : Flight} (hkey : flightKey g' = flightKey g)
    (hprice : g'.Price.Amount = g.Price.Amount) (hprov : g'.Provider = g.Provider) :
    tiedWith g' = tiedWith g := by
  funext f
  simp only [tiedWith, hkey, hprice, hprov]

/-- The survivor of a key group of a list and the survivor of the same group of a
permutation of the list agree on key, price and provider. -/
theorem dedup_match_of_perm {l₁ l₂ : List Flight} (hperm : l₁.Perm l₂) {f : Flight}
    (hf : f ∈ compareAndDedupFlights l₁) :
    ∃ g ∈ compareAndDedupFlights l₂, flightKey g = flightKey f ∧
      g.Price.Amount = f.Price.Amount ∧ g.Provider = f.Provider := by
  have hf1 : f ∈ l₁ := dedup_subset hf
  obtain ⟨g, hg, hkey⟩ := dedup_complete (hperm.mem_iff.1 hf1)
  have hg1 : g ∈ l₁ := hperm.mem_iff.2 (dedup_subset hg)
  have hfg : beats f g := dedup_best hf hg1 hkey
  have hgf : beats g f := dedup_best hg (hperm.mem_iff.1 hf1) hkey.symm
  have hprice : g.Price.Amount = f.Price.Amount := le_antisymm hgf.1 hfg.1
  exact ⟨g, hg, hkey, hprice, le_antisymm (hgf.2 hprice.symm) (hfg.2 hprice)⟩

/-- With no two distinct flights tied on key, price and provider, the survivors of a list
are survivors of each of its permutations. -/
theorem dedup_mem_of_perm {l₁ l₂ : List Flight} (hperm : l₁.Perm l₂)
    (htie : ∀ a ∈ l₁, ∀ b ∈ l₁, flightKey a = flightKey b →
      a.Price.Amount = b.Price.Amount → a.Provider = b.Provider → a = b)
    {f : Flight} (hf : f ∈ compareAndDedupFlights l₁) : f ∈ compareAndDedupFlights l₂ := by
  obtain ⟨g, hg, hkey, hprice, hprov⟩ := dedup_match_of_perm hperm hf
  have hg1 : g ∈ l₁ := hperm.mem_iff.2 (dedup_subset hg)
  rw [htie f (dedup_subset hf) g hg1 hkey.symm hprice.symm hprov.symm]
  exact hg

/-- When the flights tied with one another stand in the same relative order in a list and
in a permutation of it, the survivors of the list are survivors of the permutation. -/
theorem dedup_mem_of_tied_order {l₁ l₂ : List Flight} (hperm : l₁.Perm l₂)
    (hord : ∀ g : Flight, l₁.filter (tiedWith g) = l₂.filter (tiedWith g))
    {f : Flight} (hf : f ∈ compareAndDedupFlights l₁) : f ∈ compareAndDedupFlights l₂ := by
  obtain ⟨g, hg, hkey, hprice, hprov⟩ := dedup_match_of_perm hperm hf
  have h1 := dedup_first hf
  have h2 := dedup_first hg
  rw [tiedWith_congr hkey hprice hprov, ← hord f, h1] at h2
  rw [Option.some.inj h2]
  exact hg

theorem tied_order_of_provider_order {l₁ l₂ : List Flight}
    (hprov : ∀ name : String, l₁.filter (fun f => decide (f.Provider = name)) =
      l₂.filter (fun f => decide (f.Provider = name)))
    (g : Flight) : l₁.filter (tiedWith g) = l₂.filter (tiedWith g) := by
  have hsplit : ∀ l : List Flight, l.filter (tiedWith g) =
      (l.filter (fun f => decide (f.Provider = g.Provider))).filter
        (fun f => decide (flightKey f = flightKey g ∧ f.Price.Amount = g.Price.Amount)) := by
    intro l
    rw [List.filter_filter]
    apply List.filter_congr
    intro f _
    by_cases hk : flightKey f = flightKey g <;>
      by_cases hp : f.Price.Amount = g.Price.Amount <;>
      by_cases hv : f.Provider = g.Provider <;> simp [tiedWith, hk, hp, hv]
  rw [hsplit l₁, hsplit l₂, hprov]

theorem same_set_of_mem_iff {l₁ l₂ : List Flight}
    (h12 : ∀ f, f ∈ compareAndDedupFlights l₁ → f ∈ compareAndDedupFlights l₂)
    (h21 : ∀ f, f ∈ compareAndDedupFlights l₂ → f ∈ compareAndDedupFlights l₁) :
    (∀ f, f ∈ compareAndDedupFlights l₁ ↔ f ∈ compareAndDedupFlights l₂) ∧
      (compareAndDedupFlights l₁).Perm (compareAndDedupFlights l₂) :=
  ⟨fun f => ⟨h12 f, h21 f⟩,
    (List.perm_ext_iff_of_nodup (dedup_nodup l₁) (dedup_nodup l₂)).2
      (fun f => ⟨h12 f, h21 f⟩)⟩

/-- Claim C1. For every list of flights, `compareAndDedupFlights` returns a list in which
(a) every element is an element of the input, (b) no two elements have the same
`flightKey`, (c) every `flightKey` of the input occurs in the output, and (d) each output
flight has the lowest `Price.Amount` among the input flights of its key and, among those
of that lowest price, the smallest `Provider` name.  Two flights of one key priced 100 and
90 leave the one priced 90; two flights of one key, both priced 100, from providers
"Batik Air" and "AirAsia" leave the one from AirAsia. -/
theorem compareAndDedupFlights_contract (flights : List Flight) :
    (∀ g ∈ compareAndDedupFlights flights, g ∈ flights) ∧
    (compareAndDedupFlights flights).Pairwise (fun a b => flightKey a ≠ flightKey b) ∧
    (∀ f ∈ flights, ∃ g ∈ compareAndDedupFlights flights, flightKey g = flightKey f) ∧
    (∀ g ∈ compareAndDedupFlights flights, ∀ f ∈ flights, flightKey f = flightKey g →
      g.Price.Amount ≤ f.Price.Amount ∧
        (f.Price.Amount = g.Price.Amount → g.Provider ≤ f.Provider)) ∧
    (∀ a b : Flight, flightKey a = flightKey b → a.Price.Amount = 100 →
      b.Price.Amount = 90 →
      compareAndDedupFlights [a, b] = [b] ∧ compareAndDedupFlights [b, a] = [b]) ∧
    (∀ a b : Flight, flightKey a = flightKey b → a.Price.Amount = 100 →
      b.Price.Amount = 100 → a.Provider = "Batik Air" → b.Provider = "AirAsia" →
      compareAndDedupFlights [a, b] = [b] ∧ compareAndDedupFlights [b, a] = [b]) := by
  refine ⟨fun g hg => dedup_subset hg, dedup_keys_distinct flights,
    fun f hf => dedup_complete hf, fun g hg f hf hkey => dedup_best hg hf hkey, ?_, ?_⟩
  · intro a b hkey ha hb
    have hlt : b.Price.Amount < a.Price.Amount := by rw [ha, hb]; decide
    constructor
    · simp [compareAndDedupFlights, dedupStep, mapGet, mapSet, mapValues, hkey, hlt]
    · have hne : ¬ a.Price.Amount = b.Price.Amount := fun h => absurd hlt (by rw [h]; exact lt_irrefl _)
      simp [compareAndDedupFlights, dedupStep, mapGet, mapSet, mapValues, hkey,
        not_lt.2 (le_of_lt hlt), hne]
  · intro a b hkey ha hb hpa hpb
    have hlt : stringLess b.Provider a.Provider = true := by rw [hpa, hpb]; decide
    have hnlt : ¬ stringLess a.Provider b.Provider = true := by rw [hpa, hpb]; decide
    constructor
    · simp [compareAndDedupFlights, dedupStep, mapGet, mapSet, mapValues, hkey, ha, hb, hlt]
    · simp [compareAndDedupFlights, dedupStep, mapGet, mapSet, mapValues, hkey, ha, hb, hnlt]

/-- Claim C1, witness: of the sample record priced 100 and its offer priced 90 under the
same key, the offer priced 90 is left, whichever comes first. -/
theorem compareAndDedupFlights_contract_witness :
    compareAndDedupFlights [sampleFlight, sampleFlightCheap] = [sampleFlightCheap] ∧
    compareAndDedupFlights [sampleFlightCheap, sampleFlight] = [sampleFlightCheap] :=
  (compareAndDedupFlights_contract []).2.2.2.2.1 sampleFlight sampleFlightCheap
    (by decide) (by decide) (by decide)

/-- Claim C2 (amended). For every list of flights and every permutation of that list,
the records `compareAndDedupFlights` leaves for the two agree, key group by key group, on
key, price and provider; and it returns the same set of flight records for both (the two
results have the same elements and are permutations of each other) whenever the
permutation keeps the flights tied on key, price and provider in their relative order: in
particular when no two distinct flights of the list are so tied, and when the flights of
each provider stand in the same relative order in both lists, as they do in whatever order
the results of the providers are collected and merged. -/
theorem compareAndDedupFlights_order_independent (l₁ l₂ : List Flight) (hperm : l₁.Perm l₂) :
    (∀ f ∈ compareAndDedupFlights l₁, ∃ g ∈ compareAndDedupFlights l₂,
      flightKey g = flightKey f ∧ g.Price.Amount = f.Price.Amount ∧
        g.Provider = f.Provider) ∧
    ((∀ g : Flight, l₁.filter (tiedWith g) = l₂.filter (tiedWith g)) →
      (∀ f, f ∈ compareAndDedupFlights l₁ ↔ f ∈ compareAndDedupFlights l₂) ∧
      (compareAndDedupFlights l₁).Perm (compareAndDedupFlights l₂)) ∧
    ((∀ a ∈ l₁, ∀ b ∈ l₁, flightKey a = flightKey b →
        a.Price.Amount = b.Price.Amount → a.Provider = b.Provider → a = b) →
      (∀ f, f ∈ compareAndDedupFlights l₁ ↔ f ∈ compareAndDedupFlights l₂) ∧
      (compareAndDedupFlights l₁).Perm (compareAndDedupFlights l₂)) ∧
    ((∀ name : String, l₁.filter (fun f => decide (f.Provider = name)) =
        l₂.filter (fun f => decide (f.Provider = name))) →
      (∀ f, f ∈ compareAndDedupFlights l₁ ↔ f ∈ compareAndDedupFlights l₂) ∧
      (compareAndDedupFlights l₁).Perm (compareAndDedupFlights l₂)) := by
  have hord : (∀ g : Flight, l₁.filter (tiedWith g) = l₂.filter (tiedWith g)) →
      (∀ f, f ∈ compareAndDedupFlights l₁ ↔ f ∈ compareAndDedupFlights l₂) ∧
      (compareAndDedupFlights l₁).Perm (compareAndDedupFlights l₂) :=
    fun h => same_set_of_mem_iff (fun _ => dedup_mem_of_tied_order hperm h)
      (fun _ => dedup_mem_of_tied_order hperm.symm (fun g => (h g).symm))
  refine ⟨fun f hf => dedup_match_of_perm hperm hf, hord, ?_,
    fun h => hord (tied_order_of_provider_order h)⟩
  intro htie
  have htie2 : ∀ a ∈ l₂, ∀ b ∈ l₂, flightKey a = flightKey b →
      a.Price.Amount = b.Price.Amount → a.Provider = b.Provider → a = b :=
    fun a ha b hb => htie a (hperm.mem_iff.2 ha) b (hperm.mem_iff.2 hb)
  exact same_set_of_mem_iff (fun _ => dedup_mem_of_perm hperm htie)
    (fun _ => dedup_mem_of_perm hperm.symm htie2)

/-- Claim C2, witness: the sample record and its cheaper offer, in both orders. -/
theorem compareAndDedupFlights_order_independent_witness :
    (∀ f, f ∈ compareAndDedupFlights [sampleFlight, sampleFlightCheap] ↔
      f ∈ compareAndDedupFlights [sampleFlightCheap, sampleFlight]) ∧
    (compareAndDedupFlights [sampleFlight, sampleFlightCheap]).Perm
      (compareAndDedupFlights [sampleFlightCheap, sampleFlight]) :=
  (compareAndDedupFlights_order_independent [sampleFlight, sampleFlightCheap]
    [sampleFlightCheap, sampleFlight] (List.Perm.swap _ _ _)).2.2.1 (by decide)

/-- Claim C2, counterexample: two records that agree on key, price and provider and differ
in their identifier; each order of the two keeps the record visited first, so the
surviving record depends on the order of the input. -/
theorem compareAndDedupFlights_order_dependent :
    [sampleFlight, sampleFlightCopy].Perm [sampleFlightCopy, sampleFlight] ∧
    compareAndDedupFlights [sampleFlight, sampleFlightCopy] = [sampleFlight] ∧
    compareAndDedupFlights [sampleFlightCopy, sampleFlight] = [sampleFlightCopy] ∧
    sampleFlight ≠ sampleFlightCopy ∧
    ¬ (∀ f, f ∈ compareAndDedupFlights [sampleFlight, sampleFlightCopy] ↔
      f ∈ compareAndDedupFlights [sampleFlightCopy, sampleFlight]) := by
  have h1 : compareAndDedupFlights [sampleFlight, sampleFlightCopy] = [sampleFlight] := by
    decide
  have h2 : compareAndDedupFlights [sampleFlightCopy, sampleFlight] = [sampleFlightCopy] := by
    decide
  have hne : sampleFlight ≠ sampleFlightCopy := by decide
  refine ⟨List.Perm.swap _ _ _, h1, h2, hne, ?_⟩
  intro h
  have := (h sampleFlight).1 (by rw [h1]; exact List.mem_singleton.2 rfl)
  rw [h2] at this
  exact hne (List.mem_singleton.1 this)

/-! ## Filter -/

theorem filter_loop {α : Type} (p q : α → Bool) (l : List α) :
    ∀ init : List α,
      l.foldl (fun acc x => if !p x then acc else if !q x then acc else acc ++ [x]) init =
        init ++ l.filter (fun x => p x && q x) := by
  induction l with
  | nil => intro init; simp
  | cons x rest ih =>
    intro init
    rw [List.foldl_cons, ih]
    cases hp : p x <;> cases hq : q x <;> simp [List.filter_cons, hp, hq]

theorem filterFlights_eq_filter (flights : List Flight) (origin destination cabinClass : String)
    (filters : FlightFilters) (criteriaDate : String) :
    filterFlights flights origin destination cabinClass filters criteriaDate =
      flights.filter (fun f =>
        matchFlightCriteria f origin destination cabinClass criteriaDate &&
          matchFilter f filters (normalizeSet filters.Airlines)) := by
  unfold filterFlights
  simp only
  rw [filter_loop]
  simp

theorem equalFold_iff (s t : String) : equalFold s t = true ↔ toLower s = toLower t := by
  unfold equalFold
  exact beq_iff_eq

theorem matchFlightCriteria_iff (f : Flight) (origin destination cabinClass criteriaDate : String) :
    matchFlightCriteria f origin destination cabinClass criteriaDate = true ↔
      toLower f.Departure.Airport = toLower origin ∧
      toLower f.Arrival.Airport = toLower destination ∧
      f.Departure.Time.nanos ≠ 0 ∧ f.Arrival.Time.nanos ≠ 0 ∧
      f.Departure.Time.nanos < f.Arrival.Time.nanos ∧
      f.Departure.Time.formatDate = criteriaDate ∧
      (cabinClass ≠ "" → toLower f.CabinClass = toLower cabinClass) := by
  unfold matchFlightCriteria
  simp only [← equalFold_iff, Time.IsZero, Time.After]
  by_cases h1 : equalFold f.Departure.Airport origin = true
  · by_cases h2 : equalFold f.Arrival.Airport destination = true
    · by_cases h3 : f.Departure.Time.nanos = 0
      · simp [h1, h2, h3]
      · by_cases h4 : f.Arrival.Time.nanos = 0
        · simp [h1, h2, h3, h4]
        · by_cases h5 : f.Departure.Time.nanos < f.Arrival.Time.nanos
          · by_cases h6 : f.Departure.Time.formatDate = criteriaDate
            · by_cases h7 : cabinClass = ""
              · simp [h1, h2, h3, h4, h5, h6, h7]
              · by_cases h8 : equalFold f.CabinClass cabinClass = true
                · simp [h1, h2, h3, h4, h5, h6, h7, h8]
                · simp [h1, h2, h3, h4, h5, h6, h7, h8]
            · simp [h1, h2, h3, h4, h5, h6]
          · simp [h1, h2, h3, h4, h5]
    · simp [h1, h2]
  · simp [h1]

/-- Claim C3. `filterFlights` returns exactly the flights of the input, in input order,
that satisfy both `matchFlightCriteria` and `matchFilter`; `matchFlightCriteria` holds iff
the departure airport equals the origin and the arrival airport the destination ignoring
letter case, both timestamps are non-zero, arrival is strictly after departure, the
calendar day of the departure equals the search date and, when a cabin class is
requested, the cabin class equals it ignoring letter case; a flight whose departure
airport differs from the origin is excluded whatever its other fields are. -/
theorem filterFlights_contract (flights : List Flight) (origin destination cabinClass : String)
    (filters : FlightFilters) (criteriaDate : String) :
    filterFlights flights origin destination cabinClass filters criteriaDate =
      flights.filter (fun f =>
        matchFlightCriteria f origin destination cabinClass criteriaDate &&
          matchFilter f filters (normalizeSet filters.Airlines)) ∧
    (∀ f : Flight,
      matchFlightCriteria f origin destination cabinClass criteriaDate = true ↔
        toLower f.Departure.Airport = toLower origin ∧
        toLower f.Arrival.Airport = toLower destination ∧
        f.Departure.Time.nanos ≠ 0 ∧ f.Arrival.Time.nanos ≠ 0 ∧
        f.Departure.Time.nanos < f.Arrival.Time.nanos ∧
        f.Departure.Time.formatDate = criteriaDate ∧
        (cabinClass ≠ "" → toLower f.CabinClass = toLower cabinClass)) ∧
    (∀ f : Flight, toLower f.Departure.Airport ≠ toLower origin →
      f ∉ filterFlights flights origin destination cabinClass filters criteriaDate) := by
  refine ⟨filterFlights_eq_filter _ _ _ _ _ _, fun f => matchFlightCriteria_iff _ _ _ _ _, ?_⟩
  intro f hne hmem
  rw [filterFlights_eq_filter, List.mem_filter, Bool.and_eq_true] at hmem
  exact hne ((matchFlightCriteria_iff _ _ _ _ _).1 hmem.2.1).1

/-- Claim C3, witness: the sample record departs from CGK and is excluded from a search
with origin SUB. -/
theorem filterFlights_contract_witness :
    sampleFlight ∉ filterFlights [sampleFlight] "SUB" "DPS" "economy" emptyFilters "2024-06-01" :=
  (filterFlights_contract [sampleFlight] "SUB" "DPS" "economy" emptyFilters "2024-06-01").2.2
    sampleFlight (by decide)

theorem setAnd_eq_true_iff {α : Type} (p : Option α) (c : α → Bool) :
    setAnd p c = true ↔ ∃ v, p = some v ∧ c v = true := by
  cases p <;> simp [setAnd]

theorem setAnd_not_iff {α : Type} (p : Option α) (c : α → Bool) :
    ¬ setAnd p c = true ↔ ∀ v, p = some v → ¬ c v = true := by
  cases p <;> simp [setAnd]

/-- A chain of two guarded early returns accepts iff neither guard fires. -/
theorem two_guards (a b : Bool) :
    (if a then false else if b then false else true) = true ↔ ¬ a = true ∧ ¬ b = true := by
  cases a <;> cases b <;> simp

theorem matchPriceFilter_iff (f : Flight) (filters : FlightFilters) :
    matchPriceFilter f filters = true ↔
      (∀ v, filters.MinPrice = some v → v ≤ f.Price.Amount) ∧
      (∀ v, filters.MaxPrice = some v → f.Price.Amount ≤ v) := by
  unfold matchPriceFilter
  rw [two_guards, setAnd_not_iff, setAnd_not_iff]
  simp only [decide_eq_true_eq, not_lt, gt_iff_lt]

theorem matchStopsFilter_iff (f : Flight) (filters : FlightFilters) :
    matchStopsFilter f filters = true ↔
      (∀ v, filters.Stops = some v → f.Stops = v) ∧
      (∀ v, filters.MaxStops = some v → f.Stops ≤ v) := by
  unfold matchStopsFilter
  rw [two_guards, setAnd_not_iff, setAnd_not_iff]
  simp only [decide_eq_true_eq, not_lt, gt_iff_lt, ne_eq, not_not]

theorem matchDurationFilter_iff (f : Flight) (filters : FlightFilters) :
    matchDurationFilter f filters = true ↔
      (∀ v, filters.MinDuration = some v → v ≤ f.DurationMinute) ∧
      (∀ v, filters.MaxDuration = some v → f.DurationMinute ≤ v) := by
  unfold matchDurationFilter
  rw [two_guards, setAnd_not_iff, setAnd_not_iff]
  simp only [decide_eq_true_eq, not_lt, gt_iff_lt]

theorem matchTimeFilter_iff (f : Flight) (filters : FlightFilters) :
    matchTimeFilter f filters = true ↔
      (∀ t, filters.DepartAfter = some t → t.nanos ≤ f.Departure.Time.nanos) ∧
      (∀ t, filters.DepartBefore = some t → f.Departure.Time.nanos ≤ t.nanos) ∧
      (∀ t, filters.ArriveAfter = some t → t.nanos ≤ f.Arrival.Time.nanos) ∧
      (∀ t, filters.ArriveBefore = some t → f.Arrival.Time.nanos ≤ t.nanos) := by
  have h4 : ∀ a b c d : Bool,
      (if a then false else if b then false else if c then false else if d then false
        else true) = true ↔ ¬ a = true ∧ ¬ b = true ∧ ¬ c = true ∧ ¬ d = true := by
    intro a b c d
    cases a <;> cases b <;> cases c <;> cases d <;> simp
  unfold matchTimeFilter
  rw [h4, setAnd_not_iff, setAnd_not_iff, setAnd_not_iff, setAnd_not_iff]
  simp only [Time.Before, Time.After, decide_eq_true_eq, not_lt]

theorem matchFilter_iff (f : Flight) (filters : FlightFilters)
    (airlineFilter : List (String × Unit)) :
    matchFilter f filters airlineFilter = true ↔
      matchPriceFilter f filters = true ∧ matchStopsFilter f filters = true ∧
      matchDurationFilter f filters = true ∧ matchAirlineFilter f airlineFilter = true ∧
      matchTimeFilter f filters = true := by
  unfold matchFilter
  cases matchPriceFilter f filters <;> cases matchStopsFilter f filters <;>
    cases matchDurationFilter f filters <;> cases matchAirlineFilter f airlineFilter <;>
    simp

/-- Claim C4. `matchFilter` accepts a flight iff the price is at least `MinPrice` and at
most `MaxPrice`, the stop count equals `Stops` and is at most `MaxStops`, the duration is
at least `MinDuration` and at most `MaxDuration`, the airline filter accepts the flight,
the departure is not before `DepartAfter` and not after `DepartBefore`, and the arrival is
not before `ArriveAfter` and not after `ArriveBefore`, each condition only for a bound that
is set; the empty FilterSet accepts every flight. -/
theorem matchFilter_contract (f : Flight) (filters : FlightFilters)
    (airlineFilter : List (String × Unit)) :
    (matchFilter f filters airlineFilter = true ↔
      (∀ v, filters.MinPrice = some v → v ≤ f.Price.Amount) ∧
      (∀ v, filters.MaxPrice = some v → f.Price.Amount ≤ v) ∧
      (∀ v, filters.Stops = some v → f.Stops = v) ∧
      (∀ v, filters.MaxStops = some v → f.Stops ≤ v) ∧
      (∀ v, filters.MinDuration = some v → v ≤ f.DurationMinute) ∧
      (∀ v, filters.MaxDuration = some v → f.DurationMinute ≤ v) ∧
      matchAirlineFilter f airlineFilter = true ∧
      (∀ t, filters.DepartAfter = some t → t.nanos ≤ f.Departure.Time.nanos) ∧
      (∀ t, filters.DepartBefore = some t → f.Departure.Time.nanos ≤ t.nanos) ∧
      (∀ t, filters.ArriveAfter = some t → t.nanos ≤ f.Arrival.Time.nanos) ∧
      (∀ t, filters.ArriveBefore = some t → f.Arrival.Time.nanos ≤ t.nanos)) ∧
    matchFilter f emptyFilters (normalizeSet emptyFilters.Airlines) = true := by
  constructor
  · rw [matchFilter_iff, matchPriceFilter_iff, matchStopsFilter_iff, matchDurationFilter_iff,
      matchTimeFilter_iff]
    tauto
  · rw [matchFilter_iff, matchPriceFilter_iff, matchStopsFilter_iff, matchDurationFilter_iff,
      matchTimeFilter_iff]
    simp [emptyFilters, normalizeSet, matchAirlineFilter]

/-! ## Airline filter -/

theorem mapGet_isSome_iff {V : Type} (m : List (String × V)) (k : String) :
    (mapGet m k).isSome = true ↔ k ∈ m.map Prod.fst := by
  induction m with
  | nil => simp [mapGet]
  | cons q rest ih =>
    obtain ⟨k', v'⟩ := q
    simp only [mapGet, List.map_cons, List.mem_cons]
    by_cases hk : k' = k
    · simp [hk]
    · simp only [hk, if_false, ih]
      constructor
      · exact Or.inr
      · rintro (h | h)
        · exact absurd h.symm hk
        · exact h

theorem mem_keys_mapSet {V : Type} (m : List (String × V)) (k : String) (v : V) (x : String) :
    x ∈ (mapSet m k v).map Prod.fst ↔ x = k ∨ x ∈ m.map Prod.fst := by
  constructor
  · exact keys_mapSet m k v x
  · rintro (h | h)
    · subst h
      exact List.mem_map.2 ⟨_, mem_mapSet_self m x v, rfl⟩
    · by_cases hk : x = k
      · subst hk
        exact List.mem_map.2 ⟨_, mem_mapSet_self m x v, rfl⟩
      · obtain ⟨p, hp, rfl⟩ := List.mem_map.1 h
        exact List.mem_map.2 ⟨p, mem_mapSet_of_ne hp hk, rfl⟩

theorem toLower_eq_empty_iff (s : String) : toLower s = "" ↔ s = "" := by
  unfold toLower
  constructor
  · intro h
    have hd : s.data.map Char.toLower = [] := congrArg String.data h
    have : s.data = [] := List.map_eq_nil_iff.1 hd
    exact String.ext this
  · intro h
    subst h
    rfl

/-- The keys left by the loop of `normalizeSet`. -/
theorem normalizeSet_loop (values : List String) :
    ∀ (init : List (String × Unit)) (x : String),
      x ∈ (values.foldl
          (fun set v =>
            let value := toLower (trimSpace v)
            if value = "" then set else mapSet set value ())
          init).map Prod.fst ↔
        x ∈ init.map Prod.fst ∨
          ∃ v ∈ values, trimSpace v ≠ "" ∧ toLower (trimSpace v) = x := by
  induction values with
  | nil => intro init x; simp
  | cons v rest ih =>
    intro init x
    rw [List.foldl_cons, ih]
    by_cases hv : toLower (trimSpace v) = ""
    · have hv' : trimSpace v = "" := (toLower_eq_empty_iff _).1 hv
      simp only [hv, if_true, List.mem_cons, exists_eq_or_imp]
      constructor
      · rintro (h | h)
        · exact Or.inl h
        · exact Or.inr (Or.inr h)
      · rintro (h | ⟨hne, _⟩ | h)
        · exact Or.inl h
        · exact absurd hv' hne
        · exact Or.inr h
    · have hv' : trimSpace v ≠ "" := fun h => hv ((toLower_eq_empty_iff _).2 h)
      simp only [hv, if_false, mem_keys_mapSet, List.mem_cons, exists_eq_or_imp]
      constructor
      · rintro ((h | h) | h)
        · exact Or.inr (Or.inl ⟨hv', h.symm⟩)
        · exact Or.inl h
        · exact Or.inr (Or.inr h)
      · rintro (h | ⟨_, h⟩ | h)
        · exact Or.inl (Or.inr h)
        · exact Or.inl (Or.inl h.symm)
        · exact Or.inr h

theorem mem_normalizeSet (values : List String) (x : String) :
    x ∈ (normalizeSet values).map Prod.fst ↔
      ∃ v ∈ values, trimSpace v ≠ "" ∧ toLower (trimSpace v) = x := by
  unfold normalizeSet
  by_cases h0 : values.length = 0
  · rw [List.length_eq_zero] at h0
    subst h0
    simp
  · rw [if_neg h0, normalizeSet_loop]
    simp

theorem matchAirlineFilter_iff (f : Flight) (airlineFilter : List (String × Unit)) :
    matchAirlineFilter f airlineFilter = true ↔
      airlineFilter = [] ∨ toLower f.Airline.Name ∈ airlineFilter.map Prod.fst ∨
        toLower f.Airline.Code ∈ airlineFilter.map Prod.fst := by
  unfold matchAirlineFilter
  rw [← mapGet_isSome_iff, ← mapGet_isSome_iff]
  by_cases h0 : airlineFilter = []
  · simp [h0]
  · have hlen : ¬ airlineFilter.length = 0 := fun h => h0 (List.length_eq_zero.1 h)
    rw [if_neg hlen]
    cases (mapGet airlineFilter (toLower f.Airline.Name)).isSome <;>
      cases (mapGet airlineFilter (toLower f.Airline.Code)).isSome <;> simp [h0]

/-- Claim C5 (amended). If the allowed-airlines list has at least one non-blank entry (an
entry that is not empty once the white space around it is removed), the flight passes the
airline filter iff its airline name or its airline code equals some non-blank entry,
comparing case-insensitively and ignoring the white space around the entry; if the list is
empty or all its entries are blank, every flight passes. -/
theorem airlineFilter_contract (f : Flight) (values : List String) :
    ((∃ v ∈ values, trimSpace v ≠ "") →
      (matchAirlineFilter f (normalizeSet values) = true ↔
        ∃ v ∈ values, trimSpace v ≠ "" ∧
          (toLower (trimSpace v) = toLower f.Airline.Name ∨
            toLower (trimSpace v) = toLower f.Airline.Code))) ∧
    ((∀ v ∈ values, trimSpace v = "") →
      matchAirlineFilter f (normalizeSet values) = true) := by
  constructor
  · rintro ⟨v, hv, hne⟩
    have hnonempty : normalizeSet values ≠ [] := by
      intro h
      have hmem : toLower (trimSpace v) ∈ (normalizeSet values).map Prod.fst :=
        (mem_normalizeSet values _).2 ⟨v, hv, hne, rfl⟩
      rw [h] at hmem
      cases hmem
    rw [matchAirlineFilter_iff, mem_normalizeSet, mem_normalizeSet]
    constructor
    · rintro (h | ⟨w, hw, hwne, hweq⟩ | ⟨w, hw, hwne, hweq⟩)
      · exact absurd h hnonempty
      · exact ⟨w, hw, hwne, Or.inl hweq⟩
      · exact ⟨w, hw, hwne, Or.inr hweq⟩
    · rintro ⟨w, hw, hwne, hweq | hweq⟩
      · exact Or.inr (Or.inl ⟨w, hw, hwne, hweq⟩)
      · exact Or.inr (Or.inr ⟨w, hw, hwne, hweq⟩)
  · intro hall
    rw [matchAirlineFilter_iff]
    left
    cases hset : normalizeSet values with
    | nil => rfl
    | cons q rest =>
      have hmem : q.1 ∈ (normalizeSet values).map Prod.fst := by
        rw [hset]; exact List.mem_map.2 ⟨q, List.mem_cons_self _ _, rfl⟩
      obtain ⟨v, hv, hne, _⟩ := (mem_normalizeSet values _).1 hmem
      exact absurd (hall v hv) hne

/-- Claim C5, witness: the list `[" ga", ""]` has a non-blank entry, so the sample record
passes iff its name or code matches a non-blank entry. -/
theorem airlineFilter_contract_witness :
    matchAirlineFilter sampleFlight (normalizeSet [" ga", ""]) = true ↔
      ∃ v ∈ [" ga", ""], trimSpace v ≠ "" ∧
        (toLower (trimSpace v) = toLower sampleFlight.Airline.Name ∨
          toLower (trimSpace v) = toLower sampleFlight.Airline.Code) :=
  (airlineFilter_contract sampleFlight [" ga", ""]).1 ⟨" ga", by decide, by decide⟩

/-- Claim C5, counterexample: the list of two empty entries (the request parameter
`airlines=,`) is not empty and no entry of it equals the airline name or code of the
sample record, yet the record passes the airline filter. -/
theorem airlineFilter_blank_entry :
    ["", ""] ≠ ([] : List String) ∧
    matchAirlineFilter sampleFlight (normalizeSet ["", ""]) = true ∧
    ¬ (∃ v ∈ ["", ""], toLower (trimSpace v) = toLower sampleFlight.Airline.Name ∨
        toLower (trimSpace v) = toLower sampleFlight.Airline.Code) := by
  decide

/-! ## Score -/

theorem wrapInt64_of_inRange {x : Int} (h0 : -(2 ^ 63) ≤ x) (h1 : x < 2 ^ 63) :
    wrapInt64 x = x := by
  unfold wrapInt64
  rw [Int.emod_eq_of_lt (by omega) (by omega)]
  omega

theorem foldl_min_spec (key : Flight → Int) (l : List Flight) :
    ∀ m0 : Int,
      (l.foldl (fun m f => if key f < m then key f else m) m0 ≤ m0) ∧
      (∀ f ∈ l, l.foldl (fun m f => if key f < m then key f else m) m0 ≤ key f) ∧
      (l.foldl (fun m f => if key f < m then key f else m) m0 = m0 ∨
        ∃ f ∈ l, key f = l.foldl (fun m f => if key f < m then key f else m) m0) := by
  induction l with
  | nil => intro m0; simp
  | cons x rest ih =>
    intro m0
    rw [List.foldl_cons]
    obtain ⟨h1, h2, h3⟩ := ih (if key x < m0 then key x else m0)
    have hstep : (if key x < m0 then key x else m0) ≤ m0 ∧
        (if key x < m0 then key x else m0) ≤ key x := by
      split <;> constructor <;> omega
    refine ⟨le_trans h1 hstep.1, ?_, ?_⟩
    · intro f hf
      rcases List.mem_cons.1 hf with rfl | hf
      · exact le_trans h1 hstep.2
      · exact h2 f hf
    · rcases h3 with h3 | ⟨f, hf, h3⟩
      · by_cases hx : key x < m0
        · rw [if_pos hx] at h3
          exact Or.inr ⟨x, List.mem_cons_self _ _, by rw [if_pos hx]; exact h3.symm⟩
        · rw [if_neg hx] at h3
          rw [if_neg hx]
          exact Or.inl h3
      · exact Or.inr ⟨f, List.mem_cons_of_mem _ hf, h3⟩

theorem foldl_max_spec (key : Flight → Int) (l : List Flight) :
    ∀ m0 : Int,
      (m0 ≤ l.foldl (fun m f => if key f > m then key f else m) m0) ∧
      (∀ f ∈ l, key f ≤ l.foldl (fun m f => if key f > m then key f else m) m0) ∧
      (l.foldl (fun m f => if key f > m then key f else m) m0 = m0 ∨
        ∃ f ∈ l, key f = l.foldl (fun m f => if key f > m then key f else m) m0) := by
  induction l with
  | nil => intro m0; simp
  | cons x rest ih =>
    intro m0
    rw [List.foldl_cons]
    obtain ⟨h1, h2, h3⟩ := ih (if key x > m0 then key x else m0)
    have hstep : m0 ≤ (if key x > m0 then key x else m0) ∧
        key x ≤ (if key x > m0 then key x else m0) := by
      split <;> constructor <;> omega
    refine ⟨le_trans hstep.1 h1, ?_, ?_⟩
    · intro f hf
      rcases List.mem_cons.1 hf with rfl | hf
      · exact le_trans hstep.2 h1
      · exact h2 f hf
    · rcases h3 with h3 | ⟨f, hf, h3⟩
      · by_cases hx : key x > m0
        · rw [if_pos hx] at h3
          exact Or.inr ⟨x, List.mem_cons_self _ _, by rw [if_pos hx]; exact h3.symm⟩
        · rw [if_neg hx] at h3
          rw [if_neg hx]
          exact Or.inl h3
      · exact Or.inr ⟨f, List.mem_cons_of_mem _ hf, h3⟩

/-- The four components of the first loop of `applyBestValueScore` run independently. -/
theorem extremes_foldl (l : List Flight) :
    ∀ e : Extremes,
      l.foldl extremesStep e =
        ⟨l.foldl (fun m f => if f.Price.Amount < m then f.Price.Amount else m) e.minPrice,
         l.foldl (fun m f => if f.Price.Amount > m then f.Price.Amount else m) e.maxPrice,
         l.foldl (fun m f => if f.DurationMinute < m then f.DurationMinute else m) e.minDuration,
         l.foldl (fun m f => if f.DurationMinute > m then f.DurationMinute else m)
           e.maxDuration⟩ := by
  induction l with
  | nil => intro e; rfl
  | cons x rest ih =>
    intro e
    rw [List.foldl_cons, ih]
    rfl

theorem isMinOver_foldl (key : Flight → Int) (first : Flight) (rest : List Flight) :
    IsMinOver key (first :: rest)
      (rest.foldl (fun m f => if key f < m then key f else m) (key first)) := by
  obtain ⟨h1, h2, h3⟩ := foldl_min_spec key rest (key first)
  constructor
  · rcases h3 with h3 | ⟨f, hf, h3⟩
    · exact ⟨first, List.mem_cons_self _ _, h3.symm⟩
    · exact ⟨f, List.mem_cons_of_mem _ hf, h3⟩
  · intro f hf
    rcases List.mem_cons.1 hf with rfl | hf
    · exact h1
    · exact h2 f hf

theorem isMaxOver_foldl (key : Flight → Int) (first : Flight) (rest : List Flight) :
    IsMaxOver key (first :: rest)
      (rest.foldl (fun m f => if key f > m then key f else m) (key first)) := by
  obtain ⟨h1, h2, h3⟩ := foldl_max_spec key rest (key first)
  constructor
  · rcases h3 with h3 | ⟨f, hf, h3⟩
    · exact ⟨first, List.mem_cons_self _ _, h3.symm⟩
    · exact ⟨f, List.mem_cons_of_mem _ hf, h3⟩
  · intro f hf
    rcases List.mem_cons.1 hf with rfl | hf
    · exact h1
    · exact h2 f hf

theorem isMinOver_unique {key : Flight → Int} {flights : List Flight} {a b : Int}
    (ha : IsMinOver key flights a) (hb : IsMinOver key flights b) : a = b := by
  obtain ⟨⟨fa, hfa, rfl⟩, ha2⟩ := ha
  obtain ⟨⟨fb, hfb, rfl⟩, hb2⟩ := hb
  exact le_antisymm (ha2 fb hfb) (hb2 fa hfa)

theorem isMaxOver_unique {key : Flight → Int} {flights : List Flight} {a b : Int}
    (ha : IsMaxOver key flights a) (hb : IsMaxOver key flights b) : a = b := by
  obtain ⟨⟨fa, hfa, rfl⟩, ha2⟩ := ha
  obtain ⟨⟨fb, hfb, rfl⟩, hb2⟩ := hb
  exact le_antisymm (hb2 fa hfa) (ha2 fb hfb)

/-- With the extremes of the whole list at hand and both spreads below `2 ^ 63`,
`applyBestValueScore` rewrites the score of each flight by the formula and nothing else. -/
theorem applyBestValueScore_eq (flights : List Flight)
    (minPrice maxPrice minDuration maxDuration : Int)
    (hminP : IsMinOver (fun f => f.Price.Amount) flights minPrice)
    (hmaxP : IsMaxOver (fun f => f.Price.Amount) flights maxPrice)
    (hminD : IsMinOver (fun f => f.DurationMinute) flights minDuration)
    (hmaxD : IsMaxOver (fun f => f.DurationMinute) flights maxDuration)
    (hP : maxPrice - minPrice < 2 ^ 63) (hD : maxDuration - minDuration < 2 ^ 63) :
    applyBestValueScore flights =
      flights.map (fun f =>
        { f with BestValueScore :=
            bestValueFormula minPrice maxPrice minDuration maxDuration f }) := by
  cases flights with
  | nil => rfl
  | cons first rest =>
    have e1 : rest.foldl (fun m f => if f.Price.Amount < m then f.Price.Amount else m)
        first.Price.Amount = minPrice :=
      isMinOver_unique (isMinOver_foldl (fun f => f.Price.Amount) first rest) hminP
    have e2 : rest.foldl (fun m f => if f.Price.Amount > m then f.Price.Amount else m)
        first.Price.Amount = maxPrice :=
      isMaxOver_unique (isMaxOver_foldl (fun f => f.Price.Amount) first rest) hmaxP
    have e3 : rest.foldl (fun m f => if f.DurationMinute < m then f.DurationMinute else m)
        first.DurationMinute = minDuration :=
      isMinOver_unique (isMinOver_foldl (fun f => f.DurationMinute) first rest) hminD
    have e4 : rest.foldl (fun m f => if f.DurationMinute > m then f.DurationMinute else m)
        first.DurationMinute = maxDuration :=
      isMaxOver_unique (isMaxOver_foldl (fun f => f.DurationMinute) first rest) hmaxD
    have hPle : minPrice ≤ maxPrice := by
      obtain ⟨⟨f, hf, rfl⟩, _⟩ := hminP
      exact hmaxP.2 f hf
    have hDle : minDuration ≤ maxDuration := by
      obtain ⟨⟨f, hf, rfl⟩, _⟩ := hminD
      exact hmaxD.2 f hf
    have wP : wrapInt64 (maxPrice - minPrice) = maxPrice - minPrice :=
      wrapInt64_of_inRange (by omega) hP
    have wD : wrapInt64 (maxDuration - minDuration) = maxDuration - minDuration :=
      wrapInt64_of_inRange (by omega) hD
    simp only [applyBestValueScore, extremes_foldl, e1, e2, e3, e4, wP, wD]
    apply List.map_congr_left
    intro f hf
    have hp1 := hminP.2 f hf
    have hp2 := hmaxP.2 f hf
    have hd1 := hminD.2 f hf
    have hd2 := hmaxD.2 f hf
    simp only at hp1 hp2 hd1 hd2
    have wp : wrapInt64 (f.Price.Amount - minPrice) = f.Price.Amount - minPrice :=
      wrapInt64_of_inRange (by omega) (by omega)
    have wd : wrapInt64 (f.DurationMinute - minDuration) = f.DurationMinute - minDuration :=
      wrapInt64_of_inRange (by omega) (by omega)
    rw [wp, wd]
    have hscore :
        ((f.Price.Amount - minPrice : Int) : Rat) /
            (if ((maxPrice - minPrice : Int) : Rat) = 0 then 1
              else ((maxPrice - minPrice : Int) : Rat)) * (6 / 10) +
          ((f.DurationMinute - minDuration : Int) : Rat) /
            (if ((maxDuration - minDuration : Int) : Rat) = 0 then 1
              else ((maxDuration - minDuration : Int) : Rat)) * (4 / 10) =
        bestValueFormula minPrice maxPrice minDuration maxDuration f := by
      unfold bestValueFormula
      simp only [Int.cast_eq_zero]
      ring
    rw [hscore]

/-- Claim C6 (amended). For every flight list whose price spread `maxPrice - minPrice`
and duration spread `maxDuration - minDuration` are below `2 ^ 63`, the extremes being
taken over the whole list, `applyBestValueScore` sets the score of each flight to
0.6·(price − minPrice)/priceRange + 0.4·(duration − minDuration)/durationRange, a range
equal to 0 being replaced by 1, and changes no other field, nor the length or the order of
the list; the spreads are below `2 ^ 63` in particular when no price and no duration is
negative; on the empty list it does nothing; a single-flight list scores 0; two flights
priced 100 and 200 with durations both 60 score 0 and 0.6. -/
theorem applyBestValueScore_contract (flights : List Flight) :
    (∀ minPrice maxPrice minDuration maxDuration : Int,
      IsMinOver (fun f => f.Price.Amount) flights minPrice →
      IsMaxOver (fun f => f.Price.Amount) flights maxPrice →
      IsMinOver (fun f => f.DurationMinute) flights minDuration →
      IsMaxOver (fun f => f.DurationMinute) flights maxDuration →
      maxPrice - minPrice < 2 ^ 63 → maxDuration - minDuration < 2 ^ 63 →
      applyBestValueScore flights =
        flights.map (fun f =>
          { f with BestValueScore :=
              bestValueFormula minPrice maxPrice minDuration maxDuration f })) ∧
    (∀ minPrice maxPrice minDuration maxDuration : Int,
      IsMinOver (fun f => f.Price.Amount) flights minPrice →
      IsMaxOver (fun f => f.Price.Amount) flights maxPrice →
      IsMinOver (fun f => f.DurationMinute) flights minDuration →
      IsMaxOver (fun f => f.DurationMinute) flights maxDuration →
      (∀ f ∈ flights, 0 ≤ f.Price.Amount ∧ inInt64 f.Price.Amount ∧
        0 ≤ f.DurationMinute ∧ inInt64 f.DurationMinute) →
      applyBestValueScore flights =
        flights.map (fun f =>
          { f with BestValueScore :=
              bestValueFormula minPrice maxPrice minDuration maxDuration f })) ∧
    (applyBestValueScore flights).length = flights.length ∧
    applyBestValueScore [] = [] ∧
    (∀ f : Flight, applyBestValueScore [f] = [{ f with BestValueScore := 0 }]) ∧
    (∀ a b : Flight, a.Price.Amount = 100 → b.Price.Amount = 200 →
      a.DurationMinute = 60 → b.DurationMinute = 60 →
      applyBestValueScore [a, b] =
        [{ a with BestValueScore := 0 }, { b with BestValueScore := 6 / 10 }]) := by
  refine ⟨?_, ?_, ?_, rfl, ?_, ?_⟩
  · intro minPrice maxPrice minDuration maxDuration h1 h2 h3 h4 hP hD
    exact applyBestValueScore_eq flights minPrice maxPrice minDuration maxDuration
      h1 h2 h3 h4 hP hD
  · intro minPrice maxPrice minDuration maxDuration h1 h2 h3 h4 hpos
    have hP : maxPrice - minPrice < 2 ^ 63 := by
      obtain ⟨⟨f, hf, hfe⟩, _⟩ := h1
      obtain ⟨⟨g, hg, hge⟩, _⟩ := h2
      have hf0 := (hpos f hf).1
      have hg1 := (hpos g hg).2.1.2
      simp only at hfe hge
      omega
    have hD : maxDuration - minDuration < 2 ^ 63 := by
      obtain ⟨⟨f, hf, hfe⟩, _⟩ := h3
      obtain ⟨⟨g, hg, hge⟩, _⟩ := h4
      have hf0 := (hpos f hf).2.2.1
      have hg1 := (hpos g hg).2.2.2.2
      simp only at hfe hge
      omega
    exact applyBestValueScore_eq flights minPrice maxPrice minDuration maxDuration
      h1 h2 h3 h4 hP hD
  · cases flights with
    | nil => rfl
    | cons first rest => simp [applyBestValueScore]
  · intro f
    have hw : wrapInt64 0 = 0 := by decide
    simp [applyBestValueScore, hw]
  · intro a b ha hb hda hdb
    rw [applyBestValueScore_eq [a, b] 100 200 60 60
      ⟨⟨a, by simp, ha⟩, by simp [ha, hb]⟩ ⟨⟨b, by simp, hb⟩, by simp [ha, hb]⟩
      ⟨⟨a, by simp, hda⟩, by simp [hda, hdb]⟩ ⟨⟨a, by simp, hda⟩, by simp [hda, hdb]⟩
      (by norm_num) (by norm_num)]
    simp only [List.map, bestValueFormula, ha, hb, hda, hdb]
    norm_num

/-- Claim C6, witness: the sample record offered at 100 and at 200, both lasting 60
minutes. -/
theorem applyBestValueScore_contract_witness :
    applyBestValueScore [pricedFlight "a" 100 60, pricedFlight "b" 200 60] =
      [pricedFlight "a" 100 60, pricedFlight "b" 200 60].map (fun f =>
        { f with BestValueScore := bestValueFormula 100 200 60 60 f }) :=
  (applyBestValueScore_contract [pricedFlight "a" 100 60, pricedFlight "b" 200 60]).1
    100 200 60 60
    (by unfold IsMinOver; decide) (by unfold IsMaxOver; decide)
    (by unfold IsMinOver; decide) (by unfold IsMaxOver; decide)
    (by decide) (by decide)

/-- Claim C6, counterexample: on three offers priced `-2 ^ 62`, `0` and `2 ^ 62` the
difference `maxPrice - minPrice` wraps around to `-2 ^ 63`, and the middle offer is scored
`-3/10` where the formula gives `3/10`. -/
theorem applyBestValueScore_wide_spread :
    IsMinOver (fun f => f.Price.Amount) wideSpreadFlights (-(2 ^ 62)) ∧
    IsMaxOver (fun f => f.Price.Amount) wideSpreadFlights (2 ^ 62) ∧
    IsMinOver (fun f => f.DurationMinute) wideSpreadFlights 60 ∧
    IsMaxOver (fun f => f.DurationMinute) wideSpreadFlights 60 ∧
    (∀ f ∈ wideSpreadFlights, inInt64 f.Price.Amount ∧ inInt64 f.DurationMinute) ∧
    (applyBestValueScore wideSpreadFlights).map (fun f => f.BestValueScore) =
      [0, -3 / 10, 3 / 5] ∧
    wideSpreadFlights.map (bestValueFormula (-(2 ^ 62)) (2 ^ 62) 60 60) =
      [0, 3 / 10, 3 / 5] := by
  refine ⟨by unfold IsMinOver wideSpreadFlights; decide,
    by unfold IsMaxOver wideSpreadFlights; decide,
    by unfold IsMinOver wideSpreadFlights; decide,
    by unfold IsMaxOver wideSpreadFlights; decide,
    by unfold wideSpreadFlights; decide, ?_, ?_⟩
  · simp only [wideSpreadFlights, applyBestValueScore, pricedFlight, sampleFlight, List.foldl,
      extremesStep, List.map]
    norm_num [wrapInt64]
  · simp only [wideSpreadFlights, bestValueFormula, pricedFlight, sampleFlight, List.map]
    norm_num

/-! ## Sort -/

theorem sinkLeft_perm {α : Type} (less : α → α → Bool) (x : α) (before : List α) :
    (sinkLeft less x before).Perm (x :: before) := by
  induction before with
  | nil => exact List.Perm.refl _
  | cons y rest ih =>
    unfold sinkLeft
    cases less x y
    · exact List.Perm.refl _
    · exact ((List.Perm.cons y ih).trans (List.Perm.swap x y rest))

theorem insertion_loop_perm {α : Type} (less : α → α → Bool) (l : List α) :
    ∀ acc : List α,
      (l.foldl (fun sortedRev x => sinkLeft less x sortedRev) acc).Perm (l ++ acc) := by
  induction l with
  | nil => intro acc; exact List.Perm.refl _
  | cons x rest ih =>
    intro acc
    rw [List.foldl_cons]
    refine (ih _).trans ?_
    refine (List.Perm.append_left rest (sinkLeft_perm less x acc)).trans ?_
    exact List.perm_middle

theorem insertionSort_perm {α : Type} (less : α → α → Bool) (l : List α) :
    (insertionSort less l).Perm l := by
  unfold insertionSort
  refine (List.reverse_perm _).trans ?_
  simpa using insertion_loop_perm less l []

/-- Sinking by a strict comparison of keys keeps a prefix sorted (here in reverse). -/
theorem sinkLeft_sorted {α K : Type} [LinearOrder K] (key : α → K) (x : α)
    (before : List α) (h : before.Pairwise (fun a b => key b ≤ key a)) :
    (sinkLeft (fun a b => decide (key a < key b)) x before).Pairwise
      (fun a b => key b ≤ key a) := by
  induction before with
  | nil => simp [sinkLeft]
  | cons y rest ih =>
    rw [List.pairwise_cons] at h
    unfold sinkLeft
    by_cases hxy : key x < key y
    · simp only [hxy, decide_True, if_true]
      rw [List.pairwise_cons]
      refine ⟨?_, ih h.2⟩
      intro z hz
      rcases List.mem_cons.1 ((sinkLeft_perm _ x rest).mem_iff.1 hz) with rfl | hz
      · exact le_of_lt hxy
      · exact h.1 z hz
    · simp only [hxy, decide_False, Bool.false_eq_true, if_false]
      rw [List.pairwise_cons]
      refine ⟨?_, List.pairwise_cons.2 h⟩
      intro z hz
      rcases List.mem_cons.1 hz with rfl | hz
      · exact not_lt.1 hxy
      · exact le_trans (h.1 z hz) (not_lt.1 hxy)

theorem insertion_loop_sorted {α K : Type} [LinearOrder K] (key : α → K) (l : List α) :
    ∀ acc : List α, acc.Pairwise (fun a b => key b ≤ key a) →
      (l.foldl (fun sortedRev x => sinkLeft (fun a b => decide (key a < key b)) x sortedRev)
        acc).Pairwise (fun a b => key b ≤ key a) := by
  induction l with
  | nil => intro acc h; exact h
  | cons x rest ih =>
    intro acc h
    rw [List.foldl_cons]
    exact ih _ (sinkLeft_sorted key x acc h)

theorem insertionSort_sorted {α K : Type} [LinearOrder K] (key : α → K) (l : List α) :
    (insertionSort (fun a b => decide (key a < key b)) l).Pairwise
      (fun a b => key a ≤ key b) := by
  unfold insertionSort
  rw [List.pairwise_reverse]
  exact insertion_loop_sorted key l [] List.Pairwise.nil

/-- Sinking by a strict comparison of keys never passes an element of equal key. -/
theorem sinkLeft_filter {α K : Type} [LinearOrder K] (key : α → K) (k : K) (x : α)
    (before : List α) :
    (sinkLeft (fun a b => decide (key a < key b)) x before).filter
        (fun y => decide (key y = k)) =
      [x].filter (fun y => decide (key y = k)) ++
        before.filter (fun y => decide (key y = k)) := by
  induction before with
  | nil => simp [sinkLeft]
  | cons y rest ih =>
    unfold sinkLeft
    by_cases hxy : key x < key y
    · simp only [hxy, decide_True, if_true]
      rw [List.filter_cons, ih]
      by_cases hx : key x = k
      · have hy : ¬ key y = k := fun hy => absurd hxy (by rw [hx, hy]; exact lt_irrefl _)
        simp [List.filter_cons, hx, hy]
      · simp [List.filter_cons, hx]
    · simp only [hxy, decide_False, Bool.false_eq_true, if_false]
      by_cases hx : key x = k <;> simp [List.filter_cons, hx]

theorem insertion_loop_filter {α K : Type} [LinearOrder K] (key : α → K) (k : K)
    (l : List α) :
    ∀ acc : List α,
      (l.foldl (fun sortedRev x => sinkLeft (fun a b => decide (key a < key b)) x sortedRev)
          acc).filter (fun y => decide (key y = k)) =
        (l.filter (fun y => decide (key y = k))).reverse ++
          acc.filter (fun y => decide (key y = k)) := by
  induction l with
  | nil => intro acc; simp
  | cons x rest ih =>
    intro acc
    rw [List.foldl_cons, ih, sinkLeft_filter]
    by_cases hx : key x = k <;> simp [List.filter_cons, hx]

theorem insertionSort_stable {α K : Type} [LinearOrder K] (key : α → K) (k : K)
    (l : List α) :
    (insertionSort (fun a b => decide (key a < key b)) l).filter
        (fun y => decide (key y = k)) =
      l.filter (fun y => decide (key y = k)) := by
  unfold insertionSort
  rw [List.filter_reverse, insertion_loop_filter]
  simp

theorem sortLess_eq_key (field : String) :
    sortLess field = fun a b => decide (sortKey field a < sortKey field b) := by
  funext a b
  unfold sortLess sortKey Time.Before
  split_ifs <;> simp only [Int.cast_lt]

theorem sortFlights_asc (flights : List Flight) (field order : String)
    (hfield : field ∈ sortFields) (horder : order = "asc" ∨ order = "") :
    sortFlights flights ⟨field, order⟩ = insertionSort (sortLess field) flights := by
  simp only [sortFields, List.mem_cons, List.mem_singleton, List.not_mem_nil, or_false]
    at hfield
  rcases hfield with rfl | rfl | rfl | rfl | rfl <;> rcases horder with rfl | rfl <;> rfl

/-- Claim C7. For every flight list and every sort field among price, duration, departure,
arrival and best_value, `sortFlights` with order asc (or empty) returns a permutation of
the input that is non-decreasing in the chosen field, and flights that are equal on that
field keep their relative input order. -/
theorem sortFlights_asc_contract (flights : List Flight) (field order : String)
    (hfield : field ∈ sortFields) (horder : order = "asc" ∨ order = "") :
    (sortFlights flights ⟨field, order⟩).Perm flights ∧
    (sortFlights flights ⟨field, order⟩).Pairwise
      (fun a b => sortKey field a ≤ sortKey field b) ∧
    (∀ k : Rat,
      (sortFlights flights ⟨field, order⟩).filter (fun f => decide (sortKey field f = k)) =
        flights.filter (fun f => decide (sortKey field f = k))) ∧
    (∀ f : Flight, sortKey "price" f = f.Price.Amount ∧
      sortKey "duration" f = f.DurationMinute ∧
      sortKey "departure" f = f.Departure.Time.nanos ∧
      sortKey "arrival" f = f.Arrival.Time.nanos ∧
      sortKey "best_value" f = f.BestValueScore) := by
  rw [sortFlights_asc flights field order hfield horder, sortLess_eq_key]
  refine ⟨insertionSort_perm _ _, insertionSort_sorted (sortKey field) flights,
    fun k => insertionSort_stable (sortKey field) k flights, ?_⟩
  intro f
  refine ⟨?_, ?_, ?_, ?_, ?_⟩ <;> simp [sortKey]

/-- Claim C7, witness: three offers sorted by price, ascending; the two offers priced 100
keep their input order behind the offer priced 90. -/
theorem sortFlights_asc_contract_witness :
    (sortFlights [pricedFlight "a" 100 60, pricedFlight "b" 100 50, pricedFlight "c" 90 70]
        ⟨"price", "asc"⟩).Perm
      [pricedFlight "a" 100 60, pricedFlight "b" 100 50, pricedFlight "c" 90 70] ∧
    sortFlights [pricedFlight "a" 100 60, pricedFlight "b" 100 50, pricedFlight "c" 90 70]
        ⟨"price", "asc"⟩ =
      [pricedFlight "c" 90 70, pricedFlight "a" 100 60, pricedFlight "b" 100 50] :=
  ⟨(sortFlights_asc_contract
      [pricedFlight "a" 100 60, pricedFlight "b" 100 50, pricedFlight "c" 90 70]
      "price" "asc" (by decide) (by decide)).1, by decide⟩

/-- Claim C8, failing input: two offers of equal price sorted by price, descending, come
out in reverse input order; on three offers the result is the reverse of the ascending
stable sort. -/
theorem sortFlights_desc_reverses_ties :
    sortFlights [pricedFlight "a" 100 60, pricedFlight "b" 100 50] ⟨"price", "desc"⟩ =
      [pricedFlight "b" 100 50, pricedFlight "a" 100 60] ∧
    sortFlights [pricedFlight "a" 100 60, pricedFlight "b" 100 50, pricedFlight "c" 90 70]
        ⟨"price", "desc"⟩ =
      [pricedFlight "b" 100 50, pricedFlight "a" 100 60, pricedFlight "c" 90 70] ∧
    sortFlights [pricedFlight "a" 100 60, pricedFlight "b" 100 50, pricedFlight "c" 90 70]
        ⟨"price", "desc"⟩ =
      (sortFlights [pricedFlight "a" 100 60, pricedFlight "b" 100 50, pricedFlight "c" 90 70]
        ⟨"price", "asc"⟩).reverse := by
  decide

theorem sortFlights_unfold (flights : List Flight) (field order : String) :
    sortFlights flights ⟨field, order⟩ =
      if (if toLower order = "" then "asc" else toLower order) = "desc" then
        sliceStable
          (fun a b => !sortLess (if toLower field = "" then "best_value" else toLower field) a b)
          flights
      else
        sliceStable (sortLess (if toLower field = "" then "best_value" else toLower field))
          flights :=
  rfl

theorem sortLess_fallback (field : String) (h : field ∉ sortFields) :
    sortLess field = sortLess "best_value" := by
  simp only [sortFields, List.mem_cons, List.mem_singleton, List.not_mem_nil, or_false,
    not_or] at h
  obtain ⟨h1, h2, h3, h4, _⟩ := h
  funext a b
  unfold sortLess
  rw [if_neg h1, if_neg h2, if_neg h3, if_neg h4]
  simp

/-- Claim C9. `sortFlights` falls back to best_value: an empty sort field, and any field
that is not, ignoring letter case, one of price, duration, departure, arrival and
best_value, gives exactly the ordering of field best_value; an empty order gives exactly
the ordering of asc; field and order are matched case-insensitively, so "PRICE" and
"DESC" behave as "price" and "desc". -/
theorem sortFlights_fallback (flights : List Flight) :
    (∀ order : String,
      sortFlights flights ⟨"", order⟩ = sortFlights flights ⟨"best_value", order⟩) ∧
    (∀ field order : String, toLower field ∉ sortFields →
      sortFlights flights ⟨field, order⟩ = sortFlights flights ⟨"best_value", order⟩) ∧
    (∀ field : String,
      sortFlights flights ⟨field, ""⟩ = sortFlights flights ⟨field, "asc"⟩) ∧
    (∀ field field' order order' : String, toLower field = toLower field' →
      toLower order = toLower order' →
      sortFlights flights ⟨field, order⟩ = sortFlights flights ⟨field', order'⟩) ∧
    sortFlights flights ⟨"PRICE", "DESC"⟩ = sortFlights flights ⟨"price", "desc"⟩ ∧
    (∀ a b : Flight,
      sortLess "best_value" a b = decide (a.BestValueScore < b.BestValueScore)) := by
  have hbv : toLower "best_value" = "best_value" := by decide
  have hbv0 : ¬ ("best_value" : String) = "" := by decide
  refine ⟨?_, ?_, ?_, ?_, ?_, ?_⟩
  · intro order
    rfl
  · intro field order h
    rw [sortFlights_unfold, sortFlights_unfold, hbv, if_neg hbv0]
    by_cases h0 : toLower field = ""
    · rw [if_pos h0]
    · rw [if_neg h0, sortLess_fallback _ h]
  · intro field
    rfl
  · intro field field' order order' hf ho
    rw [sortFlights_unfold, sortFlights_unfold, hf, ho]
  · rfl
  · intro a b
    rfl

/-- Claim C9, witness: the unknown field "cheapest" sorts as best_value. -/
theorem sortFlights_fallback_witness :
    sortFlights [pricedFlight "a" 100 60, pricedFlight "b" 90 50] ⟨"cheapest", "asc"⟩ =
      sortFlights [pricedFlight "a" 100 60, pricedFlight "b" 90 50] ⟨"best_value", "asc"⟩ :=
  (sortFlights_fallback [pricedFlight "a" 100 60, pricedFlight "b" 90 50]).2.1
    "cheapest" "asc" (by decide)

/-! ## Rounding to the nearest float64 -/

theorem roundHalfEven_ge {y : Rat} {K : Int} (h : (K : Rat) ≤ y) : K ≤ roundHalfEven y := by
  have hf : K ≤ ⌊y⌋ := Int.le_floor.2 h
  unfold roundHalfEven
  simp only []
  split_ifs <;> omega

theorem roundHalfEven_le {y : Rat} {K : Int} (h : y ≤ (K : Rat)) : roundHalfEven y ≤ K := by
  have hf : (⌊y⌋ : Rat) ≤ y := Int.floor_le y
  have hfK : ⌊y⌋ ≤ K := by exact_mod_cast hf.trans h
  unfold roundHalfEven
  simp only []
  by_cases h1 : y - ⌊y⌋ < 1 / 2
  · rw [if_pos h1]
    exact hfK
  · have hlt : (⌊y⌋ : Rat) < K := by linarith
    have : ⌊y⌋ < K := by exact_mod_cast hlt
    rw [if_neg h1]
    split_ifs <;> omega

theorem roundHalfEven_lt {y : Rat} {K : Int} (h : y < (K : Rat) - 1 / 2) :
    roundHalfEven y < K := by
  have hf : (⌊y⌋ : Rat) ≤ y := Int.floor_le y
  have hfK : ⌊y⌋ < K := by
    have : (⌊y⌋ : Rat) < K := by linarith
    exact_mod_cast this
  unfold roundHalfEven
  simp only []
  by_cases h1 : y - ⌊y⌋ < 1 / 2
  · rw [if_pos h1]
    exact hfK
  · have hlt : (⌊y⌋ : Rat) + 1 < K := by linarith
    have : ⌊y⌋ + 1 < K := by exact_mod_cast hlt
    rw [if_neg h1]
    split_ifs <;> omega

/-- Below `2 ^ E` the multiples of `2 ^ (E - 53)` are multiples of the rounding step. -/
theorem quantum_dvd (x : Rat) (hx : x ≠ 0) (E : Int) (hE : |x| < 2 ^ E) :
    ∃ k : Nat, (2 : Rat) ^ (E - 53) = 2 ^ k * 2 ^ (Int.log 2 |x| - 52) := by
  have hpos : 0 < |x| := abs_pos.2 hx
  have hlog : Int.log 2 |x| < E := by
    apply (Int.lt_zpow_iff_log_lt (by norm_num) hpos).1
    exact_mod_cast hE
  refine ⟨(E - 1 - Int.log 2 |x|).toNat, ?_⟩
  have hk : ((E - 1 - Int.log 2 |x|).toNat : Int) = E - 1 - Int.log 2 |x| :=
    Int.toNat_of_nonneg (by omega)
  rw [← zpow_natCast, hk, ← zpow_add₀ (by norm_num : (2 : Rat) ≠ 0)]
  congr 1
  ring

theorem quantum_pos (x : Rat) : (0 : Rat) < 2 ^ (Int.log 2 |x| - 52) :=
  zpow_pos (by norm_num) _

theorem roundFloat64_le (x : Rat) (E K : Int) (hE : |x| < 2 ^ E)
    (h : x ≤ K * 2 ^ (E - 53)) : roundFloat64 x ≤ K * 2 ^ (E - 53) := by
  unfold roundFloat64
  by_cases hx : x = 0
  · rw [if_pos hx]
    rw [hx] at h
    exact h
  · rw [if_neg hx]
    obtain ⟨k, hk⟩ := quantum_dvd x hx E hE
    have hq := quantum_pos x
    rw [hk] at h ⊢
    generalize (2 : Rat) ^ (Int.log 2 |x| - 52) = q at h hq ⊢
    have hy : x / q ≤ ((K * 2 ^ k : Int) : Rat) := by
      rw [div_le_iff₀ hq]
      push_cast
      linarith
    have hc : (roundHalfEven (x / q) : Rat) ≤ ((K * 2 ^ k : Int) : Rat) := by
      exact_mod_cast roundHalfEven_le hy
    push_cast at hc
    have := mul_le_mul_of_nonneg_right hc hq.le
    linarith

theorem roundFloat64_ge (x : Rat) (E K : Int) (hE : |x| < 2 ^ E)
    (h : K * 2 ^ (E - 53) ≤ x) : K * 2 ^ (E - 53) ≤ roundFloat64 x := by
  unfold roundFloat64
  by_cases hx : x = 0
  · rw [if_pos hx]
    rw [hx] at h
    exact h
  · rw [if_neg hx]
    obtain ⟨k, hk⟩ := quantum_dvd x hx E hE
    have hq := quantum_pos x
    rw [hk] at h ⊢
    generalize (2 : Rat) ^ (Int.log 2 |x| - 52) = q at h hq ⊢
    have hy : ((K * 2 ^ k : Int) : Rat) ≤ x / q := by
      rw [le_div_iff₀ hq]
      push_cast
      linarith
    have hc : ((K * 2 ^ k : Int) : Rat) ≤ (roundHalfEven (x / q) : Rat) := by
      exact_mod_cast roundHalfEven_ge hy
    push_cast at hc
    have := mul_le_mul_of_nonneg_right hc hq.le
    linarith

theorem roundFloat64_lt (x : Rat) (E K : Int) (hE : |x| < 2 ^ E)
    (h : x < K * 2 ^ (E - 53) - 2 ^ (E - 53) / 2) : roundFloat64 x < K * 2 ^ (E - 53) := by
  unfold roundFloat64
  by_cases hx : x = 0
  · rw [if_pos hx]
    have hp : (0 : Rat) < 2 ^ (E - 53) := zpow_pos (by norm_num) _
    rw [hx] at h
    linarith
  rw [if_neg hx]
  obtain ⟨k, hk⟩ := quantum_dvd x hx E hE
  have hq := quantum_pos x
  have hk1 : (1 : Rat) ≤ 2 ^ k := one_le_pow₀ (by norm_num)
  rw [hk] at h ⊢
  generalize (2 : Rat) ^ (Int.log 2 |x| - 52) = q at h hq ⊢
  have hkq : q ≤ 2 ^ k * q := by
    have := mul_le_mul_of_nonneg_right hk1 hq.le
    linarith
  have hy : x / q < ((K * 2 ^ k : Int) : Rat) - 1 / 2 := by
    rw [div_lt_iff₀ hq]
    push_cast
    linarith
  have hc : (roundHalfEven (x / q) : Rat) < ((K * 2 ^ k : Int) : Rat) := by
    exact_mod_cast roundHalfEven_lt hy
  push_cast at hc
  have := mul_lt_mul_of_pos_right hc hq
  linarith

theorem roundFloat64_nonpos (x : Rat) (h : x ≤ 0) : roundFloat64 x ≤ 0 := by
  unfold roundFloat64
  split_ifs
  · exact le_rfl
  · have hq := quantum_pos x
    have hy : x / 2 ^ (Int.log 2 |x| - 52) ≤ ((0 : Int) : Rat) := by
      rw [div_le_iff₀ hq]
      simpa using h
    have hc : (roundHalfEven (x / 2 ^ (Int.log 2 |x| - 52)) : Rat) ≤ 0 := by
      exact_mod_cast roundHalfEven_le hy
    exact mul_nonpos_of_nonpos_of_nonneg hc hq.le

theorem truncToInt_nonpos (x : Rat) (h : x ≤ 0) : truncToInt x ≤ 0 := by
  unfold truncToInt
  split_ifs with h0
  · have : x = 0 := le_antisymm h h0
    rw [this]
    simp
  · exact Int.ceil_le.2 (by simpa using h)

/-- The rounded fraction `float64(nsec) / (60 * 1e9)` of a minute. -/
theorem minuteFraction_bounds (n : Int) (h0 : 0 ≤ n) (h1 : n < 60000000000) :
    0 ≤ roundFloat64 ((n : Rat) / 60000000000) ∧
    roundFloat64 ((n : Rat) / 60000000000) ≤ 1 - 1 / 2 ^ 36 - 1 / 2 ^ 53 := by
  have hn0 : (0 : Rat) ≤ n := by exact_mod_cast h0
  have hn1 : (n : Rat) ≤ 59999999999 := by
    have : n ≤ 59999999999 := by omega
    exact_mod_cast this
  have hx0 : (0 : Rat) ≤ (n : Rat) / 60000000000 := div_nonneg hn0 (by norm_num)
  have hx1 : (n : Rat) / 60000000000 ≤ 59999999999 / 60000000000 :=
    div_le_div_of_nonneg_right hn1 (by norm_num)
  have hE : |(n : Rat) / 60000000000| < 2 ^ (0 : Int) := by
    rw [abs_of_nonneg hx0]
    norm_num
    linarith
  constructor
  · have := roundFloat64_ge _ 0 0 hE (by simpa using hx0)
    simpa using this
  · have := roundFloat64_le _ 0 (2 ^ 53 - 2 ^ 17 - 1) hE (by
      norm_num
      linarith)
    norm_num at this ⊢
    linarith

/-- The value `float64(min) + frac` rounds into `[min, min + 1]`, and below `min + 1` when
`min < 2 ^ 18`. -/
theorem minuteSum_bounds (m : Int) (f : Rat) (hm0 : 0 ≤ m) (hm1 : m < 2 ^ 28) (hf0 : 0 ≤ f)
    (hf1 : f ≤ 1 - 1 / 2 ^ 36 - 1 / 2 ^ 53) :
    (m : Rat) ≤ roundFloat64 (m + f) ∧ roundFloat64 (m + f) ≤ m + 1 ∧
    (m < 2 ^ 18 → roundFloat64 (m + f) < m + 1) := by
  have hmq0 : (0 : Rat) ≤ m := by exact_mod_cast hm0
  have hmq1 : (m : Rat) + 1 ≤ 2 ^ 28 := by
    have : m + 1 ≤ 2 ^ 28 := by omega
    exact_mod_cast this
  have hf1' : f < 1 := by
    have : (0 : Rat) < 1 / 2 ^ 36 + 1 / 2 ^ 53 := by positivity
    linarith
  have hE : |(m : Rat) + f| < 2 ^ (28 : Int) := by
    rw [abs_of_nonneg (by linarith)]
    norm_num at hmq1 ⊢
    linarith
  refine ⟨?_, ?_, ?_⟩
  · have := roundFloat64_ge ((m : Rat) + f) 28 (m * 2 ^ 25) hE (by
      push_cast
      norm_num
      linarith)
    push_cast at this
    norm_num at this
    linarith
  · have := roundFloat64_le ((m : Rat) + f) 28 ((m + 1) * 2 ^ 25) hE (by
      push_cast
      norm_num
      linarith)
    push_cast at this
    norm_num at this
    linarith
  · intro h18
    have hmq18 : (m : Rat) + 1 ≤ 2 ^ 18 := by
      have : m + 1 ≤ 2 ^ 18 := by omega
      exact_mod_cast this
    have hE18 : |(m : Rat) + f| < 2 ^ (18 : Int) := by
      rw [abs_of_nonneg (by linarith)]
      norm_num at hmq18 ⊢
      linarith
    have := roundFloat64_lt ((m : Rat) + f) 18 ((m + 1) * 2 ^ 35) hE18 (by
      push_cast
      norm_num at hf1 ⊢
      linarith)
    push_cast at this
    norm_num at this
    linarith

theorem tdiv_minute_nonpos (a : Int) (h : a ≤ 0) : a.tdiv 60000000000 ≤ 0 := by
  obtain ⟨n, rfl⟩ : ∃ n : Int, a = -n := ⟨-a, by omega⟩
  rw [Int.neg_tdiv]
  have := Int.tdiv_nonneg (a := n) (b := 60000000000) (by omega) (by decide)
  omega

theorem minutesInt_nonpos (d : Int) (h : d ≤ 0) : Time.minutesInt d ≤ 0 := by
  unfold Time.minutesInt
  apply truncToInt_nonpos
  apply roundFloat64_nonpos
  have hm : d.tdiv 60000000000 ≤ 0 := tdiv_minute_nonpos d h
  have hn : d.tmod 60000000000 ≤ 0 := by
    obtain ⟨n, rfl⟩ : ∃ n : Int, d = -n := ⟨-d, by omega⟩
    have h1 := Int.tmod_add_tdiv (-n) 60000000000
    rw [Int.neg_tdiv, Int.tdiv_eq_ediv (by omega) (by decide)] at h1
    omega
  have hmq : ((d.tdiv 60000000000 : Int) : Rat) ≤ 0 := by exact_mod_cast hm
  have hnq : ((d.tmod 60000000000 : Int) : Rat) ≤ 0 := by exact_mod_cast hn
  have hf : roundFloat64 (((d.tmod 60000000000 : Int) : Rat) / 60000000000) ≤ 0 :=
    roundFloat64_nonpos _ (div_nonpos_of_nonpos_of_nonneg hnq (by norm_num))
  linarith

/-- Go `int(d.Minutes())` on a non-negative duration: the number of whole minutes or one
more, and the number of whole minutes below `2 ^ 18` minutes. -/
theorem minutesInt_nonneg (d : Int) (h0 : 0 ≤ d) (h1 : d < 2 ^ 63) :
    (Time.minutesInt d = d / 60000000000 ∨ Time.minutesInt d = d / 60000000000 + 1) ∧
    (d < 2 ^ 18 * 60000000000 → Time.minutesInt d = d / 60000000000) := by
  have hdiv : d.tdiv 60000000000 = d / 60000000000 := Int.tdiv_eq_ediv h0 (by decide)
  have hmod : d.tmod 60000000000 = d % 60000000000 := Int.tmod_eq_emod h0 (by decide)
  have hm0 : 0 ≤ d / 60000000000 := by omega
  have hm1 : d / 60000000000 < 2 ^ 28 := by omega
  have hn0 : 0 ≤ d % 60000000000 := by omega
  have hn1 : d % 60000000000 < 60000000000 := by omega
  obtain ⟨hf0, hf1⟩ := minuteFraction_bounds _ hn0 hn1
  obtain ⟨hs0, hs1, hs2⟩ := minuteSum_bounds _ _ hm0 hm1 hf0 hf1
  have hmq0 : (0 : Rat) ≤ ((d / 60000000000 : Int) : Rat) := by exact_mod_cast hm0
  unfold Time.minutesInt truncToInt
  rw [hdiv, hmod, if_pos (le_trans hmq0 hs0)]
  constructor
  · by_cases htop : roundFloat64 (((d / 60000000000 : Int) : Rat) +
        roundFloat64 (((d % 60000000000 : Int) : Rat) / 60000000000)) =
        ((d / 60000000000 : Int) : Rat) + 1
    · right
      rw [htop]
      have : (((d / 60000000000 : Int) : Rat) + 1) = ((d / 60000000000 + 1 : Int) : Rat) := by
        push_cast
        ring
      rw [this, Int.floor_intCast]
    · left
      rw [Int.floor_eq_iff]
      exact ⟨hs0, lt_of_le_of_ne hs1 htop⟩
  · intro hshort
    rw [Int.floor_eq_iff]
    exact ⟨hs0, hs2 (by omega)⟩

theorem roundHalfEven_ge_of_near {y : Rat} {K : Int} (h : (K : Rat) - 1 / 2 < y) :
    K ≤ roundHalfEven y := by
  have hf : y < (⌊y⌋ : Rat) + 1 := Int.lt_floor_add_one y
  have hfK : K - 1 ≤ ⌊y⌋ := by
    have : ((K - 1 : Int) : Rat) < (⌊y⌋ : Rat) + 1 := by
      push_cast
      linarith
    have : K - 1 < ⌊y⌋ + 1 := by exact_mod_cast this
    omega
  unfold roundHalfEven
  simp only []
  by_cases h1 : y - ⌊y⌋ < 1 / 2
  · rw [if_pos h1]
    have : ((K : Int) : Rat) - 1 < (⌊y⌋ : Rat) := by linarith
    have : K - 1 < ⌊y⌋ := by exact_mod_cast this
    omega
  · rw [if_neg h1]
    by_cases h2 : 1 / 2 < y - ⌊y⌋
    · rw [if_pos h2]
      omega
    · rw [if_neg h2]
      have : ((K : Int) : Rat) - 1 < (⌊y⌋ : Rat) := by linarith
      have : K - 1 < ⌊y⌋ := by exact_mod_cast this
      split_ifs <;> omega

/-- At `2 ^ 18` minutes and 59.999999999 seconds the sum `float64(min) + frac` rounds up to
the next minute: `int(d.Minutes())` is 262145 where 262144 whole minutes have passed. -/
theorem minutesInt_rounds_up : Time.minutesInt 15728699999999999 = 262145 := by
  have hdiv : (15728699999999999 : Int).tdiv 60000000000 = 262144 := by decide
  have hmod : (15728699999999999 : Int).tmod 60000000000 = 59999999999 := by decide
  unfold Time.minutesInt
  rw [hdiv, hmod]
  obtain ⟨_, hf1⟩ := minuteFraction_bounds 59999999999 (by decide) (by decide)
  have hE : |((59999999999 : Int) : Rat) / 60000000000| < 2 ^ (0 : Int) := by norm_num [abs_lt]
  have hf0 := roundFloat64_ge _ 0 (2 ^ 53 - 150120) hE (by norm_num)
  obtain ⟨_, hs1, _⟩ := minuteSum_bounds 262144 _ (by decide) (by decide)
    (le_trans (by norm_num) hf0) hf1
  generalize roundFloat64 (((59999999999 : Int) : Rat) / 60000000000) = f at hf0 hf1 hs1 ⊢
  push_cast at hf0 hf1 hs1 ⊢
  norm_num at hf0 hf1
  have hS0 : (262144 : Rat) ≤ 262144 + f := by linarith
  have hS1 : (262144 : Rat) + f < 524288 := by linarith
  have hlog : Int.log 2 |(262144 : Rat) + f| = 18 := by
    rw [abs_of_nonneg (by linarith)]
    have hpos : (0 : Rat) < 262144 + f := by linarith
    have h1 : (18 : Int) ≤ Int.log 2 ((262144 : Rat) + f) :=
      (Int.zpow_le_iff_le_log (by norm_num) hpos).1 (by norm_num; linarith)
    have h2 : Int.log 2 ((262144 : Rat) + f) < 19 :=
      (Int.lt_zpow_iff_log_lt (by norm_num) hpos).1 (by norm_num; linarith)
    omega
  have hge : (262145 : Rat) ≤ roundFloat64 (262144 + f) := by
    unfold roundFloat64
    rw [if_neg (by linarith), hlog]
    have hy : ((262145 * 2 ^ 34 : Int) : Rat) - 1 / 2 < (262144 + f) / 2 ^ ((18 : Int) - 52) := by
      rw [lt_div_iff₀ (zpow_pos (by norm_num) _)]
      norm_num
      linarith
    have hc : ((262145 * 2 ^ 34 : Int) : Rat) ≤
        (roundHalfEven ((262144 + f) / 2 ^ ((18 : Int) - 52)) : Rat) := by
      exact_mod_cast roundHalfEven_ge_of_near hy
    have := mul_le_mul_of_nonneg_right hc
      (zpow_pos (by norm_num : (0 : Rat) < 2) ((18 : Int) - 52)).le
    norm_num at this ⊢
    linarith
  have heq : roundFloat64 (262144 + f) = 262145 := by
    apply le_antisymm _ hge
    norm_num at hs1
    exact hs1
  rw [heq]
  unfold truncToInt
  norm_num

/-! ## Normalize -/

theorem sub_nonpos_of_not_after (depart arrive : Time) (h : ¬ depart.nanos < arrive.nanos) :
    arrive.Sub depart ≤ 0 := by
  unfold Time.Sub Time.minDuration Time.maxDuration
  simp only
  split_ifs <;> omega

theorem sub_of_after (depart arrive : Time) (h : depart.nanos < arrive.nanos) :
    arrive.Sub depart = min (arrive.nanos - depart.nanos) (2 ^ 63 - 1) := by
  unfold Time.Sub Time.minDuration Time.maxDuration
  simp only
  have hpos : ¬ arrive.nanos - depart.nanos < -(2 ^ 63) := by omega
  rw [if_neg hpos]
  by_cases hbig : 2 ^ 63 - 1 < arrive.nanos - depart.nanos
  · rw [if_pos hbig, min_eq_right (le_of_lt hbig)]
  · rw [if_neg hbig, min_eq_left (not_lt.1 hbig)]

/-- For an arrival after the departure `int(d.Minutes())` is the number of whole minutes
or one more. -/
theorem minutesInt_sub_near (depart arrive : Time) (h : depart.nanos < arrive.nanos) :
    Time.minutesInt (arrive.Sub depart) = wholeMinutes depart arrive ∨
    Time.minutesInt (arrive.Sub depart) = wholeMinutes depart arrive + 1 := by
  rw [sub_of_after depart arrive h]
  unfold wholeMinutes
  have h0 : 0 ≤ min (arrive.nanos - depart.nanos) (2 ^ 63 - 1) := le_min (by omega) (by decide)
  have h1 : min (arrive.nanos - depart.nanos) (2 ^ 63 - 1) < 2 ^ 63 :=
    lt_of_le_of_lt (min_le_right _ _) (by decide)
  exact (minutesInt_nonneg _ h0 h1).1

/-- For an arrival less than `2 ^ 18` minutes after the departure `int(d.Minutes())` is the
number of whole minutes. -/
theorem minutesInt_sub (depart arrive : Time) (h : depart.nanos < arrive.nanos)
    (hshort : arrive.nanos - depart.nanos < 2 ^ 18 * 60000000000) :
    Time.minutesInt (arrive.Sub depart) = wholeMinutes depart arrive := by
  rw [sub_of_after depart arrive h]
  unfold wholeMinutes
  have h0 : 0 ≤ min (arrive.nanos - depart.nanos) (2 ^ 63 - 1) := le_min (by omega) (by decide)
  have h1 : min (arrive.nanos - depart.nanos) (2 ^ 63 - 1) < 2 ^ 63 :=
    lt_of_le_of_lt (min_le_right _ _) (by decide)
  exact (minutesInt_nonneg _ h0 h1).2 (lt_of_le_of_lt (min_le_left _ _) hshort)

theorem wholeMinutes_pos_iff (depart arrive : Time) :
    0 < wholeMinutes depart arrive ↔ 60000000000 ≤ arrive.nanos - depart.nanos := by
  unfold wholeMinutes
  constructor
  · intro h
    by_contra hlt
    have h1 : min (arrive.nanos - depart.nanos) (2 ^ 63 - 1) < 60000000000 :=
      lt_of_le_of_lt (min_le_left _ _) (not_le.1 hlt)
    have h2 : min (arrive.nanos - depart.nanos) (2 ^ 63 - 1) / 60000000000 < 1 :=
      Int.ediv_lt_of_lt_mul (by decide) (by omega)
    omega
  · intro h
    have h1 : (60000000000 : Int) ≤ min (arrive.nanos - depart.nanos) (2 ^ 63 - 1) :=
      le_min h (by decide)
    have h2 : (1 : Int) ≤ min (arrive.nanos - depart.nanos) (2 ^ 63 - 1) / 60000000000 :=
      (Int.le_ediv_iff_mul_le (by decide)).2 (by omega)
    omega

/-- The guard `duration > 0` of `normalizeDurations` holds from one minute on. -/
theorem minutesInt_sub_pos_iff (depart arrive : Time) (h : depart.nanos < arrive.nanos) :
    0 < Time.minutesInt (arrive.Sub depart) ↔
      60000000000 ≤ arrive.nanos - depart.nanos := by
  have hp := wholeMinutes_pos_iff depart arrive
  constructor
  · intro hpos
    by_contra hlt
    have hm := minutesInt_sub depart arrive h (by omega)
    rw [hm] at hpos
    exact hlt (hp.1 hpos)
  · intro h60
    have hw := hp.2 h60
    rcases minutesInt_sub_near depart arrive h with hm | hm <;> omega

theorem normalizeDuration_eq (f : Flight) :
    normalizeDuration f =
      if f.Departure.Time.nanos ≠ 0 ∧ f.Arrival.Time.nanos ≠ 0 ∧
          60000000000 ≤ f.Arrival.Time.nanos - f.Departure.Time.nanos then
        { f with DurationMinute :=
            if f.Arrival.Time.nanos - f.Departure.Time.nanos < 2 ^ 18 * 60000000000 then
              wholeMinutes f.Departure.Time f.Arrival.Time
            else Time.minutesInt (f.Arrival.Time.Sub f.Departure.Time) }
      else f := by
  by_cases hd : f.Departure.Time.nanos = 0
  · rw [if_neg (fun h => h.1 hd)]
    unfold normalizeDuration Time.IsZero Time.After
    simp [hd]
  · by_cases ha : f.Arrival.Time.nanos = 0
    · rw [if_neg (fun h => h.2.1 ha)]
      unfold normalizeDuration Time.IsZero Time.After
      simp [hd, ha]
    · by_cases hlt : f.Departure.Time.nanos < f.Arrival.Time.nanos
      · have hp := minutesInt_sub_pos_iff f.Departure.Time f.Arrival.Time hlt
        by_cases h60 : 60000000000 ≤ f.Arrival.Time.nanos - f.Departure.Time.nanos
        · have hpos := hp.2 h60
          have hL : normalizeDuration f =
              { f with DurationMinute :=
                  Time.minutesInt (f.Arrival.Time.Sub f.Departure.Time) } := by
            unfold normalizeDuration Time.IsZero Time.After
            simp [hd, ha, hlt, hpos]
          rw [hL, if_pos ⟨hd, ha, h60⟩]
          by_cases hshort :
            f.Arrival.Time.nanos - f.Departure.Time.nanos < 2 ^ 18 * 60000000000
          · rw [if_pos hshort, minutesInt_sub _ _ hlt hshort]
          · rw [if_neg hshort]
        · have hnp : ¬ 0 < Time.minutesInt (f.Arrival.Time.Sub f.Departure.Time) :=
            fun h => h60 (hp.1 h)
          rw [if_neg (fun h => h60 h.2.2)]
          unfold normalizeDuration Time.IsZero Time.After
          simp [hd, ha, hlt, hnp]
      · have h60 : ¬ 60000000000 ≤ f.Arrival.Time.nanos - f.Departure.Time.nanos := by
          omega
        rw [if_neg (fun h => h60 h.2.2)]
        unfold normalizeDuration Time.IsZero Time.After
        simp [hd, ha, hlt]

/-- Claim C10 (amended). `normalizeDurations` returns a list of the same length and order
in which the `DurationMinute` of each flight is the number of whole minutes between
departure and arrival whenever both timestamps are non-zero and arrival is at least one
minute and less than `2 ^ 18` minutes (262144 minutes, about 182 days) after departure; for
a longer interval it is `int(d.Minutes())` as `float64` arithmetic gives it, which is the
number of whole minutes or one more (the interval capped at the largest `time.Duration`);
and it is the source-declared `DurationMinute` otherwise; no other field is changed.
Within the range of `time.Duration` the number of whole minutes is the interval divided by
one minute, rounded down; the result agrees with `durationMinutes` of the provider
package. -/
theorem normalizeDurations_contract (flights : List Flight) :
    normalizeDurations flights =
      flights.map (fun f =>
        if f.Departure.Time.nanos ≠ 0 ∧ f.Arrival.Time.nanos ≠ 0 ∧
            60000000000 ≤ f.Arrival.Time.nanos - f.Departure.Time.nanos then
          { f with DurationMinute :=
              if f.Arrival.Time.nanos - f.Departure.Time.nanos < 2 ^ 18 * 60000000000 then
                wholeMinutes f.Departure.Time f.Arrival.Time
              else Time.minutesInt (f.Arrival.Time.Sub f.Departure.Time) }
        else f) ∧
    (normalizeDurations flights).length = flights.length ∧
    (∀ depart arrive : Time, depart.nanos < arrive.nanos →
      Time.minutesInt (arrive.Sub depart) = wholeMinutes depart arrive ∨
      Time.minutesInt (arrive.Sub depart) = wholeMinutes depart arrive + 1) ∧
    (∀ depart arrive : Time, arrive.nanos - depart.nanos ≤ 2 ^ 63 - 1 →
      wholeMinutes depart arrive = (arrive.nanos - depart.nanos) / 60000000000) ∧
    (∀ f ∈ flights, (normalizeDuration f).DurationMinute =
      durationMinutes f.Departure.Time f.Arrival.Time f.DurationMinute) := by
  refine ⟨?_, ?_, ?_, ?_, ?_⟩
  · unfold normalizeDurations
    exact List.map_congr_left (fun f _ => normalizeDuration_eq f)
  · simp [normalizeDurations]
  · exact minutesInt_sub_near
  · intro depart arrive h
    unfold wholeMinutes
    rw [min_eq_left h]
  · intro f _
    unfold normalizeDuration durationMinutes Time.IsZero Time.After
    by_cases hd : f.Departure.Time.nanos = 0
    · simp [hd]
    · by_cases ha : f.Arrival.Time.nanos = 0
      · simp [hd, ha]
      · by_cases hlt : f.Departure.Time.nanos < f.Arrival.Time.nanos
        · by_cases hpos :
            0 < Time.minutesInt (f.Arrival.Time.Sub f.Departure.Time)
          · simp [hd, ha, hlt, hpos, not_le.2 hpos]
          · simp [hd, ha, hlt, hpos, not_lt.1 hpos]
        · have hnp : Time.minutesInt (f.Arrival.Time.Sub f.Departure.Time) ≤ 0 :=
            minutesInt_nonpos _ (sub_nonpos_of_not_after _ _ hlt)
          simp [hd, ha, hlt, hnp]

/-- Claim C10, witness: the sample record, declared at 45 minutes, departs 08:00 and
arrives 10:50 and is normalized to 170 minutes, as `durationMinutes` gives. -/
theorem normalizeDurations_contract_witness :
    (normalizeDuration sampleFlight).DurationMinute =
        durationMinutes sampleFlight.Departure.Time sampleFlight.Arrival.Time
          sampleFlight.DurationMinute ∧
    (normalizeDurations [sampleFlight]).map (fun f => f.DurationMinute) = [170] :=
  ⟨(normalizeDurations_contract [sampleFlight]).2.2.2.2 sampleFlight (by decide),
    by rw [(normalizeDurations_contract [sampleFlight]).1]; decide⟩

/-- Claim C10, counterexample: the arrival is 30 seconds after the departure, both
timestamps are non-zero and the interval is positive, yet the declared duration of 45
minutes is kept although no whole minute lies between the two timestamps. -/
theorem normalizeDurations_short_interval :
    shortHop.Departure.Time.nanos ≠ 0 ∧ shortHop.Arrival.Time.nanos ≠ 0 ∧
    0 < shortHop.Arrival.Time.nanos - shortHop.Departure.Time.nanos ∧
    (shortHop.Arrival.Time.nanos - shortHop.Departure.Time.nanos) / 60000000000 = 0 ∧
    shortHop.DurationMinute = 45 ∧
    normalizeDurations [shortHop] = [shortHop] := by
  refine ⟨by decide, by decide, by decide, by decide, by decide, ?_⟩
  unfold normalizeDurations
  rw [List.map_cons, List.map_nil, normalizeDuration_eq, if_neg (by decide)]

/-- A stay of `2 ^ 18` minutes and 59.999999999 seconds between departure and arrival:
262144 whole minutes have passed and `normalizeDurations` writes 262145. -/
theorem normalizeDurations_long_interval :
    wholeMinutes longStay.Departure.Time longStay.Arrival.Time = 262144 ∧
    (normalizeDurations [longStay]).map (fun f => f.DurationMinute) = [262145] := by
  refine ⟨by decide, ?_⟩
  unfold normalizeDurations
  rw [List.map_cons, List.map_nil, normalizeDuration_eq, if_pos (by decide)]
  have hsub : longStay.Arrival.Time.Sub longStay.Departure.Time = 15728699999999999 := by
    decide
  simp only [List.map_cons, List.map_nil, hsub, minutesInt_rounds_up]
  rw [if_neg (by decide)]

/-! ## TTL cache -/

theorem mapGet_mapSet_self {V : Type} (m : List (String × V)) (k : String) (v : V) :
    mapGet (mapSet m k v) k = some v := by
  induction m with
  | nil => simp [mapSet, mapGet]
  | cons q rest ih =>
    obtain ⟨k', v'⟩ := q
    by_cases hk : k' = k
    · simp [mapSet, mapGet, hk]
    · simp [mapSet, mapGet, hk, ih]

theorem mapGet_mapSet_of_ne {V : Type} (m : List (String × V)) {k k' : String} (v : V)
    (hne : k' ≠ k) : mapGet (mapSet m k v) k' = mapGet m k' := by
  induction m with
  | nil => simp [mapSet, mapGet, Ne.symm hne]
  | cons q rest ih =>
    obtain ⟨k₀, v₀⟩ := q
    by_cases hk : k₀ = k
    · subst hk
      simp [mapSet, mapGet, Ne.symm hne]
    · by_cases hk' : k₀ = k'
      · subst hk'
        simp [mapSet, mapGet, hk]
      · simp [mapSet, mapGet, hk, hk', ih]

theorem mapGet_mapDelete_self {V : Type} (m : List (String × V)) (k : String) :
    mapGet (mapDelete m k) k = none := by
  induction m with
  | nil => rfl
  | cons q rest ih =>
    obtain ⟨k', v'⟩ := q
    by_cases hk : k' = k
    · simp [mapDelete, hk, ih]
    · simp [mapDelete, hk, mapGet, ih]

theorem mapGet_mapDelete_of_ne {V : Type} (m : List (String × V)) {k k' : String}
    (hne : k' ≠ k) : mapGet (mapDelete m k) k' = mapGet m k' := by
  induction m with
  | nil => rfl
  | cons q rest ih =>
    obtain ⟨k₀, v₀⟩ := q
    by_cases hk : k₀ = k
    · subst hk
      simp [mapDelete, mapGet, Ne.symm hne, ih]
    · by_cases hk' : k₀ = k'
      · subst hk'
        simp [mapDelete, mapGet, hk]
      · simp [mapDelete, mapGet, hk, hk', ih]

theorem cache_get_absent {σ T : Type} (c : Cache σ T) (key : String) (now : Time) (s : σ)
    (h : mapGet c.entries key = none) : c.Get key now s = (none, c, s) := by
  simp [Cache.Get, h]

theorem cache_get_expired {σ T : Type} (c : Cache σ T) (key : String) (now : Time) (s : σ)
    (e : Entry T) (h : mapGet c.entries key = some e) (hexp : e.expiry.nanos < now.nanos) :
    c.Get key now s = (none, { c with entries := mapDelete c.entries key }, s) := by
  simp [Cache.Get, h, Time.After, hexp]

theorem cache_get_valid {σ T : Type} (c : Cache σ T) (key : String) (now : Time) (s : σ)
    (e : Entry T) (h : mapGet c.entries key = some e) (hval : now.nanos ≤ e.expiry.nanos) :
    c.Get key now s = (some (c.cloneValue e.value s).1, c, (c.cloneValue e.value s).2) := by
  have hna : ¬ e.expiry.nanos < now.nanos := not_lt.2 hval
  cases hc : c.clone <;> simp [Cache.Get, h, Time.After, hna, Cache.cloneValue, hc]

/-- Claim C11 (amended). For every cache state, key and current time, `Cache.Get` returns
found=false if the key is absent or if the current time is strictly after the stored
expiry instant of the entry, and returns found=true with the stored value, as cloned,
otherwise: also at the instant exactly equal to the expiry. -/
theorem cache_get_contract {σ T : Type} (c : Cache σ T) (key : String) (now : Time) (s : σ) :
    (mapGet c.entries key = none → (c.Get key now s).1 = none) ∧
    (∀ e, mapGet c.entries key = some e → e.expiry.nanos < now.nanos →
      (c.Get key now s).1 = none) ∧
    (∀ e, mapGet c.entries key = some e → now.nanos ≤ e.expiry.nanos →
      (c.Get key now s).1 = some (c.cloneValue e.value s).1) ∧
    (∀ e, mapGet c.entries key = some e → now = e.expiry →
      (c.Get key now s).1 = some (c.cloneValue e.value s).1) := by
  refine ⟨fun h => ?_, fun e h hexp => ?_, fun e h hval => ?_, fun e h heq => ?_⟩
  · rw [cache_get_absent c key now s h]
  · rw [cache_get_expired c key now s e h hexp]
  · rw [cache_get_valid c key now s e h hval]
  · rw [cache_get_valid c key now s e h (by rw [heq])]

/-- Claim C11, witness: the sample entry is found one nanosecond before its expiry and
not found one nanosecond after it. -/
theorem cache_get_contract_witness :
    (sampleCache.Get "CGK|DPS" ((Time.ofUnix 1717228800 0).Add (-1)) ()).1 = some "stored" ∧
    (sampleCache.Get "CGK|DPS" ((Time.ofUnix 1717228800 0).Add 1) ()).1 = none :=
  ⟨(cache_get_contract sampleCache "CGK|DPS" ((Time.ofUnix 1717228800 0).Add (-1)) ()).2.2.1
      ⟨"stored", Time.ofUnix 1717228800 0⟩ (by decide) (by decide),
    (cache_get_contract sampleCache "CGK|DPS" ((Time.ofUnix 1717228800 0).Add 1) ()).2.1
      ⟨"stored", Time.ofUnix 1717228800 0⟩ (by decide) (by decide)⟩

/-- Claim C11, counterexample: at the instant exactly equal to the expiry of the sample
entry, `Get` still finds it. -/
theorem cache_get_at_expiry :
    mapGet sampleCache.entries "CGK|DPS" = some ⟨"stored", Time.ofUnix 1717228800 0⟩ ∧
    (sampleCache.Get "CGK|DPS" (Time.ofUnix 1717228800 0) ()).1 = some "stored" := by
  decide

/-- Claim C13. When the entry of key `k` has expired at the time of the call (the current
time is after its expiry), `Get(k)` returns found=false and removes the entry of `k` from
the entry map: `k` is absent afterwards and the entries under all other keys are
unchanged.  A `Get` that does not find an expired entry, the key being absent or the entry
still valid, leaves the cache unchanged. -/
theorem cache_get_eviction {σ T : Type} (c : Cache σ T) (k : String) (now : Time) (s : σ) :
    (∀ e, mapGet c.entries k = some e → now.After e.expiry = true →
      (c.Get k now s).1 = none ∧
      mapGet (c.Get k now s).2.1.entries k = none ∧
      (∀ k', k' ≠ k → mapGet (c.Get k now s).2.1.entries k' = mapGet c.entries k') ∧
      (∀ later s', ((c.Get k now s).2.1.Get k later s').1 = none) ∧
      (c.Get k now s).2.1.clone = c.clone) ∧
    (mapGet c.entries k = none → (c.Get k now s).2.1 = c) ∧
    (∀ e, mapGet c.entries k = some e → now.After e.expiry = false →
      (c.Get k now s).2.1 = c) := by
  refine ⟨fun e h hexp => ?_, fun h => ?_, fun e h hval => ?_⟩
  · have hlt : e.expiry.nanos < now.nanos := by simpa [Time.After] using hexp
    rw [cache_get_expired c k now s e h hlt]
    refine ⟨rfl, mapGet_mapDelete_self _ _, fun k' hne => mapGet_mapDelete_of_ne _ hne,
      fun later s' => ?_, rfl⟩
    rw [cache_get_absent _ k later s' (mapGet_mapDelete_self _ _)]
  · rw [cache_get_absent c k now s h]
  · have hle : now.nanos ≤ e.expiry.nanos := by
      have : ¬ e.expiry.nanos < now.nanos := by simpa [Time.After] using hval
      exact not_lt.1 this
    rw [cache_get_valid c k now s e h hle]

/-- Claim C13, witness: one nanosecond after its expiry the sample entry is evicted by
`Get`. -/
theorem cache_get_eviction_witness :
    (sampleCache.Get "CGK|DPS" ((Time.ofUnix 1717228800 0).Add 1) ()).1 = none ∧
    mapGet (sampleCache.Get "CGK|DPS" ((Time.ofUnix 1717228800 0).Add 1) ()).2.1.entries
      "CGK|DPS" = none :=
  ⟨((cache_get_eviction sampleCache "CGK|DPS" ((Time.ofUnix 1717228800 0).Add 1) ()).1
      ⟨"stored", Time.ofUnix 1717228800 0⟩ (by decide) (by decide)).1,
    ((cache_get_eviction sampleCache "CGK|DPS" ((Time.ofUnix 1717228800 0).Add 1) ()).1
      ⟨"stored", Time.ofUnix 1717228800 0⟩ (by decide) (by decide)).2.1⟩

/-! ## Retry -/

/-- What the loop of `searchWithRetry` does from attempt `a` on, `n` being the maximal
number of retries: the calls made, the outcome of the last call, and the outcomes of the
calls before it. -/
theorem retryLoop_spec (search : Nat → SearchOutcome) (ctxDone : Nat → Option GoError)
    (n : Nat) :
    ∀ (fuel a : Nat) (b : Int) (s : List Int), a + fuel = n + 1 → 0 < fuel →
      a < (retryLoop search ctxDone n fuel a b s).calls ∧
      (retryLoop search ctxDone n fuel a b s).calls ≤ n + 1 ∧
      (∀ k, a ≤ k → k + 1 < (retryLoop search ctxDone n fuel a b s).calls →
        (∃ d, search k = .error (.temporary d)) ∧ ctxDone k = none) ∧
      (∀ fl, search ((retryLoop search ctxDone n fuel a b s).calls - 1) = .ok fl →
        (retryLoop search ctxDone n fuel a b s).flights = fl ∧
        (retryLoop search ctxDone n fuel a b s).err = none) ∧
      (∀ e, search ((retryLoop search ctxDone n fuel a b s).calls - 1) = .error e →
        (retryLoop search ctxDone n fuel a b s).flights = [] ∧
        (e.isTemporary = false → (retryLoop search ctxDone n fuel a b s).err = some e) ∧
        (e.isTemporary = true → (retryLoop search ctxDone n fuel a b s).calls = n + 1 →
          (retryLoop search ctxDone n fuel a b s).err = some e) ∧
        (e.isTemporary = true → (retryLoop search ctxDone n fuel a b s).calls < n + 1 →
          ∃ c, ctxDone ((retryLoop search ctxDone n fuel a b s).calls - 1) = some c ∧
            (retryLoop search ctxDone n fuel a b s).err = some c)) := by
  intro fuel
  induction fuel with
  | zero => intro a b s _ h; exact absurd h (lt_irrefl 0)
  | succ fuel ih =>
    intro a b s hsum _
    cases hs : search a with
    | ok fl =>
      have hr : retryLoop search ctxDone n (fuel + 1) a b s = ⟨fl, none, a + 1, s⟩ := by
        simp [retryLoop, hs]
      rw [hr]
      refine ⟨by simp, by simp; omega, ?_, ?_, ?_⟩
      · intro k hk hlt; simp at hlt; omega
      · intro fl' hfl'
        simp only [Nat.add_sub_cancel, hs] at hfl'
        exact ⟨Except.ok.inj hfl', rfl⟩
      · intro e he
        simp only [Nat.add_sub_cancel, hs] at he
        cases he
    | error err =>
      by_cases htemp : err.isTemporary = true
      · by_cases hlast : (a : Int) = (n : Int)
        · have hr : retryLoop search ctxDone n (fuel + 1) a b s = ⟨[], some err, a + 1, s⟩ := by
            simp [retryLoop, hs, htemp, hlast]
          rw [hr]
          refine ⟨by simp, by simp; omega, ?_, ?_, ?_⟩
          · intro k hk hlt; simp at hlt; omega
          · intro fl' hfl'
            simp only [Nat.add_sub_cancel, hs] at hfl'
            cases hfl'
          · intro e he
            simp only [Nat.add_sub_cancel, hs] at he
            cases he
            refine ⟨rfl, fun _ => rfl, fun _ _ => rfl, fun _ hlt => ?_⟩
            simp at hlt
            omega
        · cases hc : ctxDone a with
          | some c =>
            have hr : retryLoop search ctxDone n (fuel + 1) a b s =
                ⟨[], some c, a + 1, s ++ [b]⟩ := by
              simp [retryLoop, hs, htemp, hlast, hc]
            rw [hr]
            refine ⟨by simp, by simp; omega, ?_, ?_, ?_⟩
            · intro k hk hlt; simp at hlt; omega
            · intro fl' hfl'
              simp only [Nat.add_sub_cancel, hs] at hfl'
              cases hfl'
            · intro e he
              simp only [Nat.add_sub_cancel, hs] at he
              cases he
              refine ⟨rfl, fun h => ?_, fun _ hcalls => ?_, fun _ _ => ⟨c, ?_, rfl⟩⟩
              · rw [htemp] at h; cases h
              · simp at hcalls
                omega
              · simpa using hc
          | none =>
            have hr : retryLoop search ctxDone n (fuel + 1) a b s =
                retryLoop search ctxDone n fuel (a + 1) (wrapInt64 (b * 2)) (s ++ [b]) := by
              simp [retryLoop, hs, htemp, hlast, hc]
            have hfuel : 0 < fuel := by
              have : (a : Int) ≠ n := hlast
              omega
            obtain ⟨h1, h2, h3, h4, h5⟩ :=
              ih (a + 1) (wrapInt64 (b * 2)) (s ++ [b]) (by omega) hfuel
            rw [hr]
            refine ⟨by omega, h2, ?_, h4, h5⟩
            intro k hk hlt
            rcases Nat.eq_or_lt_of_le hk with rfl | hk'
            · cases err with
              | temporary d => exact ⟨⟨d, hs⟩, hc⟩
              | permanent d => cases htemp
              | canceled => cases htemp
              | deadlineExceeded => cases htemp
              | providerFailed => cases htemp
            · exact h3 k hk' hlt
      · have hr : retryLoop search ctxDone n (fuel + 1) a b s = ⟨[], some err, a + 1, s⟩ := by
          simp [retryLoop, hs, htemp]
        rw [hr]
        refine ⟨by simp, by simp; omega, ?_, ?_, ?_⟩
        · intro k hk hlt; simp at hlt; omega
        · intro fl' hfl'
          simp only [Nat.add_sub_cancel, hs] at hfl'
          cases hfl'
        · intro e he
          simp only [Nat.add_sub_cancel, hs] at he
          cases he
          refine ⟨rfl, fun _ => rfl, fun h => ?_, fun h => ?_⟩
          · exact absurd h htemp
          · exact absurd h htemp

theorem searchWithRetry_spec (n : Nat) (search : Nat → SearchOutcome)
    (ctxDone : Nat → Option GoError) :
    0 < (searchWithRetry n search ctxDone).calls ∧
    (searchWithRetry n search ctxDone).calls ≤ n + 1 ∧
    (∀ k, k + 1 < (searchWithRetry n search ctxDone).calls →
      (∃ d, search k = .error (.temporary d)) ∧ ctxDone k = none) ∧
    (∀ fl, search ((searchWithRetry n search ctxDone).calls - 1) = .ok fl →
      (searchWithRetry n search ctxDone).flights = fl ∧
      (searchWithRetry n search ctxDone).err = none) ∧
    (∀ e, search ((searchWithRetry n search ctxDone).calls - 1) = .error e →
      (searchWithRetry n search ctxDone).flights = [] ∧
      (e.isTemporary = false → (searchWithRetry n search ctxDone).err = some e) ∧
      (e.isTemporary = true → (searchWithRetry n search ctxDone).calls = n + 1 →
        (searchWithRetry n search ctxDone).err = some e) ∧
      (e.isTemporary = true → (searchWithRetry n search ctxDone).calls < n + 1 →
        ∃ c, ctxDone ((searchWithRetry n search ctxDone).calls - 1) = some c ∧
          (searchWithRetry n search ctxDone).err = some c)) := by
  have hfuel : ((n : Int) + 1).toNat = n + 1 := by omega
  unfold searchWithRetry
  rw [hfuel]
  obtain ⟨h1, h2, h3, h4, h5⟩ :=
    retryLoop_spec search ctxDone n (n + 1) 0 initialBackoff [] (by omega) (by omega)
  exact ⟨h1, h2, fun k hk => h3 k (Nat.zero_le k) hk, h4, h5⟩

/-- An attempt preceded only by Transient failures, none of whose backoff sleeps is
interrupted by the context, is made. -/
theorem searchWithRetry_reaches (n : Nat) (search : Nat → SearchOutcome)
    (ctxDone : Nat → Option GoError) (k : Nat) (hk : k ≤ n)
    (hbefore : ∀ j, j < k → (∃ d, search j = .error (.temporary d)) ∧ ctxDone j = none) :
    k < (searchWithRetry n search ctxDone).calls := by
  obtain ⟨h1, h2, _, _, h5⟩ := searchWithRetry_spec n search ctxDone
  by_contra hlt
  have hj : (searchWithRetry n search ctxDone).calls - 1 < k := by omega
  obtain ⟨⟨d, hd⟩, hnone⟩ := hbefore _ hj
  obtain ⟨_, _, h53, h54⟩ := h5 _ hd
  have hcalls : (searchWithRetry n search ctxDone).calls < n + 1 := by omega
  obtain ⟨c, hc, _⟩ := h54 rfl hcalls
  rw [hnone] at hc
  cases hc

/-- Claim C15. For every `maxProviderRetries = n ≥ 0` and every sequence of provider
outcomes, `searchWithRetry` calls the provider at most `n + 1` times; every call but the
last one it makes failed with a Transient error; a successful attempt ends the call with
its flights and a nil error, and an attempt that fails with a non-Transient error ends
the call with that error, whatever number of retries remains; an attempt preceded only by
Transient failures whose backoff sleeps the context does not interrupt is made, as long
as at most `n` attempts precede it. -/
theorem searchWithRetry_attempts (n : Nat) (search : Nat → SearchOutcome)
    (ctxDone : Nat → Option GoError) :
    (searchWithRetry n search ctxDone).calls ≤ n + 1 ∧
    (∀ k, k + 1 < (searchWithRetry n search ctxDone).calls →
      ∃ d, search k = .error (.temporary d)) ∧
    (∀ k fl, k < (searchWithRetry n search ctxDone).calls → search k = .ok fl →
      (searchWithRetry n search ctxDone).calls = k + 1 ∧
      (searchWithRetry n search ctxDone).flights = fl ∧
      (searchWithRetry n search ctxDone).err = none) ∧
    (∀ k e, k < (searchWithRetry n search ctxDone).calls → search k = .error e →
      e.isTemporary = false →
      (searchWithRetry n search ctxDone).calls = k + 1 ∧
      (searchWithRetry n search ctxDone).flights = [] ∧
      (searchWithRetry n search ctxDone).err = some e) ∧
    (∀ k, k ≤ n →
      (∀ j, j < k → (∃ d, search j = .error (.temporary d)) ∧ ctxDone j = none) →
      k < (searchWithRetry n search ctxDone).calls) := by
  obtain ⟨h1, h2, h3, h4, h5⟩ := searchWithRetry_spec n search ctxDone
  refine ⟨h2, fun k hk => (h3 k hk).1, ?_, ?_,
    fun k hk hb => searchWithRetry_reaches n search ctxDone k hk hb⟩
  · intro k fl hk hok
    have hlast : (searchWithRetry n search ctxDone).calls = k + 1 := by
      by_contra hne
      obtain ⟨⟨d, hd⟩, _⟩ := h3 k (by omega)
      rw [hok] at hd
      cases hd
    have hidx : (searchWithRetry n search ctxDone).calls - 1 = k := by omega
    rw [← hidx] at hok
    exact ⟨hlast, h4 fl hok⟩
  · intro k e hk herr hperm
    have hlast : (searchWithRetry n search ctxDone).calls = k + 1 := by
      by_contra hne
      obtain ⟨⟨d, hd⟩, _⟩ := h3 k (by omega)
      rw [herr] at hd
      cases hd
      cases hperm
    have hidx : (searchWithRetry n search ctxDone).calls - 1 = k := by omega
    rw [← hidx] at herr
    obtain ⟨hfl, hp, _, _⟩ := h5 e herr
    exact ⟨hlast, hfl, hp hperm⟩

/-- Claim C15, witness: with 5 retries allowed, a provider that fails Transient once and
then succeeds is called twice and its flights are returned. -/
theorem searchWithRetry_attempts_witness :
    (searchWithRetry 5 (failsThenSucceeds 1) neverDone).calls = 1 + 1 ∧
    (searchWithRetry 5 (failsThenSucceeds 1) neverDone).flights = [sampleFlight] ∧
    (searchWithRetry 5 (failsThenSucceeds 1) neverDone).err = none :=
  (searchWithRetry_attempts 5 (failsThenSucceeds 1) neverDone).2.2.1 1 [sampleFlight]
    (by decide) rfl

/-- Claim C16. For every `maxProviderRetries = n ≥ 0`, when all `n + 1` attempts fail with
a Transient error, `searchWithRetry` returns a nil flight list and the error of the final
attempt itself: a Transient error, not `errProviderFailed`.  All `n + 1` attempts are made
when the context interrupts none of the backoff sleeps. -/
theorem searchWithRetry_exhausted (n : Nat) (search : Nat → SearchOutcome)
    (ctxDone : Nat → Option GoError)
    (hall : ∀ k, k ≤ n → ∃ d, search k = .error (.temporary d)) :
    ((searchWithRetry n search ctxDone).calls = n + 1 →
      ∃ d, search n = .error (.temporary d) ∧
        (searchWithRetry n search ctxDone).flights = [] ∧
        (searchWithRetry n search ctxDone).err = some (.temporary d) ∧
        (GoError.temporary d).isTemporary = true ∧
        (searchWithRetry n search ctxDone).err ≠ some errProviderFailed) ∧
    ((∀ k, k < n → ctxDone k = none) →
      (searchWithRetry n search ctxDone).calls = n + 1) := by
  obtain ⟨h1, h2, h3, h4, h5⟩ := searchWithRetry_spec n search ctxDone
  constructor
  · intro hcalls
    obtain ⟨d, hd⟩ := hall n (le_refl n)
    have hidx : (searchWithRetry n search ctxDone).calls - 1 = n := by omega
    have hd' := hd
    rw [← hidx] at hd'
    obtain ⟨hfl, _, ht, _⟩ := h5 _ hd'
    have herr := ht rfl hcalls
    refine ⟨d, hd, hfl, herr, rfl, ?_⟩
    rw [herr]
    intro h
    cases h
  · intro hctx
    have := searchWithRetry_reaches n search ctxDone n (le_refl n)
      (fun j hj => ⟨hall j (le_of_lt hj), hctx j hj⟩)
    omega

/-- Claim C16, witness: with 2 retries allowed, a provider that always fails Transient is
called 3 times and its last error is returned. -/
theorem searchWithRetry_exhausted_witness :
    ∃ d, failsThenSucceeds 9 2 = .error (.temporary d) ∧
      (searchWithRetry 2 (failsThenSucceeds 9) neverDone).flights = [] ∧
      (searchWithRetry 2 (failsThenSucceeds 9) neverDone).err = some (.temporary d) ∧
      (GoError.temporary d).isTemporary = true ∧
      (searchWithRetry 2 (failsThenSucceeds 9) neverDone).err ≠ some errProviderFailed :=
  (searchWithRetry_exhausted 2 (failsThenSucceeds 9) neverDone
    (fun k hk => ⟨"overloaded", by
      have : k < 9 := by omega
      simp [failsThenSucceeds, this]⟩)).1 (by decide)

theorem backoffAt_eq (i : Nat) (hi : i ≤ 36) : backoffAt i = 80000000 * 2 ^ i := by
  induction i with
  | zero => rfl
  | succ i ih =>
    have hpow : (2 : Int) ^ (i + 1) ≤ 2 ^ 36 :=
      pow_le_pow_right₀ (by norm_num) hi
    have hpos : (0 : Int) < 2 ^ (i + 1) := by positivity
    unfold backoffAt
    rw [ih (by omega)]
    have heq : (80000000 : Int) * 2 ^ i * 2 = 80000000 * 2 ^ (i + 1) := by ring
    rw [heq]
    apply wrapInt64_of_inRange
    · have : (0 : Int) ≤ 80000000 * 2 ^ (i + 1) := by positivity
      omega
    · have h36 : (80000000 : Int) * 2 ^ (i + 1) ≤ 80000000 * 2 ^ 36 :=
        mul_le_mul_of_nonneg_left hpow (by norm_num)
      have hnum : (80000000 : Int) * 2 ^ 36 < 2 ^ 63 := by norm_num
      exact lt_of_le_of_lt h36 hnum

theorem sum_backoff (k : Nat) :
    ((List.range k).map (fun i => (80000000 : Int) * 2 ^ i)).sum = 80000000 * (2 ^ k - 1) := by
  induction k with
  | zero => simp
  | succ k ih =>
    rw [List.range_succ, List.map_append, List.sum_append, ih]
    simp only [List.map_cons, List.map_nil, List.sum_cons, List.sum_nil]
    ring

/-- With a context that is never done, the sleeps of the loop of `searchWithRetry` are the
successive backoffs, one between two consecutive calls. -/
theorem retryLoop_sleeps (search : Nat → SearchOutcome) (ctxDone : Nat → Option GoError)
    (hctx : ∀ k, ctxDone k = none) (n : Nat) :
    ∀ (fuel a : Nat), a + fuel = n + 1 → 0 < fuel →
      (retryLoop search ctxDone n fuel a (backoffAt a) ((List.range a).map backoffAt)).sleeps =
        (List.range ((retryLoop search ctxDone n fuel a (backoffAt a)
          ((List.range a).map backoffAt)).calls - 1)).map backoffAt := by
  intro fuel
  induction fuel with
  | zero => intro a _ h; exact absurd h (lt_irrefl 0)
  | succ fuel ih =>
    intro a hsum _
    cases hs : search a with
    | ok fl => simp [retryLoop, hs]
    | error err =>
      by_cases htemp : err.isTemporary = true
      · by_cases hlast : (a : Int) = (n : Int)
        · simp [retryLoop, hs, htemp, hlast]
        · have hfuel : 0 < fuel := by
            have : (a : Int) ≠ n := hlast
            omega
          have hstep := ih (a + 1) (by omega) hfuel
          have hs' : (List.range a).map backoffAt ++ [backoffAt a] =
              (List.range (a + 1)).map backoffAt := by
            rw [List.range_succ, List.map_append]
            rfl
          have hb : wrapInt64 (backoffAt a * 2) = backoffAt (a + 1) := rfl
          simp only [retryLoop, hs, htemp, hlast, hctx a, hs', hb, Bool.not_true,
            Bool.false_eq_true, if_false]
          exact hstep
      · simp [retryLoop, hs, htemp]

theorem searchWithRetry_sleeps (n : Nat) (search : Nat → SearchOutcome)
    (ctxDone : Nat → Option GoError) (hctx : ∀ k, ctxDone k = none) :
    (searchWithRetry n search ctxDone).sleeps =
      (List.range ((searchWithRetry n search ctxDone).calls - 1)).map backoffAt := by
  have hfuel : ((n : Int) + 1).toNat = n + 1 := by omega
  unfold searchWithRetry
  rw [hfuel]
  exact retryLoop_sleeps search ctxDone hctx n (n + 1) 0 (by omega) (by omega)

/-- Claim C17 (amended). In `searchWithRetry` with no cancellation there is one sleep
between two consecutive attempts and none after the final attempt; the sleep between
attempt `k` and attempt `k + 1` is 80·2^(k−1) ms for `k` up to 37, that is as long as the
doubled backoff fits in a `time.Duration`; so a call that performs `k ≤ 37` retries has
slept 80·(2^k − 1) ms in total.  With max-retries = 2, a provider that fails Transient
twice and then succeeds yields success after 80 + 160 ms of backoff, and one that fails
Transient on all 3 attempts yields the Transient failure after 80 + 160 ms of backoff.
Durations are in nanoseconds. -/
theorem searchWithRetry_backoff (n : Nat) (search : Nat → SearchOutcome)
    (ctxDone : Nat → Option GoError) (hctx : ∀ k, ctxDone k = none) :
    (searchWithRetry n search ctxDone).sleeps.length =
      (searchWithRetry n search ctxDone).calls - 1 ∧
    (∀ i, i < (searchWithRetry n search ctxDone).sleeps.length → i ≤ 36 →
      (searchWithRetry n search ctxDone).sleeps[i]? = some (80000000 * 2 ^ i)) ∧
    ((searchWithRetry n search ctxDone).calls ≤ 38 →
      (searchWithRetry n search ctxDone).sleeps.sum =
        80000000 * (2 ^ ((searchWithRetry n search ctxDone).calls - 1) - 1)) ∧
    (∀ (s : Nat → SearchOutcome) (d₀ d₁ : String) (fl : List Flight),
      s 0 = .error (.temporary d₀) → s 1 = .error (.temporary d₁) → s 2 = .ok fl →
      searchWithRetry 2 s ctxDone = ⟨fl, none, 3, [80000000, 160000000]⟩) ∧
    (∀ (s : Nat → SearchOutcome) (d₀ d₁ d₂ : String),
      s 0 = .error (.temporary d₀) → s 1 = .error (.temporary d₁) →
      s 2 = .error (.temporary d₂) →
      searchWithRetry 2 s ctxDone =
        ⟨[], some (.temporary d₂), 3, [80000000, 160000000]⟩) := by
  have hsl := searchWithRetry_sleeps n search ctxDone hctx
  have hw : wrapInt64 160000000 = 160000000 := by decide
  have hi : initialBackoff = 80000000 := by decide
  refine ⟨?_, ?_, ?_, ?_, ?_⟩
  · rw [hsl]; simp
  · intro i hlt hi36
    rw [hsl] at hlt ⊢
    simp only [List.length_map, List.length_range] at hlt
    rw [List.getElem?_map, List.getElem?_range hlt]
    simp [backoffAt_eq i hi36]
  · intro hcalls
    rw [hsl]
    have hmap : (List.range ((searchWithRetry n search ctxDone).calls - 1)).map backoffAt =
        (List.range ((searchWithRetry n search ctxDone).calls - 1)).map
          (fun i => (80000000 : Int) * 2 ^ i) := by
      apply List.map_congr_left
      intro i hmem
      have := List.mem_range.1 hmem
      exact backoffAt_eq i (by omega)
    rw [hmap, sum_backoff]
  · intro s d₀ d₁ fl h0 h1 h2
    simp [searchWithRetry, retryLoop, h0, h1, h2, hctx, GoError.isTemporary, hw, hi]
  · intro s d₀ d₁ d₂ h0 h1 h2
    simp [searchWithRetry, retryLoop, h0, h1, h2, hctx, GoError.isTemporary, hw, hi]

/-- Claim C17, witness: with 2 retries allowed and a context that is never done, a
provider that fails Transient twice and then succeeds has been waited for 80 ms and
160 ms. -/
theorem searchWithRetry_backoff_witness :
    searchWithRetry 2 (failsThenSucceeds 2) neverDone =
      ⟨[sampleFlight], none, 3, [80000000, 160000000]⟩ :=
  (searchWithRetry_backoff 2 (failsThenSucceeds 2) neverDone (fun _ => rfl)).2.2.2.1
    (failsThenSucceeds 2) "overloaded" "overloaded" [sampleFlight] rfl rfl rfl

/-- Claim C17, counterexample: with 38 retries allowed and a provider that always fails
Transient, the backoff has been doubled 37 times before the 38th sleep and no longer fits
in a `time.Duration`: the timer is started with a negative duration, where 80·2^37 ms is
10995116277760000000 ns. -/
theorem searchWithRetry_backoff_wraps :
    (searchWithRetry 38 (failsThenSucceeds 100) neverDone).calls = 39 ∧
    (searchWithRetry 38 (failsThenSucceeds 100) neverDone).sleeps.length = 38 ∧
    (searchWithRetry 38 (failsThenSucceeds 100) neverDone).sleeps[36]? =
      some (80000000 * 2 ^ 36) ∧
    (searchWithRetry 38 (failsThenSucceeds 100) neverDone).sleeps[37]? =
      some (-7451627795949551616) ∧
    (80000000 : Int) * 2 ^ 37 = 10995116277760000000 := by
  have hreach := searchWithRetry_reaches 38 (failsThenSucceeds 100) neverDone 38 (le_refl _)
    (fun j hj => ⟨⟨"overloaded", by
      have : j < 100 := by omega
      simp [failsThenSucceeds, this]⟩, rfl⟩)
  have hle := (searchWithRetry_spec 38 (failsThenSucceeds 100) neverDone).2.1
  have hcalls : (searchWithRetry 38 (failsThenSucceeds 100) neverDone).calls = 39 := by
    have h1 : (searchWithRetry ((38 : Nat) : Int) (failsThenSucceeds 100) neverDone).calls
        ≤ 38 + 1 := hle
    have h2 : 38 < (searchWithRetry ((38 : Nat) : Int) (failsThenSucceeds 100)
        neverDone).calls := hreach
    have h3 : ((38 : Nat) : Int) = 38 := rfl
    rw [h3] at h1 h2
    omega
  have hsl : (searchWithRetry 38 (failsThenSucceeds 100) neverDone).sleeps =
      (List.range 38).map backoffAt := by
    have h := searchWithRetry_sleeps 38 (failsThenSucceeds 100) neverDone (fun _ => rfl)
    have h3 : ((38 : Nat) : Int) = 38 := rfl
    rw [h3, hcalls] at h
    exact h
  have h37 : backoffAt 37 = -7451627795949551616 := by
    show wrapInt64 (backoffAt 36 * 2) = -7451627795949551616
    rw [backoffAt_eq 36 (le_refl _)]
    decide
  refine ⟨hcalls, ?_, ?_, ?_, by norm_num⟩
  · rw [hsl]; simp
  · rw [hsl, List.getElem?_map, List.getElem?_range (by norm_num)]
    simp [backoffAt_eq 36 (le_refl _)]
  · rw [hsl, List.getElem?_map, List.getElem?_range (by norm_num)]
    simp [h37]

/-! ## Rate limiter -/

theorem sub_ge_interval {now last : Time} {i : Int} (hi : 0 < i) (h : i ≤ now.Sub last) :
    last.nanos + i ≤ now.nanos := by
  unfold Time.Sub Time.minDuration Time.maxDuration at h
  simp only at h
  split_ifs at h <;> omega

theorem sub_of_inRange {now last : Time} (h0 : 0 ≤ now.nanos - last.nanos)
    (h1 : now.nanos - last.nanos ≤ 2 ^ 63 - 1) : now.Sub last = now.nanos - last.nanos := by
  unfold Time.Sub Time.minDuration Time.maxDuration
  simp only
  split_ifs <;> omega

theorem check_granted (r : RateLimiter) (now : Time)
    (h : r.last.nanos = 0 ∨ r.interval ≤ now.Sub r.last) :
    r.check now = (.granted, { r with last := now }) := by
  unfold RateLimiter.check Time.IsZero
  rcases h with h | h
  · simp [h]
  · simp [h]

theorem check_sleep (r : RateLimiter) (now : Time)
    (h0 : r.last.nanos ≠ 0) (h1 : ¬ r.interval ≤ now.Sub r.last) :
    r.check now = (.sleep (wrapInt64 (r.interval - now.Sub r.last)), r) := by
  unfold RateLimiter.check Time.IsZero
  simp [h0, h1]

theorem check_interval (r : RateLimiter) (now : Time) :
    (r.check now).2.interval = r.interval := by
  unfold RateLimiter.check
  split_ifs <;> rfl

theorem runChecks_chain (i : Int) (hi : 0 < i) (nows : List Time) :
    ∀ r : RateLimiter, r.interval = i → (∀ t ∈ nows, 0 < t.nanos) →
      List.Chain' (fun a b : Time => a.nanos + i ≤ b.nanos) (r.runChecks nows).2 ∧
      (r.last.nanos ≠ 0 →
        List.Chain (fun a b : Time => a.nanos + i ≤ b.nanos) r.last (r.runChecks nows).2) := by
  induction nows with
  | nil => intro r _ _; simp [RateLimiter.runChecks]
  | cons now rest ih =>
    intro r hr hclock
    have hnow : 0 < now.nanos := hclock now (List.mem_cons_self _ _)
    have hrest : ∀ t ∈ rest, 0 < t.nanos := fun t ht => hclock t (List.mem_cons_of_mem _ ht)
    by_cases hg : r.last.nanos = 0 ∨ r.interval ≤ now.Sub r.last
    · have hc := check_granted r now hg
      have hstep := ih { r with last := now } hr hrest
      have hchain := hstep.2 (ne_of_gt hnow)
      simp only [RateLimiter.runChecks, hc]
      refine ⟨hchain, fun hlast => List.Chain.cons ?_ hchain⟩
      rcases hg with hg | hg
      · exact absurd hg hlast
      · exact sub_ge_interval hi (hr ▸ hg)
    · have h0 : r.last.nanos ≠ 0 := fun h => hg (Or.inl h)
      have h1 : ¬ r.interval ≤ now.Sub r.last := fun h => hg (Or.inr h)
      have hc := check_sleep r now h0 h1
      simp only [RateLimiter.runChecks, hc]
      exact ih r hr hrest

/-- Claim C18. For every `rateLimiter` with interval `I > 0` and every sequence of passes
of `Wait` on it at clock readings (times after the zero time), any two consecutive granted
passes are at least `I` apart: each newly recorded timestamp is at least the previously
recorded one plus `I`, the one recorded before the sequence included. -/
theorem rateLimiter_spacing (r : RateLimiter) (nows : List Time) (hI : 0 < r.interval)
    (hclock : ∀ t ∈ nows, 0 < t.nanos) :
    List.Chain' (fun a b : Time => a.nanos + r.interval ≤ b.nanos) (r.runChecks nows).2 ∧
    (r.last.nanos ≠ 0 →
      List.Chain (fun a b : Time => a.nanos + r.interval ≤ b.nanos) r.last
        (r.runChecks nows).2) :=
  runChecks_chain r.interval hI nows r rfl hclock

/-- Claim C18, witness: on a fresh limiter of interval 100 ms, passes at 0, 30, 100, 150
and 230 ms grant the calls at 0, 100 and 230 ms. -/
theorem rateLimiter_spacing_witness :
    List.Chain' (fun a b : Time => a.nanos + (newRateLimiter 100000000).interval ≤ b.nanos)
      ((newRateLimiter 100000000).runChecks
        [clockAt 0, clockAt 30, clockAt 100, clockAt 150, clockAt 230]).2 ∧
    ((newRateLimiter 100000000).runChecks
      [clockAt 0, clockAt 30, clockAt 100, clockAt 150, clockAt 230]).2 =
      [clockAt 0, clockAt 100, clockAt 230] :=
  ⟨(rateLimiter_spacing (newRateLimiter 100000000)
      [clockAt 0, clockAt 30, clockAt 100, clockAt 150, clockAt 230]
      (by decide) (by decide)).1, by decide⟩

/-- Claim C19. One pass of `rateLimiter.Wait` with interval `I > 0` at the clock reading
`now`, not earlier than the last recorded call: if no prior call has been recorded (`last`
is the zero time) or `now − last ≥ I`, it sets `last := now` and returns without sleeping;
otherwise it leaves `last` unchanged and sleeps for exactly the remaining gap
`I − (now − last)`, and a caller alone on the limiter is granted at the re-check after
that sleep.  There is no burst credit: whatever the idle time before a granted call, a
pass less than `I` after it is not granted. -/
theorem rateLimiter_step (r : RateLimiter) (now : Time) (hI : 0 < r.interval)
    (hdur : r.interval ≤ Time.maxDuration)
    (hmono : r.last.nanos = 0 ∨ r.last.nanos ≤ now.nanos) :
    ((r.last.nanos = 0 ∨ r.interval ≤ now.nanos - r.last.nanos) →
      r.check now = (.granted, { r with last := now })) ∧
    (¬ (r.last.nanos = 0 ∨ r.interval ≤ now.nanos - r.last.nanos) →
      r.check now = (.sleep (r.interval - (now.nanos - r.last.nanos)), r) ∧
      (∀ (clock : Nat → Time) (ctxDone : Nat → Option GoError), clock 0 = now →
        ctxDone 0 = none →
        now.nanos + (r.interval - (now.nanos - r.last.nanos)) ≤ (clock 1).nanos →
        r.Wait clock ctxDone 2 =
          some ⟨none, { r with last := clock 1 },
            [r.interval - (now.nanos - r.last.nanos)]⟩)) ∧
    (∀ later : Time, now.nanos ≠ 0 → now.nanos ≤ later.nanos →
      later.nanos - now.nanos < r.interval →
      (r.check now).1 = .granted →
      ((r.check now).2.check later).1 = .sleep (r.interval - (later.nanos - now.nanos))) := by
  have hmax : Time.maxDuration = 2 ^ 63 - 1 := rfl
  rw [hmax] at hdur
  refine ⟨?_, ?_, ?_⟩
  · intro h
    apply check_granted
    rcases h with h | h
    · exact Or.inl h
    · right
      unfold Time.Sub Time.minDuration Time.maxDuration
      simp only
      split_ifs <;> omega
  · intro h
    have h0 : r.last.nanos ≠ 0 := fun h' => h (Or.inl h')
    have hlt : now.nanos - r.last.nanos < r.interval := by
      have : ¬ r.interval ≤ now.nanos - r.last.nanos := fun h' => h (Or.inr h')
      omega
    have hle : r.last.nanos ≤ now.nanos := by
      rcases hmono with hm | hm
      · exact absurd hm h0
      · exact hm
    have hsub : now.Sub r.last = now.nanos - r.last.nanos :=
      sub_of_inRange (by omega) (by omega)
    have hwrap : wrapInt64 (r.interval - (now.nanos - r.last.nanos)) =
        r.interval - (now.nanos - r.last.nanos) :=
      wrapInt64_of_inRange (by omega) (by omega)
    have hcheck : r.check now = (.sleep (r.interval - (now.nanos - r.last.nanos)), r) := by
      rw [check_sleep r now h0 (by rw [hsub]; omega), hsub, hwrap]
    refine ⟨hcheck, ?_⟩
    intro clock ctxDone hc0 hctx hc1
    have hgrant : r.check (clock 1) = (.granted, { r with last := clock 1 }) := by
      apply check_granted
      right
      unfold Time.Sub Time.minDuration Time.maxDuration
      simp only
      split_ifs <;> omega
    have hnot : ¬ r.interval ≤ 0 := by omega
    simp [RateLimiter.Wait, hnot, RateLimiter.waitLoop, hc0, hcheck, hctx, hgrant]
  · intro later hnow hle hlt hgranted
    have hstate : (r.check now).2 = { r with last := now } := by
      unfold RateLimiter.check at hgranted ⊢
      split_ifs at hgranted ⊢
      · rfl
    rw [hstate]
    have hsub : later.Sub now = later.nanos - now.nanos :=
      sub_of_inRange (by omega) (by omega)
    have hwrap : wrapInt64 (r.interval - (later.nanos - now.nanos)) =
        r.interval - (later.nanos - now.nanos) :=
      wrapInt64_of_inRange (by omega) (by omega)
    rw [check_sleep _ later hnow (by simp only [hsub]; omega)]
    simp only [hsub, hwrap]

/-- Claim C19, witness: on the sample limiter, interval 100 ms and last call at 0 ms, a
pass at 30 ms sleeps for 70 ms, and a pass at 250 ms, after an idle time of two and a half
intervals, is granted while the next one at 251 ms sleeps for 99 ms. -/
theorem rateLimiter_step_witness :
    sampleLimiter.check (clockAt 30) = (.sleep 70000000, sampleLimiter) ∧
    sampleLimiter.check (clockAt 250) = (.granted, { sampleLimiter with last := clockAt 250 }) ∧
    ((sampleLimiter.check (clockAt 250)).2.check (clockAt 251)).1 = .sleep 99000000 :=
  ⟨((rateLimiter_step sampleLimiter (clockAt 30) (by decide) (by decide) (by decide)).2.1
      (by decide)).1,
    (rateLimiter_step sampleLimiter (clockAt 250) (by decide) (by decide) (by decide)).1
      (by decide),
    (rateLimiter_step sampleLimiter (clockAt 250) (by decide) (by decide) (by decide)).2.2
      (clockAt 251) (by decide) (by decide) (by decide) (by decide)⟩

/-! ## Cache: set, then get -/

theorem goCopy_make {α : Type} (zero : α) (src : List α) :
    goCopy (goMake zero src.length) src = src := by
  simp [goCopy, goMake]

theorem cloneFlightsOutput_value (v : Option FlightsOutput) : CloneFlightsOutput v = v := by
  cases v with
  | none => rfl
  | some v => simp [CloneFlightsOutput, goCopy_make]

theorem cache_set_get {σ T : Type} (c : Cache σ T) (key : String) (value : T) (ttl : Int)
    (now : Time) (s : σ) (httl : 0 ≤ ttl) :
    (c.Set key value ttl now s).1.Get key now (c.Set key value ttl now s).2 =
      (some (c.cloneValue (c.cloneValue value s).1 (c.cloneValue value s).2).1,
        (c.Set key value ttl now s).1,
        (c.cloneValue (c.cloneValue value s).1 (c.cloneValue value s).2).2) := by
  have hget : mapGet (c.Set key value ttl now s).1.entries key =
      some ⟨(c.cloneValue value s).1, now.Add ttl⟩ := by
    simp [Cache.Set, mapGet_mapSet_self]
  have hle : now.nanos ≤ (now.Add ttl).nanos := by
    simp only [Time.Add]
    omega
  rw [cache_get_valid _ key now _ _ hget hle]
  rfl

theorem Mem.readFlight_congr {h h' : Mem.Heap} (hs : h'.strings = h.strings)
    (ha : h'.stringArrays = h.stringArrays) : h'.readFlight = h.readFlight := by
  funext f
  simp [Mem.Heap.readFlight, Mem.Heap.readString, Mem.Heap.readStrings, hs, ha]

theorem getElem?_append_pair_fst {α : Type} (l : List α) (a b : α) :
    (l ++ [a, b])[l.length]? = some a := by
  rw [List.getElem?_append_right (le_refl _)]
  simp

theorem getElem?_append_pair_snd {α : Type} (l : List α) (a b : α) :
    (l ++ [a, b])[l.length + 1]? = some b := by
  rw [List.getElem?_append_right (by omega)]
  simp

theorem getElem?_append_single {α : Type} (l : List α) (a : α) :
    (l ++ [a])[l.length]? = some a := by
  rw [List.getElem?_append_right (le_refl _)]
  simp

theorem Mem.readOutput_fresh (h : Mem.Heap) (v : Mem.FlightsOutput) (c₁ c₂ : List Mem.Flight) :
    Mem.Heap.readOutput
        { h with
          flightArrays := h.flightArrays ++ [c₁, c₂]
          outputs := h.outputs ++
            [{ SearchCriteria := v.SearchCriteria, Metadata := v.Metadata,
               Flights := some ⟨h.flightArrays.length, c₁.length⟩,
               ReturnFlights := some ⟨h.flightArrays.length + 1, c₂.length⟩ }] }
        (some h.outputs.length) =
      some
        { SearchCriteria :=
            { Origin := v.SearchCriteria.Origin, Destination := v.SearchCriteria.Destination,
              DepartureDate := v.SearchCriteria.DepartureDate,
              ReturnDate := h.readString v.SearchCriteria.ReturnDate,
              Passengers := v.SearchCriteria.Passengers,
              CabinClass := v.SearchCriteria.CabinClass }
          Metadata :=
            { TotalResults := v.Metadata.TotalResults,
              ProvidersQueried := v.Metadata.ProvidersQueried,
              ProvidersSucceeded := v.Metadata.ProvidersSucceeded,
              ProvidersFailed := v.Metadata.ProvidersFailed,
              SearchTimeMs := v.Metadata.SearchTimeMs, CacheHit := v.Metadata.CacheHit,
              FailedProviders := h.readStrings v.Metadata.FailedProviders }
          Flights := c₁.map h.readFlight
          ReturnFlights := c₂.map h.readFlight } := by
  simp only [Mem.Heap.readOutput, getElem?_append_single, Mem.Heap.readFlights,
    Mem.Heap.flightCells, getElem?_append_pair_fst, getElem?_append_pair_snd,
    Option.getD_some, List.take_length, Mem.Heap.readString, Mem.Heap.readStrings]
  rfl

/-- The clone made by `CloneFlightsOutput` stands for the same output as the original. -/
theorem Mem.clone_readOutput (h : Mem.Heap) (p : Option Nat) :
    (Mem.CloneFlightsOutput p h).2.readOutput (Mem.CloneFlightsOutput p h).1 =
      h.readOutput p := by
  cases p with
  | none => rfl
  | some a =>
    cases hv : h.outputs[a]? with
    | none => simp [Mem.CloneFlightsOutput, Mem.Heap.readOutput, hv]
    | some v =>
      have hclone : Mem.CloneFlightsOutput (some a) h =
          (some h.outputs.length,
            { h with
              flightArrays := h.flightArrays ++ [h.flightCells v.Flights,
                h.flightCells v.ReturnFlights]
              outputs := h.outputs ++
                [{ SearchCriteria := v.SearchCriteria, Metadata := v.Metadata,
                   Flights := some ⟨h.flightArrays.length, (h.flightCells v.Flights).length⟩,
                   ReturnFlights := some ⟨h.flightArrays.length + 1,
                     (h.flightCells v.ReturnFlights).length⟩ }] }) := by
        simp [Mem.CloneFlightsOutput, hv]
      rw [hclone]
      simp only
      rw [Mem.readOutput_fresh h v]
      simp only [Mem.Heap.readOutput, hv, Mem.Heap.readFlights]

/-- Claim C12 (amended). For every key, value and TTL that is not negative, a `Get` of
the key issued right after `Set(key, value, ttl)`, at the same clock instant, returns
found=true together with the clone of the clone of the value that was set: the value
itself when the cache has no clone function, and for `CloneFlightsOutput` an output equal
field by field to the one that was set, both on values and through the pointers in
memory. -/
theorem cache_set_then_get {σ T : Type} (c : Cache σ T) (key : String) (value : T)
    (ttl : Int) (now : Time) (s : σ) (httl : 0 ≤ ttl) :
    ((c.Set key value ttl now s).1.Get key now (c.Set key value ttl now s).2).1 =
      some (c.cloneValue (c.cloneValue value s).1 (c.cloneValue value s).2).1 ∧
    (c.clone = none →
      ((c.Set key value ttl now s).1.Get key now (c.Set key value ttl now s).2).1 =
        some value) ∧
    (∀ f : T → T, c.clone = some (fun v st => (f v, st)) →
      ((c.Set key value ttl now s).1.Get key now (c.Set key value ttl now s).2).1 =
        some (f (f value))) ∧
    (∀ v : Option FlightsOutput, CloneFlightsOutput (CloneFlightsOutput v) = v) ∧
    (∀ (m : Cache Mem.Heap (Option Nat)) (h : Mem.Heap) (p : Option Nat),
      m.clone = some Mem.CloneFlightsOutput →
      ((m.Set key p ttl now h).1.Get key now (m.Set key p ttl now h).2).2.2.readOutput
          ((m.Set key p ttl now h).1.Get key now (m.Set key p ttl now h).2).1.join =
        h.readOutput p) := by
  refine ⟨?_, ?_, ?_, ?_, ?_⟩
  · rw [cache_set_get c key value ttl now s httl]
  · intro hc
    rw [cache_set_get c key value ttl now s httl]
    simp [Cache.cloneValue, hc]
  · intro f hc
    rw [cache_set_get c key value ttl now s httl]
    simp [Cache.cloneValue, hc]
  · intro v
    rw [cloneFlightsOutput_value, cloneFlightsOutput_value]
  · intro m h p hm
    rw [cache_set_get m key p ttl now h httl]
    simp only [Cache.cloneValue, hm, Option.join, Option.some_bind, id]
    rw [Mem.clone_readOutput, Mem.clone_readOutput]

/-- Claim C12, witness: with a time to live of zero, the value set on an empty cache of
strings is found at the same instant. -/
theorem cache_set_then_get_witness :
    (((Cache.New none : Cache Unit String).Set "CGK|DPS" "stored" 0 (clockAt 0) ()).1.Get
      "CGK|DPS" (clockAt 0)
      ((Cache.New none : Cache Unit String).Set "CGK|DPS" "stored" 0 (clockAt 0) ()).2).1 =
      some "stored" :=
  (cache_set_then_get (Cache.New none : Cache Unit String) "CGK|DPS" "stored" 0 (clockAt 0) ()
    (by decide)).2.1 rfl

/-- Claim C12, counterexample: with a time to live of minus one nanosecond, the value set
is not found by a `Get` at the same instant. -/
theorem cache_set_then_get_negative_ttl :
    (((Cache.New none : Cache Unit String).Set "CGK|DPS" "stored" (-1) (clockAt 0) ()).1.Get
      "CGK|DPS" (clockAt 0)
      ((Cache.New none : Cache Unit String).Set "CGK|DPS" "stored" (-1) (clockAt 0) ()).2).1 =
      none := by
  decide

/-! ## Cache isolation -/

/-- Claim C14, failing inputs: on a cache built with `CloneFlightsOutput`, after
`Set(k, v)` and `got := Get(k)`, an assignment to an element of the `FailedProviders` list,
to the string `ReturnDate` points to, to an element of the `Amenities` list of a flight or
to the string its `Aircraft` label points to, made through `got` or through `v`, changes
what the next `Get(k)` returns; an assignment to a field of a flight of `Flights` or to a
field of `Metadata` does not. -/
theorem cloneFlightsOutput_shares_memory :
    ((Mem.isolationRun Mem.sampleHeap (some 0)
        (fun _ got => Mem.mutFailedProviders "changed" got)).1.map
          (fun o => o.Metadata.FailedProviders) = some ["Lion Air"] ∧
      (Mem.isolationRun Mem.sampleHeap (some 0)
        (fun _ got => Mem.mutFailedProviders "changed" got)).2.map
          (fun o => o.Metadata.FailedProviders) = some ["changed"]) ∧
    ((Mem.isolationRun Mem.sampleHeap (some 0)
        (fun _ got => Mem.mutReturnDate "changed" got)).1.map
          (fun o => o.SearchCriteria.ReturnDate) = some (some "2024-06-08") ∧
      (Mem.isolationRun Mem.sampleHeap (some 0)
        (fun _ got => Mem.mutReturnDate "changed" got)).2.map
          (fun o => o.SearchCriteria.ReturnDate) = some (some "changed")) ∧
    ((Mem.isolationRun Mem.sampleHeap (some 0)
        (fun _ got => Mem.mutAmenities "changed" got)).1.map
          (fun o => o.Flights.map (fun f => f.Amenities)) = some [["wifi", "meal"]] ∧
      (Mem.isolationRun Mem.sampleHeap (some 0)
        (fun _ got => Mem.mutAmenities "changed" got)).2.map
          (fun o => o.Flights.map (fun f => f.Amenities)) = some [["changed", "meal"]]) ∧
    ((Mem.isolationRun Mem.sampleHeap (some 0)
        (fun _ got => Mem.mutAircraft "changed" got)).1.map
          (fun o => o.Flights.map (fun f => f.Aircraft)) = some [some "Airbus A320"] ∧
      (Mem.isolationRun Mem.sampleHeap (some 0)
        (fun _ got => Mem.mutAircraft "changed" got)).2.map
          (fun o => o.Flights.map (fun f => f.Aircraft)) = some [some "changed"]) ∧
    ((Mem.isolationRun Mem.sampleHeap (some 0)
        (fun v _ => Mem.mutFailedProviders "changed" v)).2 ≠
      (Mem.isolationRun Mem.sampleHeap (some 0)
        (fun v _ => Mem.mutFailedProviders "changed" v)).1 ∧
     (Mem.isolationRun Mem.sampleHeap (some 0)
        (fun v _ => Mem.mutAmenities "changed" v)).2 ≠
      (Mem.isolationRun Mem.sampleHeap (some 0)
        (fun v _ => Mem.mutAmenities "changed" v)).1) ∧
    ((Mem.isolationRun Mem.sampleHeap (some 0) (fun _ got => Mem.mutPrice 1 got)).2 =
      (Mem.isolationRun Mem.sampleHeap (some 0) (fun _ got => Mem.mutPrice 1 got)).1 ∧
     (Mem.isolationRun Mem.sampleHeap (some 0) (fun v _ => Mem.mutPrice 1 v)).2 =
      (Mem.isolationRun Mem.sampleHeap (some 0) (fun v _ => Mem.mutPrice 1 v)).1 ∧
     (Mem.isolationRun Mem.sampleHeap (some 0) (fun _ got => Mem.mutTotalResults 99 got)).2 =
      (Mem.isolationRun Mem.sampleHeap (some 0)
        (fun _ got => Mem.mutTotalResults 99 got)).1) := by
  decide

/-! ## Fan-out -/

theorem perm_cons_eraseIdx {α : Type} :
    ∀ (l : List α) (i : Nat) (r : α), l[i]? = some r → (r :: l.eraseIdx i).Perm l := by
  intro l
  induction l with
  | nil => intro i r h; simp at h
  | cons x xs ih =>
    intro i r h
    cases i with
    | zero =>
      simp only [List.getElem?_cons_zero, Option.some.injEq] at h
      subst h
      simp
    | succ j =>
      simp only [List.getElem?_cons_succ] at h
      simp only [List.eraseIdx_cons_succ]
      exact (List.Perm.swap x r _).trans ((ih j r h).cons x)

theorem receiveAll_perm {α : Type} (order : List Nat) :
    ∀ sent : List α, (receiveAll order sent).Perm sent := by
  induction order with
  | nil => intro sent; exact List.Perm.refl _
  | cons k order ih =>
    intro sent
    unfold receiveAll
    cases hk : sent[k % sent.length]? with
    | none =>
      cases sent with
      | nil => exact List.Perm.refl _
      | cons x xs =>
        exfalso
        have hlt : k % (x :: xs).length < (x :: xs).length :=
          Nat.mod_lt _ (by simp)
        rw [List.getElem?_eq_none_iff] at hk
        omega
    | some r =>
      exact ((ih _).cons r).trans (perm_cons_eraseIdx sent _ r hk)

/-- The results of a fan-out are, in some order, the results of the goroutines. -/
theorem searchProviders_perm (u : Usecase) (env : Env) (leg : Leg) (req : SearchRequest) :
    (u.searchProviders env leg req).Perm
      (u.providers.enum.map fun ip =>
        providerRun u.maxProviderRetries (env.ctxDone leg ip.1) leg req ip.2) :=
  receiveAll_perm _ _

theorem providerRun_name (n : Int) (ctxDone : Nat → Option GoError) (leg : Leg)
    (req : SearchRequest) (p : Provider) : (providerRun n ctxDone leg req p).name = p.Name :=
  rfl

theorem searchProviders_names (u : Usecase) (env : Env) (leg : Leg) (req : SearchRequest) :
    ((u.searchProviders env leg req).map (fun r => r.name)).Perm
      (u.providers.map (fun p => p.Name)) := by
  have h := (searchProviders_perm u env leg req).map (fun r => r.name)
  have e : (u.providers.enum.map fun ip =>
      providerRun u.maxProviderRetries (env.ctxDone leg ip.1) leg req ip.2).map
        (fun r => r.name) = u.providers.map (fun p => p.Name) := by
    rw [List.map_map]
    conv_rhs => rw [← List.enum_map_snd u.providers, List.map_map]
    rfl
  rw [e] at h
  exact h

theorem mem_searchProviders (u : Usecase) (env : Env) (leg : Leg) (req : SearchRequest)
    (r : ProviderResult) :
    r ∈ u.searchProviders env leg req ↔
      ∃ i p, u.providers[i]? = some p ∧
        r = providerRun u.maxProviderRetries (env.ctxDone leg i) leg req p := by
  rw [(searchProviders_perm u env leg req).mem_iff, List.mem_map]
  constructor
  · rintro ⟨⟨i, p⟩, hmem, rfl⟩
    exact ⟨i, p, List.mem_enum_iff_getElem?.mp hmem, rfl⟩
  · rintro ⟨i, p, hp, rfl⟩
    exact ⟨(i, p), List.mem_enum_iff_getElem?.mpr hp, rfl⟩

/-! ## Collecting the results of a leg -/

theorem collect_fold_flights (results : List ProviderResult) :
    ∀ acc : List Flight × ProviderStats,
      (results.foldl collectStep acc).1 =
        acc.1 ++ ((results.filter (fun r => decide (r.err = none))).map
          (fun r => r.flights)).flatten := by
  induction results with
  | nil => intro acc; simp
  | cons r rs ih =>
    intro acc
    rw [List.foldl_cons, ih]
    by_cases h : r.err = none
    · simp [collectStep, h, List.filter_cons]
    · simp [collectStep, h, List.filter_cons]

theorem getD_mapSet_true (m : List (String × Bool)) (k name : String) :
    (mapGet (mapSet m k true) name).getD false = true ↔
      name = k ∨ (mapGet m name).getD false = true := by
  by_cases h : name = k
  · subst h
    simp [mapGet_mapSet_self]
  · rw [mapGet_mapSet_of_ne m true h]
    simp [h]

theorem collect_fold_success (results : List ProviderResult) (name : String) :
    ∀ acc : List Flight × ProviderStats,
      ((mapGet (results.foldl collectStep acc).2.success name).getD false = true ↔
        (mapGet acc.2.success name).getD false = true ∨
          ∃ r ∈ results, r.name = name ∧ r.err = none) := by
  induction results with
  | nil => intro acc; simp
  | cons r rs ih =>
    intro acc
    rw [List.foldl_cons, ih]
    by_cases h : r.err = none
    · have e : (collectStep acc r).2.success = mapSet acc.2.success r.name true := by
        simp [collectStep, h]
      rw [e, getD_mapSet_true]
      constructor
      · rintro ((hn | hacc) | ⟨r', hr', hn, he⟩)
        · exact Or.inr ⟨r, List.mem_cons_self _ _, hn.symm, h⟩
        · exact Or.inl hacc
        · exact Or.inr ⟨r', List.mem_cons_of_mem _ hr', hn, he⟩
      · rintro (hacc | ⟨r', hr', hn, he⟩)
        · exact Or.inl (Or.inr hacc)
        · rcases List.mem_cons.mp hr' with rfl | hr'
          · exact Or.inl (Or.inl hn.symm)
          · exact Or.inr ⟨r', hr', hn, he⟩
    · have e : (collectStep acc r).2.success = acc.2.success := by
        simp [collectStep, h]
      rw [e]
      constructor
      · rintro (hacc | ⟨r', hr', hn, he⟩)
        · exact Or.inl hacc
        · exact Or.inr ⟨r', List.mem_cons_of_mem _ hr', hn, he⟩
      · rintro (hacc | ⟨r', hr', hn, he⟩)
        · exact Or.inl hacc
        · rcases List.mem_cons.mp hr' with rfl | hr'
          · exact absurd he h
          · exact Or.inr ⟨r', hr', hn, he⟩

theorem collect_fold_failed (results : List ProviderResult) (name : String) :
    ∀ acc : List Flight × ProviderStats,
      ((mapGet (results.foldl collectStep acc).2.failed name).getD false = true ↔
        (mapGet acc.2.failed name).getD false = true ∨
          ∃ r ∈ results, r.name = name ∧ r.err ≠ none) := by
  induction results with
  | nil => intro acc; simp
  | cons r rs ih =>
    intro acc
    rw [List.foldl_cons, ih]
    by_cases h : r.err = none
    · have e : (collectStep acc r).2.failed = acc.2.failed := by
        simp [collectStep, h]
      rw [e]
      constructor
      · rintro (hacc | ⟨r', hr', hn, he⟩)
        · exact Or.inl hacc
        · exact Or.inr ⟨r', List.mem_cons_of_mem _ hr', hn, he⟩
      · rintro (hacc | ⟨r', hr', hn, he⟩)
        · exact Or.inl hacc
        · rcases List.mem_cons.mp hr' with rfl | hr'
          · exact absurd h he
          · exact Or.inr ⟨r', hr', hn, he⟩
    · have e : (collectStep acc r).2.failed = mapSet acc.2.failed r.name true := by
        simp [collectStep, h]
      rw [e, getD_mapSet_true]
      constructor
      · rintro ((hn | hacc) | ⟨r', hr', hn, he⟩)
        · exact Or.inr ⟨r, List.mem_cons_self _ _, hn.symm, h⟩
        · exact Or.inl hacc
        · exact Or.inr ⟨r', List.mem_cons_of_mem _ hr', hn, he⟩
      · rintro (hacc | ⟨r', hr', hn, he⟩)
        · exact Or.inl (Or.inr hacc)
        · rcases List.mem_cons.mp hr' with rfl | hr'
          · exact Or.inl (Or.inl hn.symm)
          · exact Or.inr ⟨r', hr', hn, he⟩

/-- The stats of a leg: a name is marked successful iff some provider of that name
returned without error. -/
theorem collectFlights_success (u : Usecase) (env : Env) (leg : Leg) (req : SearchRequest)
    (input : FlightsInput) (origin destination : String) (date : Time)
    (filters : FlightFilters) (name : String) :
    (mapGet (u.collectFlights env leg req input origin destination date filters).2.success
        name).getD false = true ↔
      ∃ i p, u.providers[i]? = some p ∧ p.Name = name ∧
        (providerRun u.maxProviderRetries (env.ctxDone leg i) leg req p).err = none := by
  unfold Usecase.collectFlights
  simp only []
  rw [collect_fold_success]
  constructor
  · rintro (h | ⟨r, hr, hn, he⟩)
    · simp [mapGet] at h
    · obtain ⟨i, p, hp, rfl⟩ := (mem_searchProviders u env leg req r).mp hr
      exact ⟨i, p, hp, hn, he⟩
  · rintro ⟨i, p, hp, hn, he⟩
    exact Or.inr ⟨_, (mem_searchProviders u env leg req _).mpr ⟨i, p, hp, rfl⟩, hn, he⟩

/-- The flights a leg gathers before it normalizes, filters and deduplicates them. -/
theorem collectFlights_eq (u : Usecase) (env : Env) (leg : Leg) (req : SearchRequest)
    (input : FlightsInput) (origin destination : String) (date : Time)
    (filters : FlightFilters) :
    (u.collectFlights env leg req input origin destination date filters).1 =
      compareAndDedupFlights
        (filterFlights
          (normalizeDurations
            (((u.searchProviders env leg req).filter (fun r => decide (r.err = none))).map
              (fun r => r.flights)).flatten)
          origin destination input.CabinClass filters date.formatDate) := by
  unfold Usecase.collectFlights
  simp only []
  rw [collect_fold_flights]
  simp

/-! ## Merging the stats of the two legs -/

theorem merge_fold (q : Provider → Bool) (providers : List Provider) :
    ∀ acc : Int × List String,
      providers.foldl
        (fun acc p => if q p then (acc.1 + 1, acc.2) else (acc.1, acc.2 ++ [p.Name])) acc =
      (acc.1 + ((providers.filter q).length : Int),
        acc.2 ++ (providers.filter (fun p => !q p)).map (fun p => p.Name)) := by
  induction providers with
  | nil => intro acc; simp
  | cons p ps ih =>
    intro acc
    rw [List.foldl_cons, ih]
    cases h : q p
    · simp [h, List.filter_cons]
    · simp [h, List.filter_cons]
      omega

/-- What `mergeProviderStats` returns: the number of providers marked successful on a leg
and the names of the others, in the order of the provider list. -/
theorem mergeProviderStats_eq (providers : List Provider) (outbound inbound : ProviderStats) :
    mergeProviderStats providers outbound inbound =
      (((providers.filter (fun p =>
          (mapGet outbound.success p.Name).getD false ||
            (mapGet inbound.success p.Name).getD false)).length : Int),
        (providers.filter (fun p =>
          !((mapGet outbound.success p.Name).getD false ||
            (mapGet inbound.success p.Name).getD false))).map (fun p => p.Name)) := by
  have h := merge_fold (fun p =>
    (mapGet outbound.success p.Name).getD false ||
      (mapGet inbound.success p.Name).getD false) providers (0, [])
  simp only [Int.zero_add, List.nil_append] at h
  exact h

theorem filter_length_add_not {α : Type} (q : α → Bool) (l : List α) :
    (l.filter q).length + (l.filter (fun a => !q a)).length = l.length := by
  induction l with
  | nil => rfl
  | cons a as ih =>
    cases h : q a
    · simp [List.filter_cons, h]; omega
    · simp [List.filter_cons, h]; omega

/-! ## The aggregation: cache hit and cache miss -/

theorem flights_miss (u : Usecase) (env : Env) (input : FlightsInput)
    (h : (u.cache.Get (buildCacheKey input) env.getNow ()).1 = none) :
    u.Flights env input =
      some (⟨some (u.computeOutput env input), none, searchedOf input⟩,
        { u with cache :=
          ((u.cache.Get (buildCacheKey input) env.getNow ()).2.1.Set (buildCacheKey input)
            (some (u.computeOutput env input)) u.cacheTTL env.setNow ()).1 }) := by
  unfold Usecase.Flights
  simp only []
  generalize u.cache.Get (buildCacheKey input) env.getNow () = g at h ⊢
  obtain ⟨found, cache, s⟩ := g
  simp only at h
  subst h
  rfl

theorem flights_hit (u : Usecase) (env : Env) (input : FlightsInput) (stored : FlightsOutput)
    (h : (u.cache.Get (buildCacheKey input) env.getNow ()).1 = some (some stored)) :
    u.Flights env input =
      some (⟨some (hitOutput env stored), none, []⟩,
        { u with cache := (u.cache.Get (buildCacheKey input) env.getNow ()).2.1 }) := by
  unfold Usecase.Flights
  simp only []
  generalize u.cache.Get (buildCacheKey input) env.getNow () = g at h ⊢
  obtain ⟨found, cache, s⟩ := g
  simp only at h
  subst h
  rfl

theorem mapGet_mapSet_cases {V : Type} (m : List (String × V)) (k k' : String) (v e : V)
    (h : mapGet (mapSet m k v) k' = some e) : e = v ∨ mapGet m k' = some e := by
  by_cases hk : k' = k
  · subst hk
    rw [mapGet_mapSet_self] at h
    exact Or.inl (Option.some.inj h).symm
  · rw [mapGet_mapSet_of_ne m v hk] at h
    exact Or.inr h

theorem mapGet_mapDelete_cases {V : Type} (m : List (String × V)) (k k' : String) (e : V)
    (h : mapGet (mapDelete m k) k' = some e) : mapGet m k' = some e := by
  by_cases hk : k' = k
  · subst hk
    rw [mapGet_mapDelete_self] at h
    exact absurd h (by simp)
  · rw [mapGet_mapDelete_of_ne m hk] at h
    exact h

/-- What `cache.Get` finds in the cache of a use case, and the cache it leaves. -/
theorem usecase_get (u : Usecase) (key : String) (now : Time) (hc : CacheOk u) :
    ((u.cache.Get key now ()).1 = none ∧
        (∀ e, mapGet u.cache.entries key = some e → now.After e.expiry = true) ∨
      ∃ stored expiry, (u.cache.Get key now ()).1 = some (some stored) ∧
        mapGet u.cache.entries key = some ⟨some stored, expiry⟩ ∧
        now.After expiry = false ∧ (u.cache.Get key now ()).2.1 = u.cache) ∧
    (u.cache.Get key now ()).2.1.clone = cloneStored ∧
    (∀ k e, mapGet (u.cache.Get key now ()).2.1.entries k = some e → e.value ≠ none) := by
  obtain ⟨hclone, hval⟩ := hc
  unfold Cache.Get
  cases hg : mapGet u.cache.entries key with
  | none =>
    refine ⟨Or.inl ⟨rfl, ?_⟩, hclone, hval⟩
    intro e he
    simp at he
  | some entry =>
    simp only []
    cases hexp : now.After entry.expiry with
    | true =>
      simp only [if_true]
      refine ⟨Or.inl ⟨trivial, ?_⟩, hclone, ?_⟩
      · intro e he
        cases he
        exact hexp
      · intro k e he
        exact hval k e (mapGet_mapDelete_cases _ _ _ _ he)
    | false =>
      simp only [Bool.false_eq_true, if_false, hclone, cloneStored]
      obtain ⟨value, expiry⟩ := entry
      cases value with
      | none => exact absurd rfl (hval key _ hg)
      | some stored =>
        refine ⟨Or.inr ⟨stored, expiry, ?_, rfl, hexp, trivial⟩, trivial, hval⟩
        simp only [cloneFlightsOutput_value]

/-! ## The aggregation: failures of the providers -/

theorem sortFlights_nil (sortOpt : SortOption) : sortFlights [] sortOpt = [] := by
  obtain ⟨field, order⟩ := sortOpt
  rw [sortFlights_unfold]
  have hnil : ∀ less : Flight → Flight → Bool, sliceStable less [] = [] := fun _ => rfl
  simp only [hnil, ite_self]

theorem collectFlights_all_fail (u : Usecase) (env : Env) (leg : Leg) (req : SearchRequest)
    (input : FlightsInput) (origin destination : String) (date : Time)
    (filters : FlightFilters)
    (hfail : ∀ i p, u.providers[i]? = some p →
      (providerRun u.maxProviderRetries (env.ctxDone leg i) leg req p).err ≠ none) :
    (u.collectFlights env leg req input origin destination date filters).1 = [] ∧
    ∀ name,
      (mapGet (u.collectFlights env leg req input origin destination date filters).2.success
        name).getD false = false := by
  constructor
  · rw [collectFlights_eq]
    have hnone : (u.searchProviders env leg req).filter (fun r => decide (r.err = none)) = [] := by
      rw [List.filter_eq_nil_iff]
      intro r hr
      obtain ⟨i, p, hp, rfl⟩ := (mem_searchProviders u env leg req r).mp hr
      simpa using hfail i p hp
    rw [hnone]
    rfl
  · intro name
    cases hs : (mapGet (u.collectFlights env leg req input origin destination date
        filters).2.success name).getD false with
    | false => rfl
    | true =>
      obtain ⟨i, p, hp, _, he⟩ :=
        (collectFlights_success u env leg req input origin destination date filters name).mp hs
      exact absurd he (hfail i p hp)

theorem computeOutput_all_fail (u : Usecase) (env : Env) (input : FlightsInput)
    (hout : ∀ i p, u.providers[i]? = some p →
      (providerRun u.maxProviderRetries (env.ctxDone Leg.outbound i) Leg.outbound
        (outboundRequest input) p).err ≠ none)
    (hret : ∀ returnDate, input.ReturnDate = some returnDate →
      ∀ i p, u.providers[i]? = some p →
        (providerRun u.maxProviderRetries (env.ctxDone Leg.inbound i) Leg.inbound
          (returnRequest input returnDate) p).err ≠ none) :
    (u.computeOutput env input).Flights = [] ∧
    (u.computeOutput env input).ReturnFlights = [] ∧
    (u.computeOutput env input).Metadata.TotalResults = 0 ∧
    (u.computeOutput env input).Metadata.ProvidersSucceeded = 0 ∧
    (u.computeOutput env input).Metadata.ProvidersFailed =
      (u.computeOutput env input).Metadata.ProvidersQueried ∧
    (u.computeOutput env input).Metadata.FailedProviders =
      u.providers.map (fun p => p.Name) := by
  have ho := collectFlights_all_fail u env Leg.outbound (outboundRequest input) input
    input.Origin input.Destination input.DepartureDate input.Filters hout
  have hol : (u.outboundLeg env input).1 = [] := by
    unfold Usecase.outboundLeg
    simp only [ho.1, applyBestValueScore, sortFlights_nil]
  have hos : ∀ name, (mapGet (u.outboundLeg env input).2.success name).getD false = false :=
    ho.2
  have hr : (u.returnLeg env input).1 = [] ∧
      ∀ name, (mapGet (u.returnLeg env input).2.success name).getD false = false := by
    unfold Usecase.returnLeg
    cases hrd : input.ReturnDate with
    | none => exact ⟨rfl, fun _ => rfl⟩
    | some returnDate =>
      have hi := collectFlights_all_fail u env Leg.inbound (returnRequest input returnDate)
        input input.Destination input.Origin returnDate
        (shiftFiltersDate input.Filters returnDate) (hret returnDate hrd)
      simp only [hi.1, applyBestValueScore, sortFlights_nil]
      exact ⟨trivial, hi.2⟩
  have hm : mergeProviderStats u.providers (u.outboundLeg env input).2
      (u.returnLeg env input).2 = (0, u.providers.map (fun p => p.Name)) := by
    rw [mergeProviderStats_eq]
    simp only [hos, hr.2, Bool.or_self, Bool.not_false, List.filter_true]
    simp
  unfold Usecase.computeOutput
  simp only [hol, hr.1, hm]
  simp

theorem cache_set_ok (c : Cache Unit (Option FlightsOutput)) (key : String)
    (out : FlightsOutput) (ttl : Int) (now : Time) (hclone : c.clone = cloneStored)
    (hval : ∀ k e, mapGet c.entries k = some e → e.value ≠ none) :
    (c.Set key (some out) ttl now ()).1.clone = cloneStored ∧
    ∀ k e, mapGet (c.Set key (some out) ttl now ()).1.entries k = some e → e.value ≠ none := by
  refine ⟨hclone, ?_⟩
  intro k e he
  have hcv : (c.cloneValue (some out) ()).1 = some out := by
    simp only [Cache.cloneValue, hclone, cloneStored, cloneFlightsOutput_value]
  simp only [Cache.Set, hcv] at he
  rcases mapGet_mapSet_cases _ _ _ _ _ he with rfl | h
  · simp
  · exact hval k e h

theorem get_none_of_miss (u : Usecase) (env : Env) (input : FlightsInput) (hc : CacheOk u)
    (hmiss : CacheMiss u env input) :
    (u.cache.Get (buildCacheKey input) env.getNow ()).1 = none := by
  rcases (usecase_get u (buildCacheKey input) env.getNow hc).1 with h | ⟨st, ex, _, hg, hex, _⟩
  · exact h.1
  · have := hmiss _ hg
    simp only [hex] at this
    exact absurd this (by decide)

/-- On a use case whose cache is in order, `Flights` returns an output and no error, and
leaves the cache in order. -/
theorem flights_total (u : Usecase) (env : Env) (input : FlightsInput) (hc : CacheOk u) :
    ∃ out searched u', u.Flights env input = some (⟨some out, none, searched⟩, u') ∧
      CacheOk u' := by
  obtain ⟨hcase, hclone', hval'⟩ := usecase_get u (buildCacheKey input) env.getNow hc
  rcases hcase with ⟨hnone, _⟩ | ⟨stored, expiry, hsome, _, _, _⟩
  · exact ⟨_, _, _, flights_miss u env input hnone,
      cache_set_ok _ _ _ _ _ hclone' hval'⟩
  · exact ⟨_, _, _, flights_hit u env input stored hsome, hclone', hval'⟩

theorem cacheOk_usecaseOver (providers : List Provider) : CacheOk (usecaseOver providers) := by
  refine ⟨rfl, ?_⟩
  intro k e he
  simp [usecaseOver, Usecase.New, Cache.New, mapGet] at he

theorem cacheMiss_usecaseOver (providers : List Provider) (env : Env) (input : FlightsInput) :
    CacheMiss (usecaseOver providers) env input := by
  intro e he
  simp [usecaseOver, Usecase.New, Cache.New, mapGet] at he

/-- Claim C20. On a use case built as `module.go` builds it (its cache is in order),
for every input, every clock and every behaviour of the providers and of their contexts
on either leg, `Flights` returns a non-nil output and a nil error; and when, on a cache
miss, the search of every provider ends with an error on each leg that is run, `Flights`
and `ReturnFlights` are empty, `ProvidersSucceeded` is 0, `ProvidersFailed` equals
`ProvidersQueried` and `FailedProviders` is the list of the names of all configured
providers. -/
theorem flights_absorbs_failures (u : Usecase) (env : Env) (input : FlightsInput)
    (hc : CacheOk u) :
    (∃ out searched u', u.Flights env input = some (⟨some out, none, searched⟩, u') ∧
      CacheOk u') ∧
    (CacheMiss u env input →
      (∀ i p, u.providers[i]? = some p →
        (providerRun u.maxProviderRetries (env.ctxDone Leg.outbound i) Leg.outbound
          (outboundRequest input) p).err ≠ none) →
      (∀ returnDate, input.ReturnDate = some returnDate →
        ∀ i p, u.providers[i]? = some p →
          (providerRun u.maxProviderRetries (env.ctxDone Leg.inbound i) Leg.inbound
            (returnRequest input returnDate) p).err ≠ none) →
      ∃ out searched u', u.Flights env input = some (⟨some out, none, searched⟩, u') ∧
        out.Flights = [] ∧ out.ReturnFlights = [] ∧
        out.Metadata.ProvidersSucceeded = 0 ∧
        out.Metadata.ProvidersFailed = out.Metadata.ProvidersQueried ∧
        out.Metadata.ProvidersQueried = (u.providers.length : Int) ∧
        out.Metadata.FailedProviders = u.providers.map (fun p => p.Name)) := by
  refine ⟨flights_total u env input hc, ?_⟩
  intro hmiss hout hret
  obtain ⟨h1, h2, _, h4, h5, h6⟩ := computeOutput_all_fail u env input hout hret
  exact ⟨_, _, _, flights_miss u env input (get_none_of_miss u env input hc hmiss),
    h1, h2, h4, h5, rfl, h6⟩

theorem flights_absorbs_failures_witness :
    CacheOk failingUsecase ∧
    ∃ out searched u', failingUsecase.Flights quietEnv sampleInput =
        some (⟨some out, none, searched⟩, u') ∧
      out.Flights = [] ∧ out.ReturnFlights = [] ∧
      out.Metadata.ProvidersSucceeded = 0 ∧
      out.Metadata.ProvidersFailed = out.Metadata.ProvidersQueried ∧
      out.Metadata.ProvidersQueried = 2 ∧
      out.Metadata.FailedProviders = ["Garuda Indonesia", "AirAsia"] :=
  ⟨cacheOk_usecaseOver _,
    (flights_absorbs_failures failingUsecase quietEnv sampleInput (cacheOk_usecaseOver _)).2
      (cacheMiss_usecaseOver _ _ _)
      (by
        intro i p hp
        have hi : i = 0 ∨ i = 1 := by
          have := (List.getElem?_eq_some_iff.mp hp).1
          simp [failingUsecase, usecaseOver, Usecase.New] at this
          omega
        rcases hi with rfl | rfl
        · simp [failingUsecase, usecaseOver, Usecase.New] at hp
          subst hp
          decide
        · simp [failingUsecase, usecaseOver, Usecase.New] at hp
          subst hp
          decide)
      (by intro rd hrd; simp [sampleInput] at hrd)⟩

/-! ## The aggregation under a cancelled context -/

theorem searchWithRetry_ctx_done (n : Int) (search : Nat → SearchOutcome)
    (ctxDone : Nat → Option GoError) (hctx : ctxDone 0 ≠ none) :
    (searchWithRetry n search ctxDone).calls ≤ 1 ∧
    (∀ e, search 0 = .error e → (searchWithRetry n search ctxDone).err ≠ none) := by
  unfold searchWithRetry
  cases (n + 1).toNat with
  | zero => simp [retryLoop, errProviderFailed]
  | succ fuel =>
    unfold retryLoop
    cases hs : search 0 with
    | ok fl => simp
    | error e =>
      simp only []
      cases hc : ctxDone 0 with
      | none => exact absurd hc hctx
      | some c =>
        simp only []
        split
        · simp
        · split <;> simp

theorem cache_set_entry (c : Cache Unit (Option FlightsOutput)) (key : String)
    (out : FlightsOutput) (ttl : Int) (now : Time) (hclone : c.clone = cloneStored) :
    mapGet (c.Set key (some out) ttl now ()).1.entries key = some ⟨some out, now.Add ttl⟩ := by
  have hcv : (c.cloneValue (some out) ()).1 = some out := by
    simp only [Cache.cloneValue, hclone, cloneStored, cloneFlightsOutput_value]
  simp only [Cache.Set, hcv]
  exact mapGet_mapSet_self _ _ _

/-- Claim C21 (amended). When the request context is done from the start, so that every
context derived from it is done, and the cache holds no valid entry for the criteria,
`Flights` still returns a non-nil output and a nil error, after both fan-outs, and stores
that output in the cache; no provider is called more than once per leg; and when the first
call of every provider returns an error, as it does for providers that return the error
of their context, both flight lists are empty, no provider is counted as succeeded and all
are listed as failed. -/
theorem flights_cancelled_context (u : Usecase) (env : Env) (input : FlightsInput)
    (hc : CacheOk u) (hmiss : CacheMiss u env input)
    (hctx : ∀ leg i k, env.ctxDone leg i k ≠ none) :
    ∃ out u', u.Flights env input = some (⟨some out, none, searchedOf input⟩, u') ∧
      mapGet u'.cache.entries (buildCacheKey input) =
        some ⟨some out, env.setNow.Add u.cacheTTL⟩ ∧
      (∀ (leg : Leg) (req : SearchRequest) (i : Nat) (p : Provider),
        u.providers[i]? = some p →
          (searchWithRetry u.maxProviderRetries (p.Search leg req)
            (env.ctxDone leg i)).calls ≤ 1) ∧
      ((∀ (leg : Leg) (req : SearchRequest) (i : Nat) (p : Provider), u.providers[i]? = some p →
          ∃ e, p.Search leg req 0 = .error e) →
        out.Flights = [] ∧ out.ReturnFlights = [] ∧
        out.Metadata.ProvidersSucceeded = 0 ∧
        out.Metadata.ProvidersFailed = (u.providers.length : Int) ∧
        out.Metadata.FailedProviders = u.providers.map (fun p => p.Name)) := by
  have hget := get_none_of_miss u env input hc hmiss
  have hclone := (usecase_get u (buildCacheKey input) env.getNow hc).2.1
  refine ⟨_, _, flights_miss u env input hget, cache_set_entry _ _ _ _ _ hclone, ?_, ?_⟩
  · intro leg req i p _
    exact (searchWithRetry_ctx_done _ _ _ (hctx leg i 0)).1
  · intro herr
    have hfail : ∀ leg req i p, u.providers[i]? = some p →
        (providerRun u.maxProviderRetries (env.ctxDone leg i) leg req p).err ≠ none := by
      intro leg req i p hp
      obtain ⟨e, he⟩ := herr leg req i p hp
      exact (searchWithRetry_ctx_done _ _ _ (hctx leg i 0)).2 e he
    obtain ⟨h1, h2, _, h4, h5, h6⟩ := computeOutput_all_fail u env input
      (fun i p hp => hfail _ _ i p hp) (fun rd _ i p hp => hfail _ _ i p hp)
    refine ⟨h1, h2, h4, ?_, h6⟩
    rw [h5]
    rfl

theorem flights_cancelled_context_witness :
    CacheOk cancelledUsecase ∧ CacheMiss cancelledUsecase cancelledEnv sampleInput ∧
    (∀ leg i k, cancelledEnv.ctxDone leg i k ≠ none) ∧
    ∃ out u', cancelledUsecase.Flights cancelledEnv sampleInput =
        some (⟨some out, none, searchedOf sampleInput⟩, u') ∧
      mapGet u'.cache.entries (buildCacheKey sampleInput) =
        some ⟨some out, cancelledEnv.setNow.Add cancelledUsecase.cacheTTL⟩ :=
  ⟨cacheOk_usecaseOver _, cacheMiss_usecaseOver _ _ _, fun _ _ _ => by simp [cancelledEnv],
    (flights_cancelled_context cancelledUsecase cancelledEnv sampleInput
      (cacheOk_usecaseOver _) (cacheMiss_usecaseOver _ _ _)
      (fun _ _ _ => by simp [cancelledEnv])).imp
      fun _ h => h.imp fun _ h' => ⟨h'.1, h'.2.1⟩⟩

/-- Claim C21, counterexample: under a request context cancelled from the start, on an
empty cache and with providers that return the error of the context, `Flights` returns a
nil error together with an output that lists both providers as failed. -/
theorem flights_cancelled_context_no_error :
    (∀ leg i k, cancelledEnv.ctxDone leg i k = some GoError.canceled) ∧
    cancelledUsecase.cache.entries = [] ∧
    (cancelledUsecase.Flights cancelledEnv sampleInput).map (fun r => (r.1.output, r.1.err)) =
      some (some
        { SearchCriteria := ⟨"CGK", "DPS", "2024-06-01", none, 1, "economy"⟩
          Metadata := ⟨0, 2, 0, 2, 120, false, ["Garuda Indonesia", "AirAsia"]⟩
          Flights := []
          ReturnFlights := [] }, none) := by
  refine ⟨fun _ _ _ => rfl, rfl, ?_⟩
  decide

/-! ## Cache key -/

theorem char_upper_facts (c : Char) (h : 65 ≤ c.toNat ∧ c.toNat ≤ 90) :
    c.toLower.toUpper = c ∧ c.toUpper = c ∧ isSpace c.toLower = false ∧ isSpace c = false := by
  have hc : c = Char.ofNat c.toNat := (Char.ofNat_toNat c).symm
  generalize c.toNat = n at h hc
  obtain ⟨h1, h2⟩ := h
  subst hc
  interval_cases n <;> decide

theorem char_toLower_of_not_upper (c : Char) (h : ¬ (65 ≤ c.toNat ∧ c.toNat ≤ 90)) :
    c.toLower = c := by
  unfold Char.toLower
  simp only [ge_iff_le]
  rw [if_neg h]

theorem char_toUpper_toLower (c : Char) : c.toLower.toUpper = c.toUpper := by
  by_cases h : 65 ≤ c.toNat ∧ c.toNat ≤ 90
  · obtain ⟨h1, h2, _, _⟩ := char_upper_facts c h
    rw [h1, h2]
  · rw [char_toLower_of_not_upper c h]

theorem isSpace_toLower (c : Char) : isSpace c.toLower = isSpace c := by
  by_cases h : 65 ≤ c.toNat ∧ c.toNat ≤ 90
  · obtain ⟨_, _, h3, h4⟩ := char_upper_facts c h
    rw [h3, h4]
  · rw [char_toLower_of_not_upper c h]

theorem toUpper_eq_of_toLower_eq {s t : String} (h : toLower s = toLower t) :
    toUpper s = toUpper t := by
  have hd : s.data.map Char.toLower = t.data.map Char.toLower := congrArg String.data h
  have hu : (s.data.map Char.toLower).map Char.toUpper =
      (t.data.map Char.toLower).map Char.toUpper := by rw [hd]
  simp only [List.map_map] at hu
  have hf : (Char.toUpper ∘ Char.toLower) = Char.toUpper := by
    funext c
    exact char_toUpper_toLower c
  rw [hf] at hu
  unfold toUpper
  rw [hu]

theorem dropWhile_isSpace_map (l : List Char) :
    (l.map Char.toLower).dropWhile isSpace = (l.dropWhile isSpace).map Char.toLower := by
  rw [List.dropWhile_map]
  have hf : (isSpace ∘ Char.toLower) = isSpace := by
    funext c
    exact isSpace_toLower c
  rw [hf]

theorem trimSpace_toLower (s : String) : trimSpace (toLower s) = toLower (trimSpace s) := by
  unfold trimSpace toLower
  simp only [dropWhile_isSpace_map, ← List.map_reverse]

theorem sortStrings_sorted (xs : List String) :
    (sortStrings xs).Pairwise (fun a b => a ≤ b) := by
  have h := insertionSort_sorted (fun a : String => a) xs
  have hless : (fun a b : String => decide (a < b)) = stringLess := by
    funext a b
    unfold stringLess
    rw [decide_eq_decide]
    exact String.lt_iff_toList_lt
  unfold sortStrings
  rw [← hless]
  convert h

/-- The sorted list `sort.Strings` yields depends on the strings only, not on their
order. -/
theorem sortStrings_perm {xs ys : List String} (h : xs.Perm ys) :
    sortStrings xs = sortStrings ys := by
  have hp : (sortStrings xs).Perm (sortStrings ys) :=
    ((insertionSort_perm stringLess xs).trans h).trans (insertionSort_perm stringLess ys).symm
  exact List.eq_of_perm_of_sorted hp (sortStrings_sorted xs) (sortStrings_sorted ys)

theorem formatAirlines_loop (values : List String) :
    ∀ clean : List String,
      values.foldl
        (fun clean value =>
          let trimmed := trimSpace (toLower value)
          if trimmed ≠ "" then clean ++ [trimmed] else clean)
        clean =
      clean ++ (values.map (fun v => toLower (trimSpace v))).filter (fun x => decide (x ≠ "")) := by
  induction values with
  | nil => intro clean; simp
  | cons v vs ih =>
    intro clean
    rw [List.foldl_cons, ih]
    by_cases h : toLower (trimSpace v) = ""
    · simp [trimSpace_toLower, h, List.filter_cons]
    · simp [trimSpace_toLower, h, List.filter_cons]

/-- The airlines part of the key: the non-blank entries, trimmed and lower-cased, sorted
and joined with `|`. -/
theorem formatAirlines_eq (values : List String) :
    formatAirlines values =
      join (sortStrings
        ((values.map (fun v => toLower (trimSpace v))).filter (fun x => decide (x ≠ ""))))
        "|" := by
  unfold formatAirlines
  rw [formatAirlines_loop]
  simp only [List.nil_append]
  by_cases hv : values.length = 0
  · have : values = [] := List.length_eq_zero.mp hv
    subst this
    rfl
  · rw [if_neg hv]
    by_cases hc : ((values.map (fun v => toLower (trimSpace v))).filter
        (fun x => decide (x ≠ ""))).length = 0
    · rw [if_pos hc]
      have : (values.map (fun v => toLower (trimSpace v))).filter
          (fun x => decide (x ≠ "")) = [] := List.length_eq_zero.mp hc
      rw [this]
      rfl
    · rw [if_neg hc]

theorem formatAirlines_congr {xs ys : List String}
    (h : ((xs.map (fun v => toLower (trimSpace v))).filter (fun x => decide (x ≠ ""))).Perm
      ((ys.map (fun v => toLower (trimSpace v))).filter (fun x => decide (x ≠ "")))) :
    formatAirlines xs = formatAirlines ys := by
  rw [formatAirlines_eq, formatAirlines_eq, sortStrings_perm h]

theorem formatOptionalDate_eq (value : Option Time) :
    formatOptionalDate value = (value.map Time.formatDate).getD "" := by
  cases value <;> rfl

/-- The key is a function of the parts it is built from. -/
theorem buildCacheKey_congr (a b : FlightsInput)
    (horigin : toLower a.Origin = toLower b.Origin)
    (hdest : toLower a.Destination = toLower b.Destination)
    (hdep : a.DepartureDate.formatDate = b.DepartureDate.formatDate)
    (hret : a.ReturnDate.map Time.formatDate = b.ReturnDate.map Time.formatDate)
    (hpax : a.Passengers = b.Passengers)
    (hcabin : toLower a.CabinClass = toLower b.CabinClass)
    (hbounds : boundsOf a.Filters = boundsOf b.Filters)
    (hair : (airlineNames a.Filters.Airlines).Perm (airlineNames b.Filters.Airlines))
    (hfield : toLower a.SortBy.Field = toLower b.SortBy.Field)
    (horder : toLower a.SortBy.Order = toLower b.SortBy.Order) :
    buildCacheKey a = buildCacheKey b := by
  have hf : formatFilters a.Filters = formatFilters b.Filters := by
    have hA : formatAirlines a.Filters.Airlines = formatAirlines b.Filters.Airlines :=
      formatAirlines_congr hair
    unfold boundsOf at hbounds
    simp only [FlightFilters.mk.injEq] at hbounds
    obtain ⟨h1, h2, h3, h4, h5, h6, _, h7, h8, h9, h10⟩ := hbounds
    unfold formatFilters
    rw [hA, h1, h2, h3, h4, h5, h6, h7, h8, h9, h10]
  unfold buildCacheKey
  rw [toUpper_eq_of_toLower_eq horigin, toUpper_eq_of_toLower_eq hdest, hdep,
    formatOptionalDate_eq, formatOptionalDate_eq, hret, hpax, hcabin, hf, hfield, horder]

theorem map_eq_of_forall₂ {α β : Type} (f : α → β) {l₁ l₂ : List α}
    (h : List.Forall₂ (fun x y => f x = f y) l₁ l₂) : l₁.map f = l₂.map f := by
  induction h with
  | nil => rfl
  | cons hxy _ ih => simp only [List.map_cons, hxy, ih]

theorem airlineNames_of_same_entries {xs ys l : List String} (hperm : xs.Perm l)
    (hsame : List.Forall₂ sameEntry l ys) : (airlineNames xs).Perm (airlineNames ys) := by
  have hmap : l.map (fun v => toLower (trimSpace v)) = ys.map (fun v => toLower (trimSpace v)) := by
    apply map_eq_of_forall₂
    refine hsame.imp ?_
    intro x y hxy
    exact (equalFold_iff _ _).mp hxy
  unfold airlineNames
  rw [← hmap]
  exact (hperm.map _).filter _

/-- Claim C22. `buildCacheKey` returns the same key for two inputs whose Airlines lists
are the same up to the order of the entries and, entry by entry, up to letter case and
surrounding white space, whose origin, destination, cabin class, sort field and sort order
are the same up to letter case, and whose other fields hold the same values; an absent
filter field is serialised as the empty string. -/
theorem buildCacheKey_deterministic (a b : FlightsInput)
    (horigin : equalFold a.Origin b.Origin = true)
    (hdest : equalFold a.Destination b.Destination = true)
    (hcabin : equalFold a.CabinClass b.CabinClass = true)
    (hfield : equalFold a.SortBy.Field b.SortBy.Field = true)
    (horder : equalFold a.SortBy.Order b.SortBy.Order = true)
    (hdep : a.DepartureDate = b.DepartureDate) (hret : a.ReturnDate = b.ReturnDate)
    (hpax : a.Passengers = b.Passengers)
    (hbounds : boundsOf a.Filters = boundsOf b.Filters)
    (hair : ∃ l, a.Filters.Airlines.Perm l ∧ List.Forall₂ sameEntry l b.Filters.Airlines) :
    buildCacheKey a = buildCacheKey b ∧
    formatOptionalInt none = "" ∧ formatOptionalTime none = "" ∧
    formatOptionalDate none = "" ∧ formatAirlines [] = "" ∧
    formatFilters emptyFilters = ",,,,,,,,,," := by
  obtain ⟨l, hperm, hsame⟩ := hair
  refine ⟨?_, rfl, rfl, rfl, rfl, by decide⟩
  exact buildCacheKey_congr a b ((equalFold_iff _ _).mp horigin) ((equalFold_iff _ _).mp hdest)
    (by rw [hdep]) (by rw [hret]) hpax ((equalFold_iff _ _).mp hcabin) hbounds
    (airlineNames_of_same_entries hperm hsame) ((equalFold_iff _ _).mp hfield)
    ((equalFold_iff _ _).mp horder)

theorem buildCacheKey_deterministic_witness :
    buildCacheKey (sampleInputAs "cgk" "Economy" ⟨"Price", "ASC"⟩ [" GA ", "qz"]) =
      buildCacheKey (sampleInputAs "CGK" "economy" ⟨"price", "asc"⟩ ["QZ", "ga"]) :=
  (buildCacheKey_deterministic
    (sampleInputAs "cgk" "Economy" ⟨"Price", "ASC"⟩ [" GA ", "qz"])
    (sampleInputAs "CGK" "economy" ⟨"price", "asc"⟩ ["QZ", "ga"])
    (by decide) (by decide) (by decide) (by decide) (by decide) rfl rfl rfl rfl
    ⟨["qz", " GA "], List.Perm.swap "qz" " GA " [],
      List.Forall₂.cons (show sameEntry "qz" "QZ" by unfold sameEntry; decide)
        (List.Forall₂.cons (show sameEntry " GA " "ga" by unfold sameEntry; decide)
          List.Forall₂.nil)⟩).1

/-- Claim C23 (amended). `buildCacheKey` returns the same string for two inputs with the
same origin and destination up to letter case, the same departure and return days, the
same passenger count, the same cabin class up to case, the same numeric and time-window
filter bounds, Airlines lists that name the same airlines the same number of times after
trimming and lower-casing (blank entries left out, whatever the order), and the same sort
field and sort order up to letter case. -/
theorem buildCacheKey_logically_equal (a b : FlightsInput)
    (horigin : equalFold a.Origin b.Origin = true)
    (hdest : equalFold a.Destination b.Destination = true)
    (hdep : a.DepartureDate.formatDate = b.DepartureDate.formatDate)
    (hret : a.ReturnDate.map Time.formatDate = b.ReturnDate.map Time.formatDate)
    (hpax : a.Passengers = b.Passengers)
    (hcabin : equalFold a.CabinClass b.CabinClass = true)
    (hbounds : boundsOf a.Filters = boundsOf b.Filters)
    (hair : (airlineNames a.Filters.Airlines).Perm (airlineNames b.Filters.Airlines))
    (hfield : equalFold a.SortBy.Field b.SortBy.Field = true)
    (horder : equalFold a.SortBy.Order b.SortBy.Order = true) :
    buildCacheKey a = buildCacheKey b :=
  buildCacheKey_congr a b ((equalFold_iff _ _).mp horigin) ((equalFold_iff _ _).mp hdest)
    hdep hret hpax ((equalFold_iff _ _).mp hcabin) hbounds hair
    ((equalFold_iff _ _).mp hfield) ((equalFold_iff _ _).mp horder)

theorem buildCacheKey_logically_equal_witness :
    buildCacheKey
        { sampleInputAs "CGK" "economy" ⟨"", ""⟩ ["GA", " ", "Lion Air"] with
          DepartureDate := Time.ofUnix 1717203600 25200 } =
      buildCacheKey (sampleInputAs "cgk" "ECONOMY" ⟨"", ""⟩ ["lion air", "ga"]) :=
  buildCacheKey_logically_equal
    { sampleInputAs "CGK" "economy" ⟨"", ""⟩ ["GA", " ", "Lion Air"] with
      DepartureDate := Time.ofUnix 1717203600 25200 }
    (sampleInputAs "cgk" "ECONOMY" ⟨"", ""⟩ ["lion air", "ga"]) (by decide) (by decide) (by decide) rfl rfl (by decide) rfl
    (by
      have e1 : airlineNames ["GA", " ", "Lion Air"] = ["ga", "lion air"] := by decide
      have e2 : airlineNames ["lion air", "ga"] = ["lion air", "ga"] := by decide
      show (airlineNames ["GA", " ", "Lion Air"]).Perm (airlineNames ["lion air", "ga"])
      rw [e1, e2]
      exact List.Perm.swap _ _ _)
    (by decide) (by decide)

/-- Claim C23, counterexample: an Airlines list that names an airline twice denotes the
same set of airlines (equal `normalizeSet`) as the list that names it once, and the sort
options with empty field and order sort every list as `best_value` ascending does, yet in
both cases the two inputs, equal in everything else, get different keys. -/
theorem buildCacheKey_not_canonical :
    normalizeSet ["GA", "GA"] = normalizeSet ["GA"] ∧
    buildCacheKey { sampleInput with Filters := { emptyFilters with Airlines := ["GA", "GA"] } } ≠
      buildCacheKey { sampleInput with Filters := { emptyFilters with Airlines := ["GA"] } } ∧
    (∀ flights, sortFlights flights ⟨"", ""⟩ = sortFlights flights ⟨"best_value", "asc"⟩) ∧
    buildCacheKey { sampleInput with SortBy := ⟨"", ""⟩ } ≠
      buildCacheKey { sampleInput with SortBy := ⟨"best_value", "asc"⟩ } := by
  refine ⟨by decide, by decide, fun _ => rfl, by decide⟩

/-! ## Cache hit -/

theorem set_append_single {α : Type} (l : List α) (a b : α) :
    (l ++ [a]).set l.length b = l ++ [b] := by
  induction l with
  | nil => rfl
  | cons x xs ih => simp [List.set, ih]

theorem Mem.flightCells_extend (h : Mem.Heap) (extra : List (List Mem.Flight))
    (outs : List Mem.FlightsOutput) (s : Option Mem.Slice)
    (hs : Mem.SliceIn h.flightArrays.length s) :
    Mem.Heap.flightCells
        { h with flightArrays := h.flightArrays ++ extra, outputs := outs } s =
      h.flightCells s := by
  cases s with
  | none => rfl
  | some x =>
    have hx := hs x rfl
    simp only [Mem.Heap.flightCells]
    rw [List.getElem?_append_left hx]

/-- An output allocated earlier reads the same after arrays and outputs have been
allocated behind it. -/
theorem Mem.readOutput_extend (h : Mem.Heap) (extra : List (List Mem.Flight))
    (outs : List Mem.FlightsOutput) (a : Nat) (v : Mem.FlightsOutput)
    (hv : h.outputs[a]? = some v) (hF : Mem.SliceIn h.flightArrays.length v.Flights)
    (hR : Mem.SliceIn h.flightArrays.length v.ReturnFlights) :
    Mem.Heap.readOutput
        { h with flightArrays := h.flightArrays ++ extra, outputs := h.outputs ++ outs }
        (some a) =
      h.readOutput (some a) := by
  have ha : a < h.outputs.length := (List.getElem?_eq_some_iff.mp hv).1
  have hv' : (h.outputs ++ outs)[a]? = some v := by
    rw [List.getElem?_append_left ha]
    exact hv
  have hrf : Mem.Heap.readFlight
      { h with flightArrays := h.flightArrays ++ extra, outputs := h.outputs ++ outs } =
      h.readFlight := Mem.readFlight_congr rfl rfl
  simp only [Mem.Heap.readOutput, hv', hv, Mem.Heap.readFlights, hrf,
    Mem.flightCells_extend h extra (h.outputs ++ outs) _ hF,
    Mem.flightCells_extend h extra (h.outputs ++ outs) _ hR]
  rfl

/-- A cache hit in memory: the clone is marked, the stored output reads as before. -/
theorem Mem.hit_keeps_stored (h : Mem.Heap) (a : Nat) (v : Mem.FlightsOutput) (ms : Int)
    (hv : h.outputs[a]? = some v) (hF : Mem.SliceIn h.flightArrays.length v.Flights)
    (hR : Mem.SliceIn h.flightArrays.length v.ReturnFlights) :
    (Mem.markCacheHit ms (Mem.CloneFlightsOutput (some a) h).1
        (Mem.CloneFlightsOutput (some a) h).2).readOutput (some a) =
      h.readOutput (some a) := by
  have hclone : Mem.CloneFlightsOutput (some a) h =
      (some h.outputs.length,
        { h with
          flightArrays := h.flightArrays ++ [h.flightCells v.Flights,
            h.flightCells v.ReturnFlights]
          outputs := h.outputs ++
            [{ SearchCriteria := v.SearchCriteria, Metadata := v.Metadata,
               Flights := some ⟨h.flightArrays.length, (h.flightCells v.Flights).length⟩,
               ReturnFlights := some ⟨h.flightArrays.length + 1,
                 (h.flightCells v.ReturnFlights).length⟩ }] }) := by
    simp [Mem.CloneFlightsOutput, hv]
  rw [hclone]
  simp only [Mem.markCacheHit, getElem?_append_single, Mem.Heap.setOutput, set_append_single]
  exact Mem.readOutput_extend h _ _ a v hv hF hR

/-- Claim C24. When the cache of the use case holds, under `buildCacheKey(in)`, an output
that has not expired at the reading of the clock in `cache.Get`, `Flights` hands no
request to the providers and returns, with a nil error, an output whose `CacheHit` is true,
whose `SearchTimeMs` is the time elapsed since the start of the call, and whose
`SearchCriteria`, `Flights`, `ReturnFlights`, `TotalResults`, `ProvidersQueried`,
`ProvidersSucceeded`, `ProvidersFailed` and `FailedProviders` are those of the stored
output; the cache is left as it was.  In memory, the writes of the hit go to the struct of
the clone: the stored output reads as before. -/
theorem flights_cache_hit (u : Usecase) (env : Env) (input : FlightsInput)
    (stored : FlightsOutput) (expiry : Time) (hclone : u.cache.clone = cloneStored)
    (hentry : mapGet u.cache.entries (buildCacheKey input) = some ⟨some stored, expiry⟩)
    (hvalid : env.getNow.After expiry = false) :
    (∃ out, u.Flights env input = some (⟨some out, none, []⟩, u) ∧
      out.Metadata.CacheHit = true ∧
      out.Metadata.SearchTimeMs = sinceMilliseconds env.sinceNow env.start ∧
      out.SearchCriteria = stored.SearchCriteria ∧
      out.Flights = stored.Flights ∧ out.ReturnFlights = stored.ReturnFlights ∧
      out.Metadata.TotalResults = stored.Metadata.TotalResults ∧
      out.Metadata.ProvidersQueried = stored.Metadata.ProvidersQueried ∧
      out.Metadata.ProvidersSucceeded = stored.Metadata.ProvidersSucceeded ∧
      out.Metadata.ProvidersFailed = stored.Metadata.ProvidersFailed ∧
      out.Metadata.FailedProviders = stored.Metadata.FailedProviders) ∧
    (∀ (h : Mem.Heap) (a : Nat) (v : Mem.FlightsOutput) (ms : Int),
      h.outputs[a]? = some v → Mem.SliceIn h.flightArrays.length v.Flights →
      Mem.SliceIn h.flightArrays.length v.ReturnFlights →
      (Mem.markCacheHit ms (Mem.CloneFlightsOutput (some a) h).1
          (Mem.CloneFlightsOutput (some a) h).2).readOutput (some a) =
        h.readOutput (some a)) := by
  have hval : env.getNow.nanos ≤ expiry.nanos := by
    simp only [Time.After, decide_eq_false_iff_not, not_lt] at hvalid
    exact hvalid
  have hget := cache_get_valid u.cache (buildCacheKey input) env.getNow () _ hentry hval
  have hcv : (u.cache.cloneValue (some stored) ()).1 = some stored := by
    simp only [Cache.cloneValue, hclone, cloneStored, cloneFlightsOutput_value]
  have hfound : (u.cache.Get (buildCacheKey input) env.getNow ()).1 = some (some stored) := by
    rw [hget]
    exact congrArg some hcv
  have hcache : (u.cache.Get (buildCacheKey input) env.getNow ()).2.1 = u.cache := by
    rw [hget]
  refine ⟨⟨hitOutput env stored, ?_, rfl, rfl, rfl, rfl, rfl, rfl, rfl, rfl, rfl, rfl⟩, ?_⟩
  · rw [flights_hit u env input stored hfound, hcache]
  · intro h a v ms hv hF hR
    exact Mem.hit_keeps_stored h a v ms hv hF hR

theorem flights_cache_hit_witness :
    ∃ out, warmUsecase.Flights quietEnv sampleInput = some (⟨some out, none, []⟩, warmUsecase) ∧
      out.Metadata.CacheHit = true ∧ out.Flights = storedOutput.Flights ∧
      out.Metadata.ProvidersSucceeded = 2 :=
  (flights_cache_hit warmUsecase quietEnv sampleInput storedOutput (clockAt 60000) rfl
    (by simp [warmUsecase, mapGet]) (by decide)).1.imp
    fun _ h => ⟨h.1, h.2.1, h.2.2.2.2.1, h.2.2.2.2.2.2.2.2.1⟩

/-! ## Return leg: the shifted time windows -/

set_option maxHeartbeats 4000000 in
theorem yoe_bounds (doe : Int) (h0 : 0 ≤ doe) (h1 : doe ≤ 146096) :
    0 ≤ doe - (365 * ((doe - doe / 1460 + doe / 36524 - doe / 146096) / 365) +
        (doe - doe / 1460 + doe / 36524 - doe / 146096) / 365 / 4 -
        (doe - doe / 1460 + doe / 36524 - doe / 146096) / 365 / 100) ∧
    doe - (365 * ((doe - doe / 1460 + doe / 36524 - doe / 146096) / 365) +
        (doe - doe / 1460 + doe / 36524 - doe / 146096) / 365 / 4 -
        (doe - doe / 1460 + doe / 36524 - doe / 146096) / 365 / 100) ≤ 365 ∧
    0 ≤ (doe - doe / 1460 + doe / 36524 - doe / 146096) / 365 ∧
    (doe - doe / 1460 + doe / 36524 - doe / 146096) / 365 ≤ 399 := by
  have he : 0 ≤ doe / 1460 ∧ doe / 1460 ≤ 100 := by omega
  obtain ⟨he0, he1⟩ := he
  have hc : doe / 36524 = 0 ∨ doe / 36524 = 1 ∨ doe / 36524 = 2 ∨ doe / 36524 = 3 ∨
      doe / 36524 = 4 := by omega
  generalize hE : doe / 1460 = e at he0 he1 ⊢
  interval_cases e <;> omega

theorem daysFromCivil_aux (era yoe doy : Int) (hy0 : 0 ≤ yoe) (hy1 : yoe ≤ 399)
    (hd0 : 0 ≤ doy) (hd1 : doy ≤ 365) :
    Time.daysFromCivil
        (yoe + era * 400 +
          (if (if (5 * doy + 2) / 153 < 10 then (5 * doy + 2) / 153 + 3
              else (5 * doy + 2) / 153 - 9) ≤ 2 then 1 else 0))
        (if (5 * doy + 2) / 153 < 10 then (5 * doy + 2) / 153 + 3 else (5 * doy + 2) / 153 - 9)
        (doy - (153 * ((5 * doy + 2) / 153) + 2) / 5 + 1) =
      era * 146097 + (365 * yoe + yoe / 4 - yoe / 100 + doy) - 306 := by
  have hq : ∀ k : Int, (yoe + k * 400) / 400 = k := by intro k; omega
  have hmp0 : 0 ≤ (5 * doy + 2) / 153 := by omega
  have hmp1 : (5 * doy + 2) / 153 ≤ 11 := by omega
  unfold Time.daysFromCivil
  simp only []
  by_cases hm : (5 * doy + 2) / 153 < 10
  · have h2 : ¬ ((5 * doy + 2) / 153 + 3 ≤ 2) := by omega
    simp only [hm, if_true, h2, if_false, add_zero, hq, add_sub_cancel_right]
    omega
  · have h2 : (5 * doy + 2) / 153 - 9 ≤ 2 := by omega
    simp only [hm, if_false, h2, if_true, add_sub_cancel_right, hq, sub_add_cancel]
    omega
theorem daysFromCivil_civil (D : Int) :
    Time.daysFromCivil (Time.civil D).1 (Time.civil D).2.1 (Time.civil D).2.2 = D := by
  have hdoe0 : 0 ≤ D + 306 - (D + 306) / 146097 * 146097 := by omega
  have hdoe1 : D + 306 - (D + 306) / 146097 * 146097 ≤ 146096 := by omega
  obtain ⟨hy1, hy2, hy3, hy4⟩ := yoe_bounds _ hdoe0 hdoe1
  have h := daysFromCivil_aux ((D + 306) / 146097) _ _ hy3 hy4 hy1 hy2
  simp only [Time.civil]
  rw [h]
  omega

theorem date_local (date value : Time) :
    (Time.Date date.Year date.Month date.Day value.Hour value.Minute value.Second
        value.Nanosecond value.offset).localSeconds =
      date.localDays * 86400 + value.secondOfDay := by
  simp only [Time.Date, Time.Year, Time.Month, Time.Day, daysFromCivil_civil, Time.Hour,
    Time.Minute, Time.Second, Time.Nanosecond, Time.localSeconds, Time.secondOfDay]
  omega

/-- The time `shiftTimeDate` builds: the calendar day of `date` and the clock time of
`value`, in the location of `value`. -/
theorem date_onDayAt (date value : Time) :
    OnDayAt
      (Time.Date date.Year date.Month date.Day value.Hour value.Minute value.Second
        value.Nanosecond value.offset) date value := by
  have hl := date_local date value
  have hs : value.secondOfDay = value.localSeconds % 86400 := rfl
  have hd : (Time.Date date.Year date.Month date.Day value.Hour value.Minute value.Second
      value.Nanosecond value.offset).localDays = date.localDays := by
    simp only [Time.localDays, hl]
    omega
  have hsod : (Time.Date date.Year date.Month date.Day value.Hour value.Minute value.Second
      value.Nanosecond value.offset).secondOfDay = value.secondOfDay := by
    simp only [Time.secondOfDay, hl]
    omega
  generalize Time.Date date.Year date.Month date.Day value.Hour value.Minute value.Second
      value.Nanosecond value.offset = s at hd hsod
  unfold OnDayAt
  simp only [Time.Year, Time.Month, Time.Day, Time.Hour, Time.Minute, Time.Second, hd, hsod,
    and_self]

theorem shiftTimeDate_some (w date : Time) :
    ∃ s, shiftTimeDate (some w) date = some s ∧ OnDayAt s date w ∧ s.offset = w.offset :=
  ⟨_, rfl, date_onDayAt date w, rfl⟩

theorem outboundLeg_eq (u : Usecase) (env : Env) (input : FlightsInput) :
    (u.outboundLeg env input).1 =
      legPipeline (gathered u env Leg.outbound (outboundRequest input)) input.Origin
        input.Destination input.CabinClass input.Filters input.DepartureDate input.SortBy := by
  unfold Usecase.outboundLeg legPipeline gathered
  simp only [collectFlights_eq]

theorem returnLeg_eq (u : Usecase) (env : Env) (input : FlightsInput) (returnDate : Time)
    (h : input.ReturnDate = some returnDate) :
    (u.returnLeg env input).1 =
      legPipeline (gathered u env Leg.inbound (returnRequest input returnDate))
        input.Destination input.Origin input.CabinClass
        (shiftFiltersDate input.Filters returnDate) returnDate input.SortBy := by
  unfold Usecase.returnLeg legPipeline gathered
  simp only [h, collectFlights_eq]

theorem returnLeg_none (u : Usecase) (env : Env) (input : FlightsInput)
    (h : input.ReturnDate = none) : u.returnLeg env input = ([], ⟨[], []⟩) := by
  unfold Usecase.returnLeg
  simp only [h]

/-- Claim C25. For every FilterSet and date, `shiftFiltersDate` maps each time window that
is set to the time with the year, month and day of the date and the hour, minute and
second of the window, keeps a window that is not set unset, and leaves the price, stops,
duration and airlines fields as they are.  When a return date is set, `Flights`, on a
cache miss, searches the return leg with origin and destination swapped and the return
date as date, and filters what it gathered on the swapped airports, the return date and
the shifted FilterSet, while the outbound leg is filtered on the FilterSet as given. -/
theorem shiftFiltersDate_contract (filters : FlightFilters) (date : Time) :
    ((∀ w, filters.DepartAfter = some w →
        ∃ s, (shiftFiltersDate filters date).DepartAfter = some s ∧ OnDayAt s date w) ∧
      (∀ w, filters.DepartBefore = some w →
        ∃ s, (shiftFiltersDate filters date).DepartBefore = some s ∧ OnDayAt s date w) ∧
      (∀ w, filters.ArriveAfter = some w →
        ∃ s, (shiftFiltersDate filters date).ArriveAfter = some s ∧ OnDayAt s date w) ∧
      (∀ w, filters.ArriveBefore = some w →
        ∃ s, (shiftFiltersDate filters date).ArriveBefore = some s ∧ OnDayAt s date w)) ∧
    ((filters.DepartAfter = none → (shiftFiltersDate filters date).DepartAfter = none) ∧
      (filters.DepartBefore = none → (shiftFiltersDate filters date).DepartBefore = none) ∧
      (filters.ArriveAfter = none → (shiftFiltersDate filters date).ArriveAfter = none) ∧
      (filters.ArriveBefore = none → (shiftFiltersDate filters date).ArriveBefore = none)) ∧
    ((shiftFiltersDate filters date).MinPrice = filters.MinPrice ∧
      (shiftFiltersDate filters date).MaxPrice = filters.MaxPrice ∧
      (shiftFiltersDate filters date).Stops = filters.Stops ∧
      (shiftFiltersDate filters date).MaxStops = filters.MaxStops ∧
      (shiftFiltersDate filters date).MinDuration = filters.MinDuration ∧
      (shiftFiltersDate filters date).MaxDuration = filters.MaxDuration ∧
      (shiftFiltersDate filters date).Airlines = filters.Airlines) ∧
    (∀ (u : Usecase) (env : Env) (input : FlightsInput), CacheOk u → CacheMiss u env input →
      input.Filters = filters → input.ReturnDate = some date →
      ∃ out u',
        u.Flights env input =
          some (⟨some out, none,
            [outboundRequest input,
              { Origin := input.Destination, Destination := input.Origin,
                DepartureDate := date, ReturnDate := none,
                Passengers := input.Passengers, CabinClass := input.CabinClass }]⟩, u') ∧
        out.ReturnFlights =
          legPipeline (gathered u env Leg.inbound (returnRequest input date))
            input.Destination input.Origin input.CabinClass (shiftFiltersDate filters date)
            date input.SortBy ∧
        out.Flights =
          legPipeline (gathered u env Leg.outbound (outboundRequest input)) input.Origin
            input.Destination input.CabinClass filters input.DepartureDate input.SortBy) := by
  refine ⟨⟨?_, ?_, ?_, ?_⟩, ⟨?_, ?_, ?_, ?_⟩, ⟨rfl, rfl, rfl, rfl, rfl, rfl, rfl⟩, ?_⟩
  · intro w hw
    obtain ⟨s, hs, hon, _⟩ := shiftTimeDate_some w date
    exact ⟨s, by simp only [shiftFiltersDate, hw, hs], hon⟩
  · intro w hw
    obtain ⟨s, hs, hon, _⟩ := shiftTimeDate_some w date
    exact ⟨s, by simp only [shiftFiltersDate, hw, hs], hon⟩
  · intro w hw
    obtain ⟨s, hs, hon, _⟩ := shiftTimeDate_some w date
    exact ⟨s, by simp only [shiftFiltersDate, hw, hs], hon⟩
  · intro w hw
    obtain ⟨s, hs, hon, _⟩ := shiftTimeDate_some w date
    exact ⟨s, by simp only [shiftFiltersDate, hw, hs], hon⟩
  · intro h; simp only [shiftFiltersDate, h, shiftTimeDate]
  · intro h; simp only [shiftFiltersDate, h, shiftTimeDate]
  · intro h; simp only [shiftFiltersDate, h, shiftTimeDate]
  · intro h; simp only [shiftFiltersDate, h, shiftTimeDate]
  · intro u env input hc hmiss hf hrd
    subst hf
    refine ⟨u.computeOutput env input,
      { u with cache :=
        ((u.cache.Get (buildCacheKey input) env.getNow ()).2.1.Set (buildCacheKey input)
          (some (u.computeOutput env input)) u.cacheTTL env.setNow ()).1 }, ?_, ?_, ?_⟩
    · rw [flights_miss u env input (get_none_of_miss u env input hc hmiss)]
      simp only [searchedOf, hrd, returnRequest]
    · exact returnLeg_eq u env input date hrd
    · exact outboundLeg_eq u env input

theorem shiftFiltersDate_contract_witness :
    ∃ s, (shiftFiltersDate roundTripInput.Filters (Time.ofUnix 1717779600 25200)).DepartAfter =
        some s ∧
      OnDayAt s (Time.ofUnix 1717779600 25200) (Time.ofUnix 1717203600 25200) :=
  (shiftFiltersDate_contract roundTripInput.Filters (Time.ofUnix 1717779600 25200)).1.1
    (Time.ofUnix 1717203600 25200) rfl

/-! ## Metadata -/

theorem provider_unique {providers : List Provider}
    (hnd : (providers.map (fun p => p.Name)).Nodup) {i j : Nat} {p q : Provider}
    (hi : providers[i]? = some p) (hj : providers[j]? = some q) (hname : q.Name = p.Name) :
    j = i ∧ q = p := by
  obtain ⟨hil, hie⟩ := List.getElem?_eq_some_iff.mp hi
  obtain ⟨hjl, hje⟩ := List.getElem?_eq_some_iff.mp hj
  have hil' : i < (providers.map (fun p => p.Name)).length := by simpa using hil
  have hjl' : j < (providers.map (fun p => p.Name)).length := by simpa using hjl
  have hn : (providers.map (fun p => p.Name))[j] = (providers.map (fun p => p.Name))[i] := by
    simp only [List.getElem_map, hie, hje, hname]
  have hji : j = i := (hnd.getElem_inj_iff).mp hn
  subst hji
  rw [hi] at hj
  exact ⟨rfl, (Option.some.inj hj).symm⟩

/-- With pairwise distinct names, the mark of a provider's name in the stats of the two
legs says that this provider returned without error on a leg. -/
theorem markedOk_iff (u : Usecase) (env : Env) (input : FlightsInput)
    (hnd : (u.providers.map (fun p => p.Name)).Nodup) (i : Nat) (p : Provider)
    (hp : u.providers[i]? = some p) :
    markedOk (u.outboundLeg env input).2 (u.returnLeg env input).2 p =
      succeededOn u env input i p := by
  have hout : (mapGet (u.outboundLeg env input).2.success p.Name).getD false =
      decide ((providerRun u.maxProviderRetries (env.ctxDone Leg.outbound i) Leg.outbound
        (outboundRequest input) p).err = none) := by
    rw [Bool.eq_iff_iff, decide_eq_true_iff]
    unfold Usecase.outboundLeg
    simp only []
    rw [collectFlights_success]
    constructor
    · rintro ⟨j, q, hq, hname, he⟩
      obtain ⟨rfl, rfl⟩ := provider_unique hnd hp hq hname
      exact he
    · intro he
      exact ⟨i, p, hp, rfl, he⟩
  unfold markedOk succeededOn
  rw [hout]
  congr 1
  cases hrd : input.ReturnDate with
  | none =>
    rw [returnLeg_none u env input hrd]
    rfl
  | some returnDate =>
    simp only []
    rw [Bool.eq_iff_iff, decide_eq_true_iff]
    unfold Usecase.returnLeg
    simp only [hrd]
    rw [collectFlights_success]
    constructor
    · rintro ⟨j, q, hq, hname, he⟩
      obtain ⟨rfl, rfl⟩ := provider_unique hnd hp hq hname
      exact he
    · intro he
      exact ⟨i, p, hp, rfl, he⟩

theorem filter_enum_snd {α : Type} (q : α → Bool) (r : Nat × α → Bool) (l : List α)
    (h : ∀ ip ∈ l.enum, q ip.2 = r ip) :
    l.filter q = (l.enum.filter r).map Prod.snd := by
  have h1 : l.enum.filter r = l.enum.filter (q ∘ Prod.snd) := by
    apply List.filter_congr
    intro ip hip
    exact (h ip hip).symm
  rw [h1, ← List.filter_map, List.enum_map_snd]

/-- Claim C26. For every list of providers and every pair of stats, `mergeProviderStats`
counts the providers whose name is marked successful in the stats of a leg and lists the
names of the others, in the order of the provider list; in every output `Flights` computes
on a cache miss, `ProvidersQueried` is the number of providers, `ProvidersSucceeded` plus
`ProvidersFailed` is `ProvidersQueried`, `FailedProviders` has `ProvidersFailed` entries
and `TotalResults` is the number of flights in `Flights` and `ReturnFlights` together; and
when the names of the providers are pairwise distinct, the providers counted are exactly
those that returned without error on a leg and the names listed are exactly those of the
providers that did on no leg, in configuration order. -/
theorem mergeProviderStats_contract (providers : List Provider)
    (outbound inbound : ProviderStats) :
    (mergeProviderStats providers outbound inbound).1 =
      ((providers.filter (markedOk outbound inbound)).length : Int) ∧
    (mergeProviderStats providers outbound inbound).2 =
      (providers.filter (fun p => !markedOk outbound inbound p)).map (fun p => p.Name) ∧
    (∀ (u : Usecase) (env : Env) (input : FlightsInput), u.providers = providers →
      CacheOk u → CacheMiss u env input →
      ∃ out searched u', u.Flights env input = some (⟨some out, none, searched⟩, u') ∧
        out.Metadata.ProvidersQueried = (providers.length : Int) ∧
        out.Metadata.ProvidersSucceeded + out.Metadata.ProvidersFailed =
          out.Metadata.ProvidersQueried ∧
        (out.Metadata.FailedProviders.length : Int) = out.Metadata.ProvidersFailed ∧
        out.Metadata.TotalResults =
          (out.Flights.length : Int) + (out.ReturnFlights.length : Int) ∧
        ((providers.map (fun p => p.Name)).Nodup →
          out.Metadata.ProvidersSucceeded =
            ((providers.enum.filter
              (fun ip => succeededOn u env input ip.1 ip.2)).length : Int) ∧
          out.Metadata.FailedProviders =
            (providers.enum.filter (fun ip => !succeededOn u env input ip.1 ip.2)).map
              (fun ip => ip.2.Name))) := by
  have hm := mergeProviderStats_eq providers outbound inbound
  refine ⟨congrArg Prod.fst hm, congrArg Prod.snd hm, ?_⟩
  intro u env input hu hc hmiss
  subst hu
  have hmerged := mergeProviderStats_eq u.providers (u.outboundLeg env input).2
    (u.returnLeg env input).2
  have h1 : (u.computeOutput env input).Metadata.ProvidersSucceeded =
      ((u.providers.filter (markedOk (u.outboundLeg env input).2
        (u.returnLeg env input).2)).length : Int) := congrArg Prod.fst hmerged
  have h2 : (u.computeOutput env input).Metadata.FailedProviders =
      (u.providers.filter (fun p => !markedOk (u.outboundLeg env input).2
        (u.returnLeg env input).2 p)).map (fun p => p.Name) := congrArg Prod.snd hmerged
  have h3 : (u.computeOutput env input).Metadata.ProvidersFailed =
      (u.providers.length : Int) -
        (u.computeOutput env input).Metadata.ProvidersSucceeded := rfl
  have hlen := filter_length_add_not
    (markedOk (u.outboundLeg env input).2 (u.returnLeg env input).2) u.providers
  refine ⟨u.computeOutput env input, _, _,
    flights_miss u env input (get_none_of_miss u env input hc hmiss), rfl, ?_, ?_, rfl, ?_⟩
  · rw [h3]
    show _ + (_ - _) = (u.providers.length : Int)
    omega
  · rw [h3, h1, h2, List.length_map]
    omega
  · intro hnd
    have hq : ∀ ip ∈ u.providers.enum,
        markedOk (u.outboundLeg env input).2 (u.returnLeg env input).2 ip.2 =
          succeededOn u env input ip.1 ip.2 := by
      intro ip hip
      exact markedOk_iff u env input hnd ip.1 ip.2 (List.mem_enum_iff_getElem?.mp hip)
    constructor
    · rw [h1, filter_enum_snd _ _ u.providers hq, List.length_map]
    · rw [h2, filter_enum_snd (fun p => !markedOk (u.outboundLeg env input).2
          (u.returnLeg env input).2 p) (fun ip => !succeededOn u env input ip.1 ip.2)
          u.providers (fun ip hip => by simp only [hq ip hip]), List.map_map]
      rfl

theorem mergeProviderStats_contract_witness :
    ∃ out searched u', sampleUsecase.Flights quietEnv sampleInput =
        some (⟨some out, none, searched⟩, u') ∧
      out.Metadata.ProvidersQueried = 2 ∧
      out.Metadata.ProvidersSucceeded + out.Metadata.ProvidersFailed =
        out.Metadata.ProvidersQueried :=
  ((mergeProviderStats_contract sampleUsecase.providers ⟨[], []⟩ ⟨[], []⟩).2.2
    sampleUsecase quietEnv sampleInput rfl (cacheOk_usecaseOver _)
    (cacheMiss_usecaseOver _ _ _)).imp
    fun _ h => h.imp fun _ h' => h'.imp fun _ h'' => ⟨h''.1, h''.2.1, h''.2.2.1⟩

/-! ## End to end -/

theorem searchWithRetry_first_ok (n : Int) (hn : 0 ≤ n) (search : Nat → SearchOutcome)
    (ctxDone : Nat → Option GoError) (fl : List Flight) (h : search 0 = .ok fl) :
    searchWithRetry n search ctxDone = ⟨fl, none, 1, []⟩ := by
  obtain ⟨k, hk⟩ : ∃ k, (n + 1).toNat = k + 1 := ⟨n.toNat, by omega⟩
  unfold searchWithRetry
  rw [hk]
  unfold retryLoop
  simp only [h]

theorem receiveAll_single {α : Type} (order : List Nat) (a : α) :
    receiveAll order [a] = [a] :=
  List.perm_singleton.mp (receiveAll_perm order [a])

theorem receiveAll_pair {α : Type} (order : List Nat) (a b : α) :
    receiveAll order [a, b] = [a, b] ∨ receiveAll order [a, b] = [b, a] := by
  cases order with
  | nil => exact Or.inl rfl
  | cons k rest =>
    unfold receiveAll
    have hk : k % 2 = 0 ∨ k % 2 = 1 := by omega
    rcases hk with hk | hk
    · left
      simp only [List.length_cons, List.length_nil, hk]
      simp [receiveAll_single]
    · right
      simp only [List.length_cons, List.length_nil, hk]
      simp [receiveAll_single]

theorem normalizeDuration_criteria (f : Flight) (origin destination cabinClass date : String) :
    matchFlightCriteria (normalizeDuration f) origin destination cabinClass date =
      matchFlightCriteria f origin destination cabinClass date := by
  unfold normalizeDuration
  simp only []
  split_ifs <;> rfl

theorem normalizeDuration_key (f : Flight) : flightKey (normalizeDuration f) = flightKey f := by
  unfold normalizeDuration
  simp only []
  split_ifs <;> rfl

theorem normalizeDuration_price (f : Flight) : (normalizeDuration f).Price = f.Price := by
  unfold normalizeDuration
  simp only []
  split_ifs <;> rfl

theorem matchFilter_empty (f : Flight) :
    matchFilter f emptyFilters (normalizeSet emptyFilters.Airlines) = true := by
  simp [matchFilter, matchPriceFilter, matchStopsFilter, matchDurationFilter,
    matchAirlineFilter, matchTimeFilter, emptyFilters, setAnd, normalizeSet]

theorem dedup_pair (a b : Flight) (hkey : flightKey a = flightKey b)
    (hlt : b.Price.Amount < a.Price.Amount) :
    compareAndDedupFlights [a, b] = [b] ∧ compareAndDedupFlights [b, a] = [b] := by
  have h1 : ¬ a.Price.Amount < b.Price.Amount := not_lt.mpr (le_of_lt hlt)
  have h2 : ¬ a.Price.Amount = b.Price.Amount := ne_of_gt hlt
  constructor
  · simp [compareAndDedupFlights, dedupStep, mapGet, mapSet, mapValues, hkey, hlt]
  · simp [compareAndDedupFlights, dedupStep, mapGet, mapSet, mapValues, hkey, h1, h2]

theorem applyBestValueScore_single (x : Flight) :
    applyBestValueScore [x] = [{ x with BestValueScore := 0 }] := by
  have hw : wrapInt64 0 = 0 := by decide
  simp [applyBestValueScore, hw]

theorem sortFlights_single (x : Flight) (sortOpt : SortOption) :
    sortFlights [x] sortOpt = [x] := by
  obtain ⟨field, order⟩ := sortOpt
  rw [sortFlights_unfold]
  have hone : ∀ less : Flight → Flight → Bool, sliceStable less [x] = [x] := fun _ => rfl
  simp only [hone, ite_self]

theorem legPipeline_pair (f g : Flight) (origin destination cabinClass : String)
    (date : Time) (sortBy : SortOption)
    (hf : matchFlightCriteria f origin destination cabinClass date.formatDate = true)
    (hg : matchFlightCriteria g origin destination cabinClass date.formatDate = true)
    (hkey : flightKey f = flightKey g) (hlt : g.Price.Amount < f.Price.Amount) :
    legPipeline [f, g] origin destination cabinClass emptyFilters date sortBy =
        [{ normalizeDuration g with BestValueScore := 0 }] ∧
    legPipeline [g, f] origin destination cabinClass emptyFilters date sortBy =
        [{ normalizeDuration g with BestValueScore := 0 }] := by
  have hf' := (normalizeDuration_criteria f origin destination cabinClass date.formatDate).trans hf
  have hg' := (normalizeDuration_criteria g origin destination cabinClass date.formatDate).trans hg
  have hkey' : flightKey (normalizeDuration f) = flightKey (normalizeDuration g) := by
    rw [normalizeDuration_key, normalizeDuration_key, hkey]
  have hlt' : (normalizeDuration g).Price.Amount < (normalizeDuration f).Price.Amount := by
    rw [normalizeDuration_price, normalizeDuration_price]
    exact hlt
  obtain ⟨hd1, hd2⟩ := dedup_pair (normalizeDuration f) (normalizeDuration g) hkey' hlt'
  have hfilter1 : filterFlights [normalizeDuration f, normalizeDuration g] origin destination
      cabinClass emptyFilters date.formatDate = [normalizeDuration f, normalizeDuration g] := by
    rw [filterFlights_eq_filter]
    simp [List.filter_cons, hf', hg', matchFilter_empty]
  have hfilter2 : filterFlights [normalizeDuration g, normalizeDuration f] origin destination
      cabinClass emptyFilters date.formatDate = [normalizeDuration g, normalizeDuration f] := by
    rw [filterFlights_eq_filter]
    simp [List.filter_cons, hf', hg', matchFilter_empty]
  unfold legPipeline normalizeDurations
  simp only [List.map_cons, List.map_nil, hfilter1, hfilter2, hd1, hd2,
    applyBestValueScore_single, sortFlights_single, and_self]

theorem flightKey_eq_of_fields (f g : Flight) (hcode : f.Airline.Code = g.Airline.Code)
    (hnum : f.FlightNumber = g.FlightNumber)
    (hdep : f.Departure.Airport = g.Departure.Airport)
    (harr : f.Arrival.Airport = g.Arrival.Airport)
    (hdt : f.Departure.Time = g.Departure.Time) (hat : f.Arrival.Time = g.Arrival.Time) :
    flightKey f = flightKey g := by
  unfold flightKey
  rw [hcode, hnum, hdep, harr, hdt, hat]

theorem searchProviders_two (u : Usecase) (env : Env) (leg : Leg) (req : SearchRequest)
    (p₁ p₂ : Provider) (fl₁ fl₂ : List Flight) (hproviders : u.providers = [p₁, p₂])
    (hretries : 0 ≤ u.maxProviderRetries) (h₁ : p₁.Search leg req 0 = .ok fl₁)
    (h₂ : p₂.Search leg req 0 = .ok fl₂) :
    u.searchProviders env leg req = [⟨p₁.Name, fl₁, none⟩, ⟨p₂.Name, fl₂, none⟩] ∨
    u.searchProviders env leg req = [⟨p₂.Name, fl₂, none⟩, ⟨p₁.Name, fl₁, none⟩] := by
  have hr₁ : providerRun u.maxProviderRetries (env.ctxDone leg 0) leg req p₁ =
      ⟨p₁.Name, fl₁, none⟩ := by
    unfold providerRun
    rw [searchWithRetry_first_ok _ hretries _ _ fl₁ h₁]
  have hr₂ : providerRun u.maxProviderRetries (env.ctxDone leg 1) leg req p₂ =
      ⟨p₂.Name, fl₂, none⟩ := by
    unfold providerRun
    rw [searchWithRetry_first_ok _ hretries _ _ fl₂ h₂]
  unfold Usecase.searchProviders
  rw [hproviders]
  simp only [List.enum_cons, List.enumFrom_cons, List.enumFrom_nil, List.map_cons, List.map_nil,
    hr₁, hr₂]
  exact receiveAll_pair _ _ _

/-- Claim C27. For the criteria origin CGK, destination DPS, date 2024-06-01, cabin class
economy, no filter and no return date (for one passenger as for any number), on a use case with two
providers and no valid cache entry for the criteria, when each provider returns, at its
first call, one record matching the criteria, the two records having the same airline
code, flight number, airports and timestamps and the prices 500000 and 450000: whatever
the order in which the two results arrive, `Flights` returns an output whose `Flights`
list holds exactly one record, the one priced 450000 (with its duration normalized and
its score set to 0), with `TotalResults` 1, `ProvidersQueried` 2, `ProvidersSucceeded` 2,
`ProvidersFailed` 0 and `CacheHit` false. -/
theorem flights_end_to_end (u : Usecase) (env : Env) (input : FlightsInput)
    (p₁ p₂ : Provider) (f g : Flight) (hc : CacheOk u) (hmiss : CacheMiss u env input)
    (hproviders : u.providers = [p₁, p₂]) (hretries : 0 ≤ u.maxProviderRetries)
    (horigin : input.Origin = "CGK") (hdest : input.Destination = "DPS")
    (hdate : input.DepartureDate.formatDate = "2024-06-01")
    (hreturn : input.ReturnDate = none)
    (hcabin : input.CabinClass = "economy") (hfilters : input.Filters = emptyFilters)
    (h₁ : p₁.Search Leg.outbound (outboundRequest input) 0 = .ok [f])
    (h₂ : p₂.Search Leg.outbound (outboundRequest input) 0 = .ok [g])
    (hf : matchFlightCriteria f "CGK" "DPS" "economy" "2024-06-01" = true)
    (hg : matchFlightCriteria g "CGK" "DPS" "economy" "2024-06-01" = true)
    (hcode : f.Airline.Code = g.Airline.Code) (hnum : f.FlightNumber = g.FlightNumber)
    (hdep : f.Departure.Airport = g.Departure.Airport)
    (harr : f.Arrival.Airport = g.Arrival.Airport)
    (hdt : f.Departure.Time = g.Departure.Time) (hat : f.Arrival.Time = g.Arrival.Time)
    (hpf : f.Price.Amount = 500000) (hpg : g.Price.Amount = 450000) :
    ∃ out u', u.Flights env input = some (⟨some out, none, [outboundRequest input]⟩, u') ∧
      out.Flights = [{ normalizeDuration g with BestValueScore := 0 }] ∧
      out.Flights.map (fun x => x.Price.Amount) = [450000] ∧
      out.ReturnFlights = [] ∧
      out.Metadata.TotalResults = 1 ∧ out.Metadata.ProvidersQueried = 2 ∧
      out.Metadata.ProvidersSucceeded = 2 ∧ out.Metadata.ProvidersFailed = 0 ∧
      out.Metadata.CacheHit = false ∧ out.Metadata.FailedProviders = [] := by
  have hkey := flightKey_eq_of_fields f g hcode hnum hdep harr hdt hat
  have hlt : g.Price.Amount < f.Price.Amount := by rw [hpf, hpg]; decide
  have hgath : gathered u env Leg.outbound (outboundRequest input) = [f, g] ∨
      gathered u env Leg.outbound (outboundRequest input) = [g, f] := by
    unfold gathered
    rcases searchProviders_two u env Leg.outbound (outboundRequest input) p₁ p₂ [f] [g]
      hproviders hretries h₁ h₂ with h | h
    · left; rw [h]; simp
    · right; rw [h]; simp
  have hpipe := legPipeline_pair f g input.Origin input.Destination input.CabinClass
    input.DepartureDate input.SortBy (by rw [horigin, hdest, hcabin, hdate]; exact hf)
    (by rw [horigin, hdest, hcabin, hdate]; exact hg) hkey hlt
  have hflights : (u.computeOutput env input).Flights =
      [{ normalizeDuration g with BestValueScore := 0 }] := by
    show (u.outboundLeg env input).1 = _
    rw [outboundLeg_eq, hfilters]
    rcases hgath with h | h
    · rw [h]; exact hpipe.1
    · rw [h]; exact hpipe.2
  have hret : u.returnLeg env input = ([], ⟨[], []⟩) := returnLeg_none u env input hreturn
  have hok : ∀ p ∈ u.providers,
      markedOk (u.outboundLeg env input).2 (u.returnLeg env input).2 p = true := by
    intro p hp
    have hmark : (mapGet (u.outboundLeg env input).2.success p.Name).getD false = true := by
      unfold Usecase.outboundLeg
      simp only []
      rw [collectFlights_success]
      rw [hproviders] at hp
      rcases List.mem_cons.mp hp with rfl | hp
      · refine ⟨0, p, by rw [hproviders]; rfl, rfl, ?_⟩
        unfold providerRun
        rw [searchWithRetry_first_ok _ hretries _ _ [f] h₁]
      · have hp2 : p = p₂ := by simpa using hp
        subst hp2
        refine ⟨1, p, by rw [hproviders]; rfl, rfl, ?_⟩
        unfold providerRun
        rw [searchWithRetry_first_ok _ hretries _ _ [g] h₂]
    unfold markedOk
    rw [hmark]
    rfl
  have hmerged : mergeProviderStats u.providers (u.outboundLeg env input).2
      (u.returnLeg env input).2 = (2, []) := by
    rw [mergeProviderStats_eq]
    have hall : u.providers.filter (markedOk (u.outboundLeg env input).2
        (u.returnLeg env input).2) = u.providers :=
      List.filter_eq_self.mpr hok
    have hnone : u.providers.filter (fun p => !markedOk (u.outboundLeg env input).2
        (u.returnLeg env input).2 p) = [] := by
      rw [List.filter_eq_nil_iff]
      intro p hp
      simp [hok p hp]
    have hall' : u.providers.filter (fun p =>
        (mapGet (u.outboundLeg env input).2.success p.Name).getD false ||
          (mapGet (u.returnLeg env input).2.success p.Name).getD false) = u.providers := hall
    have hnone' : u.providers.filter (fun p =>
        !((mapGet (u.outboundLeg env input).2.success p.Name).getD false ||
          (mapGet (u.returnLeg env input).2.success p.Name).getD false)) = [] := hnone
    rw [hall', hnone', hproviders]
    rfl
  have hsucc : (u.computeOutput env input).Metadata.ProvidersSucceeded = 2 :=
    congrArg Prod.fst hmerged
  have hfailedList : (u.computeOutput env input).Metadata.FailedProviders = [] :=
    congrArg Prod.snd hmerged
  have hqueried : (u.computeOutput env input).Metadata.ProvidersQueried = 2 := by
    show (u.providers.length : Int) = 2
    rw [hproviders]
    rfl
  have hfailed : (u.computeOutput env input).Metadata.ProvidersFailed = 0 := by
    show (u.providers.length : Int) - (u.computeOutput env input).Metadata.ProvidersSucceeded = 0
    rw [hsucc, hproviders]
    rfl
  have hretf : (u.computeOutput env input).ReturnFlights = [] := by
    show (u.returnLeg env input).1 = []
    rw [hret]
  have htotal : (u.computeOutput env input).Metadata.TotalResults = 1 := by
    show ((u.computeOutput env input).Flights.length : Int) +
      ((u.computeOutput env input).ReturnFlights.length : Int) = 1
    rw [hflights, hretf]
    rfl
  have hsearched : searchedOf input = [outboundRequest input] := by
    unfold searchedOf
    rw [hreturn]
  have hm := flights_miss u env input (get_none_of_miss u env input hc hmiss)
  rw [hsearched] at hm
  refine ⟨_, _, hm, hflights, ?_, hretf, htotal, hqueried, hsucc, hfailed, rfl, hfailedList⟩
  rw [hflights]
  simp only [List.map_cons, List.map_nil, normalizeDuration_price, hpg]

theorem flights_end_to_end_witness :
    ∃ out u', sampleUsecase.Flights quietEnv sampleInput =
        some (⟨some out, none, [outboundRequest sampleInput]⟩, u') ∧
      out.Flights.map (fun x => x.Price.Amount) = [450000] ∧
      out.Metadata.TotalResults = 1 ∧ out.Metadata.ProvidersQueried = 2 ∧
      out.Metadata.ProvidersSucceeded = 2 :=
  (flights_end_to_end sampleUsecase quietEnv sampleInput
    (fixedProvider "Garuda Indonesia" (.ok [offerAt "Garuda Indonesia" 500000]))
    (fixedProvider "AirAsia" (.ok [offerAt "AirAsia" 450000]))
    (offerAt "Garuda Indonesia" 500000) (offerAt "AirAsia" 450000)
    (cacheOk_usecaseOver _) (cacheMiss_usecaseOver _ _ _) rfl (by decide) rfl rfl (by decide)
    rfl rfl rfl rfl rfl (by decide) (by decide) rfl rfl rfl rfl rfl rfl rfl rfl).imp
    fun _ h => h.imp fun _ h' =>
      ⟨h'.1, h'.2.2.1, h'.2.2.2.2.1, h'.2.2.2.2.2.1, h'.2.2.2.2.2.2.1⟩

/-! ## Output eligibility -/

theorem sortFlights_perm (flights : List Flight) (sortOpt : SortOption) :
    (sortFlights flights sortOpt).Perm flights := by
  obtain ⟨field, order⟩ := sortOpt
  rw [sortFlights_unfold]
  split_ifs <;> exact insertionSort_perm _ _

theorem applyBestValueScore_mem {flights : List Flight} {x : Flight}
    (hx : x ∈ applyBestValueScore flights) :
    ∃ y ∈ flights, x = { y with BestValueScore := x.BestValueScore } := by
  cases flights with
  | nil => simp [applyBestValueScore] at hx
  | cons first rest =>
    simp only [applyBestValueScore, List.mem_map] at hx
    obtain ⟨y, hy, rfl⟩ := hx
    exact ⟨y, hy, rfl⟩

theorem normalizeDuration_reset (g : Flight) (s : Rat) :
    { ({ normalizeDuration g with BestValueScore := s } : Flight) with
      DurationMinute := g.DurationMinute, BestValueScore := g.BestValueScore } = g := by
  unfold normalizeDuration
  simp only []
  split_ifs <;> rfl

theorem mem_gathered (u : Usecase) (env : Env) (leg : Leg) (req : SearchRequest) (g : Flight)
    (hg : g ∈ gathered u env leg req) :
    ∃ i p, u.providers[i]? = some p ∧
      (providerRun u.maxProviderRetries (env.ctxDone leg i) leg req p).err = none ∧
      g ∈ (providerRun u.maxProviderRetries (env.ctxDone leg i) leg req p).flights := by
  unfold gathered at hg
  rw [List.mem_flatten] at hg
  obtain ⟨fl, hfl, hgfl⟩ := hg
  rw [List.mem_map] at hfl
  obtain ⟨r, hr, rfl⟩ := hfl
  rw [List.mem_filter] at hr
  obtain ⟨hr, herr⟩ := hr
  obtain ⟨i, p, hp, rfl⟩ := (mem_searchProviders u env leg req r).mp hr
  exact ⟨i, p, hp, of_decide_eq_true herr, hgfl⟩

/-- What survives the pipeline of a leg is eligible and comes from a provider. -/
theorem legPipeline_mem (u : Usecase) (env : Env) (leg : Leg) (req : SearchRequest)
    (origin destination cabinClass : String) (filters : FlightFilters) (date : Time)
    (sortBy : SortOption) (x : Flight)
    (hx : x ∈ legPipeline (gathered u env leg req) origin destination cabinClass filters date
      sortBy) :
    Eligible x origin destination filters date ∧ FromProvider u env leg req x ∧
      (cabinClass ≠ "" → equalFold x.CabinClass cabinClass = true) := by
  unfold legPipeline at hx
  have h1 := (sortFlights_perm _ sortBy).mem_iff.mp hx
  obtain ⟨y, hy, hxy⟩ := applyBestValueScore_mem h1
  have h2 := dedup_subset hy
  rw [filterFlights_eq_filter, List.mem_filter, Bool.and_eq_true] at h2
  obtain ⟨hyn, hcrit, hfilt⟩ := h2
  unfold normalizeDurations at hyn
  rw [List.mem_map] at hyn
  obtain ⟨g, hg, rfl⟩ := hyn
  obtain ⟨i, p, hp, herr, hgp⟩ := mem_gathered u env leg req g hg
  have hcrit' : matchFlightCriteria x origin destination cabinClass date.formatDate = true := by
    rw [hxy]
    exact hcrit
  have hfilt' : matchFilter x filters (normalizeSet filters.Airlines) = true := by
    rw [hxy]
    exact hfilt
  have hc := (matchFlightCriteria_iff x origin destination cabinClass date.formatDate).mp hcrit'
  obtain ⟨c1, c2, c3, c4, c5, c6, c7⟩ := hc
  refine ⟨⟨?_, ?_, ?_, (equalFold_iff _ _).mpr c1, (equalFold_iff _ _).mpr c2, c6, hfilt'⟩,
    ⟨i, p, g, hp, herr, hgp, ?_⟩, fun hne => (equalFold_iff _ _).mpr (c7 hne)⟩
  · simpa [Time.IsZero] using c3
  · simpa [Time.IsZero] using c4
  · simpa [Time.After] using c5
  · rw [hxy]
    exact normalizeDuration_reset g x.BestValueScore

theorem computeOutput_flights (u : Usecase) (env : Env) (input : FlightsInput) :
    (u.computeOutput env input).Flights = (u.outboundLeg env input).1 :=
  rfl

theorem sample_flights :
    (sampleUsecase.computeOutput quietEnv sampleInput).Flights =
      [{ normalizeDuration (offerAt "AirAsia" 450000) with BestValueScore := 0 }] := by
  have h := outboundLeg_eq sampleUsecase quietEnv sampleInput
  have hg : gathered sampleUsecase quietEnv Leg.outbound (outboundRequest sampleInput) =
      [offerAt "Garuda Indonesia" 500000, offerAt "AirAsia" 450000] := by decide
  rw [hg] at h
  rw [computeOutput_flights, h]
  exact (legPipeline_pair (offerAt "Garuda Indonesia" 500000) (offerAt "AirAsia" 450000)
    sampleInput.Origin sampleInput.Destination sampleInput.CabinClass sampleInput.DepartureDate
    sampleInput.SortBy (by decide) (by decide) (by decide) (by decide)).1

/-- Claim C28. Every flight in `Flights` of an output computed on a cache miss has both
timestamps set and the arrival after the departure, departs from the origin and arrives
at the destination of the search (ignoring letter case), departs on the day of the search,
passes the FilterSet, and is one of the records returned on the outbound leg by a provider
that returned no error, with only `DurationMinute` and `BestValueScore` possibly
rewritten; the same holds for every flight in `ReturnFlights` with origin and destination
swapped, the return date and the shifted FilterSet; with no return date `ReturnFlights`
is empty. -/
theorem flights_output_eligible (u : Usecase) (env : Env) (input : FlightsInput) :
    (∀ x ∈ (u.computeOutput env input).Flights,
      Eligible x input.Origin input.Destination input.Filters input.DepartureDate ∧
        FromProvider u env Leg.outbound (outboundRequest input) x) ∧
    (∀ returnDate, input.ReturnDate = some returnDate →
      ∀ x ∈ (u.computeOutput env input).ReturnFlights,
        Eligible x input.Destination input.Origin (shiftFiltersDate input.Filters returnDate)
            returnDate ∧
          FromProvider u env Leg.inbound (returnRequest input returnDate) x) ∧
    (input.ReturnDate = none → (u.computeOutput env input).ReturnFlights = []) ∧
    (CacheOk u → CacheMiss u env input →
      ∃ searched u',
        u.Flights env input = some (⟨some (u.computeOutput env input), none, searched⟩, u')) := by
  refine ⟨?_, ?_, ?_, ?_⟩
  · intro x hx
    have hx' : x ∈ (u.outboundLeg env input).1 := hx
    rw [outboundLeg_eq] at hx'
    have h := legPipeline_mem u env Leg.outbound (outboundRequest input) _ _ _ _ _ _ x hx'
    exact ⟨h.1, h.2.1⟩
  · intro returnDate hrd x hx
    have hx' : x ∈ (u.returnLeg env input).1 := hx
    rw [returnLeg_eq u env input returnDate hrd] at hx'
    have h := legPipeline_mem u env Leg.inbound (returnRequest input returnDate) _ _ _ _ _ _
      x hx'
    exact ⟨h.1, h.2.1⟩
  · intro hrd
    show (u.returnLeg env input).1 = []
    rw [returnLeg_none u env input hrd]
  · intro hc hmiss
    exact ⟨_, _, flights_miss u env input (get_none_of_miss u env input hc hmiss)⟩

theorem flights_output_eligible_witness :
    Eligible { normalizeDuration (offerAt "AirAsia" 450000) with BestValueScore := 0 }
      "CGK" "DPS" emptyFilters (Time.ofUnix 1717174800 25200) :=
  ((flights_output_eligible sampleUsecase quietEnv sampleInput).1 _
    (by rw [sample_flights]; exact List.mem_singleton.mpr rfl)).1

/-! ## Fan-out completeness -/

theorem searchWithRetry_calls_pos (n : Int) (hn : 0 ≤ n) (search : Nat → SearchOutcome)
    (ctxDone : Nat → Option GoError) : 1 ≤ (searchWithRetry n search ctxDone).calls := by
  obtain ⟨k, rfl⟩ := Int.eq_ofNat_of_zero_le hn
  exact (searchWithRetry_spec k search ctxDone).1

/-- Claim C29. For every list of providers and every behaviour of the providers, of their
contexts and of the scheduler, `searchProviders` returns exactly one result per provider:
as many results as providers, the names of the results being the names of the providers
up to order, and the results being, up to order, the results of the goroutines, each made
of the name of its provider and of the flights and error `searchWithRetry` returned for
that provider; the result of a provider depends on that provider and on its own context
only, so it is present and the same whatever the other providers are or do and whatever
the order of arrival; with a non-negative number of retries each provider is called at
least once. -/
theorem searchProviders_complete (u : Usecase) (env : Env) (leg : Leg) (req : SearchRequest) :
    (u.searchProviders env leg req).length = u.providers.length ∧
    ((u.searchProviders env leg req).map (fun r => r.name)).Perm
      (u.providers.map (fun p => p.Name)) ∧
    (u.searchProviders env leg req).Perm
      (u.providers.enum.map fun ip =>
        (⟨ip.2.Name,
          (searchWithRetry u.maxProviderRetries (ip.2.Search leg req)
            (env.ctxDone leg ip.1)).flights,
          (searchWithRetry u.maxProviderRetries (ip.2.Search leg req)
            (env.ctxDone leg ip.1)).err⟩ : ProviderResult)) ∧
    (∀ (u' : Usecase) (env' : Env) (i : Nat) (p : Provider),
      u.providers[i]? = some p → u'.providers[i]? = some p →
      u'.maxProviderRetries = u.maxProviderRetries →
      env'.ctxDone leg i = env.ctxDone leg i →
      providerRun u.maxProviderRetries (env.ctxDone leg i) leg req p ∈
          u.searchProviders env leg req ∧
        providerRun u.maxProviderRetries (env.ctxDone leg i) leg req p ∈
          u'.searchProviders env' leg req) ∧
    (0 ≤ u.maxProviderRetries → ∀ (i : Nat) (p : Provider), u.providers[i]? = some p →
      1 ≤ (searchWithRetry u.maxProviderRetries (p.Search leg req)
        (env.ctxDone leg i)).calls) := by
  have hperm := searchProviders_perm u env leg req
  refine ⟨?_, searchProviders_names u env leg req, hperm, ?_, ?_⟩
  · rw [hperm.length_eq, List.length_map, List.enum_length]
  · intro u' env' i p hp hp' hretries hctx
    constructor
    · exact (mem_searchProviders u env leg req _).mpr ⟨i, p, hp, rfl⟩
    · refine (mem_searchProviders u' env' leg req _).mpr ⟨i, p, hp', ?_⟩
      rw [hretries, hctx]
  · intro hn i p _
    exact searchWithRetry_calls_pos _ hn _ _

theorem searchProviders_complete_witness :
    (failingUsecase.searchProviders quietEnv Leg.outbound
        (outboundRequest sampleInput)).length = 2 ∧
    ((failingUsecase.searchProviders quietEnv Leg.outbound (outboundRequest sampleInput)).map
        (fun r => r.name)).Perm ["Garuda Indonesia", "AirAsia"] :=
  ⟨(searchProviders_complete failingUsecase quietEnv Leg.outbound
      (outboundRequest sampleInput)).1,
    (searchProviders_complete failingUsecase quietEnv Leg.outbound
      (outboundRequest sampleInput)).2.1⟩

/-! ## Input validation -/

theorem except_bind_isOk {ε α β : Type} (x : Except ε α) (f : α → Except ε β) :
    (∃ b, x >>= f = .ok b) ↔ ∃ a, x = .ok a ∧ ∃ b, f a = .ok b := by
  cases x with
  | error e => simp [bind, Except.bind]
  | ok a => simp [bind, Except.bind]

theorem except_bind_eq_ok {ε α β : Type} (x : Except ε α) (f : α → Except ε β) (b : β) :
    x >>= f = .ok b ↔ ∃ a, x = .ok a ∧ f a = .ok b := by
  cases x with
  | error e => simp [bind, Except.bind]
  | ok a => simp [bind, Except.bind]

theorem except_error_of_not_ok {ε α : Type} (x : Except ε α) (h : ¬ ∃ a, x = .ok a) :
    ∃ e, x = .error e := by
  cases x with
  | error e => exact ⟨e, rfl⟩
  | ok a => exact absurd ⟨a, rfl⟩ h

theorem param_single (q : Values) (name : String) : param q [name] = trimSpace (q.Get name) := by
  unfold param
  simp only [List.map_cons, List.map_nil, firstNotEmpty]
  split_ifs with h
  · rfl
  · rw [not_not.mp h]

theorem param_pair (q : Values) (name alt : String) :
    param q [name, alt] = trimSpace (firstNotEmpty [q.Get name, q.Get alt]) :=
  rfl

theorem parseIntFilter_isOk (p : Parsers) (q : Values) (key altKey errMsg : String) :
    (∃ v, parseIntFilter p q key altKey errMsg = .ok v) ↔
      ¬ MalformedInt p (param q [key, altKey]) := by
  unfold parseIntFilter MalformedInt
  rw [param_pair]
  simp only []
  by_cases hv : trimSpace (firstNotEmpty [q.Get key, q.Get altKey]) = ""
  · simp [hv]
  · cases ha : p.atoi (trimSpace (firstNotEmpty [q.Get key, q.Get altKey])) with
    | none => simp [hv]
    | some n => simp [hv]

theorem parseTimeFilter_isOk (p : Parsers) (q : Values) (key altKey : String) (date : Time) :
    (∃ v, parseTimeFilter p q key altKey date = .ok v) ↔
      ¬ MalformedTime p (param q [key, altKey]) := by
  unfold parseTimeFilter MalformedTime
  rw [param_pair]
  simp only []
  generalize trimSpace (firstNotEmpty [q.Get key, q.Get altKey]) = value
  by_cases hv : value = ""
  · rw [if_pos hv]
    exact ⟨fun _ h => h.1 hv, fun _ => ⟨_, rfl⟩⟩
  · rw [if_neg hv]
    by_cases hc : value.utf8ByteSize = 5 ∧ value.data.contains ':' = true
    · rw [if_pos hc, if_pos hc]
      cases hp : p.parseClock value with
      | none =>
        simp only []
        constructor
        · rintro ⟨v, hv'⟩
          cases hv'
        · intro h
          exact absurd ⟨hv, trivial⟩ h
      | some t =>
        simp only []
        constructor
        · intro _ h
          cases h.2
        · intro _
          exact ⟨_, rfl⟩
    · rw [if_neg hc, if_neg hc]
      cases hp : p.parseRFC3339 value with
      | none =>
        simp only []
        constructor
        · rintro ⟨v, hv'⟩
          cases hv'
        · intro h
          exact absurd ⟨hv, trivial⟩ h
      | some t =>
        simp only []
        constructor
        · intro _ h
          cases h.2
        · intro _
          exact ⟨_, rfl⟩

theorem parseFlightFilters_isOk (p : Parsers) (q : Values) (departureDate : Time) :
    (∃ f, parseFlightFilters p q departureDate = .ok f) ↔
      (∀ names ∈ intFilterParams, ¬ MalformedInt p (param q names)) ∧
      (∀ names ∈ timeFilterParams, ¬ MalformedTime p (param q names)) := by
  unfold parseFlightFilters
  simp only [except_bind_isOk, parseIntFilter_isOk, parseTimeFilter_isOk, exists_and_left,
    exists_and_right, intFilterParams, timeFilterParams, List.forall_mem_cons,
    List.not_mem_nil, false_implies, implies_true, and_true, pure, Except.pure,
    Except.ok.injEq, exists_eq']
  tauto

theorem parseReturnDate_isOk (p : Parsers) (q : Values) :
    (∃ v, parseReturnDate p q = .ok v) ↔
      ¬ (param q ["returnDate", "return_date"] ≠ "" ∧
        p.parseDate (param q ["returnDate", "return_date"]) = none) := by
  unfold parseReturnDate
  rw [param_pair]
  simp only []
  generalize trimSpace (firstNotEmpty [q.Get "returnDate", q.Get "return_date"]) = value
  by_cases hv : value = ""
  · rw [if_neg (not_not.mpr hv)]
    exact ⟨fun _ h => h.1 hv, fun _ => ⟨_, rfl⟩⟩
  · rw [if_pos hv]
    cases hp : p.parseDate value with
    | none =>
      simp only []
      constructor
      · rintro ⟨v, hv'⟩
        cases hv'
      · intro h
        exact absurd ⟨hv, trivial⟩ h
    | some t =>
      simp only []
      constructor
      · intro _ h
        cases h.2
      · intro _
        exact ⟨_, rfl⟩

theorem parsePassengers_spec (p : Parsers) (q : Values) :
    ((∃ n, parsePassengers p q = .ok n) ↔
      ¬ (param q ["passengers"] ≠ "" ∧
        ∀ n, p.atoi (param q ["passengers"]) = some n → n ≤ 0)) ∧
    (∀ n, parsePassengers p q = .ok n →
      1 ≤ n ∧ (param q ["passengers"] = "" → n = 1)) := by
  unfold parsePassengers
  rw [param_single]
  simp only []
  generalize trimSpace (q.Get "passengers") = value
  by_cases hv : value = ""
  · rw [if_neg (not_not.mpr hv)]
    refine ⟨⟨fun _ h => h.1 hv, fun _ => ⟨_, rfl⟩⟩, ?_⟩
    intro n hn
    cases hn
    exact ⟨le_refl _, fun _ => rfl⟩
  · rw [if_pos hv]
    cases hp : p.atoi value with
    | none =>
      simp only []
      refine ⟨⟨?_, ?_⟩, ?_⟩
      · rintro ⟨v, hv'⟩
        cases hv'
      · intro h
        exact absurd ⟨hv, fun n hn => by cases hn⟩ h
      · intro n hn
        cases hn
    | some parsed =>
      simp only []
      by_cases hle : parsed ≤ 0
      · rw [if_pos hle]
        refine ⟨⟨?_, ?_⟩, ?_⟩
        · rintro ⟨v, hv'⟩
          cases hv'
        · intro h
          refine absurd ⟨hv, fun n hn => ?_⟩ h
          cases hn
          exact hle
        · intro n hn
          cases hn
      · rw [if_neg hle]
        refine ⟨⟨?_, fun _ => ⟨_, rfl⟩⟩, ?_⟩
        · intro _ h
          exact hle (h.2 parsed rfl)
        · intro n hn
          cases hn
          exact ⟨by omega, fun h => absurd h hv⟩

theorem except_pure_eq_ok {ε α : Type} (a b : α) :
    (pure a : Except ε α) = .ok b ↔ a = b := by
  simp [pure, Except.pure]

/-- The value `parseFlightsInput` returns when it returns one. -/
theorem parseFlightsInput_ok (p : Parsers) (q : Values) (input : FlightsInput)
    (h : parseFlightsInput p q = .ok input) :
    1 ≤ input.Passengers ∧ (param q ["passengers"] = "" → input.Passengers = 1) ∧
    input.CabinClass =
      toLower (if param q ["cabinClass", "cabin_class"] = "" then "economy"
        else param q ["cabinClass", "cabin_class"]) ∧
    input.Origin = param q ["origin"] ∧ input.Destination = param q ["destination"] ∧
    p.parseDate (param q ["departureDate", "departure_date"]) = some input.DepartureDate := by
  unfold parseFlightsInput at h
  simp only [] at h
  rw [← param_pair q "departureDate" "departure_date"] at h
  by_cases h1 : trimSpace (q.Get "origin") = "" ∨ trimSpace (q.Get "destination") = ""
  · rw [if_pos h1] at h
    cases h
  · rw [if_neg h1] at h
    by_cases h2 : param q ["departureDate", "departure_date"] = ""
    · rw [if_pos h2] at h
      cases h
    · rw [if_neg h2] at h
      cases hd : p.parseDate (param q ["departureDate", "departure_date"]) with
      | none =>
        rw [hd] at h
        cases h
      | some departureDate =>
        rw [hd] at h
        simp only [except_bind_eq_ok, except_pure_eq_ok] at h
        obtain ⟨returnDate, _, passengers, hpax, filters, _, rfl⟩ := h
        obtain ⟨hp1, hp2⟩ := (parsePassengers_spec p q).2 passengers hpax
        exact ⟨hp1, hp2, rfl, (param_single q "origin").symm,
          (param_single q "destination").symm, rfl⟩

/-- The queries `parseFlightsInput` accepts are those that are not invalid. -/
theorem parseFlightsInput_isOk (p : Parsers) (q : Values) :
    (∃ input, parseFlightsInput p q = .ok input) ↔ ¬ InvalidQuery p q := by
  unfold parseFlightsInput InvalidQuery
  simp only []
  rw [param_single, param_single, ← param_pair q "departureDate" "departure_date"]
  by_cases h1 : trimSpace (q.Get "origin") = "" ∨ trimSpace (q.Get "destination") = ""
  · rw [if_pos h1]
    constructor
    · rintro ⟨v, hv⟩
      cases hv
    · intro h
      exfalso
      apply h
      rcases h1 with h1 | h1
      · exact Or.inl h1
      · exact Or.inr (Or.inl h1)
  · rw [if_neg h1]
    by_cases h2 : param q ["departureDate", "departure_date"] = ""
    · rw [if_pos h2]
      constructor
      · rintro ⟨v, hv⟩
        cases hv
      · intro h
        exact absurd (Or.inr (Or.inr (Or.inl h2))) h
    · rw [if_neg h2]
      cases hd : p.parseDate (param q ["departureDate", "departure_date"]) with
      | none =>
        simp only []
        constructor
        · rintro ⟨v, hv⟩
          cases hv
        · intro h
          exact absurd (Or.inr (Or.inr (Or.inr (Or.inl trivial)))) h
      | some departureDate =>
        simp only [except_bind_isOk, parseReturnDate_isOk, (parsePassengers_spec p q).1,
          parseFlightFilters_isOk, exists_and_left, exists_and_right, pure, Except.pure,
          Except.ok.injEq, exists_eq', and_true]
        push_neg at h1
        constructor
        · rintro ⟨hr, hp, hi, ht⟩ h
          rcases h with h | h | h | h | h | h | h | h
          · exact h1.1 h
          · exact h1.2 h
          · exact h2 h
          · cases h
          · exact hr h
          · exact hp h
          · obtain ⟨names, hn, hm⟩ := h
            exact hi names hn hm
          · obtain ⟨names, hn, hm⟩ := h
            exact ht names hn hm
        · intro h
          refine ⟨fun hr => h (Or.inr (Or.inr (Or.inr (Or.inr (Or.inl hr))))),
            fun hp => h (Or.inr (Or.inr (Or.inr (Or.inr (Or.inr (Or.inl hp)))))),
            fun names hn hm =>
              h (Or.inr (Or.inr (Or.inr (Or.inr (Or.inr (Or.inr (Or.inl ⟨names, hn, hm⟩))))))),
            fun names hn hm =>
              h (Or.inr (Or.inr (Or.inr (Or.inr (Or.inr (Or.inr (Or.inr ⟨names, hn, hm⟩)))))))⟩

/-- Claim C30. `parseFlightsInput` returns an invalid-input error, which the endpoint
returns without calling the use case, whenever origin or destination is blank, the
departure date is missing or is not a date, the return date is present but is not a date,
the passenger count is present but is not an integer of at least 1, or a numeric or time
filter is malformed; otherwise it succeeds with `Passengers` at least 1, and 1 when the
parameter is absent, and with `CabinClass` lower-cased, "economy" when the parameter is
absent, and the endpoint calls the use case once, with that input. -/
theorem parseFlightsInput_contract (p : Parsers) (q : Values) :
    (InvalidQuery p q →
      ∃ e, parseFlightsInput p q = .error e ∧
        ∀ uc, (HTTPEndpoint.Flights p uc q).err = some (.inl e) ∧
          (HTTPEndpoint.Flights p uc q).calls = [] ∧
          (HTTPEndpoint.Flights p uc q).output = none) ∧
    (¬ InvalidQuery p q →
      ∃ input, parseFlightsInput p q = .ok input ∧
        1 ≤ input.Passengers ∧
        (param q ["passengers"] = "" → input.Passengers = 1) ∧
        input.CabinClass =
          toLower (if param q ["cabinClass", "cabin_class"] = "" then "economy"
            else param q ["cabinClass", "cabin_class"]) ∧
        (param q ["cabinClass", "cabin_class"] = "" → input.CabinClass = "economy") ∧
        ∀ uc, (HTTPEndpoint.Flights p uc q).calls = [input]) := by
  constructor
  · intro hinv
    obtain ⟨e, he⟩ := except_error_of_not_ok (parseFlightsInput p q)
      (fun hok => (parseFlightsInput_isOk p q).mp hok hinv)
    refine ⟨e, he, fun uc => ?_⟩
    unfold HTTPEndpoint.Flights
    rw [he]
    exact ⟨rfl, rfl, rfl⟩
  · intro hvalid
    obtain ⟨input, hin⟩ := (parseFlightsInput_isOk p q).mpr hvalid
    obtain ⟨h1, h2, h3, _, _, _⟩ := parseFlightsInput_ok p q input hin
    refine ⟨input, hin, h1, h2, h3, ?_, fun uc => ?_⟩
    · intro hc
      rw [h3, if_pos hc]
      decide
    · unfold HTTPEndpoint.Flights
      rw [hin]
      simp only []
      split <;> rfl

theorem parseFlightsInput_contract_witness :
    (∃ e, parseFlightsInput sampleParsers noPassengerQuery = .error e) ∧
    (∃ input, parseFlightsInput sampleParsers sampleQuery = .ok input ∧
      input.Passengers = 1 ∧ input.CabinClass = "business") :=
  ⟨((parseFlightsInput_contract sampleParsers noPassengerQuery).1
      (Or.inr (Or.inr (Or.inr (Or.inr (Or.inr (Or.inl
        ⟨by decide, fun n hn => by
          have h0 : sampleParsers.atoi (param noPassengerQuery ["passengers"]) = some 0 := by
            decide
          rw [h0] at hn
          cases hn
          exact le_refl _⟩))))))).imp fun _ h => h.1,
    ((parseFlightsInput_contract sampleParsers sampleQuery).2
      (by
        rintro (h | h | h | h | h | h | h | h)
        · exact absurd h (by decide)
        · exact absurd h (by decide)
        · exact absurd h (by decide)
        · exact absurd h (by decide)
        · exact absurd h (by decide)
        · exact h.1 (by decide)
        · exact absurd h (by decide)
        · exact absurd h (by decide))).imp
      fun _ h => ⟨h.1, h.2.2.1 (by decide), h.2.2.2.1.trans (by decide)⟩⟩

/-! ## Cancellation at the suspension points -/

theorem check_sleep_keeps {r r' : RateLimiter} {now : Time} {wait : Int}
    (h : r.check now = (.sleep wait, r')) : r' = r := by
  unfold RateLimiter.check at h
  split_ifs at h
  · cases h
  · exact (congrArg Prod.snd h).symm

/-- A pass of `Wait` that ends with an error ends with the error of the context, and the
limiter is the one the loop was entered with. -/
theorem waitLoop_error (clock : Nat → Time) (ctxDone : Nat → Option GoError) :
    ∀ (fuel pass : Nat) (r : RateLimiter) (sleeps : List Int) (run : WaitRun) (e : GoError),
      RateLimiter.waitLoop clock ctxDone fuel pass r sleeps = some run → run.err = some e →
      run.limiter = r ∧ ∃ k, pass ≤ k ∧ ctxDone k = some e ∧
        (∀ j, pass ≤ j → j < k → ctxDone j = none) ∧
        run.sleeps.length = sleeps.length + (k + 1 - pass) := by
  intro fuel
  induction fuel with
  | zero =>
    intro pass r sleeps run e h
    simp [RateLimiter.waitLoop] at h
  | succ fuel ih =>
    intro pass r sleeps run e h he
    unfold RateLimiter.waitLoop at h
    cases hc : r.check (clock pass) with
    | mk step r' =>
      rw [hc] at h
      cases step with
      | granted =>
        simp only [Option.some.injEq] at h
        subst h
        cases he
      | sleep wait =>
        have hr' : r' = r := check_sleep_keeps hc
        subst hr'
        simp only [] at h
        cases hd : ctxDone pass with
        | some c =>
          rw [hd] at h
          simp only [Option.some.injEq] at h
          subst h
          simp only [Option.some.injEq] at he
          subst he
          refine ⟨rfl, pass, le_refl _, hd, ?_, ?_⟩
          · intro j h1 h2
            omega
          · simp
        | none =>
          rw [hd] at h
          obtain ⟨h1, k, hk, hck, hbefore, hlen⟩ := ih (pass + 1) r' (sleeps ++ [wait]) run e h he
          refine ⟨h1, k, by omega, hck, ?_, ?_⟩
          · intro j hj1 hj2
            rcases Nat.eq_or_lt_of_le hj1 with rfl | hlt
            · exact hd
            · exact hbefore j hlt hj2
          · rw [hlen]
            simp
            omega

theorem wait_error (r : RateLimiter) (clock : Nat → Time) (ctxDone : Nat → Option GoError)
    (fuel : Nat) (run : WaitRun) (e : GoError)
    (h : r.Wait clock ctxDone fuel = some run) (he : run.err = some e) :
    run.limiter = r ∧ ∃ k, ctxDone k = some e ∧ (∀ j, j < k → ctxDone j = none) ∧
      run.sleeps.length = k + 1 := by
  unfold RateLimiter.Wait at h
  split_ifs at h with hi
  · simp only [Option.some.injEq] at h
    subst h
    cases he
  · obtain ⟨h1, k, _, hk, hbefore, hlen⟩ := waitLoop_error clock ctxDone fuel 0 r [] run e h he
    exact ⟨h1, k, hk, fun j hj => hbefore j (Nat.zero_le j) hj, by simpa using hlen⟩

/-- A caller that finds the limiter busy and whose context is done before the timer of
its first sleep fires. -/
theorem wait_cancelled_first (r : RateLimiter) (clock : Nat → Time)
    (ctxDone : Nat → Option GoError) (fuel : Nat) (c : GoError) (wait : Int)
    (hi : 0 < r.interval) (hbusy : r.check (clock 0) = (.sleep wait, r))
    (hctx : ctxDone 0 = some c) :
    r.Wait clock ctxDone (fuel + 1) = some ⟨some c, r, [wait]⟩ := by
  unfold RateLimiter.Wait
  rw [if_neg (not_le.mpr hi)]
  unfold RateLimiter.waitLoop
  rw [hbusy]
  simp only [hctx, List.nil_append]

theorem searchWithRetry_cancelled (n : Nat) (search : Nat → SearchOutcome)
    (ctxDone : Nat → Option GoError) (k : Nat) (c : GoError) (hk : k < n)
    (hbefore : ∀ j, j < k → (∃ d, search j = .error (.temporary d)) ∧ ctxDone j = none)
    (hfail : ∃ d, search k = .error (.temporary d)) (hctx : ctxDone k = some c) :
    (searchWithRetry n search ctxDone).calls = k + 1 ∧
    (searchWithRetry n search ctxDone).err = some c ∧
    (searchWithRetry n search ctxDone).flights = [] := by
  obtain ⟨_, _, h3, _, h5⟩ := searchWithRetry_spec n search ctxDone
  have hreach := searchWithRetry_reaches n search ctxDone k (le_of_lt hk) hbefore
  have hcalls : (searchWithRetry n search ctxDone).calls = k + 1 := by
    by_contra hne
    have hlt : k + 1 < (searchWithRetry n search ctxDone).calls := by omega
    have := (h3 k hlt).2
    rw [hctx] at this
    cases this
  obtain ⟨d, hd⟩ := hfail
  have hlast : search ((searchWithRetry n search ctxDone).calls - 1) = .error (.temporary d) := by
    rw [hcalls]
    simpa using hd
  obtain ⟨hfl, _, _, h4⟩ := h5 _ hlast
  obtain ⟨c', hc', herr⟩ := h4 rfl (by rw [hcalls]; omega)
  rw [hcalls] at hc'
  simp only [Nat.add_sub_cancel, hctx, Option.some.injEq] at hc'
  subst hc'
  exact ⟨hcalls, herr, hfl⟩
/-- Claim C31. Whenever `rateLimiter.Wait` returns an error, it is the error of the
context, which was done before the timer of one of its sleeps fired, the limiter is left
as it was, with the same last-call timestamp, and `rateLimitedProvider.Search` returns
that error without calling the wrapped provider; in particular so for a caller whose
context is done during its first sleep for the remaining gap.  Likewise, when the context
is done during the backoff sleep that follows attempt `k` of `searchWithRetry`, a
Transient failure with retries left, `searchWithRetry` returns the error of the context
after `k + 1` attempts; the errors of a context are not Transient. -/
theorem cancellation_at_suspension (r : RateLimiter) (clock : Nat → Time)
    (ctxDone : Nat → Option GoError) (fuel : Nat) :
    (∀ run e, r.Wait clock ctxDone fuel = some run → run.err = some e →
      run.limiter = r ∧ run.limiter.last = r.last ∧
      (∃ k, ctxDone k = some e ∧ (∀ j, j < k → ctxDone j = none) ∧
        run.sleeps.length = k + 1) ∧
      ∀ inner, rateLimitedSearch r clock ctxDone fuel inner = some ⟨.error e, r, false⟩) ∧
    (∀ c wait, 0 < r.interval → r.check (clock 0) = (.sleep wait, r) → ctxDone 0 = some c →
      r.Wait clock ctxDone (fuel + 1) = some ⟨some c, r, [wait]⟩ ∧
      ∀ inner, rateLimitedSearch r clock ctxDone (fuel + 1) inner =
        some ⟨.error c, r, false⟩) ∧
    (∀ (n : Nat) (search : Nat → SearchOutcome) (k : Nat) (c : GoError), k < n →
      (∀ j, j < k → (∃ d, search j = .error (.temporary d)) ∧ ctxDone j = none) →
      (∃ d, search k = .error (.temporary d)) → ctxDone k = some c →
      (searchWithRetry n search ctxDone).calls = k + 1 ∧
      (searchWithRetry n search ctxDone).err = some c ∧
      (searchWithRetry n search ctxDone).flights = []) ∧
    GoError.canceled.isTemporary = false ∧ GoError.deadlineExceeded.isTemporary = false := by
  refine ⟨?_, ?_, ?_, rfl, rfl⟩
  · intro run e h he
    obtain ⟨h1, k, hk, hbefore, hlen⟩ := wait_error r clock ctxDone fuel run e h he
    refine ⟨h1, by rw [h1], ⟨k, hk, hbefore, hlen⟩, fun inner => ?_⟩
    unfold rateLimitedSearch
    rw [h]
    simp only [he, h1]
  · intro c wait hi hbusy hctx
    have hw := wait_cancelled_first r clock ctxDone fuel c wait hi hbusy hctx
    refine ⟨hw, fun inner => ?_⟩
    unfold rateLimitedSearch
    rw [hw]
  · intro n search k c hk hbefore hfail hctx
    exact searchWithRetry_cancelled n search ctxDone k c hk hbefore hfail hctx

theorem cancellation_at_suspension_witness :
    sampleLimiter.Wait (fun _ => clockAt 30) (fun _ => some GoError.canceled) 1 =
        some ⟨some GoError.canceled, sampleLimiter, [70000000]⟩ ∧
    (searchWithRetry 2 (failsThenSucceeds 5) (fun _ => some GoError.canceled)).calls = 1 ∧
    (searchWithRetry 2 (failsThenSucceeds 5) (fun _ => some GoError.canceled)).err =
      some GoError.canceled :=
  ⟨((cancellation_at_suspension sampleLimiter (fun _ => clockAt 30)
      (fun _ => some GoError.canceled) 0).2.1 GoError.canceled 70000000 (by decide)
      (by decide) rfl).1,
    ((cancellation_at_suspension sampleLimiter (fun _ => clockAt 30)
      (fun _ => some GoError.canceled) 0).2.2.1 2 (failsThenSucceeds 5) 0 GoError.canceled
      (by decide) (fun j hj => absurd hj (Nat.not_lt_zero j)) ⟨"overloaded", rfl⟩ rfl).1,
    ((cancellation_at_suspension sampleLimiter (fun _ => clockAt 30)
      (fun _ => some GoError.canceled) 0).2.2.1 2 (failsThenSucceeds 5) 0 GoError.canceled
      (by decide) (fun j hj => absurd hj (Nat.not_lt_zero j)) ⟨"overloaded", rfl⟩ rfl).2.1⟩

/-! ## Reachability of `errProviderFailed` -/

theorem searchWithRetry_negative (n : Int) (hn : n < 0) (search : Nat → SearchOutcome)
    (ctxDone : Nat → Option GoError) :
    searchWithRetry n search ctxDone = ⟨[], some errProviderFailed, 0, []⟩ := by
  have h0 : (n + 1).toNat = 0 := by omega
  unfold searchWithRetry
  rw [h0]
  rfl

/-- Where an error returned by `searchWithRetry` with `n ≥ 0` retries comes from. -/
theorem searchWithRetry_err_source (n : Nat) (search : Nat → SearchOutcome)
    (ctxDone : Nat → Option GoError) (e : GoError)
    (he : (searchWithRetry n search ctxDone).err = some e) :
    (∃ k, k < (searchWithRetry n search ctxDone).calls ∧ search k = .error e) ∨
    (∃ k, k < (searchWithRetry n search ctxDone).calls ∧ ctxDone k = some e) := by
  obtain ⟨hpos, _, _, h4, h5⟩ := searchWithRetry_spec n search ctxDone
  have hlt : (searchWithRetry n search ctxDone).calls - 1 <
      (searchWithRetry n search ctxDone).calls := by omega
  cases hs : search ((searchWithRetry n search ctxDone).calls - 1) with
  | ok fl =>
    have := (h4 fl hs).2
    rw [this] at he
    cases he
  | error x =>
    obtain ⟨_, h5a, h5b, h5c⟩ := h5 x hs
    cases hx : x.isTemporary with
    | false =>
      have := h5a hx
      rw [this] at he
      cases he
      exact Or.inl ⟨_, hlt, hs⟩
    | true =>
      by_cases hfull : (searchWithRetry n search ctxDone).calls = n + 1
      · have := h5b hx hfull
        rw [this] at he
        cases he
        exact Or.inl ⟨_, hlt, hs⟩
      · have hless : (searchWithRetry n search ctxDone).calls < n + 1 := by
          have := (searchWithRetry_spec n search ctxDone).2.1
          omega
        obtain ⟨c, hc, herr⟩ := h5c hx hless
        rw [herr] at he
        cases he
        exact Or.inr ⟨_, hlt, hc⟩

/-- Claim C35. For every `maxProviderRetries = n ≥ 0` and every sequence of provider
outcomes, `searchWithRetry` calls the provider at least once and every error it returns
is an error returned by one of the calls of the provider or the error of the context, so
it is never `errProviderFailed`, which neither a provider nor a context returns: the
return after the loop is not reached.  For every `maxProviderRetries < 0` it returns
`errProviderFailed` without calling the provider. -/
theorem searchWithRetry_errProviderFailed (search : Nat → SearchOutcome)
    (ctxDone : Nat → Option GoError) :
    (∀ n : Nat,
      0 < (searchWithRetry n search ctxDone).calls ∧
      (∀ e, (searchWithRetry n search ctxDone).err = some e →
        (∃ k, k < (searchWithRetry n search ctxDone).calls ∧ search k = .error e) ∨
        (∃ k, k < (searchWithRetry n search ctxDone).calls ∧ ctxDone k = some e)) ∧
      ((∀ k, search k ≠ .error errProviderFailed) →
        (∀ k, ctxDone k ≠ some errProviderFailed) →
        (searchWithRetry n search ctxDone).err ≠ some errProviderFailed)) ∧
    (∀ n : Int, n < 0 →
      searchWithRetry n search ctxDone = ⟨[], some errProviderFailed, 0, []⟩ ∧
      (searchWithRetry n search ctxDone).calls = 0) := by
  constructor
  · intro n
    refine ⟨(searchWithRetry_spec n search ctxDone).1,
      fun e he => searchWithRetry_err_source n search ctxDone e he, ?_⟩
    intro hs hc he
    rcases searchWithRetry_err_source n search ctxDone _ he with ⟨k, _, hk⟩ | ⟨k, _, hk⟩
    · exact hs k hk
    · exact hc k hk
  · intro n hn
    have h := searchWithRetry_negative n hn search ctxDone
    exact ⟨h, by rw [h]⟩

theorem searchWithRetry_errProviderFailed_witness :
    (searchWithRetry 2 (failsThenSucceeds 5) neverDone).err ≠ some errProviderFailed ∧
    searchWithRetry (-1) (failsThenSucceeds 5) neverDone =
      ⟨[], some errProviderFailed, 0, []⟩ :=
  ⟨((searchWithRetry_errProviderFailed (failsThenSucceeds 5) neverDone).1 2).2.2
      (fun k h => by
        unfold failsThenSucceeds at h
        split_ifs at h
        cases h)
      (fun k h => by cases h),
    ((searchWithRetry_errProviderFailed (failsThenSucceeds 5) neverDone).2 (-1)
      (by decide)).1⟩

/-! ## Cache store on a miss -/

/-- A call that finds a valid entry for its key returns the stored output, marked as a
hit, and leaves the use case as it was. -/
theorem flights_of_valid_entry (u : Usecase) (env : Env) (input : FlightsInput)
    (stored : FlightsOutput) (expiry : Time) (hclone : u.cache.clone = cloneStored)
    (hentry : mapGet u.cache.entries (buildCacheKey input) = some ⟨some stored, expiry⟩)
    (hvalid : env.getNow.After expiry = false) :
    u.Flights env input = some (⟨some (hitOutput env stored), none, []⟩, u) := by
  have hval : env.getNow.nanos ≤ expiry.nanos := by
    simp only [Time.After, decide_eq_false_iff_not, not_lt] at hvalid
    exact hvalid
  have hget := cache_get_valid u.cache (buildCacheKey input) env.getNow () _ hentry hval
  have hcv : (u.cache.cloneValue (some stored) ()).1 = some stored := by
    simp only [Cache.cloneValue, hclone, cloneStored, cloneFlightsOutput_value]
  have hfound : (u.cache.Get (buildCacheKey input) env.getNow ()).1 = some (some stored) := by
    rw [hget]
    exact congrArg some hcv
  have hcache : (u.cache.Get (buildCacheKey input) env.getNow ()).2.1 = u.cache := by
    rw [hget]
  rw [flights_hit u env input stored hfound, hcache]

/-- Claim C33. Whenever the cache has no valid entry for `buildCacheKey(in)`, whatever
the providers return, `Flights` returns an output with `CacheHit` false and stores that
output under `buildCacheKey(in)` with the expiry `cacheTTL` after the reading of the clock
in `cache.Set`; a repeat of the same call read by `cache.Get` not after that expiry is
answered as a cache hit, with the same `SearchCriteria`, flight lists and provider counts,
without a request to any provider, and leaves the cache as it is. -/
theorem flights_stores_on_miss (u : Usecase) (env : Env) (input : FlightsInput)
    (hc : CacheOk u) (hmiss : CacheMiss u env input) :
    ∃ out u', u.Flights env input = some (⟨some out, none, searchedOf input⟩, u') ∧
      out.Metadata.CacheHit = false ∧
      mapGet u'.cache.entries (buildCacheKey input) =
        some ⟨some out, env.setNow.Add u.cacheTTL⟩ ∧
      CacheOk u' ∧
      ∀ env₂ : Env, env₂.getNow.After (env.setNow.Add u.cacheTTL) = false →
        ∃ out₂, u'.Flights env₂ input = some (⟨some out₂, none, []⟩, u') ∧
          out₂.Metadata.CacheHit = true ∧ out₂.SearchCriteria = out.SearchCriteria ∧
          out₂.Flights = out.Flights ∧ out₂.ReturnFlights = out.ReturnFlights ∧
          out₂.Metadata.TotalResults = out.Metadata.TotalResults ∧
          out₂.Metadata.ProvidersSucceeded = out.Metadata.ProvidersSucceeded ∧
          out₂.Metadata.FailedProviders = out.Metadata.FailedProviders := by
  have hget := get_none_of_miss u env input hc hmiss
  obtain ⟨_, hclone, hval⟩ := usecase_get u (buildCacheKey input) env.getNow hc
  have hm := flights_miss u env input hget
  have hentry := cache_set_entry (u.cache.Get (buildCacheKey input) env.getNow ()).2.1
    (buildCacheKey input) (u.computeOutput env input) u.cacheTTL env.setNow hclone
  have hok := cache_set_ok (u.cache.Get (buildCacheKey input) env.getNow ()).2.1
    (buildCacheKey input) (u.computeOutput env input) u.cacheTTL env.setNow hclone hval
  refine ⟨_, _, hm, rfl, hentry, hok, ?_⟩
  intro env₂ hvalid
  exact ⟨_, flights_of_valid_entry _ env₂ input _ _ hok.1 hentry hvalid,
    rfl, rfl, rfl, rfl, rfl, rfl, rfl⟩

theorem flights_stores_on_miss_witness :
    ∃ out u', failingUsecase.Flights quietEnv sampleInput =
        some (⟨some out, none, searchedOf sampleInput⟩, u') ∧
      out.Metadata.CacheHit = false ∧
      mapGet u'.cache.entries (buildCacheKey sampleInput) =
        some ⟨some out, quietEnv.setNow.Add failingUsecase.cacheTTL⟩ :=
  (flights_stores_on_miss failingUsecase quietEnv sampleInput (cacheOk_usecaseOver _)
    (cacheMiss_usecaseOver _ _ _)).imp
    fun _ h => h.imp fun _ h' => ⟨h'.1, h'.2.1, h'.2.2.1⟩

/-! ## The score as a normalised composite -/

theorem wrapInt64_lt (x : Int) : wrapInt64 x < 2 ^ 63 := by
  unfold wrapInt64
  omega

theorem mem_zip_map_self {α β : Type} (g : α → β) (l : List α) (p : α × β)
    (h : p ∈ l.zip (l.map g)) : p.1 ∈ l ∧ p.2 = g p.1 := by
  induction l with
  | nil => simp at h
  | cons x rest ih =>
    simp only [List.map_cons, List.zip_cons_cons, List.mem_cons] at h
    rcases h with rfl | h
    · exact ⟨List.mem_cons_self _ _, rfl⟩
    · exact ⟨List.mem_cons_of_mem _ (ih h).1, (ih h).2⟩

/-- A difference above the minimum over the range (a range of 0 replaced by 1) lies between
0 and 1 and grows with the difference. -/
theorem normalised_ratio (x y r : Int) (hx : 0 ≤ x) (hxy : x ≤ y) (hy : y ≤ r) :
    0 ≤ (x : Rat) / (if r = 0 then 1 else (r : Rat)) ∧
    (x : Rat) / (if r = 0 then 1 else (r : Rat)) ≤ (y : Rat) / (if r = 0 then 1 else (r : Rat)) ∧
    (y : Rat) / (if r = 0 then 1 else (r : Rat)) ≤ 1 := by
  have hpos : (0 : Rat) < (if r = 0 then 1 else (r : Rat)) := by
    split_ifs with h
    · norm_num
    · have : 0 < r := by omega
      exact_mod_cast this
  have hyr : (y : Rat) ≤ (if r = 0 then 1 else (r : Rat)) := by
    split_ifs with h
    · have : y ≤ 1 := by omega
      exact_mod_cast this
    · exact_mod_cast hy
  have hx0 : (0 : Rat) ≤ (x : Rat) := by exact_mod_cast hx
  have hxy0 : (x : Rat) ≤ (y : Rat) := by exact_mod_cast hxy
  refine ⟨div_nonneg hx0 hpos.le, div_le_div_of_nonneg_right hxy0 hpos.le, ?_⟩
  rw [div_le_one hpos]
  exact hyr
/-- Under exact integer arithmetic the scores of a non-empty list are those of the formula
at the extremes of the list. -/
theorem applyBestValueScore_formula (flights : List Flight) (hne : flights ≠ [])
    (hexact : ExactDifferences flights) :
    ∃ minPrice maxPrice minDuration maxDuration : Int,
      IsMinOver (fun f => f.Price.Amount) flights minPrice ∧
      IsMaxOver (fun f => f.Price.Amount) flights maxPrice ∧
      IsMinOver (fun f => f.DurationMinute) flights minDuration ∧
      IsMaxOver (fun f => f.DurationMinute) flights maxDuration ∧
      applyBestValueScore flights =
        flights.map (fun f =>
          { f with BestValueScore :=
              bestValueFormula minPrice maxPrice minDuration maxDuration f }) := by
  cases flights with
  | nil => exact absurd rfl hne
  | cons first rest =>
    have hminP := isMinOver_foldl (fun f => f.Price.Amount) first rest
    have hmaxP := isMaxOver_foldl (fun f => f.Price.Amount) first rest
    have hminD := isMinOver_foldl (fun f => f.DurationMinute) first rest
    have hmaxD := isMaxOver_foldl (fun f => f.DurationMinute) first rest
    refine ⟨_, _, _, _, hminP, hmaxP, hminD, hmaxD, ?_⟩
    apply applyBestValueScore_eq _ _ _ _ _ hminP hmaxP hminD hmaxD
    · obtain ⟨⟨a, ha, ea⟩, _⟩ := hmaxP
      obtain ⟨⟨b, hb, eb⟩, _⟩ := hminP
      have h := (hexact a ha b hb).1
      have hlt := wrapInt64_lt (a.Price.Amount - b.Price.Amount)
      simp only at ea eb
      rw [← ea, ← eb]
      omega
    · obtain ⟨⟨a, ha, ea⟩, _⟩ := hmaxD
      obtain ⟨⟨b, hb, eb⟩, _⟩ := hminD
      have h := (hexact a ha b hb).2
      have hlt := wrapInt64_lt (a.DurationMinute - b.DurationMinute)
      simp only at ea eb
      rw [← ea, ← eb]
      omega

/-- The formula as a weighted sum of the two normalised ratios. -/
theorem bestValueFormula_eq (minPrice maxPrice minDuration maxDuration : Int) (f : Flight) :
    bestValueFormula minPrice maxPrice minDuration maxDuration f =
      6 / 10 * (((f.Price.Amount - minPrice : Int) : Rat) /
          (if maxPrice - minPrice = 0 then 1 else ((maxPrice - minPrice : Int) : Rat))) +
        4 / 10 * (((f.DurationMinute - minDuration : Int) : Rat) /
          (if maxDuration - minDuration = 0 then 1
            else ((maxDuration - minDuration : Int) : Rat))) := by
  unfold bestValueFormula
  ring

/-- Claim C32 (amended). For every flight list in which no difference of two prices and
no difference of two durations leaves the range of a Go `int` (statements about the empty
list hold vacuously), and with `float64` arithmetic read as exact, `applyBestValueScore`
pairs each flight with a copy that differs in the score only, and then: every score lies in
`[0, 1]`; a flight that is at once the cheapest and the shortest of the list scores 0; and
of two flights of the list, one with price and duration both at most the other's has a
score at most the other's. -/
theorem applyBestValueScore_normalised (flights : List Flight)
    (hexact : ExactDifferences flights) :
    (applyBestValueScore flights).length = flights.length ∧
    (∀ p ∈ flights.zip (applyBestValueScore flights),
      p.2 = { p.1 with BestValueScore := p.2.BestValueScore }) ∧
    (∀ g ∈ applyBestValueScore flights, 0 ≤ g.BestValueScore ∧ g.BestValueScore ≤ 1) ∧
    (∀ p ∈ flights.zip (applyBestValueScore flights),
      (∀ f ∈ flights,
        p.1.Price.Amount ≤ f.Price.Amount ∧ p.1.DurationMinute ≤ f.DurationMinute) →
      p.2.BestValueScore = 0) ∧
    (∀ p ∈ flights.zip (applyBestValueScore flights),
      ∀ q ∈ flights.zip (applyBestValueScore flights),
        p.1.Price.Amount ≤ q.1.Price.Amount → p.1.DurationMinute ≤ q.1.DurationMinute →
        p.2.BestValueScore ≤ q.2.BestValueScore) := by
  by_cases hne : flights = []
  · subst hne
    simp [applyBestValueScore]
  obtain ⟨minPrice, maxPrice, minDuration, maxDuration, hminP, hmaxP, hminD, hmaxD, heq⟩ :=
    applyBestValueScore_formula flights hne hexact
  rw [heq]
  have hratioP : ∀ a ∈ flights, ∀ b ∈ flights, a.Price.Amount ≤ b.Price.Amount →
      0 ≤ ((a.Price.Amount - minPrice : Int) : Rat) /
          (if maxPrice - minPrice = 0 then 1 else ((maxPrice - minPrice : Int) : Rat)) ∧
      ((a.Price.Amount - minPrice : Int) : Rat) /
          (if maxPrice - minPrice = 0 then 1 else ((maxPrice - minPrice : Int) : Rat)) ≤
        ((b.Price.Amount - minPrice : Int) : Rat) /
          (if maxPrice - minPrice = 0 then 1 else ((maxPrice - minPrice : Int) : Rat)) ∧
      ((b.Price.Amount - minPrice : Int) : Rat) /
          (if maxPrice - minPrice = 0 then 1 else ((maxPrice - minPrice : Int) : Rat)) ≤ 1 := by
    intro a ha b hb hab
    have h1 := hminP.2 a ha
    have h2 := hmaxP.2 b hb
    simp only at h1 h2
    exact normalised_ratio _ _ _ (by omega) (by omega) (by omega)
  have hratioD : ∀ a ∈ flights, ∀ b ∈ flights, a.DurationMinute ≤ b.DurationMinute →
      0 ≤ ((a.DurationMinute - minDuration : Int) : Rat) /
          (if maxDuration - minDuration = 0 then 1
            else ((maxDuration - minDuration : Int) : Rat)) ∧
      ((a.DurationMinute - minDuration : Int) : Rat) /
          (if maxDuration - minDuration = 0 then 1
            else ((maxDuration - minDuration : Int) : Rat)) ≤
        ((b.DurationMinute - minDuration : Int) : Rat) /
          (if maxDuration - minDuration = 0 then 1
            else ((maxDuration - minDuration : Int) : Rat)) ∧
      ((b.DurationMinute - minDuration : Int) : Rat) /
          (if maxDuration - minDuration = 0 then 1
            else ((maxDuration - minDuration : Int) : Rat)) ≤ 1 := by
    intro a ha b hb hab
    have h1 := hminD.2 a ha
    have h2 := hmaxD.2 b hb
    simp only at h1 h2
    exact normalised_ratio _ _ _ (by omega) (by omega) (by omega)
  refine ⟨List.length_map _ _, ?_, ?_, ?_, ?_⟩
  · intro p hp
    obtain ⟨_, h2⟩ := mem_zip_map_self _ _ p hp
    rw [h2]
  · intro g hg
    obtain ⟨f, hf, rfl⟩ := List.mem_map.1 hg
    simp only [bestValueFormula_eq]
    obtain ⟨p0, _, p1⟩ := hratioP f hf f hf le_rfl
    obtain ⟨d0, _, d1⟩ := hratioD f hf f hf le_rfl
    constructor <;> linarith
  · intro p hp hmin
    obtain ⟨h1, h2⟩ := mem_zip_map_self _ _ p hp
    rw [h2]
    simp only [bestValueFormula_eq]
    have ep : p.1.Price.Amount - minPrice = 0 := by
      obtain ⟨f, hf, ef⟩ := hminP.1
      have := (hmin f hf).1
      have := hminP.2 p.1 h1
      simp only at ef this
      omega
    have ed : p.1.DurationMinute - minDuration = 0 := by
      obtain ⟨f, hf, ef⟩ := hminD.1
      have := (hmin f hf).2
      have := hminD.2 p.1 h1
      simp only at ef this
      omega
    rw [ep, ed]
    simp
  · intro p hp q hq hprice hdur
    obtain ⟨hp1, hp2⟩ := mem_zip_map_self _ _ p hp
    obtain ⟨hq1, hq2⟩ := mem_zip_map_self _ _ q hq
    rw [hp2, hq2]
    simp only [bestValueFormula_eq]
    obtain ⟨_, pm, _⟩ := hratioP p.1 hp1 q.1 hq1 hprice
    obtain ⟨_, dm, _⟩ := hratioD p.1 hp1 q.1 hq1 hdur
    linarith

theorem applyBestValueScore_normalised_witness :
    ExactDifferences [pricedFlight "a" 100 60, pricedFlight "b" 200 90] ∧
    ∀ g ∈ applyBestValueScore [pricedFlight "a" 100 60, pricedFlight "b" 200 90],
      0 ≤ g.BestValueScore ∧ g.BestValueScore ≤ 1 :=
  ⟨by decide,
    (applyBestValueScore_normalised [pricedFlight "a" 100 60, pricedFlight "b" 200 90]
      (by decide)).2.2.1⟩

/-- Claim C32 (counterexample). Three offers of equal duration priced `-2 ^ 62`, `0` and
`2 ^ 62`, each price a Go `int`: the difference `maxPrice - minPrice` wraps around, the
offers are scored `0`, `-3/10` and `3/5` in this order, so the middle score is below 0, and
the first offer, cheaper than the middle one and as long, has the higher score. -/
theorem applyBestValueScore_outside_unit :
    wideSpreadFlights.map (fun f => (f.Price.Amount, f.DurationMinute)) =
      [(-(2 ^ 62), 60), (0, 60), (2 ^ 62, 60)] ∧
    (∀ f ∈ wideSpreadFlights, inInt64 f.Price.Amount ∧ inInt64 f.DurationMinute) ∧
    (applyBestValueScore wideSpreadFlights).map (fun f => f.BestValueScore) =
      [0, -3 / 10, 3 / 5] ∧
    (∃ g ∈ applyBestValueScore wideSpreadFlights, g.BestValueScore < 0) ∧
    ¬ ExactDifferences wideSpreadFlights := by
  have hs : (applyBestValueScore wideSpreadFlights).map (fun f => f.BestValueScore) =
      [0, -3 / 10, 3 / 5] := by
    simp only [wideSpreadFlights, applyBestValueScore, pricedFlight, sampleFlight, List.foldl,
      extremesStep, List.map]
    norm_num [wrapInt64]
  refine ⟨by decide, by unfold wideSpreadFlights; decide, hs, ?_, by decide⟩
  have hm : (-3 / 10 : Rat) ∈
      (applyBestValueScore wideSpreadFlights).map (fun f => f.BestValueScore) := by
    rw [hs]
    simp
  obtain ⟨g, hg, hgs⟩ := List.mem_map.1 hm
  exact ⟨g, hg, by rw [hgs]; norm_num⟩

/-! ## Decimal digits -/

theorem digitChar_facts (d : Nat) (h : d < 10) :
    (Nat.digitChar d).toNat - '0'.toNat = d ∧ (Nat.digitChar d).isDigit = true := by
  interval_cases d <;> exact ⟨rfl, rfl⟩

theorem toDigitsCore_append (b : Nat) :
    ∀ (fuel n : Nat) (ds : List Char),
      Nat.toDigitsCore b fuel n ds = Nat.toDigitsCore b fuel n [] ++ ds := by
  intro fuel
  induction fuel with
  | zero => intro n ds; simp [Nat.toDigitsCore]
  | succ f ih =>
    intro n ds
    simp only [Nat.toDigitsCore]
    split_ifs
    · simp
    · rw [ih _ (_ :: ds), ih _ [_]]
      simp

theorem readDecimal_append_single (cs : List Char) (c : Char) :
    readDecimal (cs ++ [c]) = 10 * readDecimal cs + (c.toNat - '0'.toNat) := by
  simp [readDecimal, List.foldl_append]

/-- The digits of core `Nat.toDigits` are decimal digits and read back as the number. -/
theorem toDigitsCore_spec :
    ∀ (fuel n : Nat), n < fuel →
      readDecimal (Nat.toDigitsCore 10 fuel n []) = n ∧
      (∀ c ∈ Nat.toDigitsCore 10 fuel n [], c.isDigit = true) ∧
      1 ≤ (Nat.toDigitsCore 10 fuel n []).length := by
  intro fuel
  induction fuel with
  | zero => intro n h; omega
  | succ f ih =>
    intro n h
    have hd := digitChar_facts (n % 10) (Nat.mod_lt _ (by norm_num))
    simp only [Nat.toDigitsCore]
    split_ifs with h0
    · refine ⟨?_, ?_, by simp⟩
      · have : readDecimal [Nat.digitChar (n % 10)] =
            10 * readDecimal [] + ((Nat.digitChar (n % 10)).toNat - '0'.toNat) :=
          readDecimal_append_single [] _
        rw [this, hd.1]
        simp only [readDecimal, List.foldl_nil]
        omega
      · intro c hc
        rw [List.mem_singleton.1 hc]
        exact hd.2
    · rw [toDigitsCore_append]
      obtain ⟨h1, h2, h3⟩ := ih (n / 10) (by omega)
      refine ⟨?_, ?_, ?_⟩
      · rw [readDecimal_append_single, h1, hd.1]
        omega
      · intro c hc
        rcases List.mem_append.1 hc with hc | hc
        · exact h2 c hc
        · rw [List.mem_singleton.1 hc]
          exact hd.2
      · simp

theorem toDigits_spec (n : Nat) :
    readDecimal (Nat.toDigits 10 n) = n ∧
    (∀ c ∈ Nat.toDigits 10 n, c.isDigit = true) ∧
    1 ≤ (Nat.toDigits 10 n).length :=
  toDigitsCore_spec (n + 1) n (Nat.lt_succ_self n)

theorem toDigits_injective {n m : Nat} (h : Nat.toDigits 10 n = Nat.toDigits 10 m) :
    n = m := by
  rw [← (toDigits_spec n).1, ← (toDigits_spec m).1, h]
/-! ## Grouping by three -/

theorem intercalate_dotted (first : List Char) (rest : List (List Char)) :
    ['.'].intercalate (first :: rest) = first ++ dotted rest := by
  induction rest generalizing first with
  | nil => simp [List.intercalate, dotted]
  | cons g gs ih =>
    have h := ih g
    simp only [List.intercalate, List.intersperse, dotted, List.map_cons, List.flatten_cons,
      List.cons_append, List.nil_append, List.singleton_append] at h ⊢
    rw [h]

theorem filter_dotted (first : List Char) (rest : List (List Char))
    (h : ∀ c ∈ first ++ rest.flatten, c.isDigit = true) :
    (first ++ dotted rest).filter (fun c => c != '.') = first ++ rest.flatten := by
  have hkeep : ∀ l : List Char, (∀ c ∈ l, c.isDigit = true) →
      l.filter (fun c => c != '.') = l := by
    intro l hl
    apply List.filter_eq_self.2
    intro c hc
    have := hl c hc
    have hne : c ≠ '.' := by
      rintro rfl
      exact absurd this (by decide)
    simpa using hne
  induction rest generalizing first with
  | nil =>
    simp only [dotted, List.map_nil, List.flatten_nil, List.append_nil] at h ⊢
    exact hkeep first h
  | cons g gs ih =>
    have hfirst : ∀ c ∈ first, c.isDigit = true := fun c hc =>
      h c (List.mem_append_left _ hc)
    have hrest : ∀ c ∈ g ++ gs.flatten, c.isDigit = true := fun c hc =>
      h c (List.mem_append_right _ (by simpa using hc))
    have h2 := ih g hrest
    simp only [dotted, List.map_cons, List.flatten_cons, List.filter_append,
      List.cons_append] at h2 ⊢
    rw [hkeep first hfirst]
    have hdot : (List.filter (fun c => c != '.') ('.' :: (g ++ (gs.map (fun g => '.' :: g)).flatten))) =
        List.filter (fun c => c != '.') (g ++ (gs.map (fun g => '.' :: g)).flatten) := by
      rw [List.filter_cons_of_neg]
      simp
    rw [hdot, List.filter_append, h2]

/-- The loop of `formatIDR`, entered with an undotted prefix of `i + 3` bytes followed by
dotted groups of three, ends within `fuel` iterations with a first group of one to three
bytes followed by dotted groups of three, the bytes other than the dots unchanged. -/
theorem groupLoop_spec :
    ∀ (fuel : Nat) (i : Int) (pre : List Char) (gs : List (List Char)),
      (pre.length : Int) = i + 3 → 1 ≤ pre.length → i ≤ fuel → (∀ g ∈ gs, g.length = 3) →
      ∃ (first : List Char) (rest : List (List Char)),
        groupLoop fuel i (pre ++ dotted gs) = first ++ dotted rest ∧
        first ++ rest.flatten = pre ++ gs.flatten ∧
        1 ≤ first.length ∧ first.length ≤ 3 ∧ ∀ g ∈ rest, g.length = 3 := by
  intro fuel
  induction fuel with
  | zero =>
    intro i pre gs hlen hpos hfuel hgs
    exact ⟨pre, gs, rfl, rfl, hpos, by omega, hgs⟩
  | succ f ih =>
    intro i pre gs hlen hpos hfuel hgs
    by_cases hi : i > 0
    · have hk : i.toNat ≤ pre.length := by omega
      have hstep : groupLoop (f + 1) i (pre ++ dotted gs) =
          groupLoop f (i - 3) (pre.take i.toNat ++ dotted (pre.drop i.toNat :: gs)) := by
        simp only [groupLoop, if_pos hi, List.take_append_of_le_length hk,
          List.drop_append_of_le_length hk, dotted, List.map_cons, List.flatten_cons,
          List.cons_append]
      obtain ⟨first, rest, h1, h2, h3, h4, h5⟩ :=
        ih (i - 3) (pre.take i.toNat) (pre.drop i.toNat :: gs)
          (by rw [List.length_take]; omega) (by rw [List.length_take]; omega)
          (by push_cast at hfuel ⊢; omega)
          (by
            intro g hg
            rcases List.mem_cons.1 hg with rfl | hg
            · rw [List.length_drop]; omega
            · exact hgs g hg)
      refine ⟨first, rest, by rw [hstep, h1], ?_, h3, h4, h5⟩
      rw [h2, List.flatten_cons, ← List.append_assoc, List.take_append_drop]
    · refine ⟨pre, gs, ?_, rfl, hpos, by omega, hgs⟩
      simp only [groupLoop, if_neg hi]

/-- Running `formatIDR`'s loop on the digits of a number groups them by three. -/
theorem groupLoop_digits (n : Nat) :
    GroupedByThree (Nat.toDigits 10 n)
      (groupLoop (Nat.toDigits 10 n).length ((Nat.toDigits 10 n).length - 3)
        (Nat.toDigits 10 n)) := by
  obtain ⟨first, rest, h1, h2, h3, h4, h5⟩ :=
    groupLoop_spec (Nat.toDigits 10 n).length ((Nat.toDigits 10 n).length - 3)
      (Nat.toDigits 10 n) [] (by omega) (toDigits_spec n).2.2 (by omega) (by simp)
  simp only [dotted, List.map_nil, List.flatten_nil, List.append_nil] at h1 h2
  exact ⟨first, rest, by rw [intercalate_dotted, h1]; rfl, h2, h3, h4, h5⟩

theorem itoa_natCast (n : Nat) : itoa (n : Int) = String.mk (Nat.toDigits 10 n) := by
  have h : ¬ ((n : Int) < 0) := by omega
  simp [itoa, appendInt, padNat, h]

/-- The text of a non-zero number rendered by the steps of `formatIDR` after the sign. -/
theorem grouped_isRupiah (n : Nat) :
    GroupedByThree (Nat.toDigits 10 n)
        (groupLoop (itoa (n : Int)).length ((itoa (n : Int)).length - 3)
          (itoa (n : Int)).data) ∧
      (∀ c ∈ (groupLoop (itoa (n : Int)).length ((itoa (n : Int)).length - 3)
          (itoa (n : Int)).data).filter (fun c => c != '.'), c.isDigit = true) ∧
      readDecimal ((groupLoop (itoa (n : Int)).length ((itoa (n : Int)).length - 3)
          (itoa (n : Int)).data).filter (fun c => c != '.')) = n := by
  rw [itoa_natCast]
  have hlen : (String.mk (Nat.toDigits 10 n)).length = (Nat.toDigits 10 n).length := rfl
  rw [hlen]
  have hg := groupLoop_digits n
  refine ⟨hg, ?_⟩
  obtain ⟨first, rest, h1, h2, _, _, _⟩ := hg
  have hdig : ∀ c ∈ first ++ rest.flatten, c.isDigit = true := by
    rw [h2]
    exact (toDigits_spec n).2.1
  rw [h1, intercalate_dotted, filter_dotted first rest hdig, h2]
  exact ⟨(toDigits_spec n).2.1, (toDigits_spec n).1⟩
/-- Claim C38 (amended). For every amount a Go `int` holds other than the minimum value
`-2 ^ 63`, `formatIDR` returns "Rp. 0" for 0 and otherwise "Rp. ", after a "-" when the
amount is negative, followed by the decimal digits of the absolute value separated by "."
into groups of three counted from the right (a first group of one to three digits, no
leading or trailing dot); without the dots the digit part reads as the absolute value. -/
theorem formatIDR_contract (amount : Int) (hrange : inInt64 amount)
    (hmin : amount ≠ -(2 ^ 63)) :
    IsRupiahText amount (formatIDR amount) := by
  obtain ⟨hlo, hhi⟩ := hrange
  by_cases h0 : amount = 0
  · subst h0
    simp [IsRupiahText, formatIDR]
  by_cases hneg : amount < 0
  · have hw : wrapInt64 (-amount) = ((amount.natAbs : Nat) : Int) := by
      rw [wrapInt64_of_inRange (by omega) (by omega)]
      omega
    have hf : formatIDR amount = "-Rp. " ++
        String.mk (groupLoop (itoa (amount.natAbs : Int)).length
          ((itoa (amount.natAbs : Int)).length - 3) (itoa (amount.natAbs : Int)).data) := by
      simp only [formatIDR, if_neg h0, hneg, decide_True, if_true, hw]
    obtain ⟨g1, g2, g3⟩ := grouped_isRupiah amount.natAbs
    simp only [IsRupiahText, if_neg h0, if_pos hneg]
    exact ⟨_, hf, g1, g2, g3⟩
  · have hw : amount = ((amount.natAbs : Nat) : Int) := by omega
    have hf : formatIDR amount = "Rp. " ++
        String.mk (groupLoop (itoa (amount.natAbs : Int)).length
          ((itoa (amount.natAbs : Int)).length - 3) (itoa (amount.natAbs : Int)).data) := by
      simp only [formatIDR, if_neg h0, hneg, decide_False, ← hw]
      rfl
    obtain ⟨g1, g2, g3⟩ := grouped_isRupiah amount.natAbs
    simp only [IsRupiahText, if_neg h0, if_neg hneg]
    exact ⟨_, hf, g1, g2, g3⟩

theorem formatIDR_contract_witness :
    inInt64 (-1234567) ∧ (-1234567 : Int) ≠ -(2 ^ 63) ∧
    IsRupiahText (-1234567) (formatIDR (-1234567)) :=
  ⟨by decide, by decide, formatIDR_contract (-1234567) (by decide) (by decide)⟩

/-- Claim C38 (counterexample). At the minimum value `-2 ^ 63` the negation
`amount = -amount` wraps around to the same negative number, `strconv.Itoa` writes its
minus sign, the loop takes that sign for a digit, and the digit part of the result is not
the digits of the absolute value grouped by three. -/
theorem formatIDR_min_int :
    inInt64 (-(2 ^ 63)) ∧
    formatIDR (-(2 ^ 63)) = "-Rp. -9.223.372.036.854.775.808" ∧
    ¬ IsRupiahText (-(2 ^ 63)) (formatIDR (-(2 ^ 63))) := by
  have hval : formatIDR (-(2 ^ 63)) = "-Rp. -9.223.372.036.854.775.808" := by
    rfl
  refine ⟨by decide, hval, ?_⟩
  rw [hval]
  intro h
  simp only [IsRupiahText] at h
  rw [if_neg (by decide), if_pos (by decide)] at h
  obtain ⟨body, hs, _, hdig, _⟩ := h
  have hdata := congrArg String.data hs
  simp only [String.data_append] at hdata
  have hbody : body = "-9.223.372.036.854.775.808".data := by
    simp only [List.cons_append, List.nil_append, List.cons.injEq, true_and] at hdata
    exact hdata.symm
  have := hdig '-' (by rw [hbody]; decide)
  exact absurd this (by decide)

/-! ## The AirAsia record translation -/

/-- Claim C37 (divergence). For a record whose two times parse, the loop body of
`AirAsiaProvider.Search` panics exactly when the flight code has fewer than two bytes:
the slice expression `f.FlightCode[:2]` is evaluated with no check of the length. With
two bytes or more the flight is built. -/
theorem airAsiaFlight_panics_iff (parseRFC3339 : String → Option Time)
    (roundMinutes : Rat → Int) (f : AirAsiaRecord)
    (hdepart : (parseRFC3339 f.DepartTime).isSome = true)
    (harrive : (parseRFC3339 f.ArriveTime).isSome = true) :
    (airAsiaFlight parseRFC3339 roundMinutes f = none ↔ f.FlightCode.utf8ByteSize < 2) ∧
    (2 ≤ f.FlightCode.utf8ByteSize →
      ∃ flight, airAsiaFlight parseRFC3339 roundMinutes f = some (.ok flight) ∧
        flight.FlightNumber = f.FlightCode ∧
        some flight.Airline.Code = upperCode f.FlightCode) := by
  obtain ⟨departAt, hd⟩ := Option.isSome_iff_exists.1 hdepart
  obtain ⟨arriveAt, ha⟩ := Option.isSome_iff_exists.1 harrive
  by_cases hlen : f.FlightCode.utf8ByteSize < 2
  · have hcode : upperCode f.FlightCode = none := by simp [upperCode, hlen]
    refine ⟨⟨fun _ => hlen, fun _ => ?_⟩, fun h => absurd hlen (by omega)⟩
    simp only [airAsiaFlight, hd, ha, hcode]
  · have hcode : upperCode f.FlightCode =
        some (toUpper (String.mk (firstTwoBytes f.FlightCode))) := by
      simp [upperCode, hlen]
    refine ⟨⟨fun h => ?_, fun h => absurd h hlen⟩, fun _ => ?_⟩
    · simp [airAsiaFlight, hd, ha, hcode] at h
    · simp only [airAsiaFlight, hd, ha, hcode]
      exact ⟨_, rfl, rfl, rfl⟩

theorem sample_airasia_times :
    sampleParseRFC3339 "2025-12-14T21:45:00Z" = some (Time.ofUnix 1765748700 0) ∧
    sampleParseRFC3339 "2025-12-15T00:25:00Z" = some (Time.ofUnix 1765758300 0) := by
  constructor <;> rfl

theorem airAsiaFlight_panics_iff_witness :
    (sampleParseRFC3339 (airAsiaRecord "").DepartTime).isSome = true ∧
    (sampleParseRFC3339 (airAsiaRecord "").ArriveTime).isSome = true ∧
    airAsiaFlight sampleParseRFC3339 sampleRoundMinutes (airAsiaRecord "") = none :=
  ⟨by rw [show (airAsiaRecord "").DepartTime = "2025-12-14T21:45:00Z" from rfl,
      sample_airasia_times.1]; rfl,
   by rw [show (airAsiaRecord "").ArriveTime = "2025-12-15T00:25:00Z" from rfl,
      sample_airasia_times.2]; rfl,
    ((airAsiaFlight_panics_iff sampleParseRFC3339 sampleRoundMinutes (airAsiaRecord "")
      (by rw [show (airAsiaRecord "").DepartTime = "2025-12-14T21:45:00Z" from rfl,
        sample_airasia_times.1]; rfl)
      (by rw [show (airAsiaRecord "").ArriveTime = "2025-12-15T00:25:00Z" from rfl,
        sample_airasia_times.2]; rfl)).1).2 (by decide)⟩

/-! ## Joined strings and their parts -/

theorem append_sep_inj {α : Type} {sep : α} :
    ∀ {x x' r r' : List α}, sep ∉ x → sep ∉ x' → x ++ sep :: r = x' ++ sep :: r' →
      x = x' ∧ r = r' := by
  intro x
  induction x with
  | nil =>
    intro x' r r' _ hx' h
    cases x' with
    | nil => simpa using h
    | cons c cs =>
      simp only [List.nil_append, List.cons_append, List.cons.injEq] at h
      exact absurd (List.mem_cons.2 (Or.inl h.1)) hx'
  | cons a as ih =>
    intro x' r r' hx hx' h
    cases x' with
    | nil =>
      simp only [List.nil_append, List.cons_append, List.cons.injEq] at h
      exact absurd (List.mem_cons.2 (Or.inl h.1.symm)) hx
    | cons c cs =>
      simp only [List.cons_append, List.cons.injEq] at h
      obtain ⟨h1, h2⟩ := ih (fun hm => hx (List.mem_cons_of_mem _ hm))
        (fun hm => hx' (List.mem_cons_of_mem _ hm)) h.2
      exact ⟨by rw [h.1, h1], h2⟩

theorem append_sep_inj_right {α : Type} {sep : α} {l l' y y' : List α}
    (hy : sep ∉ y) (hy' : sep ∉ y') (h : l ++ sep :: y = l' ++ sep :: y') :
    l = l' ∧ y = y' := by
  have hr := congrArg List.reverse h
  simp only [List.reverse_append, List.reverse_cons, List.append_assoc,
    List.singleton_append] at hr
  obtain ⟨h1, h2⟩ := append_sep_inj (by simpa using hy) (by simpa using hy') hr
  exact ⟨List.reverse_injective h2, List.reverse_injective h1⟩

theorem intercalate_go_data (s : String) (l : List String) :
    ∀ acc : String,
      (String.intercalate.go acc s l).data =
        acc.data ++ (l.map (fun a => s.data ++ a.data)).flatten := by
  induction l with
  | nil => intro acc; simp [String.intercalate.go]
  | cons a rest ih =>
    intro acc
    simp [String.intercalate.go, ih, String.data_append, List.append_assoc]

/-- The characters of `strings.Join` of a non-empty list: the first part, then each further
part after the separator. -/
theorem join_cons_data (a : String) (l : List String) (sep : String) :
    (join (a :: l) sep).data = a.data ++ (l.map (fun x => sep.data ++ x.data)).flatten := by
  unfold join
  simp only [String.intercalate]
  exact intercalate_go_data sep l a

theorem toLower_data (s : String) : (toLower s).data = s.data.map Char.toLower := rfl

theorem toUpper_data (s : String) : (toUpper s).data = s.data.map Char.toUpper := rfl

theorem char_toLower_eq_bar (c : Char) : c.toLower = '|' ↔ c = '|' := by
  by_cases h : 65 ≤ c.toNat ∧ c.toNat ≤ 90
  · have hc : c = Char.ofNat c.toNat := (Char.ofNat_toNat c).symm
    generalize c.toNat = n at h hc
    obtain ⟨h1, h2⟩ := h
    subst hc
    interval_cases n <;> decide
  · rw [char_toLower_of_not_upper c h]

theorem char_toUpper_eq_bar (c : Char) : c.toUpper = '|' ↔ c = '|' := by
  by_cases h : 97 ≤ c.toNat ∧ c.toNat ≤ 122
  · have hc : c = Char.ofNat c.toNat := (Char.ofNat_toNat c).symm
    generalize c.toNat = n at h hc
    obtain ⟨h1, h2⟩ := h
    subst hc
    interval_cases n <;> decide
  · have : c.toUpper = c := by
      unfold Char.toUpper
      simp only [ge_iff_le]
      rw [if_neg h]
    rw [this]
/-! ## The characters of rendered numbers and times -/

theorem charsIn_append {p : Char → Bool} {s t : String} (hs : charsIn p s)
    (ht : charsIn p t) : charsIn p (s ++ t) := by
  intro c hc
  rw [String.data_append] at hc
  rcases List.mem_append.1 hc with h | h
  · exact hs c h
  · exact ht c h

theorem padNat_chars (n width : Nat) : charsIn Char.isDigit (padNat n width) := by
  intro c hc
  simp only [padNat] at hc
  rcases List.mem_append.1 hc with h | h
  · rw [(List.mem_replicate.1 h).2]
    rfl
  · exact (toDigits_spec n).2.1 c h

theorem appendInt_chars (x : Int) (width : Nat) : charsIn timeChar (appendInt x width) := by
  have hpad : charsIn timeChar (padNat x.natAbs width) := by
    intro c hc
    have := padNat_chars _ _ c hc
    simp [timeChar, this]
  unfold appendInt
  split_ifs
  · exact charsIn_append (by decide) hpad
  · exact hpad

theorem formatDate_chars (t : Time) : charsIn timeChar t.formatDate := by
  have hdash : charsIn timeChar "-" := by decide
  show charsIn timeChar
    (appendInt (Time.civil t.localDays).1 4 ++ "-" ++ appendInt (Time.civil t.localDays).2.1 2 ++
      "-" ++ appendInt (Time.civil t.localDays).2.2 2)
  exact charsIn_append (charsIn_append (charsIn_append (charsIn_append
    (appendInt_chars _ _) hdash) (appendInt_chars _ _)) hdash)
    (appendInt_chars _ _)

theorem formatZone_chars (offset : Int) : charsIn timeChar (Time.formatZone offset) := by
  have hminus : charsIn timeChar "-" := by decide
  have hplus : charsIn timeChar "+" := by decide
  have hcolon : charsIn timeChar ":" := by decide
  unfold Time.formatZone
  by_cases h0 : offset = 0
  · rw [if_pos h0]
    decide
  · rw [if_neg h0]
    simp only []
    split_ifs
    · exact charsIn_append (charsIn_append (charsIn_append hminus (appendInt_chars _ _))
        hcolon) (appendInt_chars _ _)
    · exact charsIn_append (charsIn_append (charsIn_append hplus (appendInt_chars _ _))
        hcolon) (appendInt_chars _ _)

theorem formatRFC3339_chars (t : Time) : charsIn timeChar t.formatRFC3339 := by
  have hT : charsIn timeChar "T" := by decide
  have hcolon : charsIn timeChar ":" := by decide
  unfold Time.formatRFC3339
  exact charsIn_append (charsIn_append (charsIn_append (charsIn_append (charsIn_append
    (charsIn_append (charsIn_append (formatDate_chars t) hT) (appendInt_chars _ _))
    hcolon) (appendInt_chars _ _)) hcolon) (appendInt_chars _ _))
    (formatZone_chars _)

theorem timeChar_facts (c : Char) (h : timeChar c = true) :
    c ≠ '|' ∧ c ≠ ',' ∧ c.toUpper = c := by
  simp only [timeChar, Bool.or_eq_true, beq_iff_eq] at h
  rcases h with ((((h | h) | h) | h) | h) | h
  · have hc : c = Char.ofNat c.toNat := (Char.ofNat_toNat c).symm
    have hb : 48 ≤ c.toNat ∧ c.toNat ≤ 57 := by
      simp only [Char.isDigit, Bool.and_eq_true, decide_eq_true_eq] at h
      exact ⟨h.1, h.2⟩
    generalize c.toNat = n at hb hc
    obtain ⟨h1, h2⟩ := hb
    subst hc
    interval_cases n <;> decide
  all_goals subst h; decide

theorem charsIn_no_bar {s : String} (h : charsIn timeChar s) : '|' ∉ s.data :=
  fun hm => (timeChar_facts _ (h _ hm)).1 rfl

theorem charsIn_no_comma {s : String} (h : charsIn timeChar s) : ',' ∉ s.data :=
  fun hm => (timeChar_facts _ (h _ hm)).2.1 rfl

/-- Lower-casing loses nothing on rendered numbers and times. -/
theorem toLower_inj_of_timeChars {s t : String} (hs : charsIn timeChar s)
    (ht : charsIn timeChar t) (h : s.data.map Char.toLower = t.data.map Char.toLower) :
    s = t := by
  have hu : (s.data.map Char.toLower).map Char.toUpper =
      (t.data.map Char.toLower).map Char.toUpper := by rw [h]
  simp only [List.map_map] at hu
  have hid : ∀ u : String, charsIn timeChar u →
      u.data.map (Char.toUpper ∘ Char.toLower) = u.data := by
    intro u hu'
    conv_rhs => rw [← List.map_id u.data]
    apply List.map_congr_left
    intro c hc
    simp only [Function.comp, id]
    rw [char_toUpper_toLower, (timeChar_facts c (hu' c hc)).2.2]
  rw [hid s hs, hid t ht] at hu
  exact String.ext hu
/-! ## Injectivity of the dedup key -/

theorem bar_mem_map_toLower (l : List Char) : '|' ∈ l.map Char.toLower ↔ '|' ∈ l := by
  simp only [List.mem_map]
  constructor
  · rintro ⟨c, hc, h⟩
    rwa [(char_toLower_eq_bar c).1 h] at hc
  · intro h
    exact ⟨'|', h, rfl⟩

theorem bar_mem_map_toUpper (l : List Char) : '|' ∈ l.map Char.toUpper ↔ '|' ∈ l := by
  simp only [List.mem_map]
  constructor
  · rintro ⟨c, hc, h⟩
    rwa [(char_toUpper_eq_bar c).1 h] at hc
  · intro h
    exact ⟨'|', h, rfl⟩

theorem flightKey_data (f : Flight) :
    (flightKey f).data =
      f.Airline.Code.data.map Char.toLower ++ '|' ::
        (f.FlightNumber.data.map Char.toLower ++ '|' ::
          (f.Departure.Airport.data.map Char.toLower ++ '|' ::
            (f.Arrival.Airport.data.map Char.toLower ++ '|' ::
              (f.Departure.Time.formatRFC3339.data.map Char.toLower ++ '|' ::
                f.Arrival.Time.formatRFC3339.data.map Char.toLower)))) := by
  unfold flightKey
  rw [toLower_data, join_cons_data]
  simp [List.map_append]

/-- Equal dedup keys give equal parts when the first three parts have no "|". -/
theorem flightKey_parts (f g : Flight)
    (hf : barFree f.Airline.Code ∧ barFree f.FlightNumber ∧ barFree f.Departure.Airport)
    (hg : barFree g.Airline.Code ∧ barFree g.FlightNumber ∧ barFree g.Departure.Airport)
    (h : flightKey f = flightKey g) :
    toLower f.Airline.Code = toLower g.Airline.Code ∧
    toLower f.FlightNumber = toLower g.FlightNumber ∧
    toLower f.Departure.Airport = toLower g.Departure.Airport ∧
    toLower f.Arrival.Airport = toLower g.Arrival.Airport ∧
    f.Departure.Time.formatRFC3339 = g.Departure.Time.formatRFC3339 ∧
    f.Arrival.Time.formatRFC3339 = g.Arrival.Time.formatRFC3339 := by
  have hd := congrArg String.data h
  rw [flightKey_data, flightKey_data] at hd
  obtain ⟨hf1, hf2, hf3⟩ := hf
  obtain ⟨hg1, hg2, hg3⟩ := hg
  unfold barFree at hf1 hf2 hf3 hg1 hg2 hg3
  obtain ⟨e1, hd⟩ := append_sep_inj (mt (bar_mem_map_toLower _).1 hf1)
    (mt (bar_mem_map_toLower _).1 hg1) hd
  obtain ⟨e2, hd⟩ := append_sep_inj (mt (bar_mem_map_toLower _).1 hf2)
    (mt (bar_mem_map_toLower _).1 hg2) hd
  obtain ⟨e3, hd⟩ := append_sep_inj (mt (bar_mem_map_toLower _).1 hf3)
    (mt (bar_mem_map_toLower _).1 hg3) hd
  have ht : ∀ t : Time, '|' ∉ t.formatRFC3339.data.map Char.toLower := fun t =>
    mt (bar_mem_map_toLower _).1 (charsIn_no_bar (formatRFC3339_chars t))
  have hd' :
      (f.Arrival.Airport.data.map Char.toLower ++ '|' ::
          f.Departure.Time.formatRFC3339.data.map Char.toLower) ++ '|' ::
        f.Arrival.Time.formatRFC3339.data.map Char.toLower =
      (g.Arrival.Airport.data.map Char.toLower ++ '|' ::
          g.Departure.Time.formatRFC3339.data.map Char.toLower) ++ '|' ::
        g.Arrival.Time.formatRFC3339.data.map Char.toLower := by
    simpa [List.append_assoc] using hd
  obtain ⟨hd', e6⟩ := append_sep_inj_right (ht _) (ht _) hd'
  obtain ⟨e4, e5⟩ := append_sep_inj_right (ht _) (ht _) hd'
  exact ⟨String.ext e1, String.ext e2, String.ext e3, String.ext e4,
    toLower_inj_of_timeChars (formatRFC3339_chars _) (formatRFC3339_chars _) e5,
    toLower_inj_of_timeChars (formatRFC3339_chars _) (formatRFC3339_chars _) e6⟩

theorem flightKey_of_parts (f g : Flight)
    (h1 : toLower f.Airline.Code = toLower g.Airline.Code)
    (h2 : toLower f.FlightNumber = toLower g.FlightNumber)
    (h3 : toLower f.Departure.Airport = toLower g.Departure.Airport)
    (h4 : toLower f.Arrival.Airport = toLower g.Arrival.Airport)
    (h5 : f.Departure.Time.formatRFC3339 = g.Departure.Time.formatRFC3339)
    (h6 : f.Arrival.Time.formatRFC3339 = g.Arrival.Time.formatRFC3339) :
    flightKey f = flightKey g := by
  have e : ∀ s t : String, toLower s = toLower t →
      s.data.map Char.toLower = t.data.map Char.toLower := fun _ _ h =>
    congrArg String.data h
  apply String.ext
  rw [flightKey_data, flightKey_data, e _ _ h1, e _ _ h2, e _ _ h3, e _ _ h4, h5, h6]
/-- Claim C36 (amended). For two flights whose airline code, flight number and departure
airport contain no "|", `flightKey` gives the same key if and only if the airline codes,
flight numbers, departure airports and arrival airports are equal ignoring letter case and
the departure and arrival times render to the same RFC 3339 strings; and two such flights
that differ in one of these components are not merged by `compareAndDedupFlights`: each of
the two keys has its own survivor in the result. -/
theorem flightKey_injective (f g : Flight)
    (hf : barFree f.Airline.Code ∧ barFree f.FlightNumber ∧ barFree f.Departure.Airport)
    (hg : barFree g.Airline.Code ∧ barFree g.FlightNumber ∧ barFree g.Departure.Airport) :
    (flightKey f = flightKey g ↔ SameKeyParts f g) ∧
    (¬ SameKeyParts f g → ∀ flights : List Flight, f ∈ flights → g ∈ flights →
      ∃ f' ∈ compareAndDedupFlights flights, ∃ g' ∈ compareAndDedupFlights flights,
        flightKey f' = flightKey f ∧ flightKey g' = flightKey g ∧ f' ≠ g') := by
  have hiff : flightKey f = flightKey g ↔ SameKeyParts f g := by
    unfold SameKeyParts
    simp only [equalFold_iff]
    constructor
    · exact flightKey_parts f g hf hg
    · rintro ⟨h1, h2, h3, h4, h5, h6⟩
      exact flightKey_of_parts f g h1 h2 h3 h4 h5 h6
  refine ⟨hiff, ?_⟩
  intro hne flights hfm hgm
  obtain ⟨f', hf', kf⟩ := dedup_complete hfm
  obtain ⟨g', hg', kg⟩ := dedup_complete hgm
  refine ⟨f', hf', g', hg', kf, kg, ?_⟩
  intro heq
  apply hne
  rw [← hiff, ← kf, ← kg, heq]

theorem flightKey_injective_witness :
    (barFree sampleFlight.Airline.Code ∧ barFree sampleFlight.FlightNumber ∧
      barFree sampleFlight.Departure.Airport) ∧
    (barFree sampleFlightCheap.Airline.Code ∧ barFree sampleFlightCheap.FlightNumber ∧
      barFree sampleFlightCheap.Departure.Airport) ∧
    (flightKey sampleFlight = flightKey sampleFlightCheap ↔
      SameKeyParts sampleFlight sampleFlightCheap) :=
  ⟨by decide, by decide,
    (flightKey_injective sampleFlight sampleFlightCheap (by decide) (by decide)).1⟩

/-- Claim C36 (counterexample). The key joins its parts with "|" and escapes nothing: the
airline code "GA|4" with flight number "02" and the airline code "GA" with flight number
"4|02" give one key, and `compareAndDedupFlights` merges the two flights, although their
airline codes and their flight numbers differ. -/
theorem flightKey_bar_collision :
    flightKey barCodeFlight = flightKey barNumberFlight ∧
    equalFold barCodeFlight.Airline.Code barNumberFlight.Airline.Code = false ∧
    equalFold barCodeFlight.FlightNumber barNumberFlight.FlightNumber = false ∧
    ¬ SameKeyParts barCodeFlight barNumberFlight ∧
    compareAndDedupFlights [barCodeFlight, barNumberFlight] = [barNumberFlight] := by
  have hkey : flightKey barCodeFlight = flightKey barNumberFlight := by
    apply String.ext
    rw [flightKey_data, flightKey_data]
    rfl
  refine ⟨hkey, by decide, by decide, ?_, (dedup_pair _ _ hkey (by decide)).1⟩
  unfold SameKeyParts
  intro h
  exact absurd h.1 (by decide)

/-! ## Rendered numbers and days read back -/

theorem readDecimal_zeros (k : Nat) (ds : List Char) :
    readDecimal (List.replicate k '0' ++ ds) = readDecimal ds := by
  unfold readDecimal
  rw [List.foldl_append]
  have h : List.foldl (fun n c => 10 * n + (c.toNat - '0'.toNat)) 0 (List.replicate k '0') = 0 := by
    induction k with
    | zero => rfl
    | succ k ih =>
      rw [List.replicate_succ, List.foldl_cons]
      exact ih
  rw [h]

theorem padNat_read (n width : Nat) : readDecimal (padNat n width).data = n := by
  simp only [padNat]
  rw [readDecimal_zeros]
  exact (toDigits_spec n).1

theorem padNat_ne_nil (n width : Nat) : (padNat n width).data ≠ [] := by
  simp only [padNat]
  intro h
  have h2 := (toDigits_spec n).2.2
  have := congrArg List.length h
  simp only [List.length_append, List.length_nil] at this
  omega

theorem appendInt_data (x : Int) (width : Nat) :
    (appendInt x width).data =
      if x < 0 then '-' :: (padNat x.natAbs width).data else (padNat x.natAbs width).data := by
  unfold appendInt
  split_ifs <;> simp [String.data_append]

theorem appendInt_ne_empty (x : Int) (width : Nat) : appendInt x width ≠ "" := by
  intro h
  have hd := congrArg String.data h
  rw [appendInt_data] at hd
  by_cases hx : x < 0
  · rw [if_pos hx] at hd
    exact List.cons_ne_nil _ _ hd
  · rw [if_neg hx] at hd
    exact padNat_ne_nil _ _ hd

/-- Go's `appendInt` at a given width writes different numbers differently. -/
theorem appendInt_injective {x y : Int} {width : Nat}
    (h : appendInt x width = appendInt y width) : x = y := by
  have hd := congrArg String.data h
  rw [appendInt_data, appendInt_data] at hd
  have hhead : ∀ n : Nat, ∀ l : List Char, (padNat n width).data ≠ '-' :: l := by
    intro n l hl
    have hc := padNat_chars n width '-' (by rw [hl]; exact List.mem_cons_self _ _)
    exact absurd hc (by decide)
  by_cases hx : x < 0 <;> by_cases hy : y < 0
  · rw [if_pos hx, if_pos hy] at hd
    have hn : x.natAbs = y.natAbs := by
      rw [← padNat_read x.natAbs width, ← padNat_read y.natAbs width, (List.cons.inj hd).2]
    omega
  · rw [if_pos hx, if_neg hy] at hd
    exact absurd hd.symm (hhead _ _)
  · rw [if_neg hx, if_pos hy] at hd
    exact absurd hd (hhead _ _)
  · rw [if_neg hx, if_neg hy] at hd
    have hn : x.natAbs = y.natAbs := by
      rw [← padNat_read x.natAbs width, ← padNat_read y.natAbs width, hd]
    omega

theorem formatOptionalInt_injective {a b : Option Int}
    (h : formatOptionalInt a = formatOptionalInt b) : a = b := by
  cases a with
  | none =>
    cases b with
    | none => rfl
    | some y => exact absurd h.symm (appendInt_ne_empty y 0)
  | some x =>
    cases b with
    | none => exact absurd h (appendInt_ne_empty x 0)
    | some y => rw [appendInt_injective (h : appendInt x 0 = appendInt y 0)]

theorem formatOptionalInt_chars (a : Option Int) : charsIn timeChar (formatOptionalInt a) := by
  cases a with
  | none => intro c hc; cases hc
  | some x => exact appendInt_chars x 0

theorem formatOptionalTime_chars (a : Option Time) :
    charsIn timeChar (formatOptionalTime a) := by
  cases a with
  | none => intro c hc; cases hc
  | some x => exact formatRFC3339_chars x

theorem formatOptionalDate_chars (a : Option Time) :
    charsIn timeChar (formatOptionalDate a) := by
  cases a with
  | none => intro c hc; cases hc
  | some x => exact formatDate_chars x
theorem civil_nonneg (D : Int) : 0 ≤ (Time.civil D).2.1 ∧ 0 ≤ (Time.civil D).2.2 := by
  have hdoe0 : 0 ≤ D + 306 - (D + 306) / 146097 * 146097 := by omega
  have hdoe1 : D + 306 - (D + 306) / 146097 * 146097 ≤ 146096 := by omega
  obtain ⟨hy1, hy2, hy3, hy4⟩ := yoe_bounds _ hdoe0 hdoe1
  simp only [Time.civil]
  constructor
  · split_ifs <;> omega
  · omega

theorem not_mem_dash_of_nonneg {x : Int} (hx : 0 ≤ x) (width : Nat) :
    '-' ∉ (appendInt x width).data := by
  rw [appendInt_data, if_neg (by omega)]
  intro hm
  exact absurd (padNat_chars _ _ _ hm) (by decide)

theorem formatDate_data (t : Time) :
    t.formatDate.data =
      ((appendInt (Time.civil t.localDays).1 4).data ++ '-' ::
        (appendInt (Time.civil t.localDays).2.1 2).data) ++ '-' ::
          (appendInt (Time.civil t.localDays).2.2 2).data := by
  show (appendInt (Time.civil t.localDays).1 4 ++ "-" ++
      appendInt (Time.civil t.localDays).2.1 2 ++ "-" ++
      appendInt (Time.civil t.localDays).2.2 2).data = _
  simp [String.data_append]

/-- The rendering `2006-01-02` determines the calendar day. -/
theorem formatDate_injective {s t : Time} (h : s.formatDate = t.formatDate) :
    s.localDays = t.localDays := by
  have hd := congrArg String.data h
  rw [formatDate_data, formatDate_data] at hd
  obtain ⟨hs1, hs2⟩ := civil_nonneg s.localDays
  obtain ⟨ht1, ht2⟩ := civil_nonneg t.localDays
  obtain ⟨hd, e3⟩ := append_sep_inj_right (not_mem_dash_of_nonneg hs2 2)
    (not_mem_dash_of_nonneg ht2 2) hd
  obtain ⟨e1, e2⟩ := append_sep_inj_right (not_mem_dash_of_nonneg hs1 2)
    (not_mem_dash_of_nonneg ht1 2) hd
  have y := appendInt_injective (String.ext e1)
  have m := appendInt_injective (String.ext e2)
  have d := appendInt_injective (String.ext e3)
  rw [← daysFromCivil_civil s.localDays, ← daysFromCivil_civil t.localDays, y, m, d]

theorem formatDate_ne_empty (t : Time) : t.formatDate ≠ "" := by
  intro h
  have hd := congrArg String.data h
  rw [formatDate_data] at hd
  exact absurd (congrArg List.length hd) (by simp)

theorem formatOptionalDate_injective {a b : Option Time}
    (h : formatOptionalDate a = formatOptionalDate b) :
    a.map Time.localDays = b.map Time.localDays := by
  cases a with
  | none =>
    cases b with
    | none => rfl
    | some y => exact absurd h.symm (formatDate_ne_empty y)
  | some x =>
    cases b with
    | none => exact absurd h (formatDate_ne_empty x)
    | some y =>
      simp only [Option.map]
      rw [formatDate_injective (h : x.formatDate = y.formatDate)]

theorem formatRFC3339_ne_empty (t : Time) : t.formatRFC3339 ≠ "" := by
  intro h
  have hd := congrArg String.data h
  unfold Time.formatRFC3339 at hd
  simp only [String.data_append] at hd
  exact absurd (congrArg List.length hd) (by simp)

theorem formatOptionalTime_injective {a b : Option Time}
    (h : formatOptionalTime a = formatOptionalTime b) :
    a.map Time.formatRFC3339 = b.map Time.formatRFC3339 := by
  cases a with
  | none =>
    cases b with
    | none => rfl
    | some y => exact absurd h.symm (formatRFC3339_ne_empty y)
  | some x =>
    cases b with
    | none => exact absurd h (formatRFC3339_ne_empty x)
    | some y =>
      have h' : x.formatRFC3339 = y.formatRFC3339 := h
      simp only [Option.map]
      rw [h']
/-! ## Cache-key soundness -/

theorem char_toLower_toUpper (c : Char) : c.toUpper.toLower = c.toLower := by
  by_cases h : 97 ≤ c.toNat ∧ c.toNat ≤ 122
  · have hc : c = Char.ofNat c.toNat := (Char.ofNat_toNat c).symm
    generalize c.toNat = n at h hc
    obtain ⟨h1, h2⟩ := h
    subst hc
    interval_cases n <;> decide
  · have : c.toUpper = c := by
      unfold Char.toUpper
      simp only [ge_iff_le]
      rw [if_neg h]
    rw [this]

theorem toLower_eq_of_toUpper_data {s t : String}
    (h : s.data.map Char.toUpper = t.data.map Char.toUpper) : toLower s = toLower t := by
  have hu : (s.data.map Char.toUpper).map Char.toLower =
      (t.data.map Char.toUpper).map Char.toLower := by rw [h]
  simp only [List.map_map] at hu
  have hf : (Char.toLower ∘ Char.toUpper) = Char.toLower := by
    funext c
    exact char_toLower_toUpper c
  rw [hf] at hu
  unfold toLower
  rw [hu]

theorem join_cons_cons_data (a b : String) (l : List String) :
    (join (a :: b :: l) "|").data = a.data ++ '|' :: (join (b :: l) "|").data := by
  rw [join_cons_data, join_cons_data]
  simp

theorem join_single (a : String) (sep : String) : join [a] sep = a := rfl

/-- Go `strings.Join` with "|" is one-to-one on lists of non-empty parts without "|". -/
theorem join_bar_injective :
    ∀ (xs ys : List String), (∀ x ∈ xs, barFree x ∧ x ≠ "") →
      (∀ y ∈ ys, barFree y ∧ y ≠ "") → join xs "|" = join ys "|" → xs = ys := by
  intro xs
  induction xs with
  | nil =>
    intro ys _ hys h
    cases ys with
    | nil => rfl
    | cons y ys =>
      exfalso
      have hd := congrArg String.data h
      rw [join_cons_data] at hd
      have hy : y.data ≠ [] := fun hnil => (hys y (List.mem_cons_self _ _)).2 (String.ext hnil)
      have hlen := congrArg List.length hd
      have : (join [] "|").data = [] := rfl
      rw [this] at hlen
      simp only [List.length_nil, List.length_append] at hlen
      have : 0 < y.data.length := List.length_pos.2 hy
      omega
  | cons x xs ih =>
    intro ys hxs hys h
    cases ys with
    | nil =>
      exfalso
      have hd := congrArg String.data h
      rw [join_cons_data] at hd
      have hx : x.data ≠ [] := fun hnil => (hxs x (List.mem_cons_self _ _)).2 (String.ext hnil)
      have hlen := congrArg List.length hd
      have : (join [] "|").data = [] := rfl
      rw [this] at hlen
      simp only [List.length_nil, List.length_append] at hlen
      have : 0 < x.data.length := List.length_pos.2 hx
      omega
    | cons y ys =>
      have hxb : '|' ∉ x.data := (hxs x (List.mem_cons_self _ _)).1
      have hyb : '|' ∉ y.data := (hys y (List.mem_cons_self _ _)).1
      have hd := congrArg String.data h
      cases xs with
      | nil =>
        cases ys with
        | nil =>
          rw [join_single, join_single] at h
          rw [h]
        | cons y2 ys2 =>
          exfalso
          rw [join_single, join_cons_cons_data] at hd
          apply hxb
          rw [hd]
          simp
      | cons x2 xs2 =>
        cases ys with
        | nil =>
          exfalso
          rw [join_single, join_cons_cons_data] at hd
          apply hyb
          rw [← hd]
          simp
        | cons y2 ys2 =>
          rw [join_cons_cons_data, join_cons_cons_data] at hd
          obtain ⟨e1, e2⟩ := append_sep_inj hxb hyb hd
          have := ih (y2 :: ys2) (fun z hz => hxs z (List.mem_cons_of_mem _ hz))
            (fun z hz => hys z (List.mem_cons_of_mem _ hz)) (String.ext e2)
          rw [String.ext e1, this]

theorem trimSpace_barFree {v : String} (h : barFree v) : barFree (trimSpace v) := by
  unfold barFree trimSpace at *
  intro hm
  apply h
  simp only [List.mem_reverse] at hm
  have h1 := (List.dropWhile_sublist isSpace).subset hm
  simp only [List.mem_reverse] at h1
  exact (List.dropWhile_sublist isSpace).subset h1

theorem toLower_barFree {v : String} (h : barFree v) : barFree (toLower v) := by
  unfold barFree at *
  rw [toLower_data]
  exact mt (bar_mem_map_toLower _).1 h

theorem toUpper_barFree {v : String} (h : barFree v) : '|' ∉ (toUpper v).data := by
  unfold barFree at *
  rw [toUpper_data]
  exact mt (bar_mem_map_toUpper _).1 h

theorem airlineNames_clean {values : List String} (h : ∀ v ∈ values, barFree v) :
    ∀ x ∈ airlineNames values, barFree x ∧ x ≠ "" := by
  intro x hx
  unfold airlineNames at hx
  rw [List.mem_filter, List.mem_map] at hx
  obtain ⟨⟨v, hv, rfl⟩, hne⟩ := hx
  exact ⟨toLower_barFree (trimSpace_barFree (h v hv)), of_decide_eq_true hne⟩

/-- Equal renderings of two clean Airlines lists name the same airlines, each as often. -/
theorem formatAirlines_injective {xs ys : List String} (hx : ∀ v ∈ xs, barFree v)
    (hy : ∀ v ∈ ys, barFree v) (h : formatAirlines xs = formatAirlines ys) :
    (airlineNames xs).Perm (airlineNames ys) := by
  rw [formatAirlines_eq, formatAirlines_eq] at h
  have hpx : (sortStrings (airlineNames xs)).Perm (airlineNames xs) :=
    insertionSort_perm stringLess _
  have hpy : (sortStrings (airlineNames ys)).Perm (airlineNames ys) :=
    insertionSort_perm stringLess _
  have hs : sortStrings (airlineNames xs) = sortStrings (airlineNames ys) :=
    join_bar_injective _ _
      (fun z hz => airlineNames_clean hx z (hpx.subset hz))
      (fun z hz => airlineNames_clean hy z (hpy.subset hz)) h
  exact (hpx.symm.trans (hs ▸ List.Perm.refl _)).trans hpy

theorem mem_airlineNames (values : List String) (x : String) :
    x ∈ airlineNames values ↔ x ∈ (normalizeSet values).map Prod.fst := by
  rw [mem_normalizeSet]
  unfold airlineNames
  rw [List.mem_filter, List.mem_map]
  constructor
  · rintro ⟨⟨v, hv, rfl⟩, hne⟩
    exact ⟨v, hv, fun h => of_decide_eq_true hne ((toLower_eq_empty_iff _).2 h), rfl⟩
  · rintro ⟨v, hv, hne, rfl⟩
    exact ⟨⟨v, hv, rfl⟩, decide_eq_true (fun h => hne ((toLower_eq_empty_iff _).1 h))⟩
theorem buildCacheKey_data (x : FlightsInput) :
    (buildCacheKey x).data =
      (toUpper x.Origin).data ++ '|' ::
        ((toUpper x.Destination).data ++ '|' ::
          (x.DepartureDate.formatDate.data ++ '|' ::
            ((formatOptionalDate x.ReturnDate).data ++ '|' ::
              ((sprintInt x.Passengers).data ++ '|' ::
                ((toLower x.CabinClass).data ++ '|' ::
                  (((formatFilters x.Filters).data ++ '|' :: (toLower x.SortBy.Field).data) ++
                    '|' :: (toLower x.SortBy.Order).data)))))) := by
  unfold buildCacheKey
  rw [join_cons_data]
  simp [List.append_assoc]

theorem formatFilters_data (f : FlightFilters) :
    (formatFilters f).data =
      (formatOptionalInt f.MinPrice).data ++ ',' ::
        ((formatOptionalInt f.MaxPrice).data ++ ',' ::
          ((formatOptionalInt f.Stops).data ++ ',' ::
            ((formatOptionalInt f.MaxStops).data ++ ',' ::
              ((formatOptionalInt f.MinDuration).data ++ ',' ::
                ((formatOptionalInt f.MaxDuration).data ++ ',' ::
                  ((formatOptionalTime f.DepartAfter).data ++ ',' ::
                    ((formatOptionalTime f.DepartBefore).data ++ ',' ::
                      ((formatOptionalTime f.ArriveAfter).data ++ ',' ::
                        ((formatOptionalTime f.ArriveBefore).data ++ ',' ::
                          (formatAirlines f.Airlines).data))))))))) := by
  unfold formatFilters
  rw [join_cons_data]
  simp [List.append_assoc]

/-- Equal renderings of two filter records give equal numeric bounds, equal renderings of
the time windows and equal renderings of the Airlines lists. -/
theorem formatFilters_parts {f g : FlightFilters} (h : formatFilters f = formatFilters g) :
    f.MinPrice = g.MinPrice ∧ f.MaxPrice = g.MaxPrice ∧ f.Stops = g.Stops ∧
    f.MaxStops = g.MaxStops ∧ f.MinDuration = g.MinDuration ∧
    f.MaxDuration = g.MaxDuration ∧
    f.DepartAfter.map Time.formatRFC3339 = g.DepartAfter.map Time.formatRFC3339 ∧
    f.DepartBefore.map Time.formatRFC3339 = g.DepartBefore.map Time.formatRFC3339 ∧
    f.ArriveAfter.map Time.formatRFC3339 = g.ArriveAfter.map Time.formatRFC3339 ∧
    f.ArriveBefore.map Time.formatRFC3339 = g.ArriveBefore.map Time.formatRFC3339 ∧
    formatAirlines f.Airlines = formatAirlines g.Airlines := by
  have hd := congrArg String.data h
  rw [formatFilters_data, formatFilters_data] at hd
  have hi : ∀ a : Option Int, ',' ∉ (formatOptionalInt a).data := fun a =>
    charsIn_no_comma (formatOptionalInt_chars a)
  have ht : ∀ a : Option Time, ',' ∉ (formatOptionalTime a).data := fun a =>
    charsIn_no_comma (formatOptionalTime_chars a)
  obtain ⟨e1, hd⟩ := append_sep_inj (hi _) (hi _) hd
  obtain ⟨e2, hd⟩ := append_sep_inj (hi _) (hi _) hd
  obtain ⟨e3, hd⟩ := append_sep_inj (hi _) (hi _) hd
  obtain ⟨e4, hd⟩ := append_sep_inj (hi _) (hi _) hd
  obtain ⟨e5, hd⟩ := append_sep_inj (hi _) (hi _) hd
  obtain ⟨e6, hd⟩ := append_sep_inj (hi _) (hi _) hd
  obtain ⟨e7, hd⟩ := append_sep_inj (ht _) (ht _) hd
  obtain ⟨e8, hd⟩ := append_sep_inj (ht _) (ht _) hd
  obtain ⟨e9, hd⟩ := append_sep_inj (ht _) (ht _) hd
  obtain ⟨e10, hd⟩ := append_sep_inj (ht _) (ht _) hd
  exact ⟨formatOptionalInt_injective (String.ext e1),
    formatOptionalInt_injective (String.ext e2), formatOptionalInt_injective (String.ext e3),
    formatOptionalInt_injective (String.ext e4), formatOptionalInt_injective (String.ext e5),
    formatOptionalInt_injective (String.ext e6), formatOptionalTime_injective (String.ext e7),
    formatOptionalTime_injective (String.ext e8), formatOptionalTime_injective (String.ext e9),
    formatOptionalTime_injective (String.ext e10), String.ext hd⟩

/-- Claim C34 (amended). For two searches whose origin, destination, cabin class, sort
field, sort order and Airlines entries contain no "|": if `buildCacheKey` gives them the
same key, then they agree up to letter case on origin, destination, cabin class, sort field
and sort order; they agree on the departure day and on the return day or its absence, on
the passenger count and on every numeric filter bound or its absence; every time-window
bound is absent in both or renders to the same RFC 3339 string in both; and the Airlines
lists name the same airlines, so that `normalizeSet` gives the same set. -/
theorem buildCacheKey_sound (a b : FlightsInput) (ha : CleanInput a) (hb : CleanInput b)
    (hkey : buildCacheKey a = buildCacheKey b) :
    equalFold a.Origin b.Origin = true ∧
    equalFold a.Destination b.Destination = true ∧
    equalFold a.CabinClass b.CabinClass = true ∧
    equalFold a.SortBy.Field b.SortBy.Field = true ∧
    equalFold a.SortBy.Order b.SortBy.Order = true ∧
    a.DepartureDate.localDays = b.DepartureDate.localDays ∧
    a.ReturnDate.map Time.localDays = b.ReturnDate.map Time.localDays ∧
    a.Passengers = b.Passengers ∧
    a.Filters.MinPrice = b.Filters.MinPrice ∧
    a.Filters.MaxPrice = b.Filters.MaxPrice ∧
    a.Filters.Stops = b.Filters.Stops ∧
    a.Filters.MaxStops = b.Filters.MaxStops ∧
    a.Filters.MinDuration = b.Filters.MinDuration ∧
    a.Filters.MaxDuration = b.Filters.MaxDuration ∧
    a.Filters.DepartAfter.map Time.formatRFC3339 =
      b.Filters.DepartAfter.map Time.formatRFC3339 ∧
    a.Filters.DepartBefore.map Time.formatRFC3339 =
      b.Filters.DepartBefore.map Time.formatRFC3339 ∧
    a.Filters.ArriveAfter.map Time.formatRFC3339 =
      b.Filters.ArriveAfter.map Time.formatRFC3339 ∧
    a.Filters.ArriveBefore.map Time.formatRFC3339 =
      b.Filters.ArriveBefore.map Time.formatRFC3339 ∧
    (airlineNames a.Filters.Airlines).Perm (airlineNames b.Filters.Airlines) ∧
    (∀ x, x ∈ (normalizeSet a.Filters.Airlines).map Prod.fst ↔
      x ∈ (normalizeSet b.Filters.Airlines).map Prod.fst) := by
  obtain ⟨ha1, ha2, ha3, ha4, ha5, ha6⟩ := ha
  obtain ⟨hb1, hb2, hb3, hb4, hb5, hb6⟩ := hb
  have hd := congrArg String.data hkey
  rw [buildCacheKey_data, buildCacheKey_data] at hd
  obtain ⟨e1, hd⟩ := append_sep_inj (toUpper_barFree ha1) (toUpper_barFree hb1) hd
  obtain ⟨e2, hd⟩ := append_sep_inj (toUpper_barFree ha2) (toUpper_barFree hb2) hd
  obtain ⟨e3, hd⟩ := append_sep_inj (charsIn_no_bar (formatDate_chars _))
    (charsIn_no_bar (formatDate_chars _)) hd
  obtain ⟨e4, hd⟩ := append_sep_inj (charsIn_no_bar (formatOptionalDate_chars _))
    (charsIn_no_bar (formatOptionalDate_chars _)) hd
  obtain ⟨e5, hd⟩ := append_sep_inj (charsIn_no_bar (appendInt_chars _ 0))
    (charsIn_no_bar (appendInt_chars _ 0)) hd
  obtain ⟨e6, hd⟩ := append_sep_inj (toLower_barFree ha3) (toLower_barFree hb3) hd
  obtain ⟨hd, e9⟩ := append_sep_inj_right (toLower_barFree ha5) (toLower_barFree hb5) hd
  obtain ⟨e7, e8⟩ := append_sep_inj_right (toLower_barFree ha4) (toLower_barFree hb4) hd
  obtain ⟨f1, f2, f3, f4, f5, f6, f7, f8, f9, f10, f11⟩ :=
    formatFilters_parts (String.ext e7)
  have hperm := formatAirlines_injective ha6 hb6 f11
  refine ⟨(equalFold_iff _ _).2 (toLower_eq_of_toUpper_data e1),
    (equalFold_iff _ _).2 (toLower_eq_of_toUpper_data e2),
    (equalFold_iff _ _).2 (String.ext e6), (equalFold_iff _ _).2 (String.ext e8),
    (equalFold_iff _ _).2 (String.ext e9), formatDate_injective (String.ext e3),
    formatOptionalDate_injective (String.ext e4), appendInt_injective (String.ext e5),
    f1, f2, f3, f4, f5, f6, f7, f8, f9, f10, hperm, ?_⟩
  intro x
  rw [← mem_airlineNames, ← mem_airlineNames]
  exact hperm.mem_iff

theorem buildCacheKey_sound_witness :
    CleanInput (sampleInputAs "CGK" "economy" ⟨"price", "asc"⟩ ["GA", "Lion Air"]) ∧
    CleanInput (sampleInputAs "cgk" "ECONOMY" ⟨"PRICE", "ASC"⟩ ["lion air", " ga"]) ∧
    buildCacheKey (sampleInputAs "CGK" "economy" ⟨"price", "asc"⟩ ["GA", "Lion Air"]) =
      buildCacheKey (sampleInputAs "cgk" "ECONOMY" ⟨"PRICE", "ASC"⟩ ["lion air", " ga"]) ∧
    (airlineNames ["GA", "Lion Air"]).Perm (airlineNames ["lion air", " ga"]) :=
  ⟨by decide, by decide, by decide,
    (buildCacheKey_sound (sampleInputAs "CGK" "economy" ⟨"price", "asc"⟩ ["GA", "Lion Air"])
      (sampleInputAs "cgk" "ECONOMY" ⟨"PRICE", "ASC"⟩ ["lion air", " ga"])
      (by decide) (by decide) (by decide)).2.2.2.2.2.2.2.2.2.2.2.2.2.2.2.2.2.2.1⟩

/-- Claim C34 (counterexample). Two pairs of searches with one key each. The key joins its
parts with "|" and escapes nothing: origin "CGK|DPS" with destination "SUB" and origin
"CGK" with destination "DPS|SUB" collide, though the origins differ. And a time window is
written to the second: two bounds half a second apart collide, though the instants
differ. -/
theorem buildCacheKey_collisions :
    buildCacheKey (sampleRoute "CGK|DPS" "SUB") = buildCacheKey (sampleRoute "CGK" "DPS|SUB") ∧
    equalFold (sampleRoute "CGK|DPS" "SUB").Origin (sampleRoute "CGK" "DPS|SUB").Origin = false ∧
    buildCacheKey (sampleDepartAfter ⟨63852800400000000000, 25200⟩) =
      buildCacheKey (sampleDepartAfter ⟨63852800400500000000, 25200⟩) ∧
    CleanInput (sampleDepartAfter ⟨63852800400000000000, 25200⟩) ∧
    CleanInput (sampleDepartAfter ⟨63852800400500000000, 25200⟩) ∧
    (sampleDepartAfter ⟨63852800400000000000, 25200⟩).Filters.DepartAfter ≠
      (sampleDepartAfter ⟨63852800400500000000, 25200⟩).Filters.DepartAfter := by
  refine ⟨by decide, by decide, by decide, by decide, by decide, by decide⟩

end BookCabin
